import Mathlib

/-!
# PyNanny: timer heap, child supervision, periodic tasks, log buffers and servers

A shallow embedding of `nanny_timer.c`, of the child state machines and the
periodic tasks of `nanny_children.c`, of the log buffer of `nanny_log.c`, of
the table of listeners of `nanny_core.c`, of the choice of the HTTP page in
`nanny_main.c` and of the query by example of `nanny_udp_server.c` and
`nanny_variable.c`, followed by the properties proved about them.

Conventions of the embedding.

* A pointer is a natural number, `0` being `NULL`.  A `struct timer *` is the
  field `ptr` of the record it points to; a `struct nanny_child *` is the field
  `addr` of the record.
* `time_t`, `int` and `suseconds_t` values are integers (`Int`) and are not
  wrapped where they stay far from the limits of the machine types:
  `restart_delay` is doubled only from a value of at most 3600, the counters
  grow by 1 per event, and clock values are added to constants of at most 3600
  or subtracted from one another.  The arithmetic of `parse_interval`, which
  works on numbers of any length, is reduced to 64 bits (`wrap64`), and the
  `uintmax_t` counters of a log buffer are taken modulo `2 ^ 64`.
* A C string is the list of its characters before the terminating NUL, one
  character per byte.
* The array `timers[MAX_TIMERS]` together with `nanny_timer_count` is the list
  of its first `nanny_timer_count` entries.
* Results of system calls (`malloc`, `fork`, `kill`, `gettimeofday`, `wait3`)
  are explicit arguments.
* A loop takes a bound on its passes as an argument; the bound given where the
  loop is used is one the loop cannot exceed.
* A function that the C code leaves by `assert`, `exit` or a null dereference
  returns `none`.
-/

namespace Nanny

/-! ## nanny_timer.c -/

/-- The functions whose address is stored in a timer or in a child record. -/
inductive handler where
  | main_child_goal_running
  | main_child_goal_stopped
  | main_child_goal_restart
  | main_child_health_check
  | health_check_goal
  | timed_event
  | sample_clock
  | other (code : Nat)
  | null
  deriving DecidableEq, Repr

/-- The record `struct timer`, with the address `ptr` it was allocated at. -/
structure timer where
  ptr : Nat
  when : Int
  data : Nat
  f : handler
  deriving DecidableEq, Repr

/-- The record `struct timeval`. -/
structure timeval where
  tv_sec : Int
  tv_usec : Int
  deriving DecidableEq, Repr

/-- The constant `MAX_TIMERS`. -/
def MAX_TIMERS : Nat := 1024

/-- The value `timers[i]->when`. -/
def when_at (timers : List timer) (i : Nat) : Int :=
  match timers[i]? with
  | some t => t.when
  | none => 0

/-- The preprocessor definition `SWAP_TIMERS(a, b)`: exchange two entries. -/
def SWAP_TIMERS (timers : List timer) (a b : Nat) : List timer :=
  match timers[a]?, timers[b]? with
  | some ta, some tb => (timers.set a tb).set b ta
  | _, _ => timers

/-- The first loop of `nanny_timer_adjust_position`: while `i > j` and
`timers[i]` is earlier than `timers[j]`, swap and continue from `j`, `j`
being `(i - 1) / 2`.  The last argument bounds the number of passes. -/
def float_up (timers : List timer) (i : Nat) : Nat → List timer
  | 0 => timers
  | fuel + 1 =>
    let j := (i - 1) / 2
    if i > j ∧ when_at timers i < when_at timers j then
      float_up (SWAP_TIMERS timers i j) j fuel
    else timers

/-- The choice of `min` inside the second loop of
`nanny_timer_adjust_position`: the index, among `i` and its children
`a = i * 2 + 1` and `b = i * 2 + 2` that lie inside the heap, of the earliest
entry. -/
def earliest_of (timers : List timer) (i : Nat) : Nat :=
  let a := i * 2 + 1
  let b := i * 2 + 2
  let min := i
  let min := if a < timers.length ∧ when_at timers a < when_at timers min then a else min
  if b < timers.length ∧ when_at timers b < when_at timers min then b else min

/-- The second loop of `nanny_timer_adjust_position`: while `i` is inside
the heap, pick the earliest of `i` and its two children, stop if that is `i`,
else swap and continue from the child.  The last argument bounds the number of
passes. -/
def float_down (timers : List timer) (i : Nat) : Nat → List timer
  | 0 => timers
  | fuel + 1 =>
    if i < timers.length then
      if earliest_of timers i = i then timers
      else float_down (SWAP_TIMERS timers (earliest_of timers i) i) (earliest_of timers i) fuel
    else timers

/-- The function `nanny_timer_adjust_position(i)`.  The upward loop moves to a
strictly smaller index on every pass and the downward loop to a strictly larger
one below the count, so `i + 1` and the count bound their passes. -/
def nanny_timer_adjust_position (timers : List timer) (i : Nat) : List timer :=
  if i > 0 ∧ when_at timers i < when_at timers ((i - 1) / 2) then
    float_up timers i (i + 1)
  else
    float_down timers i timers.length

/-- The function `nanny_timer_remove(i)`: overwrite entry `i` with the last
entry, shrink the heap by one and float the moved entry into position. -/
def nanny_timer_remove (timers : List timer) (i : Nat) : List timer :=
  if timers.length < 1 ∨ i > timers.length then timers
  else
    let count := timers.length - 1
    let moved :=
      match timers[count]? with
      | some last => (timers.set i last).take count
      | none => timers.take count
    if i < count then nanny_timer_adjust_position moved i else moved

/-- The function `nanny_timer_delete(t)`: remove the first entry whose
address is `t`, if there is one. -/
def nanny_timer_delete (timers : List timer) (t : Nat) : List timer :=
  if t = 0 then timers
  else
    let i := timers.findIdx (fun x => x.ptr == t)
    if i < timers.length then nanny_timer_remove timers i else timers

/-- The function `nanny_timer_add(when, f, data)`, `t` being the address
returned by `malloc`.  Both assertions are kept: a null `t` and a count that
reaches `MAX_TIMERS` abort the program. -/
def nanny_timer_add (timers : List timer) (t : Nat) (when : Int) (f : handler)
    (data : Nat) : Option (Nat × List timer) :=
  if t = 0 then none
  else if timers.length + 1 < MAX_TIMERS then
    some (t, nanny_timer_adjust_position (timers ++ [⟨t, when, data, f⟩]) timers.length)
  else none

/-! ## nanny.h: the supervisor state -/

/-- The constant `HEALTH_PERIOD`. -/
def HEALTH_PERIOD : Int := 60

/-- The constant `HEALTH_TIMEOUT`. -/
def HEALTH_TIMEOUT : Int := 60

/-- The constant `STOP_PROBATION`. -/
def STOP_PROBATION : Int := 300

/-- The signal number `SIGKILL`. -/
def SIGKILL : Int := 9

/-- The signal number `SIGTERM`. -/
def SIGTERM : Int := 15

/-- The eight static strings a `state` field points to. -/
inductive child_state where
  | NEW
  | RESTARTING
  | STARTING
  | RUNNING
  | STOPPING1
  | STOPPING2
  | STOPPING3
  | STOPPED
  deriving DecidableEq, Repr

/-- The values of the function pointer `ended`. -/
inductive ended_handler where
  | null
  | main_child_ended
  | health_check_ended
  deriving DecidableEq, Repr

/-- A wait status as `WIFEXITED` / `WIFSIGNALED` read it. -/
inductive wait_status where
  | exited (status : Int)
  | signaled (sig : Int)
  | neither
  deriving DecidableEq, Repr

/-- The record `struct timed_t` (its `next` link is the list it sits in). -/
structure timed_t where
  addr : Nat
  timer : Nat
  interval : Int
  last : Int
  cmd : String
  envplen : Int
  envp : Option (List String)
  deriving DecidableEq, Repr

/-- The record `struct nanny_child`, with the address `addr` it was allocated
at.  The links `older` / `younger` are the position in the live list; a
`char *` is `none` when null; the field `instance` is spelled `instance_`. -/
structure nanny_child where
  addr : Nat
  instance_ : Option String
  start_cmd : Option String
  stop_cmd : Option String
  health_cmd : Option String
  restartable : Int
  id : Int
  pid : Int
  running : Int
  last_start : Int
  last_stop : Int
  start_count : Int
  failures : Int
  restart_delay : Int
  ended : ended_handler
  state_handler : handler
  state_timer : Nat
  state : child_state
  timed : List timed_t
  main : Nat
  health_timer : Nat
  health_failures_consecutive : Int
  health_failures_total : Int
  health_successes_consecutive : Int
  health_successes_total : Int
  child_stderr : Nat
  child_stdout : Nat
  child_events : Nat
  envp : Option (List String)
  deriving DecidableEq, Repr

/-- What the supervisor does, in order: processes it forks, signals it sends,
announcements it makes and timers it sets through the global heap. -/
inductive event where
  | run (cmd : Option String) (pid : Int)
  | kill (pid : Int) (sig : Int)
  | udp_announce (verb : String) (pid : Int)
  | timer_add (t : Nat) (when : Int) (f : handler) (data : Nat)
  deriving DecidableEq, Repr

/-- The global state: the timer heap of `nanny_timer.c`, the fields `now` and
`child_pid` of `nanny_globals`, the live list from oldest to youngest, the
static counter `id` of `child_alloc`, and the events so far. -/
structure World where
  timers : List timer
  now : Int
  child_pid : Int
  live_children : List nanny_child
  next_id : Int
  trace : List event
  deriving DecidableEq, Repr

/-- The results the operating system returns during one callback: the
addresses `malloc` returns for the first and second `struct timer`, for a
`struct nanny_child` and for the environment string of the stop command, the
three log buffers, the value of `fork()` and the value of `kill(pid, 0)`. -/
structure syscalls where
  timer1 : Nat
  timer2 : Nat
  child : Nat
  buf : Nat
  log1 : Nat
  log2 : Nat
  log3 : Nat
  fork : Int
  kill0 : Int
  deriving DecidableEq, Repr

/-- The record a `struct nanny_child *` points to. -/
def find_child (w : World) (p : Nat) : Option nanny_child :=
  w.live_children.find? (fun c => c.addr == p)

/-- Write a record back to the address it lives at. -/
def store_child (w : World) (c : nanny_child) : World :=
  { w with live_children := w.live_children.map (fun x => if x.addr = c.addr then c else x) }

/-- A call of `nanny_timer_add` on the global heap, which is noted among the
events. -/
def timer_add (w : World) (t : Nat) (when : Int) (f : handler) (data : Nat) : Option World :=
  match nanny_timer_add w.timers t when f data with
  | some r =>
    some { w with timers := r.2, trace := w.trace ++ [event.timer_add t when f data] }
  | none => none

/-- A call of `nanny_timer_delete` on the global heap. -/
def timer_delete (w : World) (t : Nat) : World :=
  { w with timers := nanny_timer_delete w.timers t }

/-- The assignment `nanny_globals.child_pid = pid`. -/
def set_child_pid (w : World) (pid : Int) : World :=
  { w with child_pid := pid }

/-- Append an event. -/
def emit (w : World) (e : event) : World :=
  { w with trace := w.trace ++ [e] }

/-! ## nanny_children.c -/

/-- The function `child_free`: cancel both timers of the record and unlink it
from the live list.  (The releases of its log buffers touch no field kept
here.) -/
def child_free (w : World) (child : nanny_child) : World :=
  let w : World := timer_delete w child.state_timer
  let w : World := timer_delete w child.health_timer
  { w with live_children := w.live_children.filter (fun x => x.addr != child.addr) }

/-- The function `child_alloc`: a zeroed record in state `NEW`, appended to
the live list as the youngest, with the next `id`.  A null result of `malloc`
is dereferenced by `memset`. -/
def child_alloc (sys : syscalls) (start_cmd : Option String) (w : World) :
    Option (nanny_child × World) :=
  if sys.child = 0 then none
  else
    let child : nanny_child :=
      { addr := sys.child, instance_ := none, start_cmd := start_cmd, stop_cmd := none,
        health_cmd := none, restartable := 0, id := w.next_id, pid := 0, running := 0,
        last_start := 0, last_stop := 0, start_count := 0, failures := 0,
        restart_delay := 0, ended := ended_handler.null, state_handler := handler.null,
        state_timer := 0, state := child_state.NEW, timed := [], main := 0,
        health_timer := 0, health_failures_consecutive := 0, health_failures_total := 0,
        health_successes_consecutive := 0, health_successes_total := 0,
        child_stderr := 0, child_stdout := 0, child_events := 0, envp := none }
    some (child, { w with live_children := w.live_children ++ [child],
                          next_id := w.next_id + 1 })

/-- The function `nanny_child_set_stop`. -/
def nanny_child_set_stop (p : Nat) (cmd : String) (w : World) : Option World :=
  match find_child w p with
  | none => none
  | some child => some (store_child w { child with stop_cmd := some cmd })

/-- The function `nanny_child_set_health`. -/
def nanny_child_set_health (p : Nat) (cmd : String) (w : World) : Option World :=
  match find_child w p with
  | none => none
  | some child => some (store_child w { child with health_cmd := some cmd })

/-- The function `nanny_child_set_restartable`. -/
def nanny_child_set_restartable (p : Nat) (flag : Int) (w : World) : Option World :=
  match find_child w p with
  | none => none
  | some child => some (store_child w { child with restartable := flag })

/-- The function `nanny_child_set_envp`. -/
def nanny_child_set_envp (p : Nat) (envp : Option (List String)) (w : World) : Option World :=
  match find_child w p with
  | none => none
  | some child => some (store_child w { child with envp := envp })

/-- The function `run`, seen from the supervisor: the old pid if that process
still exists, else the pid of a newly forked process.  A failed `fork` exits;
the value `0` of `fork` is the forked process itself, which leaves the
supervisor's code by `execle`. -/
def run (sys : syscalls) (oldpid : Int) (cmd : Option String) (w : World) :
    Option (Int × World) :=
  if oldpid ≠ 0 ∧ sys.kill0 = 0 then some (oldpid, w)
  else if sys.fork ≤ 0 then none
  else some (sys.fork, emit w (event.run cmd sys.fork))

/-- The function `health_check_ended(check, stat, rusage)`. -/
def health_check_ended (sys : syscalls) (p : Nat) (stat : wait_status) (w : World) :
    Option World :=
  match find_child w p with
  | none => none
  | some check =>
    let w : World := child_free w check
    match find_child w check.main with
    | none => none
    | some child =>
      if stat = wait_status.exited 0 then
        some (store_child w
          { child with
            health_failures_consecutive := 0,
            health_successes_consecutive := child.health_successes_consecutive + 1,
            health_successes_total := child.health_successes_total + 1 })
      else
        let child : nanny_child :=
          { child with
            health_successes_consecutive := 0,
            health_failures_consecutive := child.health_failures_consecutive + 1,
            health_failures_total := child.health_failures_total + 1 }
        if child.health_failures_consecutive > 4 then
          let child : nanny_child := { child with state_handler := handler.main_child_goal_restart }
          let w : World := timer_delete w child.state_timer
          match timer_add w sys.timer1 0 child.state_handler child.addr with
          | none => none
          | some w => some (store_child w { child with state_timer := sys.timer1 })
        else some (store_child w child)

/-- The function `health_check_goal(_check, now)`. -/
def health_check_goal (sys : syscalls) (p : Nat) (now : Int) (w : World) : Option World :=
  match find_child w p with
  | none => none
  | some check =>
    match find_child w check.main with
    | none => none
    | some _ =>
      let check : nanny_child := { check with state_timer := 0 }
      if check.state = child_state.NEW then
        match run sys check.pid check.start_cmd w with
        | none => none
        | some (pid, w) =>
          let check : nanny_child :=
            { check with
              pid := pid, ended := ended_handler.health_check_ended, running := 1,
              last_start := now, state := child_state.STARTING }
          match timer_add w sys.timer1 (now + HEALTH_TIMEOUT) check.state_handler p with
          | none => none
          | some w => some (store_child w { check with state_timer := sys.timer1 })
      else
        some (store_child (emit w (event.kill check.pid SIGKILL)) check)

/-- The function `main_child_ended(child, stat, rusage)`.  The three
statements of the backoff work on the value of `restart_delay`, which is then
stored in the record. -/
def main_child_ended (sys : syscalls) (p : Nat) (stat : wait_status) (w : World) :
    Option World :=
  match find_child w p with
  | none => none
  | some child =>
    let pid := child.pid
    let w : World := if child.id = 0 then set_child_pid w 0 else w
    let child : nanny_child :=
      { child with
        pid := 0, ended := ended_handler.null, state := child_state.STOPPED, running := 0,
        last_stop := w.now, failures := child.failures + 1 }
    let restart_delay : Int := child.restart_delay * 2
    let restart_delay : Int := if restart_delay < 1 then 1 else restart_delay
    let restart_delay : Int := if restart_delay > 3600 then 3600 else restart_delay
    let child : nanny_child := { child with restart_delay := restart_delay }
    let w : World := timer_delete w child.state_timer
    let child : nanny_child := { child with state_timer := 0 }
    let w : World := timer_delete w child.health_timer
    let child : nanny_child := { child with health_timer := 0 }
    match timer_add w sys.timer1 0 child.state_handler p with
    | none => none
    | some w =>
      let w : World := store_child w child
      match stat with
      | wait_status.exited _ => some (emit w (event.udp_announce "STOPPED" pid))
      | wait_status.signaled _ => some (emit w (event.udp_announce "STOPPED" pid))
      | wait_status.neither => some w

/-- The function `main_child_health_check(_child, now)`. -/
def main_child_health_check (sys : syscalls) (p : Nat) (now : Int) (w : World) :
    Option World :=
  match find_child w p with
  | none => none
  | some child =>
    let child : nanny_child := { child with health_timer := 0 }
    match child.health_cmd with
    | none =>
      let child : nanny_child :=
        { child with
          health_successes_total := child.health_successes_total + 1,
          health_successes_consecutive := child.health_successes_consecutive + 1 }
      match timer_add w sys.timer1 (now + HEALTH_PERIOD) handler.main_child_health_check p with
      | none => none
      | some w => some (store_child w { child with health_timer := sys.timer1 })
    | some cmd =>
      match child_alloc sys (some cmd) w with
      | none => none
      | some (check, w) =>
        let check : nanny_child :=
          { check with
            envp := child.envp, state := child_state.NEW,
            state_handler := handler.health_check_goal }
        match timer_add w sys.timer1 0 check.state_handler check.addr with
        | none => none
        | some w =>
          let check : nanny_child :=
            { check with
              state_timer := sys.timer1, main := p, child_stderr := child.child_events,
              child_stdout := child.child_events, child_events := child.child_events }
          let w : World := store_child w check
          match timer_add w sys.timer2 (now + HEALTH_PERIOD)
              handler.main_child_health_check p with
          | none => none
          | some w => some (store_child w { child with health_timer := sys.timer2 })

/-- The function `main_child_goal_running(_child, now)`. -/
def main_child_goal_running (sys : syscalls) (p : Nat) (now : Int) (w : World) :
    Option World :=
  match find_child w p with
  | none => none
  | some child =>
    let child : nanny_child := { child with state_timer := 0 }
    if child.state = child_state.STOPPED ∧ child.restartable ≠ 0 then
      let child : nanny_child := { child with state := child_state.RESTARTING }
      match timer_add w sys.timer1 (w.now + child.restart_delay) child.state_handler p with
      | none => none
      | some w => some (store_child w child)
    else if child.state = child_state.RESTARTING ∨ child.state = child_state.NEW then
      match run sys child.pid child.start_cmd w with
      | none => none
      | some (pid, w) =>
        let child : nanny_child := { child with pid := pid }
        let w : World := if child.id = 0 then set_child_pid w child.pid else w
        let child : nanny_child :=
          { child with
            health_failures_consecutive := 0, health_successes_consecutive := 0,
            ended := ended_handler.main_child_ended, running := 1, last_start := now,
            start_count := child.start_count + 1 }
        let w : World :=
          emit w (event.udp_announce
            (if child.state = child_state.NEW then "STARTING" else "RESTARTING") child.pid)
        let child : nanny_child := { child with state := child_state.STARTING }
        match timer_add w sys.timer1 (now + HEALTH_PERIOD * 5) child.state_handler p with
        | none => none
        | some w =>
          let child : nanny_child := { child with state_timer := sys.timer1 }
          match timer_add w sys.timer2 (now + HEALTH_PERIOD)
              handler.main_child_health_check p with
          | none => none
          | some w => some (store_child w { child with health_timer := sys.timer2 })
    else if child.state = child_state.STARTING then
      if child.health_successes_consecutive > 4 then
        some (store_child w
          { child with state := child_state.RUNNING, failures := 0, restart_delay := 1 })
      else
        match timer_add w sys.timer1 (now + HEALTH_PERIOD) child.state_handler p with
        | none => none
        | some w => some (store_child w { child with state_timer := sys.timer1 })
    else some (store_child w child)

/-- The function `main_child_goal_stopped(_child, now)`.  Storing the string
`PID=<pid>` at index `len` of `envp` is an append to the list; a null `envp`
is dereferenced by the loop that measures it. -/
def main_child_goal_stopped (sys : syscalls) (p : Nat) (now : Int) (w : World) :
    Option World :=
  match find_child w p with
  | none => none
  | some child =>
    let child : nanny_child := { child with state_timer := 0 }
    if child.pid = 0 ∨ child.state = child_state.STOPPED
        ∨ child.state = child_state.RESTARTING ∨ child.state = child_state.NEW then
      some (store_child w { child with state := child_state.STOPPED })
    else if sys.kill0 = -1 then
      some (store_child w { child with state := child_state.STOPPED, pid := 0 })
    else if child.state = child_state.STOPPING1 then
      let child : nanny_child := { child with state := child_state.STOPPING2 }
      let w : World := emit w (event.kill child.pid SIGTERM)
      match timer_add w sys.timer1 (now + 15) child.state_handler p with
      | none => none
      | some w => some (store_child w { child with state_timer := sys.timer1 })
    else if child.state = child_state.STOPPING2 then
      let child : nanny_child := { child with state := child_state.STOPPING3 }
      let w : World := emit w (event.kill child.pid SIGKILL)
      match timer_add w sys.timer1 (now + 15) child.state_handler p with
      | none => none
      | some w => some (store_child w { child with state_timer := sys.timer1 })
    else if child.state = child_state.STOPPING3 then
      let w : World := emit w (event.udp_announce "UNSTOPPABLE" child.pid)
      let w : World := emit w (event.kill child.pid SIGKILL)
      some (store_child w { child with state := child_state.STOPPED, pid := 0 })
    else if child.stop_cmd ≠ none ∧ child.stop_cmd ≠ some "" then
      let envp : Option (Option (List String)) :=
        if child.pid > 0 then
          match child.envp with
          | none => none
          | some e => if sys.buf = 0 then none else some (some (e ++ ["PID=" ++ toString child.pid]))
        else some child.envp
      match envp with
      | none => none
      | some envp =>
        let child : nanny_child := { child with envp := envp }
        match run sys 0 child.stop_cmd w with
        | none => none
        | some (_, w) =>
          let child : nanny_child := { child with state := child_state.STOPPING1 }
          match timer_add w sys.timer1 (now + STOP_PROBATION) child.state_handler p with
          | none => none
          | some w => some (store_child w { child with state_timer := sys.timer1 })
    else
      let child : nanny_child := { child with state := child_state.STOPPING2 }
      let w : World := emit w (event.kill child.pid SIGTERM)
      match timer_add w sys.timer1 (now + STOP_PROBATION) child.state_handler p with
      | none => none
      | some w => some (store_child w { child with state_timer := sys.timer1 })

/-- The function `main_child_goal_restart(_child, now)`. -/
def main_child_goal_restart (sys : syscalls) (p : Nat) (now : Int) (w : World) :
    Option World :=
  match find_child w p with
  | none => none
  | some child =>
    if child.state = child_state.STOPPED then
      let child : nanny_child :=
        { child with
          state := child_state.RESTARTING,
          state_handler := handler.main_child_goal_running }
      match timer_add w sys.timer1 0 child.state_handler p with
      | none => none
      | some w => some (store_child w { child with state_timer := sys.timer1 })
    else main_child_goal_stopped sys p now w

/-- The function `nanny_child_new(start_cmd)`; the result is the address of
the new record. -/
def nanny_child_new (sys : syscalls) (start_cmd : String) (w : World) :
    Option (Nat × World) :=
  match child_alloc sys (some start_cmd) w with
  | none => none
  | some (child, w) =>
    let child : nanny_child :=
      { child with
        state := child_state.NEW, state_handler := handler.main_child_goal_running }
    match timer_add w sys.timer1 0 child.state_handler child.addr with
    | none => none
    | some w =>
      some (child.addr, store_child w
        { child with
          state_timer := sys.timer1, child_stdout := sys.log1, child_stderr := sys.log2,
          child_events := sys.log3 })

/-- One pass of the outer loop of `nanny_oversee_children`: `wait3` has
returned `pid` and `stat`; the oldest live record with that pid gets its
`ended` function called, if it has one. -/
def oversee_one (sys : syscalls) (pid : Int) (stat : wait_status) (w : World) :
    Option World :=
  match w.live_children.find? (fun c => c.pid == pid) with
  | none => some w
  | some child =>
    match child.ended with
    | ended_handler.null => some w
    | ended_handler.main_child_ended => main_child_ended sys child.addr stat w
    | ended_handler.health_check_ended => health_check_ended sys child.addr stat w

/-- The loop of `nanny_stop_all_children` from the record at the head of the
list of addresses on, `n` being the position of that record in the live list
and `alive` the count so far.  The `n`-th record that is switched to the
stopping state machine gets its timer at the address `(env n).timer1`. -/
def stop_all_loop (env : Nat → syscalls) : List Nat → Nat → Int → World → Option (Int × World)
  | [], _, alive, w => some (alive, w)
  | p :: rest, n, alive, w =>
    match find_child w p with
    | none => none
    | some child =>
      if child.state = child_state.STOPPED then
        stop_all_loop env rest (n + 1) alive
          (store_child w { child with state_handler := handler.main_child_goal_stopped })
      else
        let alive := alive + 1
        if child.state_handler = handler.main_child_goal_stopped then
          stop_all_loop env rest (n + 1) alive w
        else
          let w : World := child.timed.foldl (fun w t => timer_delete w t.timer) w
          let child : nanny_child := { child with timed := [] }
          let w : World := timer_delete w child.state_timer
          let child : nanny_child := { child with state_timer := 0 }
          let w : World := timer_delete w child.health_timer
          let child : nanny_child := { child with health_timer := 0 }
          let child : nanny_child :=
            { child with state_handler := handler.main_child_goal_stopped }
          match timer_add w (env n).timer1 0 child.state_handler p with
          | none => none
          | some w =>
            stop_all_loop env rest (n + 1) alive
              (store_child w { child with state_timer := (env n).timer1 })

/-- The function `nanny_stop_all_children()`: the value returned and the state
left. -/
def nanny_stop_all_children (env : Nat → syscalls) (w : World) : Option (Int × World) :=
  stop_all_loop env (w.live_children.map (fun c => c.addr)) 0 0 w

/-- Reduce an integer to the range of a 64-bit signed type (`long`,
`time_t`). -/
def wrap64 (x : Int) : Int :=
  (x + 2 ^ 63) % 2 ^ 64 - 2 ^ 63

/-- The inner loop of `parse_interval`,
`while (**p >= '0' && **p <= '9') { i *= 10; i += **p - '0'; ++(*p); }`.
A C string is the list of its characters before the terminating NUL, so the
empty list is a cursor on the NUL. -/
def parse_number : Int → List Char → Int × List Char
  | i, [] => (i, [])
  | i, c :: rest =>
    if c ≥ '0' ∧ c ≤ '9' then
      parse_number (wrap64 (wrap64 (i * 10) + ((c.toNat : Int) - ('0'.toNat : Int)))) rest
    else (i, c :: rest)

/-- The multiplier the `switch` of `parse_interval` has for a unit
character, if it has one. -/
def unit_seconds (c : Char) : Option Int :=
  if c = 'd' then some 86400
  else if c = 'h' then some 3600
  else if c = 'm' then some 60
  else if c = 's' then some 1
  else none

/-- The loop `for (;;)` of `parse_interval`: the value returned and the
cursor `*p` left.  The first argument bounds the number of passes. -/
def parse_interval_loop : Nat → Int → List Char → Option (Int × List Char)
  | 0, _, _ => none
  | fuel + 1, interval, p =>
    match p with
    | [] => some (-1, p)
    | c :: _ =>
      if c < '0' ∨ c > '9' then some (-1, p)
      else
        let r := parse_number 0 p
        let i := r.1
        let p := r.2
        match p with
        | [] => some (-1, p)
        | u :: rest =>
          match unit_seconds u with
          | none => some (-1, p)
          | some mult =>
            let interval := wrap64 (interval + wrap64 (i * mult))
            let p := rest
            match p with
            | [] => parse_interval_loop fuel interval p
            | s :: _ =>
              if s = ' ' ∨ s = '\t' then
                some (interval, p.dropWhile (fun x => x = ' ' ∨ x = '\t'))
              else parse_interval_loop fuel interval p

/-- The function `parse_interval(&p)`.  Every pass of its loop moves the
cursor forward, so the length of the string bounds the passes. -/
def parse_interval (p : List Char) : Option (Int × List Char) :=
  parse_interval_loop (p.length + 1) 0 p

/-- What the operating system and the C library return during one call of
`nanny_child_add_periodic`: the address `malloc` gives for the `struct
timed_t`, whether `strdup` and `calloc` succeed, the indeterminate value the
variable `i` holds when the copy loop is skipped, the value of `random()`
(not negative), the value of `time(NULL)` and the address `malloc` gives for
the timer. -/
structure periodic_calls where
  t : Nat
  strdup_ok : Bool
  calloc_ok : Bool
  i : Int
  random : Int
  time : Int
  timer : Nat
  deriving DecidableEq, Repr

/-- The record `nanny_child_add_periodic` has filled in when it links it into
the list of the child: the interval and the command from the parse, and the
copy of the environment.  The result is `none` where the function is left by
a null dereference or `exit`, and `some none` where it returns 1 before. -/
def periodic_task (sys : periodic_calls) (child : nanny_child) (task : String) :
    Option (Option timed_t) :=
  if sys.t = 0 then none
  else
    match parse_interval task.data with
    | none => none
    | some (interval, p) =>
      if interval < 0 then some none
      else if p = [] then some none
      else if sys.strdup_ok = false then some none
      else
        match child.envp with
        | none =>
          some (some { addr := sys.t, timer := 0, interval := interval, last := 0,
                       cmd := String.mk p, envplen := sys.i, envp := none })
        | some e =>
          if sys.calloc_ok = false then none
          else
            some (some { addr := sys.t, timer := 0, interval := interval, last := 0,
                         cmd := String.mk p, envplen := e.length, envp := some e })

/-- The function `nanny_child_add_periodic(child, task)`: the value returned
and the state left.  The record is linked into the list of the child and then
given its timer; the remainder `random() % t->interval` in between has no
value for an interval of 0. -/
def nanny_child_add_periodic (sys : periodic_calls) (p : Nat) (task : String) (w : World) :
    Option (Int × World) :=
  match find_child w p with
  | none => none
  | some child =>
    match periodic_task sys child task with
    | none => none
    | some none => some (1, w)
    | some (some t) =>
      if t.interval = 0 then none
      else
        let first_delay : Int := Int.tmod sys.random t.interval
        match timer_add w sys.timer (sys.time + first_delay) handler.timed_event t.addr with
        | none => none
        | some w =>
          some (0, store_child w
            { child with timed := { t with timer := sys.timer } :: child.timed })

/-- The supervisor's side of `timed_event(t0, now)`: note the time, reschedule
and fork the worker, whose side is not followed. -/
def timed_event (sys : syscalls) (t0 : Nat) (now : Int) (w : World) : Option World :=
  match w.live_children.find? (fun c => c.timed.any (fun t => t.addr == t0)) with
  | none => none
  | some child =>
    match child.timed.find? (fun t => t.addr == t0) with
    | none => none
    | some t =>
      match timer_add w sys.timer1 (now + t.interval) handler.timed_event t0 with
      | none => none
      | some w =>
        some (store_child w
          { child with
            timed := child.timed.map (fun x =>
              if x.addr = t0 then { x with last := now, timer := sys.timer1 } else x) })

/-- The function `sample_clock(d, now)` of `nanny_main.c`, which prints a
character and schedules itself one second later. -/
def sample_clock (sys : syscalls) (now : Int) (w : World) : Option World :=
  timer_add w sys.timer1 (now + 1) handler.sample_clock 0

/-- The call `f(data, when)` through the function pointer of a timer, for the
functions of the supervisor.  Another function does nothing to the state; a
null pointer cannot be called. -/
def nanny_dispatch (sys : syscalls) (f : handler) (data : Nat) (when : Int) (w : World) :
    Option World :=
  match f with
  | handler.main_child_goal_running => main_child_goal_running sys data when w
  | handler.main_child_goal_stopped => main_child_goal_stopped sys data when w
  | handler.main_child_goal_restart => main_child_goal_restart sys data when w
  | handler.main_child_health_check => main_child_health_check sys data when w
  | handler.health_check_goal => health_check_goal sys data when w
  | handler.timed_event => timed_event sys data when w
  | handler.sample_clock => sample_clock sys when w
  | handler.other _ => some w
  | handler.null => none

/-! ## nanny_timer_next -/

/-- What one call of `nanny_timer_next` leaves: the state, the callbacks it
invoked as pairs of the timer removed and the time passed to its function, the
values stored through `interval` and `absolute` (when the pointer is not null)
and the value returned. -/
structure next_result where
  world : World
  calls : List (timer × Int)
  interval : Option timeval
  absolute : Option timeval
  ret : Int
  deriving DecidableEq, Repr

/-- The first loop of `nanny_timer_next`: while a timer exists and
`now.tv_sec >= timers[0]->when`, remove it and call its function.  Each
callback uses up one element of `env`, the results of its system calls; the
loop does not finish within `env` when it runs out of elements. -/
def service_timers (dispatch : syscalls → handler → Nat → Int → World → Option World)
    (now_sec : Int) : List syscalls → World → Option (World × List (timer × Int))
  | [], w =>
    match w.timers with
    | [] => some (w, [])
    | top :: _ => if now_sec ≥ top.when then none else some (w, [])
  | sys :: env, w =>
    match w.timers with
    | [] => some (w, [])
    | top :: _ =>
      if now_sec ≥ top.when then
        let when := top.when
        let data := top.data
        let f := top.f
        let w : World := { w with timers := nanny_timer_remove w.timers 0 }
        let when := if when = 0 then now_sec else when
        match dispatch sys f data when w with
        | none => none
        | some w =>
          match service_timers dispatch now_sec env w with
          | none => none
          | some (w, calls) => some (w, (top, when) :: calls)
      else some (w, [])

/-- The loop `while (interval->tv_usec > 999999) interval->tv_usec -= 1000000`;
the first argument bounds the number of passes. -/
def usec_down : Nat → Int → Int
  | 0, usec => usec
  | fuel + 1, usec => if usec > 999999 then usec_down fuel (usec - 1000000) else usec

/-- The loop `while (interval->tv_usec < 0) interval->tv_usec += 1000000`;
the first argument bounds the number of passes. -/
def usec_up : Nat → Int → Int
  | 0, usec => usec
  | fuel + 1, usec => if usec < 0 then usec_up fuel (usec + 1000000) else usec

/-- The function `nanny_timer_next(interval, absolute)`, `now` being the
result of `gettimeofday`; `interval` and `absolute` say whether the pointer of
that name is not null.  Each of the two loops on `tv_usec` moves the value by
`1000000` towards `0 .. 999999`, so its absolute value bounds the passes.  The
last test reads `interval->tv_sec` outside the null check. -/
def nanny_timer_next (dispatch : syscalls → handler → Nat → Int → World → Option World)
    (env : List syscalls) (now : timeval) (interval absolute : Bool) (w : World) :
    Option next_result :=
  let w : World := { w with now := now.tv_sec }
  match service_timers dispatch now.tv_sec env w with
  | none => none
  | some (w, calls) =>
    match w.timers with
    | [] =>
      some { world := w, calls := calls,
             interval := if interval then some ⟨1, 0⟩ else none,
             absolute := if absolute then some ⟨now.tv_sec + 3600, now.tv_usec⟩ else none,
             ret := now.tv_sec + 3600 }
    | top :: _ =>
      let abs : Option timeval := if absolute then some ⟨top.when, 0⟩ else none
      if interval then
        let tv_sec : Int := top.when - now.tv_sec
        let tv_usec : Int := -now.tv_usec
        let tv_usec : Int := usec_down tv_usec.natAbs tv_usec
        let tv_usec : Int := usec_up tv_usec.natAbs tv_usec
        let tv_sec : Int := if tv_sec < 0 then 0 else tv_sec
        let tv_usec : Int := if tv_sec = 0 ∧ tv_usec < 1 then 1 else tv_usec
        let tv_sec : Int := if tv_sec > 1 then 1 else tv_sec
        some { world := w, calls := calls, interval := some ⟨tv_sec, tv_usec⟩,
               absolute := abs, ret := top.when }
      else none

/-! ## Properties of states -/

/-- A property of `restart_delay`, which may depend on the field `main` (null
for a main child, the supervised child for a health check), that holds for
every live record. -/
def delays (R : Nat → Int → Prop) (w : World) : Prop :=
  ∀ c ∈ w.live_children, R c.main c.restart_delay

/-! ## Heap order -/

/-- Min-heap order on the `when` fields: no entry is earlier than its parent. -/
def heap_ok (timers : List timer) : Prop :=
  ∀ k, 0 < k → k < timers.length → when_at timers ((k - 1) / 2) ≤ when_at timers k

/-- Heap order everywhere except possibly between `i` and its parent. -/
def up_inv (h : List timer) (i : Nat) : Prop :=
  (∀ k, 0 < k → k < h.length → k ≠ i → when_at h ((k - 1) / 2) ≤ when_at h k) ∧
  (∀ k, 0 < k → k < h.length → (k - 1) / 2 = i → 0 < i →
    when_at h ((i - 1) / 2) ≤ when_at h k)

/-- Heap order everywhere except possibly between `i` and its children. -/
def down_inv (h : List timer) (i : Nat) : Prop :=
  (∀ k, 0 < k → k < h.length → (k - 1) / 2 ≠ i → when_at h ((k - 1) / 2) ≤ when_at h k) ∧
  (∀ k, 0 < k → k < h.length → (k - 1) / 2 = i → 0 < i →
    when_at h ((i - 1) / 2) ≤ when_at h k)

/-- Heap order everywhere except possibly between `i` and its parent and
between `i` and its children, the parent of `i` being no later than the
children of `i`. -/
def adj_inv (h : List timer) (i : Nat) : Prop :=
  (∀ k, 0 < k → k < h.length → k ≠ i → (k - 1) / 2 ≠ i →
    when_at h ((k - 1) / 2) ≤ when_at h k) ∧
  (∀ k, 0 < k → k < h.length → (k - 1) / 2 = i → 0 < i →
    when_at h ((i - 1) / 2) ≤ when_at h k)

/-- What every heap made by the timer functions satisfies: heap order,
distinct non-null addresses, and a count below `MAX_TIMERS`. -/
def timers_inv (h : List timer) : Prop :=
  heap_ok h ∧ (h.map (fun x => x.ptr)).Nodup ∧ (∀ x ∈ h, x.ptr ≠ 0) ∧ h.length < MAX_TIMERS

/-! ## Reachable states -/

/-- The heaps that `nanny_timer_add`, `nanny_timer_delete` and the removal of
the first entry by `nanny_timer_next` make from the empty heap, `malloc` never
returning an address that is still in the heap. -/
inductive timers_reachable : List timer → Prop
  | empty : timers_reachable []
  | add (h h' : List timer) (t : Nat) (when : Int) (f : handler) (data : Nat) :
      timers_reachable h → (∀ x ∈ h, x.ptr ≠ t) →
      nanny_timer_add h t when f data = some (t, h') → timers_reachable h'
  | delete (h : List timer) (t : Nat) :
      timers_reachable h → timers_reachable (nanny_timer_delete h t)
  | pop (h : List timer) :
      timers_reachable h → h ≠ [] → timers_reachable (nanny_timer_remove h 0)

/-- Callbacks that return and leave the timer heap as they found it. -/
def heap_untouched (dispatch : syscalls → handler → Nat → Int → World → Option World) :
    Prop :=
  ∀ sys f data when w, ∃ w', dispatch sys f data when w = some w' ∧ w'.timers = w.timers

/-- Successive calls `nanny_timer_next(&tv, NULL)`, as in the loop of
`test/timer_test.c` and of `main`: one call for every element of the list,
which gives the clock at that call and the system call results for its
callbacks.  The result lists all callbacks in the order they were invoked. -/
def timer_next_rounds (dispatch : syscalls → handler → Nat → Int → World → Option World) :
    List (timeval × List syscalls) → World → Option (World × List (timer × Int))
  | [], w => some (w, [])
  | (now, env) :: rounds, w =>
    match nanny_timer_next dispatch env now true false w with
    | none => none
    | some r =>
      match timer_next_rounds dispatch rounds r.world with
      | none => none
      | some (w', calls) => some (w', r.calls ++ calls)

/-! ## test/timer_test.c -/

/-- The callback `t1` of the timer test, and any other function that is not
one of the supervisor's: it leaves the supervisor state alone. -/
def t1_dispatch (_ : syscalls) (_ : handler) (_ : Nat) (_ : Int) (w : World) :
    Option World :=
  some w

/-- A run of calls `timer_add(when, t1, NULL)` as at the start of the test's
`main`, each with the address `malloc` returns, which is not in the heap. -/
def timer_test_adds : List (Nat × Int) → List timer → Option (List timer)
  | [], h => some h
  | (t, when) :: rest, h =>
    if h.all (fun x => x.ptr != t) then
      match nanny_timer_add h t when (handler.other 0) 0 with
      | some (_, h') => timer_test_adds rest h'
      | none => none
    else none

/-- The twelve calls of the test, for `now = 1000`, with addresses 1 to 12. -/
def timer_test_schedule : List (Nat × Int) :=
  [(1, 1010), (2, 1007), (3, 1003), (4, 1001), (5, 999), (6, 1006), (7, 1005),
   (8, 1000), (9, 1004), (10, 1002), (11, 1008), (12, 1009)]

/-- The heap the test has after its twelve calls. -/
def timer_test_heap : List timer :=
  match timer_test_adds timer_test_schedule [] with
  | some h => h
  | none => []

/-- A state that holds nothing but the given timers. -/
def world_of_timers (h : List timer) : World :=
  { timers := h, now := 0, child_pid := 0, live_children := [], next_id := 0, trace := [] }

/-- System call results that are never looked at. -/
def no_syscalls : syscalls :=
  { timer1 := 0, timer2 := 0, child := 0, buf := 0, log1 := 0, log2 := 0, log3 := 0,
    fork := 0, kill0 := 0 }

/-- Three timers set at second 1000: one with `when == 0`, one ten seconds in
the past and one five seconds ahead. -/
def timer_arg_schedule : List (Nat × Int) :=
  [(1, 1005), (2, 0), (3, 990)]

/-- The heap after the calls of `timer_arg_schedule`. -/
def timer_arg_heap : List timer :=
  match timer_test_adds timer_arg_schedule [] with
  | some h => h
  | none => []

/-- A later heap holds every timer of an earlier one, and is ordered if the
earlier one is. -/
def grows (a b : List timer) : Prop :=
  (heap_ok a → heap_ok b) ∧ ∀ t ∈ a, t ∈ b

/-- Callbacks that keep the heap ordered and delete no timer: whenever one
returns, every timer that was pending before it is pending after it. -/
def heap_grows (dispatch : syscalls → handler → Nat → Int → World → Option World) :
    Prop :=
  ∀ sys f data when w w', dispatch sys f data when w = some w' → grows w.timers w'.timers


/-! ## nanny_main.c: the main loop -/

/-- The supervisor before anything is registered. -/
def empty_world : World :=
  { timers := [], now := 0, child_pid := 0, live_children := [], next_id := 0, trace := [] }

/-- The loop of `nanny_oversee_children` over the children `wait3` reports,
each with its pid, its status and the system call results for the `ended`
function.  (The two signal counters only decide whether `wait3` is polled at
all; no report is the empty list.) -/
def nanny_oversee_children : List (Int × wait_status × syscalls) → World → Option World
  | [], w => some w
  | (pid, stat, sys) :: rest, w =>
    match oversee_one sys pid stat w with
    | none => none
    | some w => nanny_oversee_children rest w

/-- What `nanny_select` does to the state kept here: it waits and then sets
`nanny_globals.now` to the time it wakes at.  (The handlers of readable
descriptors are not followed.) -/
def nanny_select (wake : Int) (w : World) : World :=
  { w with now := wake }

/-- One pass of the loop of `main`: `nanny_oversee_children()`,
`nanny_timer_next(&tv, NULL)`, `nanny_select(&tv)`. -/
def main_loop_pass (reaped : List (Int × wait_status × syscalls)) (now : timeval)
    (env : List syscalls) (wake : Int) (w : World) : Option next_result :=
  match nanny_oversee_children reaped w with
  | none => none
  | some w =>
    match nanny_timer_next nanny_dispatch env now true false w with
    | none => none
    | some r => some { r with world := nanny_select wake r.world }

/-! ## Scenario: crash loop -/

/-- System call results for the `n`-th callback of a scenario: addresses
`10 * n + 1` and `10 * n + 2` for timers, `1000 + n` for a child record, pid
`500 + n` from `fork`, and `kill(pid, 0)` failing. -/
def scenario_syscalls (n : Nat) : syscalls :=
  { timer1 := 10 * n + 1, timer2 := 10 * n + 2, child := 1000 + n, buf := 2000 + n,
    log1 := 3000 + 10 * n, log2 := 3001 + 10 * n, log3 := 3002 + 10 * n,
    fork := 500 + (n : Int), kill0 := -1 }

/-- The supervisor of a child whose start command is `exit 1`, before the
main loop: one child, made restartable as `main` does. -/
def crash_loop_start : Option (Nat × World) :=
  match nanny_child_new (scenario_syscalls 0) "exit 1" empty_world with
  | none => none
  | some (p, w) =>
    match nanny_child_set_restartable p 1 w with
    | none => none
    | some w => some (p, w)

/-- The crash loop: `k` times, wake at second `t`, where the pending state
timer starts the child; the child exits at once, so the next pass, in the
same second, reaps it with exit status 1 and runs the state timer that
`main_child_ended` has set; the loop then sleeps until the next timer, at the
second `nanny_timer_next` returns.  The result lists, for each start, the
second `last_start` of the start and the `restart_delay` after the exit. -/
def crash_loop (p : Nat) : Nat → Nat → Int → World → Option (List (Int × Int))
  | 0, _, _, _ => some []
  | k + 1, n, t, w =>
    match main_loop_pass [] ⟨t, 0⟩ [scenario_syscalls (n + 1)] t w with
    | none => none
    | some r1 =>
      match find_child r1.world p with
      | none => none
      | some c1 =>
        match main_loop_pass [(c1.pid, wait_status.exited 1, scenario_syscalls (n + 2))]
            ⟨t, 0⟩ [scenario_syscalls (n + 3)] t r1.world with
        | none => none
        | some r2 =>
          match find_child r2.world p with
          | none => none
          | some c2 =>
            match crash_loop p k (n + 3) r2.ret r2.world with
            | none => none
            | some rest => some ((c1.last_start, c2.restart_delay) :: rest)

/-! ## Reachable supervisor states -/

/-- The five steps that drive a main child: the three goal handlers, the exit
handler and the end of a health check, on any record, at any time and with
any results of the system calls. -/
inductive child_step : World → World → Prop
  | goal_running (sys : syscalls) (p : Nat) (now : Int) (w w' : World) :
      main_child_goal_running sys p now w = some w' → child_step w w'
  | goal_stopped (sys : syscalls) (p : Nat) (now : Int) (w w' : World) :
      main_child_goal_stopped sys p now w = some w' → child_step w w'
  | goal_restart (sys : syscalls) (p : Nat) (now : Int) (w w' : World) :
      main_child_goal_restart sys p now w = some w' → child_step w w'
  | child_ended (sys : syscalls) (p : Nat) (stat : wait_status) (w w' : World) :
      main_child_ended sys p stat w = some w' → child_step w w'
  | check_ended (sys : syscalls) (p : Nat) (stat : wait_status) (w w' : World) :
      health_check_ended sys p stat w = some w' → child_step w w'

/-- The other ways the state changes: registration of a child and its
settings, the health timer, the goal of a health check, a periodic task, the
heartbeat, the shutdown of all children, the registration of a periodic
task, the removal of the first timer by `nanny_timer_next`, and the clock. -/
inductive other_step : World → World → Prop
  | child_new (sys : syscalls) (cmd : String) (p : Nat) (w w' : World) :
      nanny_child_new sys cmd w = some (p, w') → other_step w w'
  | set_stop (p : Nat) (cmd : String) (w w' : World) :
      nanny_child_set_stop p cmd w = some w' → other_step w w'
  | set_health (p : Nat) (cmd : String) (w w' : World) :
      nanny_child_set_health p cmd w = some w' → other_step w w'
  | set_restartable (p : Nat) (flag : Int) (w w' : World) :
      nanny_child_set_restartable p flag w = some w' → other_step w w'
  | set_envp (p : Nat) (envp : Option (List String)) (w w' : World) :
      nanny_child_set_envp p envp w = some w' → other_step w w'
  | health_check (sys : syscalls) (p : Nat) (now : Int) (w w' : World) :
      main_child_health_check sys p now w = some w' → other_step w w'
  | check_goal (sys : syscalls) (p : Nat) (now : Int) (w w' : World) :
      health_check_goal sys p now w = some w' → other_step w w'
  | timed (sys : syscalls) (t0 : Nat) (now : Int) (w w' : World) :
      timed_event sys t0 now w = some w' → other_step w w'
  | clock (sys : syscalls) (now : Int) (w w' : World) :
      sample_clock sys now w = some w' → other_step w w'
  | stop_all (env : Nat → syscalls) (alive : Int) (w w' : World) :
      nanny_stop_all_children env w = some (alive, w') → other_step w w'
  | add_periodic (sys : periodic_calls) (p : Nat) (task : String) (r : Int) (w w' : World) :
      nanny_child_add_periodic sys p task w = some (r, w') → other_step w w'
  | pop (w : World) : other_step w { w with timers := nanny_timer_remove w.timers 0 }
  | time (now : Int) (w : World) : other_step w { w with now := now }

/-- The states the supervisor can be in: from the empty state, any sequence of
steps. -/
inductive supervisor_reachable : World → Prop
  | start : supervisor_reachable empty_world
  | child (w w' : World) : supervisor_reachable w → child_step w w' → supervisor_reachable w'
  | other (w w' : World) : supervisor_reachable w → other_step w w' → supervisor_reachable w'

/-- The state after `nanny_child_new("/bin/sleep 100000")` on the empty
state. -/
def new_child_world : World :=
  match nanny_child_new (scenario_syscalls 0) "/bin/sleep 100000" empty_world with
  | some (_, w) => w
  | none => empty_world

/-- The state after the child of `new_child_world` has been reported ended
with exit status 1. -/
def first_exit_world : World :=
  match main_child_ended (scenario_syscalls 1) 1000 (wait_status.exited 1) new_child_world with
  | some w => w
  | none => empty_world

/-! ## Scenario: a health check -/

/-- The supervisor of `nanny -s "/bin/sleep 100000" -h true` after the pass of
the main loop at second 1000, which has started the child: the state timer
waits for second 1300 and the health timer for second 1060. -/
def probe_start : World :=
  match nanny_child_new (scenario_syscalls 0) "/bin/sleep 100000" empty_world with
  | none => empty_world
  | some (p, w) =>
    match nanny_child_set_restartable p 1 w with
    | none => empty_world
    | some w =>
      match nanny_child_set_health p "true" w with
      | none => empty_world
      | some w =>
        match main_loop_pass [] ⟨1000, 0⟩ [scenario_syscalls 1] 1000 w with
        | none => empty_world
        | some r => r.world

/-- The state in which the health timer's callback returns during the call
of `nanny_timer_next` at second 1060 on `probe_start`. -/
def probe_after_callback : World :=
  match probe_start.timers with
  | [] => empty_world
  | top :: _ =>
    match nanny_dispatch (scenario_syscalls 2) top.f top.data
        (if top.when = 0 then 1060 else top.when)
        { probe_start with now := 1060, timers := nanny_timer_remove probe_start.timers 0 } with
    | none => empty_world
    | some w => w

/-- What `nanny_timer_next` leaves when called at second 1060 on
`probe_start`. -/
def probe_result : next_result :=
  match nanny_timer_next nanny_dispatch [scenario_syscalls 2, scenario_syscalls 3]
      ⟨1060, 0⟩ true false probe_start with
  | some r => r
  | none => { world := empty_world, calls := [], interval := none, absolute := none, ret := 0 }

/-! ## Scenario: exits in a row -/

/-- Consecutive calls of `main_child_ended` on the record at `p`, one for
each element of the list, which gives the system call results and the wait
status of the call. -/
def main_child_ended_calls (p : Nat) : List (syscalls × wait_status) → World → Option World
  | [], w => some w
  | (sys, stat) :: rest, w =>
    match main_child_ended sys p stat w with
    | none => none
    | some w => main_child_ended_calls p rest w


/-! ## Scenario: crash loop of any record -/

/-- What one round of the crash loop shows: `last_start` of the record after
the start, `restart_delay` after the exit, and the second for which
`main_child_goal_running` then sets the timer of the next start. -/
structure crash_obs where
  start : Int
  delay : Int
  restart : Int
  deriving DecidableEq, Repr

/-- The crash loop of the record at `p` as its two functions see it, one
round for each element of the list, which gives the system call results of
the three calls and the wait status.  In second `s` the state timer of the
record is due, so `nanny_timer_next` has set the clock to `s` and calls
`main_child_goal_running` with `s`, which starts the child.  The child exits
in that second and `main_child_ended` runs.  The timer with `when == 0` it
has set is due at once and calls `main_child_goal_running` with the same
second, which sets the timer of the restart.  The next round is in the second
`when` of that timer, read from the last call of `nanny_timer_add`. -/
def crash_rounds (p : Nat) :
    List (syscalls × syscalls × wait_status × syscalls) → Int → World →
      Option (List crash_obs)
  | [], _, _ => some []
  | (sys1, sys2, stat, sys3) :: rest, s, w =>
    match main_child_goal_running sys1 p s { w with now := s } with
    | none => none
    | some w1 =>
      match find_child w1 p with
      | none => none
      | some c1 =>
        match main_child_ended sys2 p stat w1 with
        | none => none
        | some w2 =>
          match find_child w2 p with
          | none => none
          | some c2 =>
            match main_child_goal_running sys3 p s w2 with
            | none => none
            | some w3 =>
              match w3.trace.getLast? with
              | some (event.timer_add _ when _ _) =>
                match crash_rounds p rest when w3 with
                | none => none
                | some obs => some (⟨c1.last_start, c2.restart_delay, when⟩ :: obs)
              | _ => none

/-- System call results for seven rounds of the crash loop, numbered as in
`crash_loop`. -/
def crash_rounds_syscalls : List (syscalls × syscalls × wait_status × syscalls) :=
  (List.range 7).map (fun i =>
    (scenario_syscalls (3 * i + 1), scenario_syscalls (3 * i + 2), wait_status.exited 1,
      scenario_syscalls (3 * i + 3)))

/-- The state `crash_loop_start` leaves: one restartable record, at address
1000, in state `NEW`. -/
def crash_world : World :=
  match crash_loop_start with
  | some r => r.2
  | none => empty_world

/-! ## nanny_log.c -/

/-- The name of a log file: the base name, the second its time stamp shows
and, on the second attempt, the microseconds appended. -/
structure log_filename where
  base : String
  stamp : Int
  usec : Option Int
  deriving DecidableEq, Repr

/-- What the log does to files, in order. -/
inductive log_event where
  | close (fd : Int)
  | opened (name : log_filename) (fd : Int)
  | unlink (base : String)
  | symlink (name : log_filename)
  | write (fd : Int) (bytes : List Nat)
  deriving DecidableEq, Repr

/-- The record `struct nanny_log`.  The ring `buff .. buff_end` is the list
`buff` of its `buff_size` bytes (empty when `malloc` gave no ring), the
pointer `buffp` is its offset from `buff`, the three `uintmax_t` counters are
naturals below `2 ^ 64`, and `bytes_per_second` keeps the quotient before its
conversion to `float`.  The field `io` lists the calls on files. -/
structure nanny_log where
  refcnt : Int
  filename_base : Option String
  filename : Option log_filename
  file_fd : Int
  last_rotate : Int
  last_rotate_bytes : Nat
  last_rotate_check : Int
  total_bytes : Nat
  read_count : Nat
  error_count : Nat
  bytes_per_second : Nat
  bps_last_update_time : Int
  bps_last_update_bytes : Nat
  buff : List Nat
  buff_size : Nat
  buffp : Nat
  io : List log_event
  deriving DecidableEq, Repr

/-- What the operating system and the C library return during one call of
`nanny_log_rotate`: the values of the two calls of `open`, the microseconds of
`gettimeofday`, and whether `strdup` succeeds. -/
structure log_calls where
  open1 : Int
  open2 : Int
  usec : Int
  strdup_ok : Bool
  deriving DecidableEq, Repr

/-- The function `nanny_log_alloc(buffsize)`; `ring` tells whether `malloc`
gives the ring.  (A null `nlog` is dereferenced by `memset`; its address is
not kept.) -/
def nanny_log_alloc (nlog_ok : Bool) (ring : Bool) (buffsize : Nat) : Option nanny_log :=
  if nlog_ok = false then none
  else
    let buff_size : Nat := if ring then buffsize else 0
    some
      { refcnt := 1, filename_base := none, filename := none, file_fd := -1, last_rotate := 0,
        last_rotate_bytes := 0, last_rotate_check := 0, total_bytes := 0, read_count := 0,
        error_count := 0, bytes_per_second := 0, bps_last_update_time := 0,
        bps_last_update_bytes := 0, buff := List.replicate buff_size 0,
        buff_size := buff_size, buffp := 0, io := [] }

/-- The statements of `nanny_log_rotate` that close the file and forget its
name. -/
def log_close (nlog : nanny_log) : nanny_log :=
  { nlog with
    io := nlog.io ++ [log_event.close nlog.file_fd], file_fd := -1, filename := none }

/-- The block of `nanny_log_rotate` after a successful `open`: keep the name,
renew the symbolic link and note the statistics of the rotation.  A failed
`strdup` exits. -/
def log_opened (sys : log_calls) (now : Int) (base : String) (name : log_filename)
    (nlog : nanny_log) : Option nanny_log :=
  if sys.strdup_ok = false then none
  else
    let io := nlog.io ++ [log_event.unlink base]
    let io := if base.data.contains '/' then io ++ [log_event.symlink name] else io
    some { nlog with
      filename := some name, io := io, last_rotate := now,
      last_rotate_bytes := nlog.total_bytes }

/-- The block of `nanny_log_rotate` that opens a new file: the time stamp is
`now`, rounded down to the hour or to the minute if that boundary lies after
the last check; a second attempt appends the microseconds.  The name is the
base, a dot and the 19 characters of the time; `exit` is called when the name
with the 7 characters of the microseconds leaves 7 or fewer of the 1024
bytes. -/
def log_open (sys : log_calls) (now : Int) (base : String) (nlog : nanny_log) :
    Option nanny_log :=
  let creation : Int := now
  let creation : Int :=
    if nlog.last_rotate_check > 0 then
      if creation - Int.tmod creation 3600 > nlog.last_rotate_check then
        creation - Int.tmod creation 3600
      else if creation - Int.tmod creation 60 > nlog.last_rotate_check then
        creation - Int.tmod creation 60
      else creation
    else creation
  let name : log_filename := { base := base, stamp := creation, usec := none }
  let nlog : nanny_log :=
    { nlog with file_fd := sys.open1, io := nlog.io ++ [log_event.opened name sys.open1] }
  if nlog.file_fd < 0 then
    if (7 : Int) ≥ 1024 - (base.length + 20 + 7 : Nat) then none
    else
      let name : log_filename := { name with usec := some sys.usec }
      let nlog : nanny_log :=
        { nlog with file_fd := sys.open2, io := nlog.io ++ [log_event.opened name sys.open2] }
      if nlog.file_fd ≥ 0 then log_opened sys now base name nlog else some nlog
  else log_opened sys now base name nlog

/-- The first block of `nanny_log_rotate`: an open file is closed when the
last rotation lies before the last full hour or more than 1000000 bytes have
been counted since. -/
def log_rotate_close (now : Int) (nlog : nanny_log) : nanny_log :=
  if nlog.file_fd ≥ 0 ∧
      ((nlog.last_rotate > 0 ∧ nlog.last_rotate < now - Int.tmod now 3600)
        ∨ (nlog.total_bytes + 2 ^ 64 - nlog.last_rotate_bytes) % 2 ^ 64 > 1000000) then
    log_close nlog
  else nlog

/-- The function `nanny_log_rotate(nlog)`, `now` being `nanny_globals.now`. -/
def nanny_log_rotate (sys : log_calls) (now : Int) (nlog : nanny_log) : Option nanny_log :=
  let nlog : nanny_log := log_rotate_close now nlog
  match nlog.filename_base with
  | none => some nlog
  | some base =>
    let r : Option nanny_log := if nlog.file_fd < 0 then log_open sys now base nlog else some nlog
    match r with
    | none => none
    | some nlog => some { nlog with last_rotate_check := now }

/-- The function `nanny_log_update_statistics(nlog)`. -/
def nanny_log_update_statistics (now : Int) (nlog : nanny_log) : nanny_log :=
  if nlog.bps_last_update_time = now then nlog
  else
    let bps : Nat :=
      if nlog.bps_last_update_time = 0 then 0
      else
        ((nlog.total_bytes + 2 ^ 64 - nlog.bps_last_update_bytes) % 2 ^ 64)
          / ((now - nlog.bps_last_update_time) % 2 ^ 64).toNat
    { nlog with
      bytes_per_second := bps, bps_last_update_time := now,
      bps_last_update_bytes := nlog.total_bytes }

/-- One pass of the loop of `nanny_log_printf` that has `n` bytes to copy:
`memcpy` into the ring at `buffp`, advance, count, and go back to the start of
the ring at its end. -/
def log_store (nlog : nanny_log) (bytes : List Nat) (n : Nat) : nanny_log :=
  let buffp : Nat := nlog.buffp + n
  { nlog with
    buff := nlog.buff.take nlog.buffp ++ bytes.take n ++ nlog.buff.drop (nlog.buffp + n),
    total_bytes := (nlog.total_bytes + n) % 2 ^ 64,
    read_count := (nlog.read_count + 1) % 2 ^ 64,
    buffp := if buffp ≥ nlog.buff_size then 0 else buffp }

/-- The loop `while (*p != '\0')` of `nanny_log_printf` on the rest `p` of the
message.  A negative `towrite` is a length `memcpy` cannot copy.  The first
argument bounds the number of passes. -/
def log_copy : Nat → List Nat → nanny_log → Option nanny_log
  | _, [], nlog => some nlog
  | 0, _ :: _, _ => none
  | fuel + 1, b :: bs, nlog =>
    let p : List Nat := b :: bs
    let towrite : Int := p.length
    let towrite : Int :=
      if towrite > (nlog.buff_size : Int) - nlog.buffp then (nlog.buff_size : Int) - nlog.buffp
      else towrite
    if towrite < 0 then none
    else log_copy fuel (p.drop towrite.toNat) (log_store nlog p towrite.toNat)

/-- The call `write(nlog->file_fd, msg, strlen(msg))`. -/
def log_write (nlog : nanny_log) (msg : List Nat) : nanny_log :=
  { nlog with io := nlog.io ++ [log_event.write nlog.file_fd msg] }

/-- The function `nanny_log_printf(nlog, fmt, ...)`, `formatted` being the
bytes the format produces and `now` being `nanny_globals.now`: `vsnprintf`
keeps at most 8191 of them, and the message is what precedes the first NUL.
Every pass of the loop on a ring that has room copies at least one byte, so
the length of the message bounds the passes. -/
def nanny_log_printf (sys : log_calls) (now : Int) (formatted : List Nat) (nlog : nanny_log) :
    Option nanny_log :=
  let msg : List Nat := (formatted.take 8191).takeWhile (fun b => b ≠ 0)
  match nanny_log_rotate sys now nlog with
  | none => none
  | some nlog =>
    let nlog : nanny_log := if nlog.file_fd ≥ 0 then log_write nlog msg else nlog
    match log_copy msg.length msg nlog with
    | none => none
    | some nlog => some (nanny_log_update_statistics now nlog)

/-! ## Invariants of the records -/

/-- Every record of the live list satisfies `P`. -/
def records (P : nanny_child → Prop) (w : World) : Prop :=
  ∀ c ∈ w.live_children, P c

/-- A record in state `NEW`, `RESTARTING` or `STOPPED` has no process:
`pid == 0`. -/
def stopped_pid (c : nanny_child) : Prop :=
  (c.state = child_state.NEW ∨ c.state = child_state.RESTARTING
    ∨ c.state = child_state.STOPPED) → c.pid = 0

/-! ## Scenarios through the loops of `main` -/

/-- What one pass of a loop of `main` meets: the second `t` the clock shows,
the children `wait3` reports, with the system call results for their `ended`
functions, and the system call results for the callbacks of the timers. -/
structure pass where
  t : Int
  reaped : List (Int × wait_status × syscalls)
  env : List syscalls

/-- The pass number `k` of a scenario, at second `t`: the callbacks get the
system call results number `10 * k + 1`, `10 * k + 2`, ... and the `i`-th
child reported gets number `10 * k + 5 + i`. -/
def pass_at (k : Nat) (t : Int) (reaped : List (Int × wait_status)) : pass :=
  { t := t,
    reaped := reaped.enum.map (fun r => (r.2.1, r.2.2, scenario_syscalls (10 * k + 5 + r.1))),
    env := [scenario_syscalls (10 * k + 1), scenario_syscalls (10 * k + 2),
      scenario_syscalls (10 * k + 3), scenario_syscalls (10 * k + 4)] }

/-- The events of `w'` that `w` does not have yet. -/
def new_events (w w' : World) : List event :=
  w'.trace.drop w.trace.length

/-- Passes of the first loop of `main`, one after the other: the state left
and, for each pass, its second and the events of the pass. -/
def run_passes : List pass → World → Option (World × List (Int × List event))
  | [], w => some (w, [])
  | p :: rest, w =>
    match main_loop_pass p.reaped ⟨p.t, 0⟩ p.env p.t w with
    | none => none
    | some r =>
      match run_passes rest r.world with
      | none => none
      | some (w', log) => some (w', (p.t, new_events w r.world) :: log)

/-- Passes of the second loop of `main`,
`while (nanny_stop_all_children()) { ... }`: before each pass
`nanny_stop_all_children` is called, with the system call results number
`10 * k + 8 + i` for the `i`-th record in pass `k`, and the loop ends when it
returns 0.  The result has, for each call, the value it returned, the second
and the events up to the end of the pass. -/
def run_shutdown : Nat → List pass → World → Option (World × List (Int × Int × List event))
  | _, [], w => some (w, [])
  | k, p :: rest, w =>
    match nanny_stop_all_children (fun i => scenario_syscalls (10 * k + 8 + i)) w with
    | none => none
    | some (alive, w1) =>
      if alive = 0 then some (w1, [(alive, p.t, new_events w w1)])
      else
        match main_loop_pass p.reaped ⟨p.t, 0⟩ p.env p.t w1 with
        | none => none
        | some r =>
          match run_shutdown (k + 1) rest r.world with
          | none => none
          | some (w', log) => some (w', (alive, p.t, new_events w r.world) :: log)

/-- The events other than the calls of `nanny_timer_add`. -/
def outward (l : List event) : List event :=
  l.filter (fun e => match e with
    | event.timer_add _ _ _ _ => false
    | _ => true)

/-- The supervisor `nanny -s "/bin/sleep 100000"` with the given stop command,
health command and environment of the child, before the first pass of the
loop: `nanny_child_new`, `nanny_child_set_restartable(child, 1)` and the
setters for what is given.  (`main` itself never sets an environment; the
heartbeat timer of `main`, which touches no record, is left out.) -/
def configured (stop health : Option String) (envp : Option (List String)) : Option World :=
  match nanny_child_new (scenario_syscalls 0) "/bin/sleep 100000" empty_world with
  | none => none
  | some (p, w) =>
    match nanny_child_set_restartable p 1 w with
    | none => none
    | some w =>
      let w1 : Option World :=
        match stop with
        | none => some w
        | some cmd => nanny_child_set_stop p cmd w
      match w1 with
      | none => none
      | some w =>
        let w2 : Option World :=
          match health with
          | none => some w
          | some cmd => nanny_child_set_health p cmd w
        match w2 with
        | none => none
        | some w =>
          match envp with
          | none => some w
          | some e => nanny_child_set_envp p (some e) w

/-- The system call results number `n` for a process that stays alive:
`kill(pid, 0)` succeeds. -/
def alive_syscalls (n : Nat) : syscalls :=
  { scenario_syscalls n with kill0 := 0 }

/-- The pass number `k` at second `t` while the child stays alive. -/
def alive_pass (k : Nat) (t : Int) : pass :=
  { t := t, reaped := [],
    env := [alive_syscalls (10 * k + 1), alive_syscalls (10 * k + 2),
      alive_syscalls (10 * k + 3), alive_syscalls (10 * k + 4)] }

/-- The supervisor with the given stop command and environment after the pass
of the first loop at second 1000, which has started the child with pid 511. -/
def started (stop : Option String) (envp : Option (List String)) : Option World :=
  ((configured stop none envp).bind (run_passes [pass_at 1 1000 []])).map (fun r => r.1)

/-- The shutdown of `started stop envp` from second 2000 on, the child staying
alive: the passes of the second loop of `main` at the seconds given. -/
def stubborn_shutdown (stop : Option String) (envp : Option (List String))
    (seconds : List Int) : Option (World × List (Int × Int × List event)) :=
  (started stop envp).bind
    (run_shutdown 2 (seconds.enum.map (fun s => alive_pass (s.1 + 2) s.2)))

/-- The timers in the heap that call a goal handler for the record at `p`. -/
def pending_state_timers (w : World) (p : Nat) : List timer :=
  w.timers.filter (fun t => t.data == p &&
    (t.f == handler.main_child_goal_running || t.f == handler.main_child_goal_stopped
      || t.f == handler.main_child_goal_restart))

/-- The timers in the heap that call `main_child_health_check` for the record
at `p`. -/
def pending_health_timers (w : World) (p : Nat) : List timer :=
  w.timers.filter (fun t => t.data == p && t.f == handler.main_child_health_check)

/-- The supervisor `nanny -s "/bin/sleep 100000"` whose child, started at
second 1000 with pid 511, has exited with status 1 and has been reported by
`wait3`: the state in which `main_child_ended` returns. -/
def exit_reported : Option World :=
  (started none none).bind
    (nanny_oversee_children [(511, wait_status.exited 1, scenario_syscalls 25)])

/-- The same supervisor after the whole pass at second 1001 that reports the
exit: `main_child_goal_running` has run on the stopped record. -/
def restart_scheduled : Option World :=
  ((started none none).bind (run_passes [pass_at 2 1001 [(511, wait_status.exited 1)]])).map
    (fun r => r.1)

/-- The state `restart_scheduled` after a call of `nanny_stop_all_children`,
as the second loop of `main` makes it when a stop signal has arrived. -/
def restart_then_stop : Option World :=
  (restart_scheduled.bind
    (nanny_stop_all_children (fun i => scenario_syscalls (30 + i)))).map (fun r => r.2)

/-- The shutdown of `started none none` at second 2000 when the process of
the child is gone without a report from `wait3`: `kill(511, 0)` gives -1 in
`main_child_goal_stopped`.  The passes are those of the second loop of
`main`. -/
def vanished_shutdown : Option (World × List (Int × Int × List event)) :=
  (started none none).bind (run_shutdown 2 [pass_at 2 2000 [], pass_at 3 2001 []])

/-- The child of `new_child_world` after a call of `main_child_goal_running`
at second 1000, which has started it with pid 501. -/
def new_child_started : World :=
  match main_child_goal_running (scenario_syscalls 1) 1000 1000 new_child_world with
  | some w => w
  | none => empty_world

/-- The state `new_child_started` after a call of `main_child_goal_stopped` at
second 2000 that finds the process gone. -/
def stale_stop : World :=
  match main_child_goal_stopped (scenario_syscalls 2) 1000 2000 new_child_started with
  | some w => w
  | none => empty_world

/-- The passes for health probes that end with the given exit statuses: the
probe number `i` is launched by the health timer in the pass at second
`1060 + 60 * i`, where it gets the pid `522 + 20 * i`, and is reported by
`wait3` in the pass one second later. -/
def probe_passes (statuses : List Int) : List pass :=
  (statuses.enum.map (fun s =>
    [pass_at (2 + 2 * s.1) (1060 + 60 * s.1) [],
     pass_at (3 + 2 * s.1) (1061 + 60 * s.1)
       [(522 + 20 * (s.1 : Int), wait_status.exited s.2)]])).flatten

/-- The supervisor `nanny -s "/bin/sleep 100000" -h <health>` from the start
of the child at second 1000 through the given probes and the passes after
them. -/
def health_scenario (health : String) (statuses : List Int) (more : List pass) :
    Option (World × List (Int × List event)) :=
  (configured none (some health) none).bind
    (run_passes (pass_at 1 1000 [] :: (probe_passes statuses ++ more)))

/-- The record of the child at the end of a scenario: its state, its state
handler, the two consecutive counters of the health checks (successes,
failures), `failures` and `restart_delay`. -/
def child_view (r : Option (World × List (Int × List event))) :
    Option (child_state × handler × Int × Int × Int × Int) :=
  match r with
  | none => none
  | some (w, _) =>
    match find_child w 1000 with
    | none => none
    | some c =>
      some (c.state, c.state_handler, c.health_successes_consecutive,
        c.health_failures_consecutive, c.failures, c.restart_delay)

/-- The state of `nanny -s "/bin/sleep 100000" -h false` after the pass at
second 1060, in which the health timer has made the check record at address
1021 and its probe has been forked. -/
def probe_world : World :=
  match health_scenario "false" [] [pass_at 2 1060 []] with
  | some r => r.1
  | none => empty_world

/-! ## The grammar of a periodic task -/

/-- A decimal number: one digit or more. -/
def digits (ds : List Char) : Prop :=
  ds ≠ [] ∧ ∀ c ∈ ds, c ≥ '0' ∧ c ≤ '9'

/-- One of the unit characters `d`, `h`, `m`, `s`. -/
def unit_char (u : Char) : Prop :=
  u = 'd' ∨ u = 'h' ∨ u = 'm' ∨ u = 's'

/-- A space or a tab. -/
def blank (c : Char) : Prop :=
  c = ' ' ∨ c = '\t'

/-- The text `n1 u1 ... nk uk` of the terms `(ni, ui)`. -/
def spec_text (terms : List (List Char × Char)) : List Char :=
  (terms.map (fun t => t.1 ++ [t.2])).flatten

/-- The value of a decimal number, from the value `i` of the digits before
it. -/
def decimal_from (i : Int) (ds : List Char) : Int :=
  ds.foldl (fun i c => i * 10 + ((c.toNat : Int) - 48)) i

/-- The value of a decimal number. -/
def decimal (ds : List Char) : Int :=
  decimal_from 0 ds

/-- The seconds of a unit: `d = 86400`, `h = 3600`, `m = 60`, `s = 1`. -/
def seconds_of (u : Char) : Int :=
  if u = 'd' then 86400 else if u = 'h' then 3600 else if u = 'm' then 60 else 1

/-- The sum of `ni * mult(ui)` over the terms. -/
def spec_seconds (terms : List (List Char × Char)) : Int :=
  (terms.map (fun t => decimal t.1 * seconds_of t.2)).sum

/-- The value of `interval` in `parse_interval` after the term `t`, from
its value `acc` before. -/
def term_interval (acc : Int) (t : List Char × Char) : Int :=
  wrap64 (acc + wrap64 ((parse_number 0 t.1).1 * (unit_seconds t.2).getD 0))

/-- The end of a pass of the loop of `parse_interval`, after `++(*p)` has
stepped over the unit: return behind the blanks, or go on with the next
pass. -/
def after_unit (fuel : Nat) (interval : Int) (p : List Char) : Option (Int × List Char) :=
  match p with
  | [] => parse_interval_loop fuel interval p
  | s :: _ =>
    if s = ' ' ∨ s = '\t' then some (interval, p.dropWhile (fun x => x = ' ' ∨ x = '\t'))
    else parse_interval_loop fuel interval p

/-- The specs of the four kinds that are not a periodic task: the text does
not start with a digit; a number is followed by something that is not a
unit; the last unit is followed by something that is neither a blank nor a
digit, or by nothing; nothing follows the blanks after the last unit. -/
def invalid_spec (task : List Char) : Prop :=
  (∀ c, task.head? = some c → ¬ (c ≥ '0' ∧ c ≤ '9')) ∨
  (∃ terms ds rest, (∀ t ∈ terms, digits t.1 ∧ unit_char t.2) ∧ digits ds ∧
    (∀ c, rest.head? = some c → ¬ (c ≥ '0' ∧ c ≤ '9') ∧ ¬ unit_char c) ∧
    task = spec_text terms ++ (ds ++ rest)) ∨
  (∃ terms rest, terms ≠ [] ∧ (∀ t ∈ terms, digits t.1 ∧ unit_char t.2) ∧
    (∀ c, rest.head? = some c → ¬ blank c ∧ ¬ (c ≥ '0' ∧ c ≤ '9')) ∧
    task = spec_text terms ++ rest) ∨
  (∃ terms ws, terms ≠ [] ∧ (∀ t ∈ terms, digits t.1 ∧ unit_char t.2) ∧ ws ≠ [] ∧
    (∀ c ∈ ws, blank c) ∧ task = spec_text terms ++ ws)

/-- A log buffer with a ring of 4 bytes, as `nanny_log_alloc(4)` makes it. -/
def small_log : nanny_log :=
  match nanny_log_alloc true true 4 with
  | some l => l
  | none =>
    { refcnt := 0, filename_base := none, filename := none, file_fd := -1, last_rotate := 0,
      last_rotate_bytes := 0, last_rotate_check := 0, total_bytes := 0, read_count := 0,
      error_count := 0, bytes_per_second := 0, bps_last_update_time := 0,
      bps_last_update_bytes := 0, buff := [], buff_size := 0, buffp := 0, io := [] }

/-- The number of records on the live list that are not in state `STOPPED`. -/
def not_stopped (l : List nanny_child) : Nat :=
  (l.filter (fun c => c.state ≠ child_state.STOPPED)).length

/-- The supervisor `nanny -s "/bin/sleep 100000"` after the pass of the first
loop at second 1000: the child runs with pid 511, its state timer is at the
address 111 and its health timer at 112. -/
def started_world : World :=
  match started none none with
  | some w => w
  | none => empty_world

/-- Strict heap order: every entry is later than its parent. -/
def heap_strict (h : List timer) : Prop :=
  ∀ k, 0 < k → k < h.length → when_at h ((k - 1) / 2) < when_at h k

/-- The array that `nanny_timer_remove(i)` hands to
`nanny_timer_adjust_position`: entry `i` overwritten with the last entry and
the count one less. -/
def moved_last (g : List timer) (i : Nat) : List timer :=
  match g[g.length - 1]? with
  | some last => (g.set i last).take (g.length - 1)
  | none => g.take (g.length - 1)

/-- The state of the upward loop of `nanny_timer_adjust_position` after
`nanny_timer_add` has put the new timer `x` behind the heap `h`: the array `g`
has `x` at index `i`, is in strict order except between `i` and its parent,
and removing index `i` from it gives `h` back. -/
def undo_inv (h : List timer) (x : timer) (g : List timer) (i : Nat) : Prop :=
  g.length = h.length + 1 ∧ i ≤ h.length ∧ g[i]? = some x ∧
  (∀ k, 0 < k → k ≤ h.length → k ≠ i → when_at g ((k - 1) / 2) < when_at g k) ∧
  (∀ k, 0 < k → k ≤ h.length → (k - 1) / 2 = i → 0 < i →
    when_at g ((i - 1) / 2) < when_at g k) ∧
  (i < h.length → 0 < i → when_at g ((i - 1) / 2) < when_at g h.length) ∧
  (∀ fuel, h.length ≤ i + fuel → float_down (moved_last g i) i fuel = h)

/-- Three calls `timer_add(5, t1, NULL)`, with addresses 1 to 3. -/
def tie_schedule : List (Nat × Int) :=
  [(1, 5), (2, 5), (3, 5)]

/-- The heap after the calls of `tie_schedule`: three timers for the same
second, at the indices 0, 1 and 2 in the order of their addresses. -/
def tie_heap : List timer :=
  match timer_test_adds tie_schedule [] with
  | some h => h
  | none => []

/-! ## nanny_core.c: the table of listeners -/

/-- One entry of the array `listener` of `nanny_core.c`: the descriptor, the
handler and the data pointer; the handler and the pointer are 0 when null. -/
structure listener_slot where
  socket : Int
  handler : Nat
  data : Nat
  deriving DecidableEq, Repr

/-- The number of entries of the array `listener`. -/
def LISTENERS : Nat := 512

/-- An entry after `handler = NULL; data = NULL; socket = 0`, which is also
what the zeroed static array holds at program start. -/
def listener_clear : listener_slot :=
  { socket := 0, handler := 0, data := 0 }

/-- The array `listener` at program start. -/
def listener_init : List listener_slot :=
  List.replicate LISTENERS listener_clear

/-- The function `nanny_unregister_server(fd)`: every entry with that
descriptor is cleared. -/
def nanny_unregister_server (fd : Int) (listener : List listener_slot) : List listener_slot :=
  listener.map (fun x => if x.socket = fd then listener_clear else x)

/-- The first loop of `nanny_register_server`: the first entry whose
descriptor is `s` is cleared, and the loop is left. -/
def register_clear (s : Int) : List listener_slot → List listener_slot
  | [] => []
  | x :: rest => if x.socket = s then listener_clear :: rest else x :: register_clear s rest

/-- The second loop of `nanny_register_server`: the first entry whose handler
is null takes the registration, and the function returns; with no such entry
the array stays as it is (the function prints an error). -/
def register_store (handler : Nat) (s : Int) (data : Nat) :
    List listener_slot → List listener_slot
  | [] => []
  | x :: rest =>
    if x.handler = 0 then { socket := s, handler := handler, data := data } :: rest
    else x :: register_store handler s data rest

/-- The function `nanny_register_server(handler, s, data)`. -/
def nanny_register_server (handler : Nat) (s : Int) (data : Nat)
    (listener : List listener_slot) : List listener_slot :=
  register_store handler s data (register_clear s listener)

/-- The entries of the array that carry the descriptor `fd`, in the order of
the array. -/
def slots_of (fd : Int) (listener : List listener_slot) : List listener_slot :=
  listener.filter (fun x => x.socket = fd)

/-- The arrays that calls of `nanny_register_server` with a handler that is
not null and calls of `nanny_unregister_server` make from the array at program
start. -/
inductive listener_reachable : List listener_slot → Prop
  | init : listener_reachable listener_init
  | register (l : List listener_slot) (handler : Nat) (s : Int) (data : Nat) :
      listener_reachable l → handler ≠ 0 →
      listener_reachable (nanny_register_server handler s data l)
  | unregister (l : List listener_slot) (fd : Int) :
      listener_reachable l → listener_reachable (nanny_unregister_server fd l)

/-- An entry with a null handler is a cleared entry. -/
def listener_free_inv (l : List listener_slot) : Prop :=
  ∀ x ∈ l, x.handler = 0 → x = listener_clear

/-- The table after `nanny_register_server(7, 5, 70)`,
`nanny_register_server(8, 6, 80)` and `nanny_unregister_server(5)` on the
array at program start: descriptor 6 is in the second entry, the first is
free. -/
def listener_example : List listener_slot :=
  nanny_unregister_server 5
    (nanny_register_server 8 6 80 (nanny_register_server 7 5 70 listener_init))

/-! ## nanny_main.c and nanny_http_server.c: the choice of the page -/

/-- The functions a `body_processor` of a request can point to. -/
inductive body_handler where
  | nanny_http_environ_body
  | nanny_children_http_status
  | default_http_page
  deriving DecidableEq, Repr

/-- The fields of `struct http_request` that the dispatcher reads and writes:
the URI and the `body_processor`, which is `none` when null. -/
structure http_request where
  uri : List Char
  body_processor : Option body_handler
  deriving DecidableEq, Repr

/-- The function `http_dispatcher(request)` of `nanny_main.c`:
`strcmp(uri, "/environment") == 0`, then `strncmp(uri, "/status", 7) == 0`,
then the default. -/
def http_dispatcher (request : http_request) : http_request :=
  if request.uri = "/environment".toList then
    { request with body_processor := some body_handler.nanny_http_environ_body }
  else if request.uri.take 7 = "/status".toList then
    { request with body_processor := some body_handler.nanny_children_http_status }
  else
    { request with body_processor := some body_handler.default_http_page }

/-- The function `default_http_page(request)`: the strings it hands to
`http_printf`, in order, `hostname` and `isotime` being the results of
`nanny_hostname()` and `nanny_isotime(0)`. -/
def default_http_page (hostname isotime : String) : List String :=
  ["HTTP/1.0 200 OK\x0d\x0a",
   "Content-Type: text/html\x0d\x0a",
   "\x0d\x0a",
   "<HTML>\n",
   "<head><title>Nanny: " ++ hostname ++ "</title></head>\n",
   "<body>\n",
   "<ul>\n",
   "<li>Host: " ++ hostname ++ "\n",
   "<li>Time: " ++ isotime ++ "\n",
   "<li><a href=\x22/status/\x22>Children</a><br/>\n",
   "<li><a href=\x22/environment\x22>Environment</a><br/>\n",
   "</ul>\n",
   "</body>\n",
   "</HTML>\n"]

/-- The function `body404(request)`: the strings it hands to `http_printf`. -/
def body404 (request : http_request) : List String :=
  ["HTTP/1.0 404 NOT FOUND\x0d\x0a",
   "Content-Type: text/plain\x0d\x0a",
   "\x0d\x0a",
   "URI not found: " ++ String.mk request.uri ++ "\n"]

/-- The step of `http_connection` after the request line: the request is
zeroed but for the URI, the dispatcher of the server is called, and the page
is written by the `body_processor` if one is set and by `body404` otherwise.
The pages of `nanny_http_environ_body` and `nanny_children_http_status`, which
depend on the environment and on the children, are passed in. -/
def http_connection_page (dispatcher : http_request → http_request)
    (hostname isotime : String) (environ_page status_page : List String)
    (uri : List Char) : List String :=
  let request : http_request := dispatcher { uri := uri, body_processor := none }
  match request.body_processor with
  | some body_handler.nanny_http_environ_body => environ_page
  | some body_handler.nanny_children_http_status => status_page
  | some body_handler.default_http_page => default_http_page hostname isotime
  | none => body404 request

/-- The function `nanny_log_http_dump_raw(request, nlog)`: the bytes handed
to `http_printf`, first those from `buffp` to the end of the ring, then those
from the start of the ring to `buffp`, a NUL being passed over. -/
def nanny_log_http_dump_raw (nlog : nanny_log) : List Nat :=
  (nlog.buff.drop nlog.buffp).filter (fun b => b ≠ 0)
    ++ (nlog.buff.take nlog.buffp).filter (fun b => b ≠ 0)

/-- Successive calls of `nanny_log_printf` on one buffer, each with the
results of its system calls, the value of `nanny_globals.now` and the bytes
its format produces. -/
def log_printf_all : List (log_calls × Int × List Nat) → nanny_log → Option nanny_log
  | [], nlog => some nlog
  | (sys, now, msg) :: rest, nlog =>
    match nanny_log_printf sys now msg nlog with
    | none => none
    | some nlog => log_printf_all rest nlog

/-- The last `size` bytes of the stream `B`, with NUL bytes in front when the
stream is shorter: what a ring of `size` bytes holds, oldest byte first. -/
def ring_window (size : Nat) (B : List Nat) : List Nat :=
  List.replicate (size - B.length) 0 ++ B.drop (B.length - size)

/-- A buffer without a file whose ring holds the stream `B`: the write
position is `|B| mod size`, the bytes before it are the newest of the window
and the bytes from it on the oldest. -/
def ring_holds (nlog : nanny_log) (B : List Nat) : Prop :=
  nlog.filename_base = none ∧ nlog.file_fd < 0 ∧
  1 ≤ nlog.buff_size ∧ nlog.buffp = B.length % nlog.buff_size ∧
  nlog.buff = (ring_window nlog.buff_size B).drop (nlog.buff_size - nlog.buffp)
    ++ (ring_window nlog.buff_size B).take (nlog.buff_size - nlog.buffp)

/-- Two calls of `nanny_log_printf`, at the seconds 100 and 101, with the
messages `1 2 3` and `4 5 6`. -/
def two_messages : List (log_calls × Int × List Nat) :=
  [(⟨-1, -1, 0, true⟩, 100, [1, 2, 3]), (⟨-1, -1, 0, true⟩, 101, [4, 5, 6])]

/-- The function `nanny_log_set_filename(nlog, fmt, ...)`, `formatted` being
the bytes the format produces (`none` for a null `fmt`): both names are freed,
and the base name becomes a copy of the first 511 characters.  A failed
`strdup` exits. -/
def nanny_log_set_filename (formatted : Option String) (strdup_ok : Bool) (nlog : nanny_log) :
    Option nanny_log :=
  match formatted with
  | none => some { nlog with filename_base := none, filename := none }
  | some name =>
    if strdup_ok = false then none
    else
      some { nlog with
        filename_base := some (String.mk (name.data.take 511)), filename := none }

/-- What `nanny_log_rotate` reads and writes apart from the ring and the
statistics: the base name, the descriptor, the time and the count of the last
rotation, and the calls on files so far. -/
def log_disk (nlog : nanny_log) : Option String × Int × Int × Nat × List log_event :=
  (nlog.filename_base, nlog.file_fd, nlog.last_rotate, nlog.last_rotate_bytes, nlog.io)

/-- The number of calls of `close` among the calls on files. -/
def closes (io : List log_event) : Nat :=
  (io.filter (fun e => match e with
    | log_event.close _ => true
    | _ => false)).length

/-- The number of successful calls of `open` among the calls on files. -/
def opens (io : List log_event) : Nat :=
  (io.filter (fun e => match e with
    | log_event.opened _ fd => decide (0 ≤ fd)
    | _ => false)).length

/-- A log with a base name, within the hour that starts at second `hour`, that
has counted `T` bytes and has seen no rotation by size: either nothing has
been written and no file is open, or the file of the first write is open. -/
def log_before_rotation (hour : Int) (T : Nat) (nlog : nanny_log) : Prop :=
  (∃ base, nlog.filename_base = some base ∧ base.length < 990) ∧
  nlog.buffp < nlog.buff_size ∧ nlog.total_bytes = T ∧ closes nlog.io = 0 ∧
  ((nlog.file_fd < 0 ∧ T = 0 ∧ opens nlog.io = 0)
    ∨ (0 ≤ nlog.file_fd ∧ hour ≤ nlog.last_rotate ∧ opens nlog.io = 1
      ∧ nlog.last_rotate_bytes = 0))

/-- A call of `nanny_log_printf` within the hour that starts at second `hour`
whose first `open` and `strdup` succeed, with a message of 1 to 8191 bytes
without NUL. -/
def write_in_hour (hour : Int) (c : log_calls × Int × List Nat) : Prop :=
  0 ≤ c.1.open1 ∧ c.1.strdup_ok = true ∧ hour ≤ c.2.1 ∧ c.2.1 < hour + 3600 ∧
  c.2.2 ≠ [] ∧ c.2.2.length < 8192 ∧ ∀ b ∈ c.2.2, b ≠ 0

/-- The bytes the messages of the calls have in total. -/
def bytes_written (calls : List (log_calls × Int × List Nat)) : Nat :=
  (calls.map (fun c => c.2.2.length)).sum

/-- A call of `nanny_log_printf` of the scenario: the first `open` succeeds
with descriptor 3, `strdup` succeeds, the second is `now`, and the message is
`n` bytes `A`. -/
def log_call (now : Int) (n : Nat) : log_calls × Int × List Nat :=
  (⟨3, -1, 0, true⟩, now, List.replicate n 65)

/-- The log of the scenario: a ring of 65536 bytes with the base name
`/var/log/nanny_stdout.log`, nothing written. -/
def disk_log : nanny_log :=
  match (nanny_log_alloc true true 65536).bind
      (nanny_log_set_filename (some "/var/log/nanny_stdout.log") true) with
  | some l => l
  | none => small_log

/-- A thousand messages of 1000 bytes and one of 1 byte, all in second 7200:
1000001 bytes. -/
def million_and_one : List (log_calls × Int × List Nat) :=
  List.replicate 1000 (log_call 7200 1000) ++ [log_call 7200 1]

/-! ## nanny_variable.c and nanny_udp_server.c: the query by example

A C string is the list of its bytes before the terminating NUL, each byte a
character. -/

/-- What `nanny_variable` reads: the fields `child_pid`, `http_port`,
`nanny_pid` and `now` of `nanny_globals`, the values of `getgid()` and
`getuid()`, the strings `nanny_hostname()` and `nanny_isotime(0)` return, the
result of `nanny_username()` (`none` when null) and the environment of the
process as pairs of name and value. -/
structure query_vars where
  child_pid : Int
  http_port : Int
  nanny_pid : Int
  now : Int
  gid : Int
  uid : Int
  hostname : List Char
  isotime : List Char
  username : Option (List Char)
  environ : List (List Char × List Char)
  deriving DecidableEq, Repr

/-- The library function `getenv`: the value of the first entry with that
name. -/
def getenv (g : query_vars) (key : List Char) : Option (List Char) :=
  (g.environ.find? (fun e => e.1 = key)).map (fun e => e.2)

/-- The conversion `%jd` of `snprintf`. -/
def print_decimal (i : Int) : List Char :=
  if i < 0 then '-' :: Nat.toDigits 10 i.natAbs else Nat.toDigits 10 i.toNat

/-- The function `nanny_variable_int(key, val)`: `some val` when it returns
non-zero.  The `switch` on `key[0]` enters the list of tests at the label of
that character and falls through every later label, none of them ending in
`break`. -/
def nanny_variable_int (g : query_vars) (key : List Char) : Option Int :=
  let tests : List (Char × List Char × Bool × Int) :=
    [('C', "CHILD_PID".toList, decide (g.child_pid > 0), g.child_pid),
     ('G', "GID".toList, true, g.gid),
     ('H', "HTTP_PORT".toList, decide (g.http_port > 0), g.http_port),
     ('N', "NANNY_PID".toList, decide (g.nanny_pid > 0), g.nanny_pid),
     ('P', "PID".toList, decide (g.child_pid > 0), g.child_pid),
     ('T', "TIME".toList, true, g.now),
     ('U', "UID".toList, true, g.uid)]
  match key with
  | [] => none
  | c :: _ =>
    ((tests.dropWhile (fun t => t.1 ≠ c)).find? (fun t => t.2.1 = key ∧ t.2.2.1 = true)).map
      (fun t => t.2.2.2)

/-- The function `nanny_variable(key)`: `none` when it returns null.  The
second `switch` falls through as the first one does. -/
def nanny_variable (g : query_vars) (key : List Char) : Option (List Char) :=
  match nanny_variable_int g key with
  | some iv => some (print_decimal iv)
  | none =>
    let tests : List (Char × List (List Char) × List Char) :=
      [('H', ["HOSTNAME".toList], g.hostname),
       ('I', ["ISOTIME".toList], g.isotime),
       ('U', ["UNAME".toList, "USERNAME".toList],
          match g.username with
          | some v => v
          | none => "unknown".toList)]
    let found : Option (Char × List (List Char) × List Char) :=
      match key with
      | [] => none
      | c :: _ => (tests.dropWhile (fun t => t.1 ≠ c)).find? (fun t => key ∈ t.2.1)
    match found with
    | some t => some t.2.2
    | none =>
      match getenv g key with
      | some v => if v ≠ [] then some v else none
      | none => none

/-- The characters `isspace` accepts in the C locale. -/
def isspace (c : Char) : Bool :=
  c = ' ' ∨ c = '\t' ∨ c = '\n' ∨ c = Char.ofNat 11 ∨ c = Char.ofNat 12 ∨ c = '\r'

/-- The library function `strtoll(s, NULL, 10)`: white space, an optional
sign, decimal digits, and the value clamped to the range of `long long`. -/
def strtoll (s : List Char) : Int :=
  let s := s.dropWhile isspace
  let neg : Bool := s.head? = some '-'
  let s := if s.head? = some '-' ∨ s.head? = some '+' then s.tail else s
  let n : Int := decimal (s.takeWhile (fun c => c ≥ '0' ∧ c ≤ '9'))
  let v : Int := if neg then -n else n
  if v > 2 ^ 63 - 1 then 2 ^ 63 - 1 else if v < -(2 ^ 63) then -(2 ^ 63) else v

/-- The library function `strcmp`: the difference of the first two bytes that
differ, the end of a string counting as 0. -/
def strcmp : List Char → List Char → Int
  | [], [] => 0
  | [], b :: _ => -(b.toNat : Int)
  | a :: _, [] => (a.toNat : Int)
  | a :: as, b :: bs => if a = b then strcmp as bs else (a.toNat : Int) - (b.toNat : Int)

/-- The function `nanny_variable_compare(key, value)`. -/
def nanny_variable_compare (g : query_vars) (key value : List Char) : Int :=
  match nanny_variable_int g key with
  | some iv =>
    let ref := strtoll value
    if ref < iv then -1 else if ref > iv then 1 else 0
  | none =>
    match nanny_variable g key with
    | none => -1
    | some v => strcmp value v

/-- The function `udp_query_match(key, op, val)`: `none` when it returns
null. -/
def udp_query_match (g : query_vars) (key : List Char) (op : Char) (val : List Char) :
    Option (List Char) :=
  match nanny_variable g key with
  | none => none
  | some myval =>
    let cmp := nanny_variable_compare g key val
    if op = '=' then (if cmp = 0 then some myval else none)
    else if op = '>' then (if cmp < 0 then some myval else none)
    else if op = '<' then (if cmp > 0 then some myval else none)
    else none

/-- The loop `while (*p != '\0')` of `udp_query`, `p` being the rest of the
request, `out` what has been written to `dest` and `outsep` the separator.
The result is the value returned and the content of `dest`.  Every pass
consumes a key that is not empty, so the length of the request bounds the
passes (the first argument). -/
def udp_query_loop (g : query_vars) (destlen : Nat) :
    Nat → List Char → List Char → List Char → Int × List Char
  | 0, _, out, _ => (1, out)
  | fuel + 1, p, out, outsep =>
    match p with
    | [] => (1, out)
    | _ :: _ =>
      let p := p.dropWhile (fun x => x = ' ' ∨ x = '\t')
      let key := p.takeWhile
        (fun x => ¬ (x = ' ' ∨ x = '\t' ∨ x = '=' ∨ x = '<' ∨ x = '>'))
      let p := p.dropWhile
        (fun x => ¬ (x = ' ' ∨ x = '\t' ∨ x = '=' ∨ x = '<' ∨ x = '>'))
      if key = [] then (1, out)
      else
        let found : Option (List Char) × Option (List Char) :=
          match p with
          | [] => (nanny_variable g key, none)
          | keysep :: rest =>
            if keysep = '=' ∨ keysep = '<' ∨ keysep = '>' then
              (udp_query_match g key keysep
                  (rest.takeWhile (fun x => ¬ (x = ' ' ∨ x = '\t'))),
                some (rest.dropWhile (fun x => ¬ (x = ' ' ∨ x = '\t'))))
            else (nanny_variable g key, some (keysep :: rest))
        match found.1 with
        | none => (0, out)
        | some myval =>
          if out.length + outsep.length + key.length + 1 + myval.length ≥ destlen then (0, out)
          else
            match found.2 with
            | none => (1, out ++ outsep ++ key ++ ['='] ++ myval)
            | some p => udp_query_loop g destlen fuel p (out ++ outsep ++ key ++ ['='] ++ myval)
                [' ']

/-- The function `udp_query(p, dest, destlen)`: the value returned and the
string left in `dest`. -/
def udp_query (g : query_vars) (p : List Char) (destlen : Nat) : Int × List Char :=
  udp_query_loop g destlen (p.length + 1) p [] []

/-- The function `udp_query_response(buff, ...)`: the datagram it sends, if it
sends one. -/
def udp_query_response (g : query_vars) (buff : List Char) : Option (List Char) :=
  match buff with
  | '?' :: rest =>
    if (udp_query g rest 2048).1 ≠ 0 then some (udp_query g rest 2048).2 else none
  | _ => none

/-- A supervisor whose HTTP server listens on port 51717 and whose child has
the pid 4242. -/
def serving (g : query_vars) : query_vars :=
  { g with http_port := 51717, child_pid := 4242 }

/-- One token of a request: a key, alone or followed by one of `=`, `<`, `>`
and a value. -/
structure query_token where
  key : List Char
  test : Option (Char × List Char)
  deriving DecidableEq, Repr

/-- The text of a token. -/
def token_text (t : query_token) : List Char :=
  match t.test with
  | none => t.key
  | some (op, v) => t.key ++ op :: v

/-- The text of a request: every token after the blanks that precede it. -/
def query_text : List (List Char × query_token) → List Char
  | [] => []
  | (ws, t) :: rest => ws ++ token_text t ++ query_text rest

/-- A token as the loop of `udp_query` reads it: a key that is not empty and
has no blank and none of `=`, `<`, `>` in it, and, if there is a test, one of
the three operators and a value without blank. -/
def token_wf (t : query_token) : Prop :=
  t.key ≠ [] ∧ (∀ c ∈ t.key, ¬ (c = ' ' ∨ c = '\t' ∨ c = '=' ∨ c = '<' ∨ c = '>')) ∧
  ∀ op v, t.test = some (op, v) →
    (op = '=' ∨ op = '<' ∨ op = '>') ∧ ∀ c ∈ v, ¬ (c = ' ' ∨ c = '\t')

/-- A request of tokens separated by blanks: spaces and tabs before every
token, at least one before every token but the first. -/
def query_wf (toks : List (List Char × query_token)) : Prop :=
  (∀ e ∈ toks, (∀ c ∈ e.1, blank c) ∧ token_wf e.2) ∧ ∀ e ∈ toks.tail, e.1 ≠ []

/-- The assertion `key op v` holds: for a variable `nanny_variable_int` knows,
its value `iv` satisfies `iv = v`, `iv > v` or `iv < v` with `v` read by
`strtoll`; for another variable with the value `s`, `strcmp(v, s)` is zero,
negative (`s` comes after `v`) or positive. -/
def assertion_holds (g : query_vars) (key : List Char) (op : Char) (v : List Char) : Prop :=
  match nanny_variable_int g key with
  | some iv =>
    (op = '=' ∧ strtoll v = iv) ∨ (op = '>' ∧ strtoll v < iv) ∨ (op = '<' ∧ strtoll v > iv)
  | none =>
    match nanny_variable g key with
    | some s =>
      (op = '=' ∧ strcmp v s = 0) ∨ (op = '>' ∧ strcmp v s < 0) ∨ (op = '<' ∧ strcmp v s > 0)
    | none => False

/-- The key of the token is known and its assertion, if it has one, holds. -/
def token_passes (g : query_vars) (t : query_token) : Prop :=
  nanny_variable g t.key ≠ none ∧ ∀ op v, t.test = some (op, v) → assertion_holds g t.key op v

/-- The text `KEY=VALUE` for a token. -/
def reply_item (g : query_vars) (t : query_token) : List Char :=
  t.key ++ '=' :: (nanny_variable g t.key).getD []

/-- The reply: one `KEY=VALUE` per token, in order, with single spaces
between them. -/
def query_reply (g : query_vars) (toks : List query_token) : List Char :=
  [' '].intercalate (toks.map (reply_item g))

/-- What the loop of `udp_query` has for a token: the value to print, or
`none` when it returns 0. -/
def token_answer (g : query_vars) (t : query_token) : Option (List Char) :=
  match t.test with
  | none => nanny_variable g t.key
  | some (op, v) => udp_query_match g t.key op v

/-- What the loop of `udp_query` appends for the tokens, the first after the
separator `outsep`. -/
def rendered (g : query_vars) : List Char → List query_token → List Char
  | _, [] => []
  | outsep, t :: rest => outsep ++ reply_item g t ++ rendered g [' '] rest

/-- The request `HTTP_PORT PID>0` as tokens. -/
def port_pid_query : List (List Char × query_token) :=
  [([], ⟨"HTTP_PORT".toList, none⟩), ([' '], ⟨"PID".toList, some ('>', "0".toList)⟩)]

/-- A supervisor with no child running (`child_pid == 0`), its HTTP server on
port 51717, and an environment that has `HOME` and no `PID`. -/
def idle_vars : query_vars :=
  { child_pid := 0, http_port := 51717, nanny_pid := 99, now := 1000, gid := 20, uid := 10,
    hostname := "host".toList, isotime := "2026-01-01T00:00:00Z".toList, username := none,
    environ := [("HOME".toList, "/root".toList)] }

/-- The supervisor `idle_vars` with a variable `CLASSPATH` of 2100 bytes in
its environment. -/
def long_value_vars : query_vars :=
  { idle_vars with environ := [("CLASSPATH".toList, List.replicate 2100 'x')] }

/-! ## nanny_core.c: the descriptors `nanny_select` waits for -/

/-- The first loop of `nanny_select`, from the value `limit` has so far: an
entry with `socket > 0` is put into `readfds`, and
`if (listener[i].socket > limit) limit = listener[i].socket + 1;`.  The result
is the first argument of `select`. -/
def select_limit : Int → List listener_slot → Int
  | limit, [] => limit
  | limit, x :: rest =>
    if x.socket > 0 then
      select_limit (if x.socket > limit then x.socket + 1 else limit) rest
    else select_limit limit rest

/-- The descriptors the first loop of `nanny_select` puts into `readfds`. -/
def select_readfds (listener : List listener_slot) : List Int :=
  (listener.filter (fun x => x.socket > 0)).map (fun x => x.socket)

/-- The descriptors `select(limit, &readfds, NULL, NULL, tv)` examines: those
of `readfds` below its first argument. -/
def select_examined (listener : List listener_slot) : List Int :=
  (select_readfds listener).filter (fun fd => fd < select_limit 0 listener)

/-- The table after `nanny_register_server(7, 3, 70)` and
`nanny_register_server(8, 4, 80)` on the array at program start: descriptor 3
is in the first entry and descriptor 4 in the second. -/
def listener_3_4 : List listener_slot :=
  nanny_register_server 8 4 80 (nanny_register_server 7 3 70 listener_init)

/-! ## nanny_log.c: reading the output of a child into the ring -/

/-- The values of `errno` that `nanny_log_input_server` tells apart. -/
inductive read_errno where
  | EINTR
  | EAGAIN
  | other
  deriving DecidableEq, Repr

/-- What `read(io->fd, nlog->buffp, count)` meets: the bytes waiting in the
pipe (none at end of file), of which it delivers at most `count`, or a
failure with its `errno`. -/
inductive read_result where
  | waiting (bytes : List Nat)
  | failed (errno : read_errno)
  deriving DecidableEq, Repr

/-- The function `nanny_log_retain(nlog)`. -/
def nanny_log_retain (nlog : nanny_log) : nanny_log :=
  { nlog with refcnt := nlog.refcnt + 1 }

/-- The function `nanny_log_release(nlog)`: the result is `none` when the
count falls to zero and the buffer is freed. -/
def nanny_log_release (nlog : nanny_log) : Option nanny_log :=
  let nlog : nanny_log := { nlog with refcnt := nlog.refcnt - 1 }
  if nlog.refcnt = 0 then none else some nlog

/-- The statements of `nanny_log_input_server` after the rotation, `got`
being the bytes `read` has put into the ring at `buffp`: write them to the
file if there is one, advance `buffp`, count, update the statistics, and go
back to the start of the ring at its end. -/
def log_input_store (now : Int) (got : List Nat) (nlog : nanny_log) : nanny_log :=
  let nlog : nanny_log := if nlog.file_fd ≥ 0 then log_write nlog got else nlog
  let nlog : nanny_log :=
    { nlog with
      buffp := nlog.buffp + got.length,
      read_count := (nlog.read_count + 1) % 2 ^ 64,
      total_bytes := (nlog.total_bytes + got.length) % 2 ^ 64 }
  let nlog : nanny_log := nanny_log_update_statistics now nlog
  { nlog with buffp := if nlog.buffp ≥ nlog.buff_size then 0 else nlog.buffp }

/-- The function `nanny_log_input_server(_io)` on the buffer `io->buff`, `rd`
being what `read` meets, `message` the bytes the format of the "Read Error"
message produces and `now` the value of `nanny_globals.now`.  The result is
`none` where the rotation leaves by `exit`, and `some none` where the buffer
has been freed at end of file. -/
def nanny_log_input_server (sys : log_calls) (now : Int) (rd : read_result)
    (message : List Nat) (nlog : nanny_log) : Option (Option nanny_log) :=
  match rd with
  | read_result.failed errno =>
    let nlog : nanny_log := { nlog with error_count := (nlog.error_count + 1) % 2 ^ 64 }
    if errno = read_errno.EINTR then some (some nlog)
    else if errno = read_errno.EAGAIN then some (some nlog)
    else
      match nanny_log_printf sys now message nlog with
      | none => none
      | some nlog => some (some nlog)
  | read_result.waiting bytes =>
    let got : List Nat := bytes.take (nlog.buff_size - nlog.buffp)
    let bytesread : Nat := got.length
    if bytesread = 0 then some (nanny_log_release nlog)
    else
      let nlog : nanny_log :=
        { nlog with
          buff := nlog.buff.take nlog.buffp ++ got ++ nlog.buff.drop (nlog.buffp + bytesread) }
      match nanny_log_rotate sys now nlog with
      | none => none
      | some nlog => some (some (log_input_store now got nlog))

/-- The states of a log buffer made by `nanny_log_alloc(size)` whose ring
`malloc` has given: what calls of `nanny_log_set_filename`,
`nanny_log_retain`, `nanny_log_printf` and `nanny_log_input_server` that
return leave of it, as long as it is not freed. -/
inductive log_reachable (size : Nat) : nanny_log → Prop
  | alloc (l : nanny_log) : nanny_log_alloc true true size = some l → log_reachable size l
  | set_filename (formatted : Option String) (strdup_ok : Bool) (l r : nanny_log) :
      log_reachable size l → nanny_log_set_filename formatted strdup_ok l = some r →
      log_reachable size r
  | retain (l : nanny_log) : log_reachable size l → log_reachable size (nanny_log_retain l)
  | printf (sys : log_calls) (now : Int) (formatted : List Nat) (l r : nanny_log) :
      log_reachable size l → nanny_log_printf sys now formatted l = some r →
      log_reachable size r
  | input (sys : log_calls) (now : Int) (rd : read_result) (message : List Nat)
      (l r : nanny_log) :
      log_reachable size l → nanny_log_input_server sys now rd message l = some (some r) →
      log_reachable size r

/-- The buffer `small_log` after a read of the five bytes `1 2 3 4 5` waiting
in the pipe, of which the ring of 4 bytes takes four. -/
def small_log_read : Option (Option nanny_log) :=
  nanny_log_input_server ⟨-1, -1, 0, true⟩ 100 (read_result.waiting [1, 2, 3, 4, 5]) [] small_log
/-- The buffer `small_log` after that read: the write position is back at
the start of the ring. -/
def small_log_filled : nanny_log :=
  match small_log_read with
  | some (some r) => r
  | _ => small_log

/-! ## Scenarios: a restart forced by failing health checks -/

/-- The pass number `k` at second `t` while the child stays alive, in which
`wait3` reports the given children. -/
def alive_reap (k : Nat) (t : Int) (reaped : List (Int × wait_status)) : pass :=
  { alive_pass k t with
    reaped := reaped.enum.map (fun r => (r.2.1, r.2.2, alive_syscalls (10 * k + 5 + r.1))) }

/-- The supervisor `nanny -s "/bin/sleep 100000" -h false` whose child, pid
511, stays alive: four probes have failed, the fifth is launched at second
1300 with pid 602 and reported with exit status 1 in the pass at second 1301,
which forces the restart; then the given passes. -/
def forced_restart (more : List pass) : Option (World × List (Int × List event)) :=
  health_scenario "false" [1, 1, 1, 1]
    ([pass_at 10 1300 [], alive_reap 11 1301 [(602, wait_status.exited 1)]] ++ more)

/-- The same supervisor when the child exits with status 1 while the fifth
probe is under way: the exit is reported in the pass at second 1301, which
sets the restart for second 1302; then the given passes. -/
def exit_during_probe (more : List pass) : Option (World × List (Int × List event)) :=
  health_scenario "false" [1, 1, 1, 1]
    ([pass_at 10 1300 [], pass_at 11 1301 [(511, wait_status.exited 1)]] ++ more)

/-- The second and the events other than timers of the last pass of a
scenario. -/
def last_pass (r : Option (World × List (Int × List event))) : Option (Int × List event) :=
  match r with
  | none => none
  | some (_, log) => log.getLast?.map (fun e => (e.1, outward e.2))

/-- The pid, the state and the state handler of the record at `p`, and the
seconds of the timers pending for its goal handlers and for its health
check. -/
def child_timers (w : World) (p : Nat) :
    Option (Int × child_state × handler × List Int × List Int) :=
  (find_child w p).map (fun c =>
    (c.pid, c.state, c.state_handler, (pending_state_timers w p).map (fun t => t.when),
      (pending_health_timers w p).map (fun t => t.when)))

/-- The supervisor `nanny -s "/bin/sleep 100000" -S /bin/true` after the pass
of the first loop at second 1000, which has started the child with pid 511;
the environment of the record is the one given. -/
def stop_cmd_world (envp : Option (List String)) : World :=
  match started (some "/bin/true") envp with
  | some w => w
  | none => empty_world

/-- System call results for a call of `nanny_child_add_periodic`: the record
at address 3000, `strdup` and `calloc` succeeding, `random()` giving 12345,
`time(NULL)` giving 1000 and the timer at address 3001. -/
def periodic_example_calls : periodic_calls :=
  { t := 3000, strdup_ok := true, calloc_ok := true, i := 0, random := 12345, time := 1000,
    timer := 3001 }

/-! ## The order of strings by bytes -/

/-- The string `a` comes before the string `b` in the lexicographic order of
their bytes: at the first position where they differ `a` has the smaller
byte, or `a` ends there and `b` does not. -/
def lex_lt : List Char → List Char → Bool
  | _, [] => false
  | [], _ :: _ => true
  | a :: as, b :: bs => decide (a.toNat < b.toNat) || (decide (a = b) && lex_lt as bs)

/-- The supervisor `serving idle_vars`: HTTP server on port 51717, child with
pid 4242, host name `host`. -/
def serving_example : query_vars :=
  serving idle_vars

/-! ## What `nanny_stop_all_children` leaves -/

/-- The loop of `nanny_stop_all_children` switches this record to the
stopping state machine: it is not in state `STOPPED` and its state handler is
not `main_child_goal_stopped` yet. -/
def switched (c : nanny_child) : Prop :=
  c.state ≠ child_state.STOPPED ∧ c.state_handler ≠ handler.main_child_goal_stopped

instance (c : nanny_child) : Decidable (switched c) := by
  unfold switched
  exact inferInstance

/-- The record one pass of the loop of `nanny_stop_all_children` leaves of
`child`, the new timer being at the address `t`: a record in state `STOPPED`
gets the handler only, a record that has the handler already is skipped, and
any other record loses its periodic tasks and its two timers and gets the
handler and the new timer. -/
def stop_record (t : Nat) (child : nanny_child) : nanny_child :=
  if child.state = child_state.STOPPED then
    { child with state_handler := handler.main_child_goal_stopped }
  else if child.state_handler = handler.main_child_goal_stopped then child
  else
    { child with
      timed := [], state_timer := t, health_timer := 0,
      state_handler := handler.main_child_goal_stopped }

/-- The records the loop of `nanny_stop_all_children` leaves of the records
`cs`, the first of which is at position `n` of the live list. -/
def stop_records (env : Nat → syscalls) : Nat → List nanny_child → List nanny_child
  | _, [] => []
  | n, c :: rest => stop_record (env n).timer1 c :: stop_records env (n + 1) rest

/-- A supervisor whose child has the periodic task `60s cmd`, with its timer
at address 3001, and is not restartable: started at second 1000 with pid 511,
the child has exited with status 1 and stays in state `STOPPED`. -/
def periodic_stopped_world : World :=
  match (nanny_child_add_periodic periodic_example_calls 1000 "60s cmd" new_child_world).bind
      (fun r => run_passes [pass_at 1 1000 [], pass_at 2 1001 [(511, wait_status.exited 1)]]
        r.2) with
  | some r => r.1
  | none => empty_world

/-- The supervisor `nanny -s "/bin/sleep 100000" -h false -t "1h cmd"` of
`exit_during_probe`, with the periodic task `1h cmd`, after the passes that
leave the restartable child in state `STOPPED` for good. -/
def periodic_stuck_world : World :=
  match ((configured none (some "false") none).bind
      (nanny_child_add_periodic periodic_example_calls 1000 "1h cmd")).bind
      (fun r => run_passes (pass_at 1 1000 [] :: (probe_passes [1, 1, 1, 1] ++
        [pass_at 10 1300 [], pass_at 11 1301 [(511, wait_status.exited 1)],
         pass_at 12 1301 [(602, wait_status.exited 1)], pass_at 13 1302 [],
         pass_at 14 1303 []])) r.2) with
  | some r => r.1
  | none => empty_world

/-- The state of a live list and a heap that a call of
`nanny_stop_all_children` is looked at: for each record its state, its state
handler and the timer handles of its periodic tasks, and for each timer its
address, its function and its argument. -/
def teardown_view (w : World) :
    List (child_state × handler × List Nat) × List (Nat × handler × Nat) :=
  (w.live_children.map (fun c => (c.state, c.state_handler, c.timed.map (fun t => t.timer))),
    w.timers.map (fun t => (t.ptr, t.f, t.data)))

/-- The state of `started_world` with the periodic task `60s cmd` added to
the running child. -/
def periodic_running_world : World :=
  match nanny_child_add_periodic periodic_example_calls 1000 "60s cmd" started_world with
  | some r => r.2
  | none => empty_world
/-! ## Lemmas -/

theorem length_SWAP_TIMERS (h : List timer) (a b : Nat) :
    (SWAP_TIMERS h a b).length = h.length := by
  unfold SWAP_TIMERS
  split <;> simp

theorem when_at_SWAP_TIMERS (h : List timer) (a b k : Nat) (ha : a < h.length)
    (hb : b < h.length) :
    when_at (SWAP_TIMERS h a b) k
      = if k = b then when_at h a else if k = a then when_at h b else when_at h k := by
  unfold SWAP_TIMERS when_at
  rw [List.getElem?_eq_getElem ha, List.getElem?_eq_getElem hb]
  simp only [List.getElem?_set, List.length_set]
  by_cases h1 : k = b
  · subst h1; simp [hb]
  · by_cases h2 : k = a
    · subst h2
      have : ¬ b = k := fun e => h1 e.symm
      simp [this, ha, h1]
    · have e1 : ¬ b = k := fun e => h1 e.symm
      have e2 : ¬ a = k := fun e => h2 e.symm
      simp [e1, e2, h1, h2]

theorem perm_set_cons {α : Type} (l : List α) (i : Nat) (x : α) (hi : i < l.length) :
    (l[i] :: l.set i x).Perm (x :: l) := by
  induction l generalizing i with
  | nil => simp at hi
  | cons y t ih =>
    cases i with
    | zero => simp; exact List.Perm.swap _ _ _
    | succ n =>
      simp only [List.length_cons, Nat.add_lt_add_iff_right] at hi
      simp only [List.getElem_cons_succ, List.set_cons_succ]
      have := ih n hi
      exact (List.Perm.swap _ _ _).trans (((this.cons y).trans (List.Perm.swap _ _ _)))

theorem perm_SWAP_TIMERS (h : List timer) (a b : Nat) : (SWAP_TIMERS h a b).Perm h := by
  unfold SWAP_TIMERS
  split
  · rename_i ta tb ea eb
    have ha : a < h.length := by
      by_contra hc; rw [List.getElem?_eq_none (by omega)] at ea; cases ea
    have hb : b < h.length := by
      by_contra hc; rw [List.getElem?_eq_none (by omega)] at eb; cases eb
    rw [List.getElem?_eq_getElem ha] at ea
    rw [List.getElem?_eq_getElem hb] at eb
    cases ea; cases eb
    by_cases hab : a = b
    · subst hab
      have e : (h.set a h[a]).set a h[a] = h := by
        apply List.ext_getElem?
        intro n
        simp only [List.getElem?_set, List.length_set]
        by_cases hn : a = n
        · subst hn; simp [ha]
        · simp [hn]
      rw [e]
    · have hb2 : b < (h.set a h[b]).length := by simpa using hb
      have e1 : (h.set a h[b])[b] = h[b] := by
        rw [List.getElem_set]; simp [hab]
      have p1 := perm_set_cons (h.set a h[b]) b h[a] hb2
      rw [e1] at p1
      have p2 := perm_set_cons h a h[b] ha
      -- h[b] :: S2 ~ h[a] :: S1 ; h[a] :: S1 ~ h[b] :: h
      exact (List.Perm.cons_inv (p1.trans p2))
  · exact List.Perm.refl _

theorem float_up_perm (fuel : Nat) : ∀ (h : List timer) (i : Nat),
    (float_up h i fuel).Perm h := by
  induction fuel with
  | zero => intro h i; exact List.Perm.refl _
  | succ n ih =>
    intro h i
    unfold float_up
    simp only
    split
    · exact (ih _ _).trans (perm_SWAP_TIMERS h i _)
    · exact List.Perm.refl _

theorem float_down_perm (fuel : Nat) : ∀ (h : List timer) (i : Nat),
    (float_down h i fuel).Perm h := by
  induction fuel with
  | zero => intro h i; exact List.Perm.refl _
  | succ n ih =>
    intro h i
    unfold float_down
    split
    · split
      · exact List.Perm.refl _
      · exact (ih _ _).trans (perm_SWAP_TIMERS h _ i)
    · exact List.Perm.refl _

theorem float_up_heap (fuel : Nat) : ∀ (h : List timer) (i : Nat),
    i < h.length → i < fuel → up_inv h i → heap_ok (float_up h i fuel) := by
  induction fuel with
  | zero => intro h i _ hf; omega
  | succ n ih =>
    intro h i hi hf hU
    unfold float_up
    simp only
    split
    · rename_i hc
      obtain ⟨hij, hlt⟩ := hc
      have hjn : (i - 1) / 2 < h.length := by omega
      apply ih
      · rw [length_SWAP_TIMERS]; exact hjn
      · omega
      · have hi0 : 0 < i := by omega
        constructor
        · intro k hk0 hkn hkj
          rw [length_SWAP_TIMERS] at hkn
          rw [when_at_SWAP_TIMERS h i _ _ hi hjn, when_at_SWAP_TIMERS h i _ _ hi hjn]
          have hpk : (k - 1) / 2 < k := by omega
          by_cases hki : k = i
          · subst hki
            simp only [if_true]
            omega
          · rw [if_neg hkj, if_neg hki]
            have u1 := hU.1 k hk0 hkn hki
            by_cases hpj : (k - 1) / 2 = (i - 1) / 2
            · rw [if_pos hpj]
              rw [hpj] at u1
              omega
            · rw [if_neg hpj]
              by_cases hpi : (k - 1) / 2 = i
              · rw [if_pos hpi]
                exact hU.2 k hk0 hkn hpi hi0
              · rw [if_neg hpi]
                exact u1
        · intro k hk0 hkn hpj hj0
          rw [length_SWAP_TIMERS] at hkn
          rw [when_at_SWAP_TIMERS h i _ _ hi hjn, when_at_SWAP_TIMERS h i _ _ hi hjn]
          have hq1 : ¬ ((i - 1) / 2 - 1) / 2 = (i - 1) / 2 := by omega
          have hq2 : ¬ ((i - 1) / 2 - 1) / 2 = i := by omega
          rw [if_neg hq1, if_neg hq2]
          have uj := hU.1 ((i - 1) / 2) hj0 hjn (by omega)
          have hkj : ¬ k = (i - 1) / 2 := by omega
          rw [if_neg hkj]
          by_cases hki : k = i
          · rw [if_pos hki]; exact uj
          · rw [if_neg hki]
            have u1 := hU.1 k hk0 hkn hki
            rw [hpj] at u1
            omega
    · rename_i hc
      intro k hk0 hkn
      by_cases hki : k = i
      · subst hki
        have : ¬ when_at h k < when_at h ((k - 1) / 2) := by
          intro hlt; exact hc ⟨by omega, hlt⟩
        omega
      · exact hU.1 k hk0 hkn hki

theorem earliest_of_cases (h : List timer) (i : Nat) :
    (earliest_of h i = i ∨
      (earliest_of h i = i * 2 + 1 ∧ i * 2 + 1 < h.length) ∨
      (earliest_of h i = i * 2 + 2 ∧ i * 2 + 2 < h.length)) ∧
    when_at h (earliest_of h i) ≤ when_at h i ∧
    (earliest_of h i ≠ i → when_at h (earliest_of h i) < when_at h i) ∧
    (i * 2 + 1 < h.length → when_at h (earliest_of h i) ≤ when_at h (i * 2 + 1)) ∧
    (i * 2 + 2 < h.length → when_at h (earliest_of h i) ≤ when_at h (i * 2 + 2)) := by
  unfold earliest_of
  simp only
  by_cases ha : i * 2 + 1 < h.length ∧ when_at h (i * 2 + 1) < when_at h i
  · rw [if_pos ha]
    by_cases hb : i * 2 + 2 < h.length ∧ when_at h (i * 2 + 2) < when_at h (i * 2 + 1)
    · rw [if_pos hb]
      refine ⟨Or.inr (Or.inr ⟨rfl, hb.1⟩), ?_, ?_, ?_, ?_⟩ <;> intros <;> omega
    · rw [if_neg hb]
      refine ⟨Or.inr (Or.inl ⟨rfl, ha.1⟩), ?_, ?_, ?_, ?_⟩
      · omega
      · intro _; omega
      · intro _; omega
      · intro hb2
        have : ¬ when_at h (i * 2 + 2) < when_at h (i * 2 + 1) := fun c => hb ⟨hb2, c⟩
        omega
  · rw [if_neg ha]
    by_cases hb : i * 2 + 2 < h.length ∧ when_at h (i * 2 + 2) < when_at h i
    · rw [if_pos hb]
      refine ⟨Or.inr (Or.inr ⟨rfl, hb.1⟩), ?_, ?_, ?_, ?_⟩
      · omega
      · intro _; omega
      · intro ha2
        have : ¬ when_at h (i * 2 + 1) < when_at h i := fun c => ha ⟨ha2, c⟩
        omega
      · intro _; omega
    · rw [if_neg hb]
      refine ⟨Or.inl rfl, ?_, ?_, ?_, ?_⟩
      · omega
      · intro c; exact absurd rfl c
      · intro ha2
        have : ¬ when_at h (i * 2 + 1) < when_at h i := fun c => ha ⟨ha2, c⟩
        omega
      · intro hb2
        have : ¬ when_at h (i * 2 + 2) < when_at h i := fun c => hb ⟨hb2, c⟩
        omega

theorem float_down_heap (fuel : Nat) : ∀ (h : List timer) (i : Nat),
    h.length ≤ i + fuel → down_inv h i → heap_ok (float_down h i fuel) := by
  induction fuel with
  | zero =>
    intro h i hf hD k hk0 hkn
    exact hD.1 k hk0 hkn (by simp only [float_down] at hkn; omega)
  | succ n ih =>
    intro h i hf hD
    unfold float_down
    obtain ⟨hcase, hmi, hlt, hma, hmb⟩ := earliest_of_cases h i
    split
    · rename_i hi
      split
      · rename_i hm
        rw [hm] at hma hmb
        intro k hk0 hkn
        by_cases hp : (k - 1) / 2 = i
        · rw [hp]
          have : k = i * 2 + 1 ∨ k = i * 2 + 2 := by omega
          rcases this with e | e
          · subst e; exact hma hkn
          · subst e; exact hmb hkn
        · exact hD.1 k hk0 hkn hp
      · rename_i hm
        have hlt2 := hlt hm
        generalize earliest_of h i = m at *
        have hmn : m < h.length := by omega
        have hpm : (m - 1) / 2 = i := by omega
        have hm0 : 0 < m := by omega
        apply ih
        · rw [length_SWAP_TIMERS]; omega
        · constructor
          · intro k hk0 hkn hpk
            rw [length_SWAP_TIMERS] at hkn
            rw [when_at_SWAP_TIMERS h m i _ hmn hi, when_at_SWAP_TIMERS h m i _ hmn hi]
            by_cases hkm : k = m
            · subst hkm
              rw [if_pos hpm, if_neg (by omega), if_pos rfl]
              omega
            · rw [if_neg hkm]
              by_cases hki : k = i
              · subst hki
                rw [if_pos rfl]
                have hq1 : ¬ (k - 1) / 2 = k := by omega
                have hq2 : ¬ (k - 1) / 2 = m := by omega
                rw [if_neg hq1, if_neg hq2]
                exact hD.2 m hm0 hmn hpm hk0
              · rw [if_neg hki]
                by_cases hpi : (k - 1) / 2 = i
                · rw [if_pos hpi]
                  have : k = i * 2 + 1 ∨ k = i * 2 + 2 := by omega
                  rcases this with e | e
                  · subst e; exact hma hkn
                  · subst e; exact hmb hkn
                · rw [if_neg hpi, if_neg hpk]
                  exact hD.1 k hk0 hkn hpi
          · intro k hk0 hkn hpk _
            rw [length_SWAP_TIMERS] at hkn
            rw [when_at_SWAP_TIMERS h m i _ hmn hi, when_at_SWAP_TIMERS h m i _ hmn hi]
            rw [if_pos hpm]
            have hki : ¬ k = i := by omega
            have hkm : ¬ k = m := by omega
            rw [if_neg hki, if_neg hkm]
            have := hD.1 k hk0 hkn (by omega)
            rw [hpk] at this
            exact this
    · rename_i hi
      intro k hk0 hkn
      exact hD.1 k hk0 hkn (by omega)

theorem adjust_position_perm (h : List timer) (i : Nat) :
    (nanny_timer_adjust_position h i).Perm h := by
  unfold nanny_timer_adjust_position
  split
  · exact float_up_perm _ _ _
  · exact float_down_perm _ _ _

theorem adjust_position_heap (h : List timer) (i : Nat) (hi : i < h.length)
    (hA : adj_inv h i) : heap_ok (nanny_timer_adjust_position h i) := by
  unfold nanny_timer_adjust_position
  split
  · rename_i hc
    apply float_up_heap _ _ _ hi (by omega)
    constructor
    · intro k hk0 hkn hki
      by_cases hp : (k - 1) / 2 = i
      · have := hA.2 k hk0 hkn hp hc.1
        rw [hp]
        omega
      · exact hA.1 k hk0 hkn hki hp
    · exact hA.2
  · rename_i hc
    apply float_down_heap _ _ _ (by omega)
    constructor
    · intro k hk0 hkn hp
      by_cases hki : k = i
      · subst hki
        have : ¬ when_at h k < when_at h ((k - 1) / 2) := fun c => hc ⟨hk0, c⟩
        omega
      · exact hA.1 k hk0 hkn hki hp
    · exact hA.2

theorem when_at_of_lt (h : List timer) (k : Nat) (hk : k < h.length) :
    when_at h k = h[k].when := by
  unfold when_at
  rw [List.getElem?_eq_getElem hk]

theorem take_set_last (h : List timer) (i : Nat) (x : timer) (hi : i < h.length - 1) :
    (h.set i x).take (h.length - 1) = (h.take (h.length - 1)).set i x := by
  apply List.ext_getElem?
  intro n
  simp only [List.getElem?_take, List.getElem?_set, List.length_take, List.length_set]
  by_cases hn : n < h.length - 1
  · by_cases e : i = n
    · subst e
      have h1 : i < h.length := by omega
      have h2 : i < min (h.length - 1) h.length := by omega
      simp [hn, h1, h2]
    · simp [hn, e]
  · have e : ¬ i = n := by omega
    simp [hn, e]

theorem take_set_self (h : List timer) (x : timer) :
    (h.set (h.length - 1) x).take (h.length - 1) = h.take (h.length - 1) := by
  apply List.ext_getElem?
  intro n
  simp only [List.getElem?_take, List.getElem?_set]
  by_cases hn : n < h.length - 1
  · have e : ¬ h.length - 1 = n := by omega
    simp [hn, e]
  · simp [hn]

theorem take_append_last (h : List timer) (hn : 0 < h.length) :
    h.take (h.length - 1) ++ [h[h.length - 1]] = h := by
  have h1 := List.take_append_drop (h.length - 1) h
  have h2 : h.drop (h.length - 1) = [h[h.length - 1]] := by
    rw [List.drop_eq_getElem_cons (by omega)]
    have : h.length - 1 + 1 = h.length := by omega
    rw [this, List.drop_length]
  rw [h2] at h1
  exact h1

/-- Removing entry `i` leaves the other entries, in some order. -/
theorem remove_perm (h : List timer) (i : Nat) (hi : i < h.length) :
    h.Perm (h[i] :: nanny_timer_remove h i) := by
  unfold nanny_timer_remove
  have hn : 0 < h.length := by omega
  rw [if_neg (by omega)]
  simp only
  rw [List.getElem?_eq_getElem (by omega : h.length - 1 < h.length)]
  simp only
  have hlast := take_append_last h hn
  by_cases hic : i < h.length - 1
  · rw [if_pos hic]
    refine List.Perm.trans ?_ (List.Perm.cons _ (adjust_position_perm _ _).symm)
    rw [take_set_last h i _ hic]
    have hi2 : i < (h.take (h.length - 1)).length := by
      simp only [List.length_take]; omega
    have p := perm_set_cons (h.take (h.length - 1)) i h[h.length - 1] hi2
    have e : (h.take (h.length - 1))[i] = h[i] := by
      rw [List.getElem_take]
    rw [e] at p
    refine List.Perm.trans ?_ p.symm
    have q : (h.take (h.length - 1) ++ [h[h.length - 1]]).Perm
        (h[h.length - 1] :: h.take (h.length - 1)) :=
      @List.perm_append_comm timer (h.take (h.length - 1)) [h[h.length - 1]]
    rw [hlast] at q
    exact q
  · rw [if_neg hic]
    have e : i = h.length - 1 := by omega
    subst e
    rw [take_set_self]
    have q : (h.take (h.length - 1) ++ [h[h.length - 1]]).Perm
        (h[h.length - 1] :: h.take (h.length - 1)) :=
      @List.perm_append_comm timer (h.take (h.length - 1)) [h[h.length - 1]]
    rw [hlast] at q
    exact q

theorem when_at_take (h : List timer) (n k : Nat) (hk : k < n) :
    when_at (h.take n) k = when_at h k := by
  unfold when_at
  rw [List.getElem?_take, if_pos hk]

theorem when_at_set (h : List timer) (i k : Nat) (x : timer) (hi : i < h.length) :
    when_at (h.set i x) k = if k = i then x.when else when_at h k := by
  unfold when_at
  rw [List.getElem?_set]
  by_cases e : i = k
  · subst e; simp [hi]
  · have : ¬ k = i := fun c => e c.symm
    simp [e, this]

/-- Removing entry `i` of a heap leaves a heap. -/
theorem remove_heap (h : List timer) (i : Nat) (hi : i < h.length) (hh : heap_ok h) :
    heap_ok (nanny_timer_remove h i) := by
  unfold nanny_timer_remove
  rw [if_neg (by omega)]
  simp only
  rw [List.getElem?_eq_getElem (by omega : h.length - 1 < h.length)]
  simp only
  by_cases hic : i < h.length - 1
  · rw [if_pos hic]
    have hlen : ((h.set i h[h.length - 1]).take (h.length - 1)).length = h.length - 1 := by
      simp only [List.length_take, List.length_set]; omega
    have hw : ∀ k, k < h.length - 1 →
        when_at ((h.set i h[h.length - 1]).take (h.length - 1)) k
          = if k = i then h[h.length - 1].when else when_at h k := by
      intro k hk
      rw [when_at_take _ _ _ hk, when_at_set _ _ _ _ hi]
    apply adjust_position_heap _ _ (by omega)
    constructor
    · intro k hk0 hkn hki hp
      rw [hlen] at hkn
      rw [hw k hkn, hw _ (by omega), if_neg hki, if_neg hp]
      exact hh k hk0 (by omega)
    · intro k hk0 hkn hp hi0
      rw [hlen] at hkn
      rw [hw k hkn, hw _ (by omega), if_neg (by omega), if_neg (by omega)]
      have h1 := hh k hk0 (by omega)
      have h2 := hh i hi0 hi
      rw [hp] at h1
      omega
  · rw [if_neg hic]
    have e : i = h.length - 1 := by omega
    subst e
    rw [take_set_self]
    intro k hk0 hkn
    simp only [List.length_take] at hkn
    rw [when_at_take _ _ _ (by omega), when_at_take _ _ _ (by omega)]
    exact hh k hk0 (by omega)

theorem when_at_append_left (h : List timer) (x : timer) (k : Nat) (hk : k < h.length) :
    when_at (h ++ [x]) k = when_at h k := by
  unfold when_at
  rw [List.getElem?_append_left hk]

/-- Adding a timer to a heap leaves a heap that holds the old entries and the
new one. -/
theorem add_spec (h : List timer) (t : Nat) (when : Int) (f : handler) (data : Nat)
    (ht : t ≠ 0) (hlen : h.length + 1 < MAX_TIMERS) (hh : heap_ok h) :
    ∃ h', nanny_timer_add h t when f data = some (t, h') ∧ heap_ok h' ∧
      h'.Perm (⟨t, when, data, f⟩ :: h) := by
  unfold nanny_timer_add
  rw [if_neg ht, if_pos hlen]
  refine ⟨_, rfl, ?_, ?_⟩
  · apply adjust_position_heap _ _ (by simp)
    constructor
    · intro k hk0 hkn hki _
      simp only [List.length_append, List.length_singleton] at hkn
      rw [when_at_append_left _ _ _ (by omega), when_at_append_left _ _ _ (by omega)]
      exact hh k hk0 (by omega)
    · intro k hk0 hkn hp _
      simp only [List.length_append, List.length_singleton] at hkn
      omega
  · refine (adjust_position_perm _ _).trans ?_
    exact @List.perm_append_comm timer h [⟨t, when, data, f⟩]

/-- Adding a timer keeps the old entries and puts in the new one, whatever the
order of the heap was. -/
theorem add_spec_perm (h : List timer) (t : Nat) (when : Int) (f : handler) (data : Nat)
    (ht : t ≠ 0) (hlen : h.length + 1 < MAX_TIMERS) :
    ∃ h', nanny_timer_add h t when f data = some (t, h') ∧
      h'.Perm (⟨t, when, data, f⟩ :: h) := by
  unfold nanny_timer_add
  rw [if_neg ht, if_pos hlen]
  refine ⟨_, rfl, ?_⟩
  refine (adjust_position_perm _ _).trans ?_
  exact @List.perm_append_comm timer h [⟨t, when, data, f⟩]

/-- Deleting by address either finds nothing and changes nothing, or removes
one entry with that address. -/
theorem delete_spec (h : List timer) (t : Nat) (hh : heap_ok h) :
    heap_ok (nanny_timer_delete h t) ∧
    ((nanny_timer_delete h t = h ∧ (t = 0 ∨ ∀ x ∈ h, x.ptr ≠ t)) ∨
     (∃ x, x.ptr = t ∧ t ≠ 0 ∧ h.Perm (x :: nanny_timer_delete h t))) := by
  unfold nanny_timer_delete
  by_cases ht : t = 0
  · rw [if_pos ht]
    exact ⟨hh, Or.inl ⟨rfl, Or.inl ht⟩⟩
  · rw [if_neg ht]
    simp only
    by_cases hi : h.findIdx (fun x => x.ptr == t) < h.length
    · rw [if_pos hi]
      refine ⟨remove_heap _ _ hi hh, Or.inr ⟨h[h.findIdx (fun x => x.ptr == t)], ?_, ht, ?_⟩⟩
      · have := @List.findIdx_getElem _ (fun x => x.ptr == t) h hi
        simpa using this
      · exact remove_perm _ _ hi
    · rw [if_neg hi]
      refine ⟨hh, Or.inl ⟨rfl, Or.inr ?_⟩⟩
      intro x hx hc
      apply hi
      rw [List.findIdx_lt_length]
      exact ⟨x, hx, by simpa using hc⟩

/-- The first entry of a heap is the earliest. -/
theorem heap_root_le (h : List timer) (hh : heap_ok h) :
    ∀ k, k < h.length → when_at h 0 ≤ when_at h k := by
  intro k
  induction k using Nat.strong_induction_on with
  | _ k ih =>
    intro hk
    by_cases h0 : k = 0
    · subst h0; exact le_refl _
    · have h1 := hh k (by omega) hk
      have h2 := ih ((k - 1) / 2) (by omega) (by omega)
      omega

theorem heap_head_le (top : timer) (tl : List timer) (hh : heap_ok (top :: tl)) :
    ∀ x ∈ top :: tl, top.when ≤ x.when := by
  intro x hx
  obtain ⟨k, hk, e⟩ := List.getElem_of_mem hx
  have := heap_root_le _ hh k hk
  rw [when_at_of_lt _ _ hk, e] at this
  simpa [when_at] using this

theorem timers_inv_of_cons_perm (h h' : List timer) (x : timer) (hi : timers_inv h)
    (hh : heap_ok h') (hp : h.Perm (x :: h')) : timers_inv h' := by
  obtain ⟨_, hnd, hnz, hlen⟩ := hi
  refine ⟨hh, ?_, ?_, ?_⟩
  · have := (hp.map (fun x => x.ptr)).nodup_iff.mp hnd
    simp only [List.map_cons, List.nodup_cons] at this
    exact this.2
  · intro y hy
    exact hnz y (hp.symm.subset (List.mem_cons_of_mem _ hy))
  · have := hp.length_eq
    simp only [List.length_cons] at this
    omega

theorem timers_inv_remove (h : List timer) (i : Nat) (hi : i < h.length)
    (hinv : timers_inv h) : timers_inv (nanny_timer_remove h i) :=
  timers_inv_of_cons_perm h _ h[i] hinv (remove_heap h i hi hinv.1) (remove_perm h i hi)

theorem timers_inv_delete (h : List timer) (t : Nat) (hinv : timers_inv h) :
    timers_inv (nanny_timer_delete h t) := by
  obtain ⟨hh, hcase⟩ := delete_spec h t hinv.1
  rcases hcase with ⟨e, _⟩ | ⟨x, _, _, hp⟩
  · rw [e]; exact hinv
  · exact timers_inv_of_cons_perm h _ x hinv hh hp

theorem timers_inv_add (h h' : List timer) (t : Nat) (when : Int) (f : handler)
    (data : Nat) (hinv : timers_inv h) (hfresh : ∀ x ∈ h, x.ptr ≠ t)
    (hadd : nanny_timer_add h t when f data = some (t, h')) : timers_inv h' := by
  have ht : t ≠ 0 := by
    intro c; unfold nanny_timer_add at hadd; rw [if_pos c] at hadd; cases hadd
  have hlen : h.length + 1 < MAX_TIMERS := by
    by_contra c; unfold nanny_timer_add at hadd; rw [if_neg ht, if_neg c] at hadd; cases hadd
  obtain ⟨h2, e, hh, hp⟩ := add_spec h t when f data ht hlen hinv.1
  rw [e] at hadd
  cases hadd
  obtain ⟨_, hnd, hnz, _⟩ := hinv
  refine ⟨hh, ?_, ?_, ?_⟩
  · rw [(hp.map (fun x => x.ptr)).nodup_iff]
    simp only [List.map_cons, List.nodup_cons, List.mem_map, not_exists, not_and]
    exact ⟨fun x hx => hfresh x hx, hnd⟩
  · intro y hy
    rcases List.mem_cons.mp (hp.subset hy) with e | hy
    · subst e; exact ht
    · exact hnz y hy
  · have := hp.length_eq
    simp only [List.length_cons] at this
    omega

theorem timers_reachable_inv (h : List timer) (hr : timers_reachable h) : timers_inv h := by
  induction hr with
  | empty =>
    refine ⟨?_, by simp, by simp, by simp [MAX_TIMERS]⟩
    intro k _ hk; simp at hk
  | add h h' t when f data _ hfresh hadd ih => exact timers_inv_add h h' t when f data ih hfresh hadd
  | delete h t _ ih => exact timers_inv_delete h t ih
  | pop h _ hne ih =>
    apply timers_inv_remove h 0 _ ih
    cases h with
    | nil => exact absurd rfl hne
    | cons a l => simp

theorem length_remove_cons (top : timer) (tl : List timer) :
    (nanny_timer_remove (top :: tl) 0).length = tl.length := by
  have := (remove_perm (top :: tl) 0 (by simp)).length_eq
  simp only [List.length_cons] at this
  omega

/-- The loop of `nanny_timer_next` when callbacks leave the heap alone: it
ends, it has called exactly the due timers, earliest first, and what is left
is a heap of timers that are not due. -/
theorem service_timers_spec
    (dispatch : syscalls → handler → Nat → Int → World → Option World)
    (hd : heap_untouched dispatch) (now : Int) :
    ∀ (env : List syscalls) (w : World), heap_ok w.timers → w.timers.length ≤ env.length →
      ∃ w' calls, service_timers dispatch now env w = some (w', calls) ∧
        heap_ok w'.timers ∧
        (calls.map Prod.fst ++ w'.timers).Perm w.timers ∧
        (∀ c ∈ calls, c.1.when ≤ now ∧ c.2 = if c.1.when = 0 then now else c.1.when) ∧
        (∀ x ∈ w'.timers, now < x.when) ∧
        (calls.map (fun c => c.1.when)).Pairwise (fun a b => a ≤ b) := by
  intro env
  induction env with
  | nil =>
    intro w hh hlen
    have : w.timers = [] := List.eq_nil_of_length_eq_zero (by simpa using hlen)
    refine ⟨w, [], ?_, hh, ?_, ?_, ?_, ?_⟩
    · simp [service_timers, this]
    · simp
    · simp
    · simp [this]
    · simp
  | cons sys env ih =>
    intro w hh hlen
    cases hw : w.timers with
    | nil =>
      refine ⟨w, [], ?_, hh, ?_, ?_, ?_, ?_⟩
      · simp [service_timers, hw]
      · simp [hw]
      · simp
      · simp [hw]
      · simp
    | cons top tl =>
      rw [hw] at hh hlen
      have hmin := heap_head_le top tl hh
      by_cases hdue : now ≥ top.when
      · obtain ⟨w2, hw2, ht2⟩ := hd sys top.f top.data (if top.when = 0 then now else top.when)
          { w with timers := nanny_timer_remove w.timers 0 }
        simp only at ht2
        rw [hw] at ht2
        have hperm := remove_perm (top :: tl) 0 (by simp)
        simp only [List.getElem_cons_zero] at hperm
        have hh2 : heap_ok w2.timers := by
          rw [ht2]; exact remove_heap _ 0 (by simp) hh
        have hl2 : w2.timers.length ≤ env.length := by
          rw [ht2, length_remove_cons]
          simp only [List.length_cons] at hlen
          omega
        obtain ⟨w', calls, hs, hh', hp', hc', hx', hs'⟩ := ih w2 hh2 hl2
        refine ⟨w', (top, if top.when = 0 then now else top.when) :: calls, ?_, hh', ?_, ?_,
          hx', ?_⟩
        · simp only [service_timers, hw, hdue, if_true]
          rw [← hw, hw2]
          simp only [hs]
        · simp only [List.map_cons, List.cons_append]
          rw [ht2] at hp'
          exact (hp'.cons top).trans hperm.symm
        · intro c hc
          rcases List.mem_cons.mp hc with e | hc
          · subst e; exact ⟨hdue, rfl⟩
          · exact hc' c hc
        · simp only [List.map_cons, List.pairwise_cons]
          refine ⟨?_, hs'⟩
          intro a ha
          obtain ⟨c, hc, e⟩ := List.mem_map.mp ha
          subst e
          apply hmin
          apply hperm.symm.subset
          apply List.mem_cons_of_mem
          rw [← ht2]
          apply hp'.subset
          apply List.mem_append_left
          exact List.mem_map_of_mem _ hc
      · refine ⟨w, [], ?_, ?_, ?_, ?_, ?_, ?_⟩
        · simp [service_timers, hw, hdue]
        · rw [hw]; exact hh
        · simp [hw]
        · simp
        · intro x hx
          rw [hw] at hx
          have := hmin x hx
          omega
        · simp

theorem usec_down_eq : ∀ (fuel : Nat) (usec : Int), usec ≤ fuel →
    usec_down fuel usec = if usec > 999999 then usec % 1000000 else usec := by
  intro fuel
  induction fuel with
  | zero =>
    intro usec h
    simp only [usec_down]
    rw [if_neg (by omega)]
  | succ n ih =>
    intro usec h
    simp only [usec_down]
    split
    · rw [ih _ (by omega)]
      split <;> omega
    · rfl

theorem usec_up_eq : ∀ (fuel : Nat) (usec : Int), -usec ≤ fuel →
    usec_up fuel usec = if usec < 0 then usec % 1000000 else usec := by
  intro fuel
  induction fuel with
  | zero =>
    intro usec h
    simp only [usec_up]
    rw [if_neg (by omega)]
  | succ n ih =>
    intro usec h
    simp only [usec_up]
    split
    · rw [ih _ (by omega)]
      split <;> omega
    · rfl

/-- The two loops on `tv_usec` leave the remainder modulo `1000000`. -/
theorem usec_loops (usec : Int) :
    usec_up (usec_down usec.natAbs usec).natAbs (usec_down usec.natAbs usec)
      = usec % 1000000 := by
  rw [usec_down_eq _ _ (by omega)]
  split
  · rw [usec_up_eq _ _ (by omega)]
    split <;> omega
  · rw [usec_up_eq _ _ (by omega)]
    split <;> omega

/-- One call of `nanny_timer_next` with a non-null `interval`, when callbacks
leave the heap alone: it returns, and the loop has done what
`service_timers_spec` says; the values it stores are those of the two
branches after the loop. -/
theorem nanny_timer_next_spec
    (dispatch : syscalls → handler → Nat → Int → World → Option World)
    (hd : heap_untouched dispatch) (now : timeval) (env : List syscalls) (w : World)
    (absolute : Bool) (hh : heap_ok w.timers) (hlen : w.timers.length ≤ env.length) :
    ∃ r, nanny_timer_next dispatch env now true absolute w = some r ∧
      heap_ok r.world.timers ∧
      (r.calls.map Prod.fst ++ r.world.timers).Perm w.timers ∧
      (∀ c ∈ r.calls, c.1.when ≤ now.tv_sec ∧
        c.2 = if c.1.when = 0 then now.tv_sec else c.1.when) ∧
      (∀ x ∈ r.world.timers, now.tv_sec < x.when) ∧
      (r.calls.map (fun c => c.1.when)).Pairwise (fun a b => a ≤ b) ∧
      (r.world.timers = [] →
        r.interval = some ⟨1, 0⟩ ∧ r.ret = now.tv_sec + 3600 ∧
        r.absolute = if absolute then some ⟨now.tv_sec + 3600, now.tv_usec⟩ else none) ∧
      (∀ top tl, r.world.timers = top :: tl →
        r.interval = some ⟨1, (-now.tv_usec) % 1000000⟩ ∧ r.ret = top.when ∧
        r.absolute = if absolute then some ⟨top.when, 0⟩ else none) := by
  obtain ⟨w', calls, hs, hh', hp, hc, hx, hsorted⟩ :=
    service_timers_spec dispatch hd now.tv_sec env { w with now := now.tv_sec } hh hlen
  unfold nanny_timer_next
  simp only [hs]
  cases hw : w'.timers with
  | nil =>
    refine ⟨_, rfl, ?_, ?_, hc, ?_, hsorted, ?_, ?_⟩
    · simpa [hw] using hh'
    · simpa [hw] using hp
    · simp [hw]
    · intro _; simp
    · intro top tl e; simp [hw] at e
  | cons top tl =>
    have htop : now.tv_sec < top.when := hx top (by simp [hw])
    simp only [if_true]
    refine ⟨_, rfl, ?_, ?_, hc, ?_, hsorted, ?_, ?_⟩
    · simpa [hw] using hh'
    · simpa [hw] using hp
    · simpa [hw] using hx
    · intro e; simp [hw] at e
    · intro top2 tl2 e
      simp only [hw, List.cons.injEq] at e
      obtain ⟨e1, _⟩ := e
      subst e1
      refine ⟨?_, rfl, rfl⟩
      rw [usec_loops]
      have h1 : ¬ top.when - now.tv_sec < 0 := by omega
      have h2 : ¬ top.when - now.tv_sec = 0 := by omega
      have h3 : top.when - now.tv_sec > 1 ∨ top.when - now.tv_sec = 1 := by omega
      simp only [h1, h2, if_false, false_and]
      rcases h3 with h3 | h3
      · simp [h3]
      · simp [h3]

/-- One call of `nanny_timer_next` on a heap with distinct addresses, when
callbacks leave the heap alone: it returns, the timers it has called are the
due ones, each once, and the others are left. -/
theorem next_fires_due
    (dispatch : syscalls → handler → Nat → Int → World → Option World)
    (hd : heap_untouched dispatch) (w : World) (hinv : timers_inv w.timers)
    (env : List syscalls) (henv : w.timers.length ≤ env.length) (now : timeval)
    (absolute : Bool) :
    ∃ r, nanny_timer_next dispatch env now true absolute w = some r ∧
      (r.calls.map Prod.fst).Perm (w.timers.filter (fun t => t.when ≤ now.tv_sec)) ∧
      (r.calls.map (fun c => c.1.ptr)).Nodup ∧
      (∀ c ∈ r.calls, c.1.when ≤ now.tv_sec ∧
        c.2 = if c.1.when = 0 then now.tv_sec else c.1.when) ∧
      r.world.timers.Perm (w.timers.filter (fun t => now.tv_sec < t.when)) := by
  obtain ⟨r, hr1, _, hp, hc, hx, _, _, _⟩ :=
    nanny_timer_next_spec dispatch hd now env w absolute hinv.1 henv
  refine ⟨r, hr1, ?_, ?_, hc, ?_⟩
  · have h1 := hp.filter (fun t => t.when ≤ now.tv_sec)
    rw [List.filter_append] at h1
    have e1 : (r.calls.map Prod.fst).filter (fun t => t.when ≤ now.tv_sec)
        = r.calls.map Prod.fst := by
      rw [List.filter_eq_self]
      intro a ha
      obtain ⟨c, hcm, e⟩ := List.mem_map.mp ha
      subst e
      simpa using (hc c hcm).1
    have e2 : r.world.timers.filter (fun t => t.when ≤ now.tv_sec) = [] := by
      rw [List.filter_eq_nil_iff]
      intro a ha
      have := hx a ha
      simp only [decide_eq_true_eq]
      omega
    rw [e1, e2, List.append_nil] at h1
    exact h1
  · have h1 := (hp.map (fun t => t.ptr)).nodup_iff.mpr hinv.2.1
    rw [List.map_append, List.map_map] at h1
    exact (List.nodup_append.mp h1).1
  · have h1 := hp.filter (fun t => now.tv_sec < t.when)
    rw [List.filter_append] at h1
    have e1 : (r.calls.map Prod.fst).filter (fun t => now.tv_sec < t.when) = [] := by
      rw [List.filter_eq_nil_iff]
      intro a ha
      obtain ⟨c, hcm, e⟩ := List.mem_map.mp ha
      subst e
      have := (hc c hcm).1
      simp only [decide_eq_true_eq]
      omega
    have e2 : r.world.timers.filter (fun t => now.tv_sec < t.when) = r.world.timers := by
      rw [List.filter_eq_self]
      intro a ha
      simpa using hx a ha
    rw [e1, e2, List.nil_append] at h1
    exact h1


/-- Successive calls of `nanny_timer_next` when callbacks leave the heap
alone: all of them return, and the callbacks come earliest first throughout. -/
theorem timer_next_rounds_spec
    (dispatch : syscalls → handler → Nat → Int → World → Option World)
    (hd : heap_untouched dispatch) :
    ∀ (rounds : List (timeval × List syscalls)) (w : World), heap_ok w.timers →
      (∀ x ∈ rounds, w.timers.length ≤ x.2.length) →
      ∃ w' calls, timer_next_rounds dispatch rounds w = some (w', calls) ∧
        (calls.map (fun c => c.1.when)).Pairwise (fun a b => a ≤ b) ∧
        (∀ c ∈ calls, c.1 ∈ w.timers) := by
  intro rounds
  induction rounds with
  | nil =>
    intro w _ _
    exact ⟨w, [], rfl, by simp, by simp⟩
  | cons a rounds ih =>
    intro w hh hlen
    obtain ⟨now, env⟩ := a
    obtain ⟨r, hr, hh', hp, hc, hx, hs, _, _⟩ :=
      nanny_timer_next_spec dispatch hd now env w false hh (hlen _ (List.mem_cons_self _ _))
    have hl : r.world.timers.length ≤ w.timers.length := by
      have := hp.length_eq
      simp only [List.length_append] at this
      omega
    obtain ⟨w', calls, hr', hs', hsub⟩ := ih r.world hh' (by
      intro x hxm
      have := hlen x (List.mem_cons_of_mem _ hxm)
      omega)
    refine ⟨w', r.calls ++ calls, ?_, ?_, ?_⟩
    · simp only [timer_next_rounds, hr, hr']
    · rw [List.map_append, List.pairwise_append]
      refine ⟨hs, hs', ?_⟩
      intro a ha b hb
      obtain ⟨c, hcm, e⟩ := List.mem_map.mp ha
      obtain ⟨c', hcm', e'⟩ := List.mem_map.mp hb
      subst e; subst e'
      have h1 := (hc c hcm).1
      have h2 := hx c'.1 (hsub c' hcm')
      omega
    · intro c hcm
      rcases List.mem_append.mp hcm with h1 | h1
      · exact hp.subset (List.mem_append_left _ (List.mem_map_of_mem _ h1))
      · exact hp.subset (List.mem_append_right _ (hsub c h1))

@[simp]
theorem timers_store_child (w : World) (c : nanny_child) :
    (store_child w c).timers = w.timers := rfl

@[simp]
theorem timers_emit (w : World) (e : event) : (emit w e).timers = w.timers := rfl

@[simp]
theorem timers_set_child_pid (w : World) (pid : Int) :
    (set_child_pid w pid).timers = w.timers := rfl

@[simp]
theorem children_emit (w : World) (e : event) :
    (emit w e).live_children = w.live_children := rfl

@[simp]
theorem children_set_child_pid (w : World) (pid : Int) :
    (set_child_pid w pid).live_children = w.live_children := rfl

@[simp]
theorem children_timer_delete (w : World) (t : Nat) :
    (timer_delete w t).live_children = w.live_children := rfl

@[simp]
theorem children_ite_set_child_pid (c : Prop) [Decidable c] (w : World) (pid : Int) :
    (if c then set_child_pid w pid else w).live_children = w.live_children := by
  split <;> rfl

@[simp]
theorem timers_ite_set_child_pid (c : Prop) [Decidable c] (w : World) (pid : Int) :
    (if c then set_child_pid w pid else w).timers = w.timers := by
  split <;> rfl

theorem children_timer_add (w w' : World) (t : Nat) (when : Int) (f : handler) (data : Nat)
    (h : timer_add w t when f data = some w') : w'.live_children = w.live_children := by
  unfold timer_add at h
  split at h
  · cases h; rfl
  · cases h

theorem children_run (sys : syscalls) (oldpid : Int) (cmd : Option String) (w w' : World)
    (pid : Int) (h : run sys oldpid cmd w = some (pid, w')) :
    w'.live_children = w.live_children := by
  unfold run at h
  split at h
  · cases h; rfl
  · split at h
    · cases h
    · cases h; rfl

theorem find_child_mem (w : World) (p : Nat) (c : nanny_child)
    (h : find_child w p = some c) : c ∈ w.live_children :=
  List.mem_of_find?_eq_some h

theorem delays_store_child (R : Nat → Int → Prop) (w : World) (c : nanny_child)
    (hw : delays R w) (hc : R c.main c.restart_delay) : delays R (store_child w c) := by
  intro x hx
  simp only [store_child, List.mem_map] at hx
  obtain ⟨y, hy, e⟩ := hx
  split at e
  · subst e; exact hc
  · subst e; exact hw y hy

theorem delays_congr (R : Nat → Int → Prop) (w w' : World)
    (e : w'.live_children = w.live_children) (hw : delays R w) : delays R w' := by
  intro x hx; rw [e] at hx; exact hw x hx

theorem main_child_goal_running_delays (R : Nat → Int → Prop) (h1 : ∀ m, R m 1) (sys : syscalls) (p : Nat)
    (now : Int) (w w' : World) (h : main_child_goal_running sys p now w = some w')
    (hw : delays R w) : delays R w' := by
  unfold main_child_goal_running at h
  split at h
  · cases h
  · rename_i child hfind
    have hc := hw child (find_child_mem _ _ _ hfind)
    simp only at h
    split at h
    · split at h
      · cases h
      · rename_i w1 e1
        cases h
        refine delays_store_child R _ _ ?_ hc
        exact delays_congr R _ _ (children_timer_add _ _ _ _ _ _ e1) hw
    · split at h
      · split at h
        · cases h
        · rename_i pid w1 hrun
          split at h
          · cases h
          · rename_i w2 e2
            split at h
            · cases h
            · rename_i w3 e3
              cases h
              refine delays_store_child R _ _ ?_ hc
              apply delays_congr R _ _ (children_timer_add _ _ _ _ _ _ e3)
              apply delays_congr R _ _ (children_timer_add _ _ _ _ _ _ e2)
              refine delays_congr R w1 _ (by simp) ?_
              exact delays_congr R _ _ (children_run _ _ _ _ _ _ hrun) hw
      · split at h
        · split at h
          · cases h
            exact delays_store_child R _ _ hw (h1 _)
          · split at h
            · cases h
            · rename_i w1 e1
              cases h
              refine delays_store_child R _ _ ?_ hc
              exact delays_congr R _ _ (children_timer_add _ _ _ _ _ _ e1) hw
        · cases h
          exact delays_store_child R _ _ hw hc

theorem main_child_ended_delays (R : Nat → Int → Prop)
    (hR : ∀ m x, R m x → R m (if (if x * 2 < 1 then 1 else x * 2) > 3600 then 3600
      else (if x * 2 < 1 then 1 else x * 2)))
    (sys : syscalls) (p : Nat) (stat : wait_status) (w w' : World)
    (h : main_child_ended sys p stat w = some w') (hw : delays R w) : delays R w' := by
  unfold main_child_ended at h
  split at h
  · cases h
  · rename_i child hfind
    have hc := hR _ _ (hw child (find_child_mem _ _ _ hfind))
    simp only at h
    split at h
    · cases h
    · rename_i w1 e1
      have hw1 : delays R w1 :=
        delays_congr R w _ (by rw [children_timer_add _ _ _ _ _ _ e1]; simp) hw
      split at h <;> cases h <;> exact delays_store_child R _ _ hw1 hc

theorem main_child_goal_stopped_delays (R : Nat → Int → Prop) (sys : syscalls) (p : Nat)
    (now : Int) (w w' : World) (h : main_child_goal_stopped sys p now w = some w')
    (hw : delays R w) : delays R w' := by
  unfold main_child_goal_stopped at h
  split at h
  · cases h
  · rename_i child hfind
    have hc := hw child (find_child_mem _ _ _ hfind)
    simp only at h
    split at h
    · cases h
      exact delays_store_child R _ _ hw hc
    · split at h
      · cases h
        exact delays_store_child R _ _ hw hc
      · split at h
        · split at h
          · cases h
          · rename_i w1 e1
            cases h
            refine delays_store_child R _ _ ?_ hc
            exact delays_congr R (emit w _) _ (children_timer_add _ _ _ _ _ _ e1) hw
        · split at h
          · split at h
            · cases h
            · rename_i w1 e1
              cases h
              refine delays_store_child R _ _ ?_ hc
              exact delays_congr R (emit w _) _ (children_timer_add _ _ _ _ _ _ e1) hw
          · split at h
            · cases h
              exact delays_store_child R _ _ hw hc
            · split at h
              · split at h
                · cases h
                · split at h
                  · cases h
                  · rename_i w1 hrun
                    split at h
                    · cases h
                    · rename_i w2 e2
                      cases h
                      refine delays_store_child R _ _ ?_ hc
                      refine delays_congr R w1 _ (children_timer_add _ _ _ _ _ _ e2) ?_
                      exact delays_congr R w _ (children_run _ _ _ _ _ _ hrun) hw
              · split at h
                · cases h
                · rename_i w1 e1
                  cases h
                  refine delays_store_child R _ _ ?_ hc
                  exact delays_congr R (emit w _) _ (children_timer_add _ _ _ _ _ _ e1) hw

theorem main_child_goal_restart_delays (R : Nat → Int → Prop) (sys : syscalls) (p : Nat)
    (now : Int) (w w' : World) (h : main_child_goal_restart sys p now w = some w')
    (hw : delays R w) : delays R w' := by
  unfold main_child_goal_restart at h
  split at h
  · cases h
  · rename_i child hfind
    have hc := hw child (find_child_mem _ _ _ hfind)
    split at h
    · simp only at h
      split at h
      · cases h
      · rename_i w1 e1
        cases h
        refine delays_store_child R _ _ ?_ hc
        exact delays_congr R w _ (children_timer_add _ _ _ _ _ _ e1) hw
    · exact main_child_goal_stopped_delays R sys p now w w' h hw

theorem delays_child_free (R : Nat → Int → Prop) (w : World) (c : nanny_child) (hw : delays R w) :
    delays R (child_free w c) := by
  intro x hx
  simp only [child_free, children_timer_delete] at hx
  exact hw x (List.mem_of_mem_filter hx)

theorem health_check_ended_delays (R : Nat → Int → Prop) (sys : syscalls) (p : Nat)
    (stat : wait_status) (w w' : World) (h : health_check_ended sys p stat w = some w')
    (hw : delays R w) : delays R w' := by
  unfold health_check_ended at h
  split at h
  · cases h
  · rename_i check _
    simp only at h
    have hf := delays_child_free R w check hw
    split at h
    · cases h
    · rename_i child hfind
      have hc := hf child (find_child_mem _ _ _ hfind)
      split at h
      · cases h
        exact delays_store_child R _ _ hf hc
      · split at h
        · split at h
          · cases h
          · rename_i w1 e1
            cases h
            refine delays_store_child R _ _ ?_ hc
            exact delays_congr R (timer_delete (child_free w check) _) _
              (children_timer_add _ _ _ _ _ _ e1) hf
        · cases h
          exact delays_store_child R _ _ hf hc

theorem child_alloc_delays (R : Nat → Int → Prop) (h0 : ∀ m, R m 0) (sys : syscalls)
    (cmd : Option String) (w w' : World) (c : nanny_child)
    (h : child_alloc sys cmd w = some (c, w')) (hw : delays R w) :
    delays R w' ∧ c.restart_delay = 0 := by
  unfold child_alloc at h
  split at h
  · cases h
  · simp only [Option.some.injEq, Prod.mk.injEq] at h
    obtain ⟨hc, hw'⟩ := h
    subst hc; subst hw'
    refine ⟨?_, rfl⟩
    intro x hx
    simp only [List.mem_append, List.mem_singleton] at hx
    rcases hx with hx | hx
    · exact hw x hx
    · subst hx; exact h0 _

theorem main_child_health_check_delays (R : Nat → Int → Prop) (h0 : ∀ m, R m 0) (sys : syscalls) (p : Nat)
    (now : Int) (w w' : World) (h : main_child_health_check sys p now w = some w')
    (hw : delays R w) : delays R w' := by
  unfold main_child_health_check at h
  split at h
  · cases h
  · rename_i child hfind
    have hc := hw child (find_child_mem _ _ _ hfind)
    simp only at h
    split at h
    · split at h
      · cases h
      · rename_i w1 e1
        cases h
        refine delays_store_child R _ _ ?_ hc
        exact delays_congr R w _ (children_timer_add _ _ _ _ _ _ e1) hw
    · split at h
      · cases h
      · rename_i check w1 ha
        obtain ⟨hw1, hck⟩ := child_alloc_delays R h0 _ _ _ _ _ ha hw
        split at h
        · cases h
        · rename_i w2 e2
          split at h
          · cases h
          · rename_i w3 e3
            cases h
            refine delays_store_child R _ _ ?_ hc
            refine delays_congr R (store_child w2 _) _ (children_timer_add _ _ _ _ _ _ e3) ?_
            refine delays_store_child R _ _ ?_ (by simpa [hck] using h0 _)
            exact delays_congr R w1 _ (children_timer_add _ _ _ _ _ _ e2) hw1

theorem health_check_goal_delays (R : Nat → Int → Prop) (sys : syscalls) (p : Nat)
    (now : Int) (w w' : World) (h : health_check_goal sys p now w = some w')
    (hw : delays R w) : delays R w' := by
  unfold health_check_goal at h
  split at h
  · cases h
  · rename_i check hfind
    have hc := hw check (find_child_mem _ _ _ hfind)
    split at h
    · cases h
    · simp only at h
      split at h
      · split at h
        · cases h
        · rename_i pid w1 hrun
          split at h
          · cases h
          · rename_i w2 e2
            cases h
            refine delays_store_child R _ _ ?_ hc
            refine delays_congr R w1 _ (children_timer_add _ _ _ _ _ _ e2) ?_
            exact delays_congr R w _ (children_run _ _ _ _ _ _ hrun) hw
      · cases h
        exact delays_store_child R _ _ hw hc

theorem nanny_child_new_delays (R : Nat → Int → Prop) (h0 : ∀ m, R m 0) (sys : syscalls) (cmd : String)
    (w w' : World) (p : Nat) (h : nanny_child_new sys cmd w = some (p, w'))
    (hw : delays R w) : delays R w' := by
  unfold nanny_child_new at h
  split at h
  · cases h
  · rename_i child w1 ha
    obtain ⟨hw1, hck⟩ := child_alloc_delays R h0 _ _ _ _ _ ha hw
    simp only at h
    split at h
    · cases h
    · rename_i w2 e2
      cases h
      refine delays_store_child R _ _ ?_ (by simpa [hck] using h0 _)
      exact delays_congr R w1 _ (children_timer_add _ _ _ _ _ _ e2) hw1

theorem timed_event_delays (R : Nat → Int → Prop) (sys : syscalls) (t0 : Nat)
    (now : Int) (w w' : World) (h : timed_event sys t0 now w = some w')
    (hw : delays R w) : delays R w' := by
  unfold timed_event at h
  split at h
  · cases h
  · rename_i child hfind
    have hc := hw child (List.mem_of_find?_eq_some hfind)
    split at h
    · cases h
    · split at h
      · cases h
      · rename_i w1 e1
        cases h
        refine delays_store_child R _ _ ?_ hc
        exact delays_congr R w _ (children_timer_add _ _ _ _ _ _ e1) hw

theorem setter_delays (R : Nat → Int → Prop) (w w' : World) (p : Nat) (g : nanny_child → nanny_child)
    (hg : ∀ c, (g c).restart_delay = c.restart_delay ∧ (g c).main = c.main)
    (h : (match find_child w p with
          | none => none
          | some child => some (store_child w (g child))) = some w')
    (hw : delays R w) : delays R w' := by
  split at h
  · cases h
  · rename_i child hfind
    cases h
    refine delays_store_child R _ _ hw ?_
    rw [(hg child).1, (hg child).2]
    exact hw child (find_child_mem _ _ _ hfind)


/-! ### Invariants of the records -/

theorem records_store_child (P : nanny_child → Prop) (w : World) (c : nanny_child)
    (hw : records P w) (hc : P c) : records P (store_child w c) := by
  intro x hx
  simp only [store_child, List.mem_map] at hx
  obtain ⟨y, hy, e⟩ := hx
  split at e
  · subst e; exact hc
  · subst e; exact hw y hy

theorem records_congr (P : nanny_child → Prop) (w w' : World)
    (e : w'.live_children = w.live_children) (hw : records P w) : records P w' := by
  intro x hx; rw [e] at hx; exact hw x hx

theorem records_timer_add (P : nanny_child → Prop) (w w' : World) (t : Nat) (when : Int)
    (f : handler) (data : Nat) (h : timer_add w t when f data = some w') (hw : records P w) :
    records P w' :=
  records_congr P w w' (children_timer_add _ _ _ _ _ _ h) hw

theorem records_run (P : nanny_child → Prop) (sys : syscalls) (oldpid : Int)
    (cmd : Option String) (w w' : World) (pid : Int)
    (h : run sys oldpid cmd w = some (pid, w')) (hw : records P w) : records P w' :=
  records_congr P w w' (children_run _ _ _ _ _ _ h) hw

theorem records_ite_set_child_pid (P : nanny_child → Prop) (c : Prop) [Decidable c] (w : World)
    (pid : Int) (hw : records P w) : records P (if c then set_child_pid w pid else w) :=
  records_congr P w _ (children_ite_set_child_pid c w pid) hw

theorem records_timer_delete (P : nanny_child → Prop) (w : World) (t : Nat)
    (hw : records P w) : records P (timer_delete w t) := hw

theorem records_child_free (P : nanny_child → Prop) (w : World) (c : nanny_child)
    (hw : records P w) : records P (child_free w c) := by
  intro x hx
  simp only [child_free, children_timer_delete] at hx
  exact hw x (List.mem_of_mem_filter hx)

theorem records_emit (P : nanny_child → Prop) (w : World) (e : event) (hw : records P w) :
    records P (emit w e) := hw

theorem records_child_alloc (P : nanny_child → Prop) (sys : syscalls) (cmd : Option String)
    (w w' : World) (c : nanny_child) (h : child_alloc sys cmd w = some (c, w'))
    (hw : records P w) (hc : ∀ x : nanny_child, x.state = child_state.NEW → x.pid = 0 →
      x.running = 0 → x.restart_delay = 0 → P x) :
    records P w' ∧ c.state = child_state.NEW ∧ c.pid = 0 := by
  unfold child_alloc at h
  split at h
  · cases h
  · simp only [Option.some.injEq, Prod.mk.injEq] at h
    obtain ⟨h1, h2⟩ := h
    subst h1; subst h2
    refine ⟨?_, rfl, rfl⟩
    intro x hx
    simp only [List.mem_append, List.mem_singleton] at hx
    rcases hx with hx | hx
    · exact hw x hx
    · subst hx; exact hc _ rfl rfl rfl rfl

theorem records_foldl_timer_delete (P : nanny_child → Prop) (l : List timed_t) (w : World)
    (hw : records P w) :
    records P (l.foldl (fun w t => timer_delete w t.timer) w) := by
  induction l generalizing w with
  | nil => exact hw
  | cons a l ih => exact ih _ (records_timer_delete P w _ hw)

/-- The loop of `nanny_stop_all_children` keeps a property of the records
that does not depend on the handler, the timers and the periodic tasks. -/
theorem stop_all_loop_records (P : nanny_child → Prop)
    (hP : ∀ (c : nanny_child) (f : handler) (t1 t2 : Nat) (l : List timed_t), P c →
      P { c with state_handler := f, state_timer := t1, health_timer := t2, timed := l })
    (env : Nat → syscalls) :
    ∀ (ps : List Nat) (n : Nat) (alive r : Int) (w w' : World),
      stop_all_loop env ps n alive w = some (r, w') → records P w → records P w' := by
  intro ps
  induction ps with
  | nil =>
    intro n alive r w w' h hw
    simp only [stop_all_loop, Option.some.injEq, Prod.mk.injEq] at h
    rw [← h.2]; exact hw
  | cons p rest ih =>
    intro n alive r w w' h hw
    unfold stop_all_loop at h
    split at h
    · cases h
    · rename_i child hfind
      have hc := hw child (find_child_mem _ _ _ hfind)
      split at h
      · exact ih _ _ _ _ _ h
          (records_store_child _ _ _ hw (hP child _ child.state_timer child.health_timer
            child.timed hc))
      · simp only at h
        split at h
        · exact ih _ _ _ _ _ h hw
        · split at h
          · cases h
          · refine ih _ _ _ _ _ h (records_store_child _ _ _
              (records_timer_add _ _ _ _ _ _ _ ‹_› ?_) (hP child _ _ 0 [] hc))
            exact records_timer_delete _ _ _ (records_timer_delete _ _ _
              (records_foldl_timer_delete _ _ _ hw))

theorem nanny_stop_all_children_records (P : nanny_child → Prop)
    (hP : ∀ (c : nanny_child) (f : handler) (t1 t2 : Nat) (l : List timed_t), P c →
      P { c with state_handler := f, state_timer := t1, health_timer := t2, timed := l })
    (env : Nat → syscalls) (r : Int) (w w' : World)
    (h : nanny_stop_all_children env w = some (r, w')) (hw : records P w) : records P w' :=
  stop_all_loop_records P hP env _ _ _ _ _ _ h hw

theorem nanny_child_add_periodic_delays (R : Nat → Int → Prop) (sys : periodic_calls)
    (p : Nat) (task : String) (r : Int) (w w' : World)
    (h : nanny_child_add_periodic sys p task w = some (r, w'))
    (hw : delays R w) : delays R w' := by
  unfold nanny_child_add_periodic at h
  split at h
  · cases h
  · rename_i child hfind
    have hc := hw child (find_child_mem _ _ _ hfind)
    repeat' first
      | split at h
      | (simp only at h; split at h)
    all_goals cases h
    · exact hw
    · refine delays_store_child R _ _ ?_ hc
      exact delays_congr R _ _ (children_timer_add _ _ _ _ _ _ ‹_›) hw

theorem child_step_delays (R : Nat → Int → Prop) (h1 : ∀ m, R m 1)
    (hR : ∀ m x, R m x → R m (if (if x * 2 < 1 then 1 else x * 2) > 3600 then 3600
      else (if x * 2 < 1 then 1 else x * 2)))
    (w w' : World) (hs : child_step w w') (hw : delays R w) : delays R w' := by
  cases hs with
  | goal_running sys p now _ _ h => exact main_child_goal_running_delays R h1 sys p now w w' h hw
  | goal_stopped sys p now _ _ h => exact main_child_goal_stopped_delays R sys p now w w' h hw
  | goal_restart sys p now _ _ h => exact main_child_goal_restart_delays R sys p now w w' h hw
  | child_ended sys p stat _ _ h => exact main_child_ended_delays R hR sys p stat w w' h hw
  | check_ended sys p stat _ _ h => exact health_check_ended_delays R sys p stat w w' h hw

theorem other_step_delays (R : Nat → Int → Prop) (h0 : ∀ m, R m 0)
    (w w' : World) (hs : other_step w w') (hw : delays R w) : delays R w' := by
  cases hs with
  | child_new sys cmd p _ _ h => exact nanny_child_new_delays R h0 sys cmd w w' p h hw
  | set_stop p cmd _ _ h =>
    exact setter_delays R w w' p (fun c => { c with stop_cmd := some cmd }) (fun _ => ⟨rfl, rfl⟩) h hw
  | set_health p cmd _ _ h =>
    exact setter_delays R w w' p (fun c => { c with health_cmd := some cmd }) (fun _ => ⟨rfl, rfl⟩) h hw
  | set_restartable p flag _ _ h =>
    exact setter_delays R w w' p (fun c => { c with restartable := flag }) (fun _ => ⟨rfl, rfl⟩) h hw
  | set_envp p envp _ _ h =>
    exact setter_delays R w w' p (fun c => { c with envp := envp }) (fun _ => ⟨rfl, rfl⟩) h hw
  | health_check sys p now _ _ h => exact main_child_health_check_delays R h0 sys p now w w' h hw
  | check_goal sys p now _ _ h => exact health_check_goal_delays R sys p now w w' h hw
  | timed sys t0 now _ _ h => exact timed_event_delays R sys t0 now w w' h hw
  | clock sys now _ _ h =>
    exact delays_congr R w w' (children_timer_add _ _ _ _ _ _ h) hw
  | stop_all env alive _ _ h =>
    exact nanny_stop_all_children_records (fun c => R c.main c.restart_delay)
      (fun _ _ _ _ _ hc => hc) env alive w w' h hw
  | add_periodic sys p task r _ _ h =>
    exact nanny_child_add_periodic_delays R sys p task r w w' h hw
  | pop => exact hw
  | time now => exact hw

/-- In every reachable state every record has its `restart_delay` in
`0 .. 3600`. -/
theorem reachable_delays (w : World) (hr : supervisor_reachable w) :
    delays (fun _ d => 0 ≤ d ∧ d ≤ 3600) w := by
  induction hr with
  | start => intro c hc; simp [empty_world] at hc
  | child w w' _ hs ih =>
    refine child_step_delays _ (fun _ => by omega) ?_ w w' hs ih
    intro _ x hx
    split <;> split <;> omega
  | other w w' _ hs ih =>
    exact other_step_delays _ (fun _ => by omega) w w' hs ih

theorem find_child_addr (w : World) (p : Nat) (c : nanny_child)
    (h : find_child w p = some c) : c.addr = p := by
  have := List.find?_some h
  simpa using this

theorem find_child_store_child (l : List nanny_child) (c : nanny_child)
    (hex : ∃ x ∈ l, x.addr = c.addr) :
    (l.map (fun x => if x.addr = c.addr then c else x)).find? (fun x => x.addr == c.addr)
      = some c := by
  induction l with
  | nil => obtain ⟨x, hx, _⟩ := hex; simp at hx
  | cons a l ih =>
    simp only [List.map_cons]
    by_cases ha : a.addr = c.addr
    · simp [ha]
    · simp only [ha, if_false]
      rw [List.find?_cons_of_neg _ (by simpa using ha)]
      apply ih
      obtain ⟨x, hx, e⟩ := hex
      rcases List.mem_cons.mp hx with e2 | hx
      · subst e2; exact absurd e ha
      · exact ⟨x, hx, e⟩

/-- The record `main_child_ended` leaves at the address it was called on has
the doubled and clamped `restart_delay`. -/
theorem main_child_ended_restart_delay (sys : syscalls) (p : Nat) (stat : wait_status)
    (w w' : World) (c c' : nanny_child) (hc : find_child w p = some c)
    (h : main_child_ended sys p stat w = some w') (hc' : find_child w' p = some c') :
    c'.restart_delay =
      (if (if c.restart_delay * 2 < 1 then 1 else c.restart_delay * 2) > 3600 then 3600
        else (if c.restart_delay * 2 < 1 then 1 else c.restart_delay * 2)) ∧
    c'.failures = c.failures + 1 ∧ c'.state = child_state.STOPPED ∧ c'.pid = 0 := by
  unfold main_child_ended at h
  rw [hc] at h
  simp only at h
  have haddr := find_child_addr _ _ _ hc
  split at h
  · cases h
  · rename_i w1 e1
    have hch : w1.live_children = w.live_children := by
      rw [children_timer_add _ _ _ _ _ _ e1]; simp
    have key : ∀ c2 : nanny_child, c2.addr = p →
        find_child (store_child w1 c2) p = some c2 := by
      intro c2 h2
      unfold find_child store_child
      simp only
      rw [hch, ← h2]
      apply find_child_store_child
      exact ⟨c, find_child_mem _ _ _ hc, by rw [haddr, h2]⟩
    have hemit : ∀ (x : World) (e : event), find_child (emit x e) p = find_child x p :=
      fun _ _ => rfl
    split at h <;> cases h
    all_goals
      try simp only [hemit] at hc'
      rw [key] at hc'
      · cases hc'; exact ⟨rfl, rfl, rfl, rfl⟩
      · exact haddr

theorem grows_refl (a : List timer) : grows a a := ⟨fun h => h, fun _ h => h⟩

theorem grows_trans {a b c : List timer} (h1 : grows a b) (h2 : grows b c) : grows a c :=
  ⟨fun h => h2.1 (h1.1 h), fun t h => h2.2 t (h1.2 t h)⟩

theorem timer_add_grows (w w' : World) (t : Nat) (when : Int) (f : handler) (data : Nat)
    (h : timer_add w t when f data = some w') : grows w.timers w'.timers := by
  unfold timer_add at h
  split at h
  · rename_i r hadd
    have ht : t ≠ 0 := by
      intro c; unfold nanny_timer_add at hadd; rw [if_pos c] at hadd; cases hadd
    have hlen : w.timers.length + 1 < MAX_TIMERS := by
      by_contra c; unfold nanny_timer_add at hadd; rw [if_neg ht, if_neg c] at hadd; cases hadd
    obtain ⟨h2, e, hp⟩ := add_spec_perm w.timers t when f data ht hlen
    have hr : r = (t, h2) := Option.some.inj (hadd.symm.trans e)
    subst hr
    have hw' : w'.timers = h2 := by
      have := Option.some.inj h
      rw [← this]
    rw [hw']
    constructor
    · intro hh
      obtain ⟨h3, e3, hh3, _⟩ := add_spec w.timers t when f data ht hlen hh
      have : h3 = h2 := by
        have := Option.some.inj (e3.symm.trans e)
        exact (Prod.mk.inj this).2
      rw [← this]
      exact hh3
    · intro x hx
      exact hp.symm.subset (List.mem_cons_of_mem _ hx)
  · cases h

theorem timers_run (sys : syscalls) (oldpid : Int) (cmd : Option String) (w w' : World)
    (pid : Int) (h : run sys oldpid cmd w = some (pid, w')) : w'.timers = w.timers := by
  unfold run at h
  split at h
  · cases h; rfl
  · split at h
    · cases h
    · cases h; rfl

theorem timers_child_alloc (sys : syscalls) (cmd : Option String) (w w' : World)
    (c : nanny_child) (h : child_alloc sys cmd w = some (c, w')) : w'.timers = w.timers := by
  unfold child_alloc at h
  split at h
  · cases h
  · cases h; rfl

theorem main_child_goal_running_grows (sys : syscalls) (p : Nat) (now : Int) (w w' : World)
    (h : main_child_goal_running sys p now w = some w') : grows w.timers w'.timers := by
  unfold main_child_goal_running at h
  split at h
  · cases h
  · simp only at h
    split at h
    · split at h
      · cases h
      · rename_i w1 e1
        cases h
        have g1 := timer_add_grows _ _ _ _ _ _ e1
        exact g1
    · split at h
      · split at h
        · cases h
        · rename_i pid w1 hrun
          split at h
          · cases h
          · rename_i w2 e2
            split at h
            · cases h
            · rename_i w3 e3
              cases h
              have g2 := timer_add_grows _ _ _ _ _ _ e2
              have g3 := timer_add_grows _ _ _ _ _ _ e3
              simp only [timers_emit, timers_ite_set_child_pid,
                timers_run _ _ _ _ _ _ hrun] at g2
              exact grows_trans g2 g3
      · split at h
        · split at h
          · cases h
            exact grows_refl _
          · split at h
            · cases h
            · rename_i w1 e1
              cases h
              have g1 := timer_add_grows _ _ _ _ _ _ e1
              exact g1
        · cases h
          exact grows_refl _

theorem main_child_goal_stopped_grows (sys : syscalls) (p : Nat) (now : Int) (w w' : World)
    (h : main_child_goal_stopped sys p now w = some w') : grows w.timers w'.timers := by
  unfold main_child_goal_stopped at h
  split at h
  · cases h
  · simp only at h
    split at h
    · cases h
      exact grows_refl _
    · split at h
      · cases h
        exact grows_refl _
      · split at h
        · split at h
          · cases h
          · rename_i w1 e1
            cases h
            have g1 := timer_add_grows _ _ _ _ _ _ e1
            exact g1
        · split at h
          · split at h
            · cases h
            · rename_i w1 e1
              cases h
              have g1 := timer_add_grows _ _ _ _ _ _ e1
              exact g1
          · split at h
            · cases h
              exact grows_refl _
            · split at h
              · split at h
                · cases h
                · split at h
                  · cases h
                  · rename_i w1 hrun
                    split at h
                    · cases h
                    · rename_i w2 e2
                      cases h
                      have g2 := timer_add_grows _ _ _ _ _ _ e2
                      rw [timers_run _ _ _ _ _ _ hrun] at g2
                      exact g2
              · split at h
                · cases h
                · rename_i w1 e1
                  cases h
                  have g1 := timer_add_grows _ _ _ _ _ _ e1
                  exact g1

theorem main_child_goal_restart_grows (sys : syscalls) (p : Nat) (now : Int) (w w' : World)
    (h : main_child_goal_restart sys p now w = some w') : grows w.timers w'.timers := by
  unfold main_child_goal_restart at h
  split at h
  · cases h
  · split at h
    · simp only at h
      split at h
      · cases h
      · rename_i w1 e1
        cases h
        have g1 := timer_add_grows _ _ _ _ _ _ e1
        exact g1
    · exact main_child_goal_stopped_grows sys p now w w' h

theorem main_child_health_check_grows (sys : syscalls) (p : Nat) (now : Int) (w w' : World)
    (h : main_child_health_check sys p now w = some w') : grows w.timers w'.timers := by
  unfold main_child_health_check at h
  split at h
  · cases h
  · simp only at h
    split at h
    · split at h
      · cases h
      · rename_i w1 e1
        cases h
        have g1 := timer_add_grows _ _ _ _ _ _ e1
        exact g1
    · split at h
      · cases h
      · rename_i check w1 ha
        split at h
        · cases h
        · rename_i w2 e2
          split at h
          · cases h
          · rename_i w3 e3
            cases h
            have g2 := timer_add_grows _ _ _ _ _ _ e2
            have g3 := timer_add_grows _ _ _ _ _ _ e3
            rw [timers_child_alloc _ _ _ _ _ ha] at g2
            exact grows_trans g2 g3

theorem health_check_goal_grows (sys : syscalls) (p : Nat) (now : Int) (w w' : World)
    (h : health_check_goal sys p now w = some w') : grows w.timers w'.timers := by
  unfold health_check_goal at h
  split at h
  · cases h
  · split at h
    · cases h
    · simp only at h
      split at h
      · split at h
        · cases h
        · rename_i pid w1 hrun
          split at h
          · cases h
          · rename_i w2 e2
            cases h
            have g2 := timer_add_grows _ _ _ _ _ _ e2
            rw [timers_run _ _ _ _ _ _ hrun] at g2
            exact g2
      · cases h
        exact grows_refl _

theorem timed_event_grows (sys : syscalls) (t0 : Nat) (now : Int) (w w' : World)
    (h : timed_event sys t0 now w = some w') : grows w.timers w'.timers := by
  unfold timed_event at h
  split at h
  · cases h
  · split at h
    · cases h
    · split at h
      · cases h
      · rename_i w1 e1
        cases h
        have g1 := timer_add_grows _ _ _ _ _ _ e1
        exact g1

/-- None of the supervisor's timer callbacks deletes a timer. -/
theorem nanny_dispatch_grows : heap_grows nanny_dispatch := by
  intro sys f data when w w' h
  unfold nanny_dispatch at h
  split at h
  · exact main_child_goal_running_grows _ _ _ _ _ h
  · exact main_child_goal_stopped_grows _ _ _ _ _ h
  · exact main_child_goal_restart_grows _ _ _ _ _ h
  · exact main_child_health_check_grows _ _ _ _ _ h
  · exact health_check_goal_grows _ _ _ _ _ h
  · exact timed_event_grows _ _ _ _ _ h
  · exact timer_add_grows _ _ _ _ _ _ h
  · cases h; exact grows_refl _
  · cases h

/-- The loop of `nanny_timer_next` when callbacks delete no timer: if it ends,
every timer that was pending and due when it started has been called, and no
due timer is left. -/
theorem service_timers_fires_all
    (dispatch : syscalls → handler → Nat → Int → World → Option World)
    (hg : heap_grows dispatch) (now : Int) :
    ∀ (env : List syscalls) (w w' : World) (calls : List (timer × Int)),
      heap_ok w.timers → service_timers dispatch now env w = some (w', calls) →
      (∀ t ∈ w.timers, t.when ≤ now → t ∈ calls.map Prod.fst) ∧
        heap_ok w'.timers ∧ (∀ x ∈ w'.timers, now < x.when) := by
  intro env
  induction env with
  | nil =>
    intro w w' calls hh hs
    cases hw : w.timers with
    | nil =>
      simp only [service_timers, hw, Option.some.injEq, Prod.mk.injEq] at hs
      obtain ⟨e1, _⟩ := hs
      subst e1
      rw [hw]
      exact ⟨by simp, by rw [← hw]; exact hh, by simp⟩
    | cons top tl =>
      rw [hw] at hh
      have hmin := heap_head_le top tl hh
      simp only [service_timers, hw] at hs
      split at hs
      · cases hs
      · rename_i hnd
        simp only [Option.some.injEq, Prod.mk.injEq] at hs
        obtain ⟨e1, _⟩ := hs
        subst e1
        rw [hw]
        refine ⟨?_, hh, ?_⟩
        · intro t ht hdue
          have := hmin t ht
          omega
        · intro x hx
          have := hmin x hx
          omega
  | cons sys env ih =>
    intro w w' calls hh hs
    cases hw : w.timers with
    | nil =>
      simp only [service_timers, hw, Option.some.injEq, Prod.mk.injEq] at hs
      obtain ⟨e1, _⟩ := hs
      subst e1
      rw [hw]
      exact ⟨by simp, by rw [← hw]; exact hh, by simp⟩
    | cons top tl =>
      rw [hw] at hh
      have hmin := heap_head_le top tl hh
      simp only [service_timers, hw] at hs
      split at hs
      · rename_i hdue
        split at hs
        · cases hs
        · rename_i w2 hcb
          split at hs
          · cases hs
          · rename_i w3 calls3 hrec
            simp only [Option.some.injEq, Prod.mk.injEq] at hs
            obtain ⟨e1, e2⟩ := hs
            subst e1; subst e2
            have hperm := remove_perm (top :: tl) 0 (by simp)
            simp only [List.getElem_cons_zero] at hperm
            have hg2 := hg _ _ _ _ _ _ hcb
            simp only at hg2
            have hh2 : heap_ok w2.timers := hg2.1 (remove_heap _ 0 (by simp) hh)
            obtain ⟨ha, hb, hc⟩ := ih w2 _ _ hh2 hrec
            refine ⟨?_, hb, hc⟩
            intro t ht htd
            simp only [List.map_cons, List.mem_cons]
            rcases List.mem_cons.mp (hperm.subset ht) with e | hm
            · exact Or.inl e
            · exact Or.inr (ha t (hg2.2 t hm) htd)
      · rename_i hnd
        simp only [Option.some.injEq, Prod.mk.injEq] at hs
        obtain ⟨e1, _⟩ := hs
        subst e1
        rw [hw]
        refine ⟨?_, hh, ?_⟩
        · intro t ht hdue
          have := hmin t ht
          omega
        · intro x hx
          have := hmin x hx
          omega

theorem length_delete_le (h : List timer) (t : Nat) :
    (nanny_timer_delete h t).length ≤ h.length := by
  unfold nanny_timer_delete
  split
  · exact le_refl _
  · simp only
    split
    · rename_i hi
      have := (remove_perm h _ hi).length_eq
      simp only [List.length_cons] at this
      omega
    · exact le_refl _

theorem timer_add_some (w : World) (t : Nat) (when : Int) (f : handler) (data : Nat)
    (ht : t ≠ 0) (hlen : w.timers.length + 1 < MAX_TIMERS) :
    ∃ w', timer_add w t when f data = some w' ∧ w'.timers.length = w.timers.length + 1 ∧
      w'.live_children = w.live_children ∧ w'.now = w.now ∧
      w'.trace = w.trace ++ [event.timer_add t when f data] ∧
      (⟨t, when, data, f⟩ : timer) ∈ w'.timers := by
  obtain ⟨h2, e, hp⟩ := add_spec_perm w.timers t when f data ht hlen
  refine ⟨{ w with timers := h2, trace := w.trace ++ [event.timer_add t when f data] },
    ?_, ?_, rfl, rfl, rfl, ?_⟩
  · unfold timer_add
    rw [e]
  · simpa using hp.length_eq
  · exact hp.mem_iff.mpr (List.mem_cons_self _ _)

/-- When the record exists, `malloc` succeeds and the heap has room,
`main_child_ended` returns, and the record it leaves has the doubled and
clamped `restart_delay`. -/
theorem main_child_ended_some (sys : syscalls) (p : Nat) (stat : wait_status) (w : World)
    (c : nanny_child) (hc : find_child w p = some c) (ht : sys.timer1 ≠ 0)
    (hlen : w.timers.length + 1 < MAX_TIMERS) :
    ∃ w' c', main_child_ended sys p stat w = some w' ∧ find_child w' p = some c' ∧
      c'.restart_delay =
        (if (if c.restart_delay * 2 < 1 then 1 else c.restart_delay * 2) > 3600 then 3600
          else (if c.restart_delay * 2 < 1 then 1 else c.restart_delay * 2)) ∧
      w'.timers.length ≤ w.timers.length + 1 := by
  have hl2 : (timer_delete (timer_delete (if c.id = 0 then set_child_pid w 0 else w)
      c.state_timer) c.health_timer).timers.length ≤ w.timers.length := by
    simp only [timer_delete]
    refine le_trans (length_delete_le _ _) (le_trans (length_delete_le _ _) ?_)
    simp
  obtain ⟨w1, e1, hl1, _, _, _⟩ := timer_add_some
    (timer_delete (timer_delete (if c.id = 0 then set_child_pid w 0 else w)
      c.state_timer) c.health_timer) sys.timer1 0 c.state_handler p ht (by omega)
  have hsome : ∃ w', main_child_ended sys p stat w = some w' ∧ w'.timers = w1.timers := by
    unfold main_child_ended
    rw [hc]
    simp only
    rw [e1]
    cases stat <;> exact ⟨_, rfl, rfl⟩
  obtain ⟨w', hw', ht'⟩ := hsome
  have haddr := find_child_addr _ _ _ hc
  have hex : ∃ c', find_child w' p = some c' := by
    have hw2 := hw'
    unfold main_child_ended at hw2
    rw [hc] at hw2
    simp only at hw2
    rw [e1] at hw2
    have hch : w1.live_children = w.live_children := by
      rw [children_timer_add _ _ _ _ _ _ e1]; simp
    have key : ∀ c2 : nanny_child, c2.addr = p →
        find_child (store_child w1 c2) p = some c2 := by
      intro c2 h2
      unfold find_child store_child
      simp only
      rw [hch, ← h2]
      apply find_child_store_child
      exact ⟨c, find_child_mem _ _ _ hc, by rw [haddr, h2]⟩
    have hemit : ∀ (x : World) (e : event), find_child (emit x e) p = find_child x p :=
      fun _ _ => rfl
    cases stat <;> simp only [Option.some.injEq] at hw2 <;> subst hw2
    all_goals
      try simp only [hemit]
      rw [key]
      · exact ⟨_, rfl⟩
      · exact haddr
  obtain ⟨c', hc'⟩ := hex
  refine ⟨w', c', hw', hc', (main_child_ended_restart_delay sys p stat w w' c c' hc hw' hc').1, ?_⟩
  rw [ht', hl1]
  omega

theorem backoff_min (x : Int) (hx : 0 < x) :
    (if (if min x 3600 * 2 < 1 then 1 else min x 3600 * 2) > 3600 then 3600
      else (if min x 3600 * 2 < 1 then 1 else min x 3600 * 2)) = min (x * 2) 3600 := by
  split_ifs <;> omega

/-- The backoff after `k + 1` exits in a row that start from the delay
`min (2 ^ j) 3600`. -/
theorem main_child_ended_calls_from (p : Nat) :
    ∀ (calls : List (syscalls × wait_status)) (w : World) (c : nanny_child) (j : Nat),
      find_child w p = some c → c.restart_delay = min (2 ^ j) 3600 →
      (∀ e ∈ calls, e.1.timer1 ≠ 0) → w.timers.length + calls.length < MAX_TIMERS →
      ∃ w' c', main_child_ended_calls p calls w = some w' ∧ find_child w' p = some c' ∧
        c'.restart_delay = min (2 ^ (j + calls.length)) 3600 := by
  intro calls
  induction calls with
  | nil =>
    intro w c j hc hd _ _
    exact ⟨w, c, rfl, hc, by simpa using hd⟩
  | cons a rest ih =>
    intro w c j hc hd hsys hcap
    obtain ⟨sys, stat⟩ := a
    simp only [List.length_cons] at hcap
    obtain ⟨w1, c1, e1, hc1, hd1, hl1⟩ := main_child_ended_some sys p stat w c hc
      (hsys _ (List.mem_cons_self _ _)) (by omega)
    have hd2 : c1.restart_delay = min (2 ^ (j + 1)) 3600 := by
      rw [hd1, hd]
      have h2 : (2 : Int) ^ (j + 1) = 2 ^ j * 2 := by rw [pow_succ]
      have hpos : (0 : Int) < 2 ^ j := by positivity
      rw [h2]
      exact backoff_min _ hpos
    obtain ⟨w', c', e', hc', hd'⟩ := ih w1 c1 (j + 1) hc1 hd2
      (fun e he => hsys e (List.mem_cons_of_mem _ he)) (by omega)
    refine ⟨w', c', ?_, hc', ?_⟩
    · simp only [main_child_ended_calls, e1, e']
    · rw [hd']
      simp only [List.length_cons]
      congr 2
      omega

/-- The interval for a timer half a second away is one and a half seconds:
in the timer test at 1000.5 s, after the timers of seconds 999 and 1000 have
fired, the next is due at second 1001, and the interval stored is 1 s +
500000 us.  The seconds are `when - now.tv_sec` and the microseconds are
brought from `-500000` to `500000` without taking a second away. -/
theorem interval_without_borrow :
    (nanny_timer_next t1_dispatch (List.replicate 12 no_syscalls) ⟨1000, 500000⟩ true false
        (world_of_timers timer_test_heap)).map
      (fun r => (r.world.timers.length, r.ret, r.interval))
      = some (10, 1001, some ⟨1, 500000⟩) := by
  decide

/-! ### The crash loop of any record -/

theorem find_child_store (w w2 : World) (p : Nat) (c c2 : nanny_child)
    (hc : find_child w p = some c) (hch : w2.live_children = w.live_children)
    (h2 : c2.addr = p) : find_child (store_child w2 c2) p = some c2 := by
  unfold find_child store_child
  simp only
  rw [hch, ← h2]
  apply find_child_store_child
  exact ⟨c, find_child_mem _ _ _ hc, by rw [find_child_addr _ _ _ hc, h2]⟩

theorem run_some (sys : syscalls) (oldpid : Int) (cmd : Option String) (w : World)
    (hf : 0 < sys.fork) :
    ∃ pid w', run sys oldpid cmd w = some (pid, w') ∧ w'.timers = w.timers ∧
      w'.live_children = w.live_children ∧ w'.now = w.now := by
  unfold run
  split
  · exact ⟨_, _, rfl, rfl, rfl, rfl⟩
  · rw [if_neg (by omega)]
    exact ⟨_, _, rfl, rfl, rfl, rfl⟩

theorem now_ite_set_child_pid (c : Prop) [Decidable c] (w : World) (pid : Int) :
    (if c then set_child_pid w pid else w).now = w.now := by
  split <;> rfl

/-- A record in state `NEW` or `RESTARTING` is started by
`main_child_goal_running` when `fork` and `malloc` succeed and the heap has
room for two timers. -/
theorem main_child_goal_running_starts (sys : syscalls) (p : Nat) (now : Int) (w : World)
    (c : nanny_child) (hc : find_child w p = some c)
    (hs : c.state = child_state.NEW ∨ c.state = child_state.RESTARTING)
    (h1 : sys.timer1 ≠ 0) (h2 : sys.timer2 ≠ 0) (hf : 0 < sys.fork)
    (hlen : w.timers.length + 2 < MAX_TIMERS) :
    ∃ w' c', main_child_goal_running sys p now w = some w' ∧ find_child w' p = some c' ∧
      c'.state = child_state.STARTING ∧ c'.last_start = now ∧
      c'.restart_delay = c.restart_delay ∧ c'.restartable = c.restartable ∧
      w'.timers.length = w.timers.length + 2 ∧ w'.now = w.now := by
  have haddr := find_child_addr _ _ _ hc
  obtain ⟨pid, wr, er, htr, hcr, hnr⟩ := run_some sys c.pid c.start_cmd w hf
  obtain ⟨w1, e1, hl1, hc1, hn1, _⟩ := timer_add_some
    (emit (if c.id = 0 then set_child_pid wr pid else wr)
      (event.udp_announce (if c.state = child_state.NEW then "STARTING" else "RESTARTING") pid))
    sys.timer1 (now + HEALTH_PERIOD * 5) c.state_handler p h1
    (by simp only [emit, timers_ite_set_child_pid, htr]; omega)
  simp only [emit, timers_ite_set_child_pid, htr, children_ite_set_child_pid, hcr,
    now_ite_set_child_pid, hnr] at hl1 hc1 hn1
  obtain ⟨w2, e2, hl2, hc2, hn2, _⟩ := timer_add_some w1 sys.timer2 (now + HEALTH_PERIOD)
    handler.main_child_health_check p h2 (by omega)
  have hns : ¬ (c.state = child_state.STOPPED ∧ c.restartable ≠ 0) := by
    rcases hs with h | h <;> simp [h]
  have hs2 : c.state = child_state.RESTARTING ∨ c.state = child_state.NEW := hs.symm
  unfold main_child_goal_running
  rw [hc]
  simp only
  rw [if_neg hns, if_pos hs2, er]
  simp only
  rw [e1]
  simp only
  rw [e2]
  refine ⟨_, _, rfl, find_child_store w w2 p c _ hc (by rw [hc2, hc1]) haddr, rfl, rfl, rfl, rfl,
    ?_, ?_⟩
  · simp only [store_child]; omega
  · simp only [store_child]; rw [hn2, hn1]

/-- When the record exists, `malloc` succeeds and the heap has room,
`main_child_ended` returns and leaves the record in state `STOPPED` with the
doubled and clamped `restart_delay`. -/
theorem main_child_ended_stops (sys : syscalls) (p : Nat) (stat : wait_status) (w : World)
    (c : nanny_child) (hc : find_child w p = some c) (ht : sys.timer1 ≠ 0)
    (hlen : w.timers.length + 1 < MAX_TIMERS) :
    ∃ w' c', main_child_ended sys p stat w = some w' ∧ find_child w' p = some c' ∧
      c'.state = child_state.STOPPED ∧
      c'.restart_delay =
        (if (if c.restart_delay * 2 < 1 then 1 else c.restart_delay * 2) > 3600 then 3600
          else (if c.restart_delay * 2 < 1 then 1 else c.restart_delay * 2)) ∧
      c'.restartable = c.restartable ∧ c'.last_start = c.last_start ∧
      w'.timers.length ≤ w.timers.length + 1 ∧ w'.now = w.now := by
  have haddr := find_child_addr _ _ _ hc
  have hl2 : (timer_delete (timer_delete (if c.id = 0 then set_child_pid w 0 else w)
      c.state_timer) c.health_timer).timers.length ≤ w.timers.length := by
    simp only [timer_delete]
    refine le_trans (length_delete_le _ _) (le_trans (length_delete_le _ _) ?_)
    simp
  obtain ⟨w1, e1, hl1, hc1, hn1, _⟩ := timer_add_some
    (timer_delete (timer_delete (if c.id = 0 then set_child_pid w 0 else w)
      c.state_timer) c.health_timer) sys.timer1 0 c.state_handler p ht (by omega)
  simp only [timer_delete, children_ite_set_child_pid, now_ite_set_child_pid] at hc1 hn1
  unfold main_child_ended
  rw [hc]
  simp only
  rw [e1]
  cases stat
  all_goals
    refine ⟨_, _, rfl, find_child_store w w1 p c _ hc hc1 haddr, rfl, rfl, rfl, rfl, ?_, ?_⟩
    · simp only [store_child, emit]; omega
    · simp only [store_child, emit]; rw [hn1]

/-- A stopped restartable record is set to `RESTARTING` by
`main_child_goal_running`, whose last call of `nanny_timer_add` is for the
second `nanny_globals.now + restart_delay`. -/
theorem main_child_goal_running_schedules (sys : syscalls) (p : Nat) (now : Int) (w : World)
    (c : nanny_child) (hc : find_child w p = some c)
    (hs : c.state = child_state.STOPPED) (hr : c.restartable ≠ 0)
    (h1 : sys.timer1 ≠ 0) (hlen : w.timers.length + 1 < MAX_TIMERS) :
    ∃ w' c', main_child_goal_running sys p now w = some w' ∧ find_child w' p = some c' ∧
      c'.state = child_state.RESTARTING ∧ c'.restart_delay = c.restart_delay ∧
      c'.restartable = c.restartable ∧
      w'.trace.getLast? =
        some (event.timer_add sys.timer1 (w.now + c.restart_delay) c.state_handler p) ∧
      w'.timers.length = w.timers.length + 1 ∧ w'.now = w.now := by
  have haddr := find_child_addr _ _ _ hc
  obtain ⟨w1, e1, hl1, hc1, hn1, htr, _⟩ := timer_add_some w sys.timer1
    (w.now + c.restart_delay) c.state_handler p h1 hlen
  unfold main_child_goal_running
  rw [hc]
  simp only
  rw [if_pos ⟨hs, hr⟩, e1]
  refine ⟨_, _, rfl, find_child_store w w1 p c _ hc hc1 haddr, rfl, rfl, rfl, ?_, ?_, ?_⟩
  · simp only [store_child]; rw [htr]; simp
  · simp only [store_child]; omega
  · simp only [store_child]; rw [hn1]

theorem backoff_pow (d : Int) (j : Nat) (hj : j ≤ 11)
    (h : (j = 0 ∧ d = 0) ∨ (1 ≤ j ∧ d = 2 ^ (j - 1))) :
    (if (if d * 2 < 1 then 1 else d * 2) > 3600 then 3600
      else (if d * 2 < 1 then 1 else d * 2)) = 2 ^ j := by
  rcases h with ⟨h0, hd⟩ | ⟨h1, hd⟩
  · subst h0; subst hd; decide
  · subst hd
    interval_cases j <;> decide

/-- The crash loop from a record whose next backoff value is `2 ^ j`. -/
theorem crash_rounds_from (p : Nat) :
    ∀ (rounds : List (syscalls × syscalls × wait_status × syscalls)) (s : Int) (w : World)
      (c : nanny_child) (j : Nat),
      find_child w p = some c →
      (c.state = child_state.NEW ∨ c.state = child_state.RESTARTING) →
      c.restartable ≠ 0 →
      ((j = 0 ∧ c.restart_delay = 0) ∨ (1 ≤ j ∧ c.restart_delay = 2 ^ (j - 1))) →
      j + rounds.length ≤ 12 →
      (∀ r ∈ rounds, r.1.timer1 ≠ 0 ∧ r.1.timer2 ≠ 0 ∧ 0 < r.1.fork ∧ r.2.1.timer1 ≠ 0 ∧
        r.2.2.2.timer1 ≠ 0) →
      w.timers.length + 4 * rounds.length < MAX_TIMERS →
      ∃ obs, crash_rounds p rounds s w = some obs ∧ obs.length = rounds.length ∧
        ∀ k, k < rounds.length →
          obs[k]? = some ⟨s + 2 ^ (j + k) - 2 ^ j, 2 ^ (j + k), s + 2 ^ (j + k + 1) - 2 ^ j⟩ := by
  intro rounds
  induction rounds with
  | nil =>
    intro s w c j _ _ _ _ _ _ _
    exact ⟨[], rfl, rfl, fun k hk => by simp at hk⟩
  | cons a rest ih =>
    intro s w c j hc hs hr hd hj hsys hcap
    obtain ⟨sys1, sys2, stat, sys3⟩ := a
    simp only [List.length_cons] at hj hcap
    obtain ⟨g1, g2, g3, g4, g5⟩ := hsys _ (List.mem_cons_self _ _)
    simp only at g1 g2 g3 g4 g5
    have hc0 : find_child { w with now := s } p = some c := hc
    obtain ⟨w1, c1, e1, hc1, _, hls1, hd1, hr1, hl1, hn1⟩ :=
      main_child_goal_running_starts sys1 p s { w with now := s } c hc0 hs g1 g2 g3
        (by show w.timers.length + 2 < MAX_TIMERS; omega)
    have hl1b : w1.timers.length = w.timers.length + 2 := hl1
    have hn1b : w1.now = s := hn1
    obtain ⟨w2, c2, e2, hc2, hst2, hd2, hr2, _, hl2, hn2⟩ :=
      main_child_ended_stops sys2 p stat w1 c1 hc1 g4 (by omega)
    obtain ⟨w3, c3, e3, hc3, hst3, hd3, hr3, htr3, hl3, _⟩ :=
      main_child_goal_running_schedules sys3 p s w2 c2 hc2 hst2 (by rw [hr2, hr1]; exact hr) g5
        (by omega)
    have hd2b : c2.restart_delay = 2 ^ j := by
      rw [hd2, hd1]
      exact backoff_pow _ j (by omega) hd
    obtain ⟨obs, eo, hlo, ho⟩ := ih (w2.now + c2.restart_delay) w3 c3 (j + 1) hc3 (Or.inr hst3)
      (by rw [hr3, hr2, hr1]; exact hr) (Or.inr ⟨by omega, by rw [hd3, hd2b]; simp⟩)
      (by omega) (fun r hr => hsys r (List.mem_cons_of_mem _ hr)) (by omega)
    refine ⟨⟨c1.last_start, c2.restart_delay, w2.now + c2.restart_delay⟩ :: obs, ?_, ?_, ?_⟩
    · simp only [crash_rounds, e1, hc1, e2, hc2, e3, htr3, eo]
    · simp [hlo]
    · intro k hk
      have hp : (2 : Int) ^ (j + 1) = 2 * 2 ^ j := by ring
      cases k with
      | zero =>
        simp only [List.getElem?_cons_zero, Nat.add_zero, hls1, hd2b, hn2, hn1b, hp]
        congr 2
        · ring
        · ring
      | succ k =>
        simp only [List.length_cons] at hk
        rw [List.getElem?_cons_succ, ho k (by omega), hd2b, hn2, hn1b]
        have e1 : j + 1 + k = j + (k + 1) := by omega
        rw [e1, hp]
        congr 2
        · ring
        · ring

/-! ### A stopped record has no process -/

theorem main_child_goal_running_stopped_pid (sys : syscalls) (p : Nat) (now : Int)
    (w w' : World) (h : main_child_goal_running sys p now w = some w')
    (hw : records stopped_pid w) : records stopped_pid w' := by
  unfold main_child_goal_running at h
  split at h
  · cases h
  · rename_i child hfind
    have hc := hw child (find_child_mem _ _ _ hfind)
    simp only at h
    repeat' split at h
    all_goals cases h
    repeat' first
      | exact hw
      | refine records_store_child _ _ _ ?_ ?_
      | refine records_emit _ _ _ ?_
      | refine records_timer_add _ _ _ _ _ _ _ ‹_› ?_
      | refine records_run _ _ _ _ _ _ _ ‹_› ?_
      | refine records_ite_set_child_pid _ _ _ _ ?_
      | refine records_timer_delete _ _ _ ?_
      | (simp [stopped_pid]; done)
      | (simp only [stopped_pid] at hc ⊢; tauto)

theorem main_child_goal_stopped_stopped_pid (sys : syscalls) (p : Nat) (now : Int)
    (w w' : World) (h : main_child_goal_stopped sys p now w = some w')
    (hw : records stopped_pid w) : records stopped_pid w' := by
  unfold main_child_goal_stopped at h
  split at h
  · cases h
  · rename_i child hfind
    have hc := hw child (find_child_mem _ _ _ hfind)
    simp only at h
    repeat' split at h
    all_goals cases h
    repeat' first
      | exact hw
      | refine records_store_child _ _ _ ?_ ?_
      | refine records_emit _ _ _ ?_
      | refine records_timer_add _ _ _ _ _ _ _ ‹_› ?_
      | refine records_run _ _ _ _ _ _ _ ‹_› ?_
      | refine records_ite_set_child_pid _ _ _ _ ?_
      | refine records_timer_delete _ _ _ ?_
      | (simp [stopped_pid]; done)
      | (simp only [stopped_pid] at hc ⊢; tauto)

theorem main_child_goal_restart_stopped_pid (sys : syscalls) (p : Nat) (now : Int)
    (w w' : World) (h : main_child_goal_restart sys p now w = some w')
    (hw : records stopped_pid w) : records stopped_pid w' := by
  unfold main_child_goal_restart at h
  split at h
  · cases h
  · rename_i child hfind
    have hc := hw child (find_child_mem _ _ _ hfind)
    split at h
    · simp only at h
      repeat' split at h
      all_goals cases h
      repeat' first
        | exact hw
        | refine records_store_child _ _ _ ?_ ?_
        | refine records_emit _ _ _ ?_
        | refine records_timer_add _ _ _ _ _ _ _ ‹_› ?_
        | refine records_run _ _ _ _ _ _ _ ‹_› ?_
        | refine records_ite_set_child_pid _ _ _ _ ?_
        | refine records_timer_delete _ _ _ ?_
        | (simp [stopped_pid]; done)
        | (simp only [stopped_pid] at hc ⊢; tauto)
    · exact main_child_goal_stopped_stopped_pid sys p now w w' h hw

theorem main_child_ended_stopped_pid (sys : syscalls) (p : Nat) (stat : wait_status)
    (w w' : World) (h : main_child_ended sys p stat w = some w')
    (hw : records stopped_pid w) : records stopped_pid w' := by
  unfold main_child_ended at h
  split at h
  · cases h
  · rename_i child hfind
    have hc := hw child (find_child_mem _ _ _ hfind)
    simp only at h
    repeat' split at h
    all_goals cases h
    repeat' first
      | exact hw
      | refine records_store_child _ _ _ ?_ ?_
      | refine records_emit _ _ _ ?_
      | refine records_timer_add _ _ _ _ _ _ _ ‹_› ?_
      | refine records_run _ _ _ _ _ _ _ ‹_› ?_
      | refine records_ite_set_child_pid _ _ _ _ ?_
      | refine records_timer_delete _ _ _ ?_
      | simp [stopped_pid]

theorem health_check_ended_stopped_pid (sys : syscalls) (p : Nat) (stat : wait_status)
    (w w' : World) (h : health_check_ended sys p stat w = some w')
    (hw0 : records stopped_pid w) : records stopped_pid w' := by
  unfold health_check_ended at h
  split at h
  · cases h
  · rename_i check _
    simp only at h
    have hw := records_child_free stopped_pid w check hw0
    split at h
    · cases h
    · rename_i child hfind
      have hc := hw child (find_child_mem _ _ _ hfind)
      repeat' split at h
      all_goals cases h
      repeat' first
        | exact hw
        | refine records_store_child _ _ _ ?_ ?_
        | refine records_emit _ _ _ ?_
        | refine records_timer_add _ _ _ _ _ _ _ ‹_› ?_
        | refine records_run _ _ _ _ _ _ _ ‹_› ?_
        | refine records_ite_set_child_pid _ _ _ _ ?_
        | refine records_timer_delete _ _ _ ?_
        | (simp [stopped_pid]; done)
        | (simp only [stopped_pid] at hc ⊢; tauto)
theorem health_check_goal_stopped_pid (sys : syscalls) (p : Nat) (now : Int)
    (w w' : World) (h : health_check_goal sys p now w = some w')
    (hw : records stopped_pid w) : records stopped_pid w' := by
  unfold health_check_goal at h
  split at h
  · cases h
  · rename_i child hfind
    have hc := hw child (find_child_mem _ _ _ hfind)
    simp only at h
    repeat' split at h
    all_goals cases h
    repeat' first
      | exact hw
      | refine records_store_child _ _ _ ?_ ?_
      | refine records_emit _ _ _ ?_
      | refine records_timer_add _ _ _ _ _ _ _ ‹_› ?_
      | refine records_run _ _ _ _ _ _ _ ‹_› ?_
      | refine records_ite_set_child_pid _ _ _ _ ?_
      | refine records_timer_delete _ _ _ ?_
      | (simp [stopped_pid]; done)
      | (simp only [stopped_pid] at hc ⊢; tauto)

theorem timed_event_stopped_pid (sys : syscalls) (t0 : Nat) (now : Int)
    (w w' : World) (h : timed_event sys t0 now w = some w')
    (hw : records stopped_pid w) : records stopped_pid w' := by
  unfold timed_event at h
  split at h
  · cases h
  · rename_i child hfind
    have hc := hw child (List.mem_of_find?_eq_some hfind)
    repeat' split at h
    all_goals cases h
    repeat' first
      | exact hw
      | refine records_store_child _ _ _ ?_ ?_
      | refine records_emit _ _ _ ?_
      | refine records_timer_add _ _ _ _ _ _ _ ‹_› ?_
      | refine records_run _ _ _ _ _ _ _ ‹_› ?_
      | refine records_ite_set_child_pid _ _ _ _ ?_
      | refine records_timer_delete _ _ _ ?_
      | (simp [stopped_pid]; done)
      | (simp only [stopped_pid] at hc ⊢; tauto)

theorem nanny_child_add_periodic_stopped_pid (sys : periodic_calls) (p : Nat) (task : String)
    (r : Int) (w w' : World) (h : nanny_child_add_periodic sys p task w = some (r, w'))
    (hw : records stopped_pid w) : records stopped_pid w' := by
  unfold nanny_child_add_periodic at h
  split at h
  · cases h
  · rename_i child hfind
    have hc := hw child (find_child_mem _ _ _ hfind)
    repeat' first
      | split at h
      | (simp only at h; split at h)
    all_goals cases h
    repeat' first
      | exact hw
      | refine records_store_child _ _ _ ?_ ?_
      | refine records_emit _ _ _ ?_
      | refine records_timer_add _ _ _ _ _ _ _ ‹_› ?_
      | refine records_run _ _ _ _ _ _ _ ‹_› ?_
      | refine records_ite_set_child_pid _ _ _ _ ?_
      | refine records_timer_delete _ _ _ ?_
      | (simp [stopped_pid]; done)
      | (simp only [stopped_pid] at hc ⊢; tauto)

theorem nanny_child_new_stopped_pid (sys : syscalls) (cmd : String) (w w' : World) (p : Nat)
    (h : nanny_child_new sys cmd w = some (p, w'))
    (hw0 : records stopped_pid w) : records stopped_pid w' := by
  unfold nanny_child_new at h
  split at h
  · cases h
  · rename_i child w1 ha
    obtain ⟨hw, _, hpid⟩ := records_child_alloc stopped_pid _ _ _ _ _ ha hw0
      (fun x _ hx _ _ _ => hx)
    simp only at h
    split at h
    · cases h
    · cases h
      refine records_store_child _ _ _ (records_timer_add _ _ _ _ _ _ _ ‹_› hw) ?_
      intro _
      exact hpid

theorem main_child_health_check_stopped_pid (sys : syscalls) (p : Nat) (now : Int)
    (w w' : World) (h : main_child_health_check sys p now w = some w')
    (hw : records stopped_pid w) : records stopped_pid w' := by
  unfold main_child_health_check at h
  split at h
  · cases h
  · rename_i child hfind
    have hc := hw child (find_child_mem _ _ _ hfind)
    simp only at h
    split at h
    · split at h
      · cases h
      · cases h
        refine records_store_child _ _ _ (records_timer_add _ _ _ _ _ _ _ ‹_› hw) ?_
        simp only [stopped_pid] at hc ⊢
        exact hc
    · split at h
      · cases h
      · rename_i check w1 ha
        obtain ⟨hw1, _, hpid⟩ := records_child_alloc stopped_pid _ _ _ _ _ ha hw
          (fun x _ hx _ _ _ => hx)
        split at h
        · cases h
        · split at h
          · cases h
          · cases h
            refine records_store_child _ _ _ (records_timer_add _ _ _ _ _ _ _ ‹_› ?_) ?_
            · refine records_store_child _ _ _ (records_timer_add _ _ _ _ _ _ _ ‹_› hw1) ?_
              intro _
              exact hpid
            · simp only [stopped_pid] at hc ⊢
              exact hc

theorem setter_stopped_pid (w w' : World) (p : Nat) (g : nanny_child → nanny_child)
    (hg : ∀ c, (g c).state = c.state ∧ (g c).pid = c.pid)
    (h : (match find_child w p with
          | none => none
          | some child => some (store_child w (g child))) = some w')
    (hw : records stopped_pid w) : records stopped_pid w' := by
  split at h
  · cases h
  · rename_i child hfind
    cases h
    refine records_store_child _ _ _ hw ?_
    have hc := hw child (find_child_mem _ _ _ hfind)
    simp only [stopped_pid, (hg child).1, (hg child).2] at hc ⊢
    exact hc

theorem child_step_stopped_pid (w w' : World) (hs : child_step w w')
    (hw : records stopped_pid w) : records stopped_pid w' := by
  cases hs with
  | goal_running sys p now _ _ h => exact main_child_goal_running_stopped_pid sys p now w w' h hw
  | goal_stopped sys p now _ _ h => exact main_child_goal_stopped_stopped_pid sys p now w w' h hw
  | goal_restart sys p now _ _ h => exact main_child_goal_restart_stopped_pid sys p now w w' h hw
  | child_ended sys p stat _ _ h => exact main_child_ended_stopped_pid sys p stat w w' h hw
  | check_ended sys p stat _ _ h => exact health_check_ended_stopped_pid sys p stat w w' h hw

theorem other_step_stopped_pid (w w' : World) (hs : other_step w w')
    (hw : records stopped_pid w) : records stopped_pid w' := by
  cases hs with
  | child_new sys cmd p _ _ h => exact nanny_child_new_stopped_pid sys cmd w w' p h hw
  | set_stop p cmd _ _ h =>
    exact setter_stopped_pid w w' p (fun c => { c with stop_cmd := some cmd })
      (fun _ => ⟨rfl, rfl⟩) h hw
  | set_health p cmd _ _ h =>
    exact setter_stopped_pid w w' p (fun c => { c with health_cmd := some cmd })
      (fun _ => ⟨rfl, rfl⟩) h hw
  | set_restartable p flag _ _ h =>
    exact setter_stopped_pid w w' p (fun c => { c with restartable := flag })
      (fun _ => ⟨rfl, rfl⟩) h hw
  | set_envp p envp _ _ h =>
    exact setter_stopped_pid w w' p (fun c => { c with envp := envp }) (fun _ => ⟨rfl, rfl⟩) h hw
  | health_check sys p now _ _ h => exact main_child_health_check_stopped_pid sys p now w w' h hw
  | check_goal sys p now _ _ h => exact health_check_goal_stopped_pid sys p now w w' h hw
  | timed sys t0 now _ _ h => exact timed_event_stopped_pid sys t0 now w w' h hw
  | clock sys now _ _ h => exact records_timer_add _ _ _ _ _ _ _ h hw
  | stop_all env alive _ _ h =>
    exact nanny_stop_all_children_records stopped_pid (fun _ _ _ _ _ hc => hc) env alive w w' h hw
  | add_periodic sys p task r _ _ h =>
    exact nanny_child_add_periodic_stopped_pid sys p task r w w' h hw
  | pop => exact hw
  | time now => exact hw

/-- In every reachable state a record in state `NEW`, `RESTARTING` or
`STOPPED` has `pid == 0`. -/
theorem reachable_stopped_pid (w : World) (hr : supervisor_reachable w) :
    records stopped_pid w := by
  induction hr with
  | start => intro c hc; simp [empty_world] at hc
  | child w w' _ hs ih => exact child_step_stopped_pid w w' hs ih
  | other w w' _ hs ih => exact other_step_stopped_pid w w' hs ih

/-! ### The end of the stop cascade -/

theorem find_child_store_eq (w w2 : World) (p : Nat) (c c2 c' : nanny_child)
    (hc : find_child w p = some c) (hc' : find_child (store_child w2 c2) p = some c')
    (hch : w2.live_children = w.live_children) (h2 : c2.addr = p) : c' = c2 := by
  rw [find_child_store w w2 p c c2 hc hch h2] at hc'
  exact (Option.some.inj hc').symm

theorem timer_add_length (w w' : World) (t : Nat) (when : Int) (f : handler) (data : Nat)
    (h : timer_add w t when f data = some w') :
    w'.timers.length = w.timers.length + 1 ∧ t ≠ 0 := by
  unfold timer_add at h
  split at h
  · rename_i r e
    cases h
    unfold nanny_timer_add at e
    split at e
    · cases e
    · rename_i ht
      split at e
      · rename_i hlen
        obtain ⟨h2, e2, hp⟩ := add_spec_perm w.timers t when f data ht hlen
        unfold nanny_timer_add at e2
        rw [if_neg ht, if_pos hlen] at e2
        rw [e2] at e
        cases e
        refine ⟨?_, ht⟩
        simpa using hp.length_eq
      · cases e
  · cases h

/-! ### The end of a health check -/

theorem find_child_child_free (w : World) (check : nanny_child) (q : Nat)
    (hq : q ≠ check.addr) : find_child (child_free w check) q = find_child w q := by
  simp only [find_child, child_free, timer_delete]
  induction w.live_children with
  | nil => rfl
  | cons a l ih =>
    by_cases ha : a.addr = check.addr
    · have h1 : (a.addr != check.addr) = false := by simp [ha]
      have h2 : (a.addr == q) = false := by
        simp only [beq_eq_false_iff_ne, ne_eq]
        intro e; exact hq (by rw [← e, ha])
      rw [List.filter_cons_of_neg (by simp [h1]), List.find?_cons_of_neg _ (by simp [h2])]
      exact ih
    · rw [List.filter_cons_of_pos (by simpa using ha)]
      by_cases hb : a.addr = q
      · rw [List.find?_cons_of_pos _ (by simpa using hb),
          List.find?_cons_of_pos _ (by simpa using hb)]
      · rw [List.find?_cons_of_neg _ (by simpa using hb),
          List.find?_cons_of_neg _ (by simpa using hb)]
        exact ih

theorem length_child_free_le (w : World) (c : nanny_child) :
    (child_free w c).timers.length ≤ w.timers.length := by
  simp only [child_free, timer_delete]
  exact le_trans (length_delete_le _ _) (length_delete_le _ _)

/-- What `health_check_ended` leaves in the record of the supervised child:
it returns when `malloc` succeeds and the heap has room, and the record is
the old one with the counters of the outcome and, after more than four
failures in a row, with `main_child_goal_restart` as state handler, whose
timer with `when == 0` is the only timer added. -/
theorem health_check_ended_spec (sys : syscalls) (p : Nat) (stat : wait_status) (w : World)
    (check child : nanny_child) (hcheck : find_child w p = some check)
    (hmain : find_child w check.main = some child) (hne : check.main ≠ p)
    (ht : sys.timer1 ≠ 0) (hlen : w.timers.length + 1 < MAX_TIMERS) :
    ∃ w', health_check_ended sys p stat w = some w' ∧
      (stat = wait_status.exited 0 →
        find_child w' check.main = some
          { child with
            health_failures_consecutive := 0,
            health_successes_consecutive := child.health_successes_consecutive + 1,
            health_successes_total := child.health_successes_total + 1 } ∧
        w'.trace = w.trace) ∧
      (stat ≠ wait_status.exited 0 → child.health_failures_consecutive + 1 > 4 →
        find_child w' check.main = some
          { child with
            health_successes_consecutive := 0,
            health_failures_consecutive := child.health_failures_consecutive + 1,
            health_failures_total := child.health_failures_total + 1,
            state_handler := handler.main_child_goal_restart,
            state_timer := sys.timer1 } ∧
        w'.trace = w.trace ++
          [event.timer_add sys.timer1 0 handler.main_child_goal_restart check.main] ∧
        (⟨sys.timer1, 0, check.main, handler.main_child_goal_restart⟩ : timer) ∈ w'.timers) ∧
      (stat ≠ wait_status.exited 0 → ¬ child.health_failures_consecutive + 1 > 4 →
        find_child w' check.main = some
          { child with
            health_successes_consecutive := 0,
            health_failures_consecutive := child.health_failures_consecutive + 1,
            health_failures_total := child.health_failures_total + 1 } ∧
        w'.trace = w.trace) := by
  have hpa := find_child_addr _ _ _ hcheck
  have hm : find_child (child_free w check) check.main = some child := by
    rw [find_child_child_free w check check.main (by rw [hpa]; exact hne)]
    exact hmain
  have haddr := find_child_addr _ _ _ hmain
  obtain ⟨w1, e1, _, hc1, _, htr1, hmem1⟩ := timer_add_some
    (timer_delete (child_free w check) child.state_timer) sys.timer1 0
    handler.main_child_goal_restart child.addr ht
    (by
      have h1 := length_child_free_le w check
      have h2 := length_delete_le (child_free w check).timers child.state_timer
      simp only [timer_delete]
      omega)
  unfold health_check_ended
  rw [hcheck]
  simp only
  rw [hm]
  simp only
  by_cases hs : stat = wait_status.exited 0
  · rw [if_pos hs]
    refine ⟨_, rfl, fun _ => ⟨find_child_store _ _ _ child _ hm rfl haddr, rfl⟩,
      fun h => absurd hs h, fun h => absurd hs h⟩
  · rw [if_neg hs]
    by_cases h4 : child.health_failures_consecutive + 1 > 4
    · rw [if_pos h4, e1]
      refine ⟨_, rfl, fun h => absurd h hs,
        fun _ _ => ⟨find_child_store _ _ _ child _ hm hc1 haddr, ?_, ?_⟩,
        fun _ h => absurd h4 h⟩
      · simp only [store_child]
        rw [htr1, haddr]
        rfl
      · simp only [timers_store_child]
        rw [← haddr]
        exact hmem1
    · rw [if_neg h4]
      refine ⟨_, rfl, fun h => absurd h hs, fun _ h => absurd h h4,
        fun _ _ => ⟨find_child_store _ _ _ child _ hm rfl haddr, rfl⟩⟩

/-- The branch of `main_child_health_check` for a record without a health
command: it returns when `malloc` succeeds and the heap has room, and counts
one success. -/
theorem main_child_health_check_no_command (sys : syscalls) (p : Nat) (now : Int) (w : World)
    (child : nanny_child) (hc : find_child w p = some child) (hcmd : child.health_cmd = none)
    (ht : sys.timer1 ≠ 0) (hlen : w.timers.length + 1 < MAX_TIMERS) :
    ∃ w', main_child_health_check sys p now w = some w' ∧
      find_child w' p = some
        { child with
          health_timer := sys.timer1,
          health_successes_total := child.health_successes_total + 1,
          health_successes_consecutive := child.health_successes_consecutive + 1 } := by
  have haddr := find_child_addr _ _ _ hc
  obtain ⟨w1, e1, _, hc1, _⟩ := timer_add_some w sys.timer1 (now + HEALTH_PERIOD)
    handler.main_child_health_check p ht hlen
  unfold main_child_health_check
  rw [hc]
  simp only [hcmd]
  rw [e1]
  exact ⟨_, rfl, find_child_store _ _ _ child _ hc hc1 haddr⟩

/-! ### parse_interval -/

theorem wrap64_eq (x : Int) (h0 : 0 ≤ x) (h1 : x < 2 ^ 63) : wrap64 x = x := by
  unfold wrap64
  rw [Int.emod_eq_of_lt (by omega) (by omega)]
  omega

theorem digit_toNat (c : Char) (h : c ≥ '0' ∧ c ≤ '9') :
    48 ≤ c.toNat ∧ c.toNat ≤ 57 := by
  obtain ⟨h1, h2⟩ := h
  have e1 : ('0' : Char).toNat = 48 := by decide
  have e2 : ('9' : Char).toNat = 57 := by decide
  have a1 : ('0' : Char).toNat ≤ c.toNat := h1
  have a2 : c.toNat ≤ ('9' : Char).toNat := h2
  omega

theorem parse_number_nil (i : Int) : parse_number i [] = (i, []) := rfl

theorem parse_number_cons_digit (i : Int) (c : Char) (rest : List Char)
    (h : c ≥ '0' ∧ c ≤ '9') :
    parse_number i (c :: rest)
      = parse_number (wrap64 (wrap64 (i * 10) + ((c.toNat : Int) - ('0'.toNat : Int)))) rest := by
  rw [parse_number, if_pos h]

theorem parse_number_cons_other (i : Int) (c : Char) (rest : List Char)
    (h : ¬ (c ≥ '0' ∧ c ≤ '9')) : parse_number i (c :: rest) = (i, c :: rest) := by
  rw [parse_number, if_neg h]

/-- The inner loop stops at the first character that is not a digit. -/
theorem parse_number_append (ds rest : List Char) (hd : ∀ c ∈ ds, c ≥ '0' ∧ c ≤ '9')
    (hr : ∀ c, rest.head? = some c → ¬ (c ≥ '0' ∧ c ≤ '9')) (i : Int) :
    parse_number i (ds ++ rest) = ((parse_number i ds).1, rest) := by
  induction ds generalizing i with
  | nil =>
    cases rest with
    | nil => rfl
    | cons c r =>
      rw [List.nil_append, parse_number_cons_other i c r (hr c rfl)]
      rfl
  | cons c ds ih =>
    have hc := hd c (List.mem_cons_self _ _)
    rw [List.cons_append, parse_number_cons_digit _ _ _ hc, parse_number_cons_digit _ _ _ hc]
    exact ih (fun x hx => hd x (List.mem_cons_of_mem _ hx)) _

theorem decimal_from_mono (ds : List Char) (hd : ∀ c ∈ ds, c ≥ '0' ∧ c ≤ '9') (i : Int)
    (h0 : 0 ≤ i) : i ≤ decimal_from i ds := by
  induction ds generalizing i with
  | nil => exact le_refl _
  | cons c ds ih =>
    have hc := digit_toNat c (hd c (List.mem_cons_self _ _))
    have := ih (fun x hx => hd x (List.mem_cons_of_mem _ hx))
      (i * 10 + ((c.toNat : Int) - 48)) (by omega)
    simp only [decimal_from, List.foldl_cons] at this ⊢
    omega

/-- Without overflow the inner loop computes the value of the decimal
number. -/
theorem parse_number_value (ds : List Char) (hd : ∀ c ∈ ds, c ≥ '0' ∧ c ≤ '9') (i : Int)
    (h0 : 0 ≤ i) (hlt : decimal_from i ds < 2 ^ 63) :
    (parse_number i ds).1 = decimal_from i ds := by
  induction ds generalizing i with
  | nil => rfl
  | cons c ds ih =>
    have hc := hd c (List.mem_cons_self _ _)
    have hn := digit_toNat c hc
    have hds := fun x hx => hd x (List.mem_cons_of_mem _ hx)
    have e48 : (('0' : Char).toNat : Int) = 48 := by decide
    have hm := decimal_from_mono ds hds (i * 10 + ((c.toNat : Int) - 48)) (by omega)
    have hlt2 : decimal_from (i * 10 + ((c.toNat : Int) - 48)) ds < 2 ^ 63 := hlt
    rw [parse_number_cons_digit _ _ _ hc, e48, wrap64_eq (i * 10) (by omega) (by omega),
      wrap64_eq _ (by omega) (by omega)]
    exact ih hds _ (by omega) hlt2

theorem unit_char_not_digit (u : Char) (hu : unit_char u) : ¬ (u ≥ '0' ∧ u ≤ '9') := by
  rcases hu with h | h | h | h <;> subst h <;> decide

theorem unit_seconds_unit (u : Char) (hu : unit_char u) :
    unit_seconds u = some (seconds_of u) := by
  rcases hu with h | h | h | h <;> subst h <;> decide

theorem digit_not_blank (c : Char) (hc : c ≥ '0' ∧ c ≤ '9') : ¬ (c = ' ' ∨ c = '\t') := by
  intro h
  rcases h with h | h <;> subst h <;> exact absurd hc (by decide)

/-- One pass of the loop of `parse_interval` over a number and its unit. -/
theorem parse_loop_term (fuel : Nat) (acc : Int) (ds : List Char) (u : Char)
    (rest : List Char) (hd : digits ds) (hu : unit_char u) :
    parse_interval_loop (fuel + 1) acc (ds ++ u :: rest)
      = after_unit fuel (term_interval acc (ds, u)) rest := by
  obtain ⟨c, ds', rfl⟩ := List.exists_cons_of_ne_nil hd.1
  have hc := hd.2 c (List.mem_cons_self _ _)
  have hnd : ¬ (c < '0' ∨ c > '9') := by
    intro h
    rcases h with h | h
    · exact absurd hc.1 (not_le.mpr h)
    · exact absurd hc.2 (not_le.mpr h)
  have hpn : parse_number 0 (c :: (ds' ++ u :: rest))
      = ((parse_number 0 (c :: ds')).1, u :: rest) :=
    parse_number_append (c :: ds') (u :: rest) hd.2
      (fun x hx => by
        simp only [List.head?_cons, Option.some.injEq] at hx
        subst hx
        exact unit_char_not_digit _ hu) 0
  have hm := unit_seconds_unit u hu
  rw [parse_interval_loop.eq_def]
  simp only [List.cons_append, hnd, if_false, hpn, hm]
  unfold after_unit term_interval
  simp only [hm, Option.getD_some]

theorem spec_text_cons (t : List Char × Char) (ts : List (List Char × Char)) (tail : List Char) :
    spec_text (t :: ts) ++ tail = t.1 ++ t.2 :: (spec_text ts ++ tail) := by
  simp [spec_text]

/-- The passes of the loop of `parse_interval` over the terms of a spec. -/
theorem parse_loop_terms (terms : List (List Char × Char)) :
    ∀ (k : Nat) (acc : Int) (tail : List Char), terms ≠ [] →
      (∀ t ∈ terms, digits t.1 ∧ unit_char t.2) →
      parse_interval_loop (terms.length + k) acc (spec_text terms ++ tail)
        = after_unit k (terms.foldl term_interval acc) tail := by
  induction terms with
  | nil => intro _ _ _ h; exact absurd rfl h
  | cons t ts ih =>
    intro k acc tail _ hv
    have ht := hv t (List.mem_cons_self _ _)
    have hts := fun x hx => hv x (List.mem_cons_of_mem _ hx)
    rw [spec_text_cons, List.length_cons,
      show ts.length + 1 + k = (ts.length + k) + 1 by omega,
      parse_loop_term _ _ _ _ _ ht.1 ht.2, List.foldl_cons]
    cases ts with
    | nil =>
      simp only [spec_text, List.map_nil, List.flatten_nil, List.nil_append, List.length_nil,
        Nat.zero_add, List.foldl_nil]
    | cons t2 ts2 =>
      have ht2 := hv t2 (List.mem_cons_of_mem _ (List.mem_cons_self _ _))
      obtain ⟨c, ds, hcd⟩ := List.exists_cons_of_ne_nil ht2.1.1
      have hc : c ≥ '0' ∧ c ≤ '9' := ht2.1.2 c (by rw [hcd]; exact List.mem_cons_self _ _)
      have e : after_unit ((t2 :: ts2).length + k) (term_interval acc t)
            (spec_text (t2 :: ts2) ++ tail)
          = parse_interval_loop ((t2 :: ts2).length + k) (term_interval acc t)
            (spec_text (t2 :: ts2) ++ tail) := by
        rw [spec_text_cons, hcd]
        simp only [after_unit, List.cons_append, if_neg (digit_not_blank c hc)]
      rw [e]
      exact ih k _ tail (List.cons_ne_nil _ _) hts

theorem decimal_nonneg (ds : List Char) (hd : ∀ c ∈ ds, c ≥ '0' ∧ c ≤ '9') : 0 ≤ decimal ds :=
  decimal_from_mono ds hd 0 (le_refl _)

theorem seconds_of_pos (u : Char) : 1 ≤ seconds_of u := by
  unfold seconds_of
  split_ifs <;> omega

theorem spec_seconds_nonneg (terms : List (List Char × Char))
    (hv : ∀ t ∈ terms, digits t.1 ∧ unit_char t.2) : 0 ≤ spec_seconds terms := by
  induction terms with
  | nil => simp [spec_seconds]
  | cons t ts ih =>
    have ht := hv t (List.mem_cons_self _ _)
    have h1 := decimal_nonneg t.1 ht.1.2
    have h2 := seconds_of_pos t.2
    have h3 := ih (fun x hx => hv x (List.mem_cons_of_mem _ hx))
    have h4 : 0 ≤ decimal t.1 * seconds_of t.2 := mul_nonneg h1 (by omega)
    simp only [spec_seconds, List.map_cons, List.sum_cons] at h3 ⊢
    omega

/-- Without overflow the loop of `parse_interval` adds up the seconds of the
terms. -/
theorem terms_interval_value (terms : List (List Char × Char)) :
    ∀ (acc : Int), (∀ t ∈ terms, digits t.1 ∧ unit_char t.2) → 0 ≤ acc →
      acc + spec_seconds terms < 2 ^ 63 →
      terms.foldl term_interval acc = acc + spec_seconds terms := by
  induction terms with
  | nil => intro acc _ _ _; simp [spec_seconds]
  | cons t ts ih =>
    intro acc hv h0 hlt
    have ht := hv t (List.mem_cons_self _ _)
    have hts := fun x hx => hv x (List.mem_cons_of_mem _ hx)
    have h1 := decimal_nonneg t.1 ht.1.2
    have h2 := seconds_of_pos t.2
    have h3 := spec_seconds_nonneg ts hts
    have e : spec_seconds (t :: ts) = decimal t.1 * seconds_of t.2 + spec_seconds ts := by
      simp [spec_seconds]
    rw [e] at hlt
    have h4 : decimal t.1 ≤ decimal t.1 * seconds_of t.2 := by
      nlinarith
    have hpn : (parse_number 0 t.1).1 = decimal t.1 :=
      parse_number_value t.1 ht.1.2 0 (le_refl _) (by show decimal t.1 < 2 ^ 63; omega)
    have hti : term_interval acc t = acc + decimal t.1 * seconds_of t.2 := by
      unfold term_interval
      rw [hpn, unit_seconds_unit _ ht.2, Option.getD_some,
        wrap64_eq (decimal t.1 * seconds_of t.2) (by omega) (by omega),
        wrap64_eq _ (by omega) (by omega)]
    rw [List.foldl_cons, hti, ih _ hts (by omega) (by omega), e]
    omega

theorem length_spec_text (terms : List (List Char × Char)) :
    terms.length ≤ (spec_text terms).length := by
  induction terms with
  | nil => simp
  | cons t ts ih =>
    have e := spec_text_cons t ts []
    simp only [List.append_nil] at e
    rw [e]
    simp only [List.length_cons, List.length_append]
    omega

theorem dropWhile_blanks (ws cmd : List Char) (hb : ∀ c ∈ ws, blank c)
    (hcmd : ∀ c, cmd.head? = some c → ¬ blank c) :
    (ws ++ cmd).dropWhile (fun x => x = ' ' ∨ x = '\t') = cmd := by
  induction ws with
  | nil =>
    cases cmd with
    | nil => rfl
    | cons c r =>
      have := hcmd c rfl
      simp only [List.nil_append]
      rw [List.dropWhile_cons_of_neg (by simpa [blank] using this)]
  | cons b ws ih =>
    have hbb := hb b (List.mem_cons_self _ _)
    simp only [List.cons_append]
    rw [List.dropWhile_cons_of_pos (by simpa [blank] using hbb)]
    exact ih (fun x hx => hb x (List.mem_cons_of_mem _ hx))

/-- The loop of `parse_interval` returns -1 at a cursor that is not on a
digit. -/
theorem parse_loop_not_digit (k : Nat) (acc : Int) (p : List Char)
    (hp : ∀ c, p.head? = some c → ¬ (c ≥ '0' ∧ c ≤ '9')) :
    parse_interval_loop (k + 1) acc p = some (-1, p) := by
  rw [parse_interval_loop.eq_def]
  cases p with
  | nil => rfl
  | cons c r =>
    have h := hp c rfl
    have h2 : c < '0' ∨ c > '9' := by
      by_cases h1 : c ≥ '0'
      · right
        exact not_le.mp (fun h3 => h ⟨h1, h3⟩)
      · left
        exact not_le.mp h1
    simp only [h2, if_true]

theorem unit_seconds_none (u : Char) (hu : ¬ unit_char u) : unit_seconds u = none := by
  unfold unit_seconds
  unfold unit_char at hu
  simp only [not_or] at hu
  rw [if_neg hu.1, if_neg hu.2.1, if_neg hu.2.2.1, if_neg hu.2.2.2]

/-- The loop of `parse_interval` returns -1 at a number that no unit
follows. -/
theorem parse_loop_no_unit (k : Nat) (acc : Int) (ds rest : List Char) (hd : digits ds)
    (hr : ∀ c, rest.head? = some c → ¬ (c ≥ '0' ∧ c ≤ '9') ∧ ¬ unit_char c) :
    parse_interval_loop (k + 1) acc (ds ++ rest) = some (-1, rest) := by
  obtain ⟨c, ds', rfl⟩ := List.exists_cons_of_ne_nil hd.1
  have hc := hd.2 c (List.mem_cons_self _ _)
  have hnd : ¬ (c < '0' ∨ c > '9') := by
    intro h
    rcases h with h | h
    · exact absurd hc.1 (not_le.mpr h)
    · exact absurd hc.2 (not_le.mpr h)
  have hpn : parse_number 0 (c :: (ds' ++ rest)) = ((parse_number 0 (c :: ds')).1, rest) :=
    parse_number_append (c :: ds') rest hd.2 (fun x hx => (hr x hx).1) 0
  rw [parse_interval_loop.eq_def]
  simp only [List.cons_append, hnd, if_false, hpn]
  cases rest with
  | nil => rfl
  | cons u r =>
    simp only [unit_seconds_none u (hr u rfl).2]

/-- What `parse_interval` returns for a spec `n1 u1 ... nk uk`, blanks and a
command: the value that its loop has added up, and the cursor on the
command. -/
theorem parse_interval_terms (terms : List (List Char × Char)) (ws cmd : List Char)
    (hne : terms ≠ []) (hv : ∀ t ∈ terms, digits t.1 ∧ unit_char t.2) (hws : ws ≠ [])
    (hb : ∀ c ∈ ws, blank c) (hcmd : ∀ c, cmd.head? = some c → ¬ blank c) :
    parse_interval (spec_text terms ++ (ws ++ cmd))
      = some (terms.foldl term_interval 0, cmd) := by
  unfold parse_interval
  have hl := length_spec_text terms
  obtain ⟨k, hk⟩ : ∃ k, (spec_text terms ++ (ws ++ cmd)).length + 1 = terms.length + k :=
    ⟨(spec_text terms ++ (ws ++ cmd)).length + 1 - terms.length, by
      simp only [List.length_append]; omega⟩
  rw [hk, parse_loop_terms terms k 0 _ hne hv]
  obtain ⟨b, ws', rfl⟩ := List.exists_cons_of_ne_nil hws
  have hbb : b = ' ' ∨ b = '\t' := hb b (List.mem_cons_self _ _)
  have := dropWhile_blanks (b :: ws') cmd hb hcmd
  simp only [after_unit, List.cons_append, hbb, if_true]
  rw [← List.cons_append, this]

/-- The value `parse_interval` returns for a spec of one of the four kinds
that are not a periodic task is negative, or its cursor is on the end of the
string. -/
theorem parse_interval_invalid (task : List Char) (h : invalid_spec task) :
    ∃ r, parse_interval task = some r ∧ (r.1 < 0 ∨ r.2 = []) := by
  unfold parse_interval
  rcases h with h | ⟨terms, ds, rest, hv, hd, hr, rfl⟩ | ⟨terms, rest, hne, hv, hr, rfl⟩
    | ⟨terms, ws, hne, hv, hws, hb, rfl⟩
  · exact ⟨_, parse_loop_not_digit _ _ _ h, Or.inl (by show (-1 : Int) < 0; decide)⟩
  · by_cases hne : terms = []
    · subst hne
      simp only [spec_text, List.map_nil, List.flatten_nil, List.nil_append]
      exact ⟨_, parse_loop_no_unit _ _ _ _ hd hr, Or.inl (by show (-1 : Int) < 0; decide)⟩
    · have hl := length_spec_text terms
      obtain ⟨c, ds', hcd⟩ := List.exists_cons_of_ne_nil hd.1
      have hc : c ≥ '0' ∧ c ≤ '9' := hd.2 c (by rw [hcd]; exact List.mem_cons_self _ _)
      obtain ⟨k, hk⟩ : ∃ k, (spec_text terms ++ (ds ++ rest)).length + 1
          = terms.length + (k + 1) :=
        ⟨(spec_text terms ++ (ds ++ rest)).length - terms.length, by
          simp only [List.length_append]; omega⟩
      rw [hk, parse_loop_terms terms (k + 1) 0 _ hne hv]
      have e : after_unit (k + 1) (terms.foldl term_interval 0) (ds ++ rest)
          = parse_interval_loop (k + 1) (terms.foldl term_interval 0) (ds ++ rest) := by
        rw [hcd]
        simp only [after_unit, List.cons_append, if_neg (digit_not_blank c hc)]
      rw [e]
      exact ⟨_, parse_loop_no_unit _ _ _ _ hd hr, Or.inl (by show (-1 : Int) < 0; decide)⟩
  · have hl := length_spec_text terms
    obtain ⟨k, hk⟩ : ∃ k, (spec_text terms ++ rest).length + 1 = terms.length + (k + 1) :=
      ⟨(spec_text terms ++ rest).length - terms.length, by
        simp only [List.length_append]; omega⟩
    rw [hk, parse_loop_terms terms (k + 1) 0 _ hne hv]
    have e : after_unit (k + 1) (terms.foldl term_interval 0) rest
        = parse_interval_loop (k + 1) (terms.foldl term_interval 0) rest := by
      cases rest with
      | nil => rfl
      | cons c r =>
        have hcb : ¬ (c = ' ' ∨ c = '\t') := (hr c rfl).1
        simp only [after_unit, if_neg hcb]
    rw [e]
    exact ⟨_, parse_loop_not_digit _ _ _ (fun c hc => (hr c hc).2), Or.inl (by show (-1 : Int) < 0; decide)⟩
  · have h := parse_interval_terms terms ws [] hne hv hws hb (fun c hc => by simp at hc)
    unfold parse_interval at h
    simp only [List.append_nil] at h
    exact ⟨_, h, Or.inr rfl⟩

/-! ### nanny_log_printf -/

theorem log_opened_frame (sys : log_calls) (now : Int) (base : String) (name : log_filename)
    (nlog r : nanny_log) (h : log_opened sys now base name nlog = some r) :
    r.total_bytes = nlog.total_bytes ∧ r.buff_size = nlog.buff_size ∧ r.buffp = nlog.buffp ∧
      r.buff = nlog.buff := by
  unfold log_opened at h
  split at h
  · cases h
  · cases h
    exact ⟨rfl, rfl, rfl, rfl⟩

theorem log_open_frame (sys : log_calls) (now : Int) (base : String) (nlog r : nanny_log)
    (h : log_open sys now base nlog = some r) :
    r.total_bytes = nlog.total_bytes ∧ r.buff_size = nlog.buff_size ∧ r.buffp = nlog.buffp ∧
      r.buff = nlog.buff := by
  unfold log_open at h
  simp only at h
  split at h
  · split at h
    · cases h
    · split at h
      · have g := log_opened_frame _ _ _ _ _ _ h
        exact g
      · cases h
        exact ⟨rfl, rfl, rfl, rfl⟩
  · have g := log_opened_frame _ _ _ _ _ _ h
    exact g

theorem log_rotate_close_frame (now : Int) (nlog : nanny_log) :
    (log_rotate_close now nlog).total_bytes = nlog.total_bytes ∧
    (log_rotate_close now nlog).buff_size = nlog.buff_size ∧
    (log_rotate_close now nlog).buffp = nlog.buffp ∧
    (log_rotate_close now nlog).buff = nlog.buff ∧
    (log_rotate_close now nlog).filename_base = nlog.filename_base := by
  unfold log_rotate_close
  split <;> exact ⟨rfl, rfl, rfl, rfl, rfl⟩

/-- The function `nanny_log_rotate` leaves the ring and the count of bytes
as they are. -/
theorem nanny_log_rotate_frame (sys : log_calls) (now : Int) (nlog r : nanny_log)
    (h : nanny_log_rotate sys now nlog = some r) :
    r.total_bytes = nlog.total_bytes ∧ r.buff_size = nlog.buff_size ∧ r.buffp = nlog.buffp ∧
      r.buff = nlog.buff := by
  obtain ⟨a2, b2, c2, d2, _⟩ := log_rotate_close_frame now nlog
  unfold nanny_log_rotate at h
  simp only at h
  generalize log_rotate_close now nlog = l at h a2 b2 c2 d2
  split at h
  · cases h
    exact ⟨a2, b2, c2, d2⟩
  · rename_i base _
    split at h
    · cases h
    · rename_i r1 e1
      cases h
      split at e1
      · obtain ⟨a, b, c, d⟩ := log_open_frame _ _ _ _ _ e1
        exact ⟨a.trans a2, b.trans b2, c.trans c2, d.trans d2⟩
      · cases e1
        exact ⟨a2, b2, c2, d2⟩

/-- The function `nanny_log_rotate` returns when `strdup` succeeds and the
base name has fewer than 990 characters. -/
theorem nanny_log_rotate_some (sys : log_calls) (now : Int) (nlog : nanny_log)
    (hdup : sys.strdup_ok = true)
    (hbase : ∀ b, nlog.filename_base = some b → b.length < 990) :
    ∃ r, nanny_log_rotate sys now nlog = some r := by
  have hopened : ∀ base name l, ∃ r, log_opened sys now base name l = some r := by
    intro base name l
    unfold log_opened
    simp only [hdup]
    exact ⟨_, rfl⟩
  have hopen : ∀ base l, base.length < 990 → ∃ r, log_open sys now base l = some r := by
    intro base l hb
    unfold log_open
    simp only
    split
    · rw [if_neg (by push_cast; omega)]
      split
      · exact hopened _ _ _
      · exact ⟨_, rfl⟩
    · exact hopened _ _ _
  obtain ⟨_, _, _, _, hfb⟩ := log_rotate_close_frame now nlog
  unfold nanny_log_rotate
  simp only
  generalize log_rotate_close now nlog = l at hfb
  cases hb : l.filename_base with
  | none => exact ⟨_, rfl⟩
  | some base =>
    have hlen : base.length < 990 := hbase base (by rw [← hfb, hb])
    simp only
    by_cases hfd : l.file_fd < 0
    · obtain ⟨r, hr⟩ := hopen base l hlen
      rw [if_pos hfd, hr]
      exact ⟨_, rfl⟩
    · rw [if_neg hfd]
      exact ⟨_, rfl⟩

theorem log_store_frame (nlog : nanny_log) (p : List Nat) (n : Nat)
    (hp : nlog.buffp < nlog.buff_size) :
    (log_store nlog p n).total_bytes = (nlog.total_bytes + n) % 2 ^ 64 ∧
    (log_store nlog p n).buff_size = nlog.buff_size ∧
    (log_store nlog p n).buffp < nlog.buff_size := by
  refine ⟨rfl, rfl, ?_⟩
  show (if nlog.buffp + n ≥ nlog.buff_size then 0 else nlog.buffp + n) < nlog.buff_size
  split <;> omega

/-- The loop of `nanny_log_printf` on a ring that has room: it ends within as
many passes as the message has bytes and has then counted every byte. -/
theorem log_copy_spec :
    ∀ (fuel : Nat) (p : List Nat) (nlog : nanny_log), p.length ≤ fuel →
      nlog.buffp < nlog.buff_size → nlog.total_bytes < 2 ^ 64 →
      ∃ r, log_copy fuel p nlog = some r ∧
        r.total_bytes = (nlog.total_bytes + p.length) % 2 ^ 64 ∧
        r.buff_size = nlog.buff_size ∧ r.buffp < r.buff_size := by
  intro fuel
  induction fuel with
  | zero =>
    intro p nlog hlen hp ht
    have : p = [] := List.length_eq_zero.mp (Nat.le_zero.mp hlen)
    subst this
    refine ⟨nlog, rfl, ?_, rfl, hp⟩
    simp only [List.length_nil, Nat.add_zero]
    exact (Nat.mod_eq_of_lt ht).symm
  | succ fuel ih =>
    intro p nlog hlen hp ht
    cases p with
    | nil =>
      refine ⟨nlog, rfl, ?_, rfl, hp⟩
      simp only [List.length_nil, Nat.add_zero]
      exact (Nat.mod_eq_of_lt ht).symm
    | cons b bs =>
      obtain ⟨n, h1, h2, h3, hn⟩ : ∃ n : Nat, 1 ≤ n ∧ n ≤ (b :: bs).length ∧
          n ≤ nlog.buff_size - nlog.buffp ∧
          (if ((b :: bs).length : Int) > (nlog.buff_size : Int) - nlog.buffp then
              (nlog.buff_size : Int) - nlog.buffp
            else ((b :: bs).length : Int)) = (n : Int) := by
        by_cases hc : ((b :: bs).length : Int) > (nlog.buff_size : Int) - nlog.buffp
        · refine ⟨nlog.buff_size - nlog.buffp, by omega, by omega, le_refl _, ?_⟩
          rw [if_pos hc]
          omega
        · refine ⟨(b :: bs).length, by simp, le_refl _, by omega, ?_⟩
          rw [if_neg hc]
      obtain ⟨s1, s2, s3⟩ := log_store_frame nlog (b :: bs) n hp
      obtain ⟨r, hr, ht2, hs2, hp2⟩ := ih ((b :: bs).drop n) (log_store nlog (b :: bs) n)
        (by rw [List.length_drop]; omega) (by rw [s2]; exact s3)
        (by rw [s1]; exact Nat.mod_lt _ (by norm_num))
      refine ⟨r, ?_, ?_, hs2.trans s2, hp2⟩
      · rw [log_copy]
        simp only [hn]
        rw [if_neg (by omega)]
        simpa using hr
      · rw [ht2, s1, List.length_drop]
        omega

theorem find_child_store_ne (w : World) (c : nanny_child) (q : Nat) (h : q ≠ c.addr) :
    find_child (store_child w c) q = find_child w q := by
  unfold find_child store_child
  simp only
  induction w.live_children with
  | nil => rfl
  | cons a l ih =>
    simp only [List.map_cons]
    by_cases ha : a.addr = c.addr
    · rw [if_pos ha, List.find?_cons_of_neg _ (by simpa using fun e => h e.symm),
        List.find?_cons_of_neg _ (by simpa [ha] using fun e => h e.symm)]
      exact ih
    · rw [if_neg ha]
      by_cases hq : a.addr = q
      · rw [List.find?_cons_of_pos _ (by simpa using hq),
          List.find?_cons_of_pos _ (by simpa using hq)]
      · rw [List.find?_cons_of_neg _ (by simpa using hq),
          List.find?_cons_of_neg _ (by simpa using hq)]
        exact ih

theorem length_foldl_timer_delete (l : List timed_t) (w : World) :
    (l.foldl (fun w t => timer_delete w t.timer) w).timers.length ≤ w.timers.length ∧
    (l.foldl (fun w t => timer_delete w t.timer) w).live_children = w.live_children := by
  induction l generalizing w with
  | nil => exact ⟨le_refl _, rfl⟩
  | cons a l ih =>
    simp only [List.foldl_cons]
    obtain ⟨h1, h2⟩ := ih (timer_delete w a.timer)
    exact ⟨h1.trans (length_delete_le _ _), h2⟩

/-- The loop of `nanny_stop_all_children` returns when the heap has room for
one timer per record, and adds one to the count for every record that is not
in state `STOPPED`. -/
theorem stop_all_loop_count (env : Nat → syscalls) (ht : ∀ n, (env n).timer1 ≠ 0) :
    ∀ (cs : List nanny_child) (n : Nat) (alive : Int) (w : World),
      (∀ c ∈ cs, ∃ c', find_child w c.addr = some c' ∧ c'.state = c.state) →
      w.timers.length + cs.length < MAX_TIMERS →
      ∃ w', stop_all_loop env (cs.map (fun c => c.addr)) n alive w
        = some (alive + (not_stopped cs : Nat), w') := by
  intro cs
  induction cs with
  | nil =>
    intro n alive w _ _
    exact ⟨w, by simp [stop_all_loop, not_stopped]⟩
  | cons c rest ih =>
    intro n alive w hf hroom
    obtain ⟨c', hc', hs⟩ := hf c (List.mem_cons_self _ _)
    simp only [List.length_cons] at hroom
    have hrest : ∀ (w2 : World) (c2 : nanny_child), w2.live_children = w.live_children →
        c2.addr = c.addr → c2.state = c.state →
        ∀ x ∈ rest, ∃ x', find_child (store_child w2 c2) x.addr = some x' ∧
          x'.state = x.state := by
      intro w2 c2 hch ha hst x hx
      by_cases hxa : x.addr = c.addr
      · refine ⟨c2, ?_, ?_⟩
        · rw [hxa]; exact find_child_store w w2 _ c' c2 hc' hch ha
        · obtain ⟨x', hx', hxs⟩ := hf x (List.mem_cons_of_mem _ hx)
          rw [hxa, hc'] at hx'
          cases hx'
          rw [hst, ← hs, hxs]
      · obtain ⟨x', hx', hxs⟩ := hf x (List.mem_cons_of_mem _ hx)
        refine ⟨x', ?_, hxs⟩
        rw [find_child_store_ne _ _ _ (by rw [ha]; exact hxa)]
        have : find_child w2 x.addr = find_child w x.addr := by
          unfold find_child; rw [hch]
        rw [this, hx']
    simp only [List.map_cons]
    unfold stop_all_loop
    rw [hc']
    simp only
    by_cases hst : c'.state = child_state.STOPPED
    · rw [if_pos hst]
      obtain ⟨w', e⟩ := ih (n + 1) alive
        (store_child w { c' with state_handler := handler.main_child_goal_stopped })
        (hrest w _ rfl (find_child_addr w _ c' hc') hs) (by simp only [timers_store_child]; omega)
      refine ⟨w', ?_⟩
      rw [e]
      have : not_stopped (c :: rest) = not_stopped rest := by
        unfold not_stopped
        rw [List.filter_cons_of_neg (by simpa [← hs] using hst)]
      rw [this]
    · rw [if_neg hst]
      have hcount : not_stopped (c :: rest) = not_stopped rest + 1 := by
        unfold not_stopped
        rw [List.filter_cons_of_pos (by simpa [← hs] using hst)]
        rfl
      by_cases hh : c'.state_handler = handler.main_child_goal_stopped
      · rw [if_pos hh]
        obtain ⟨w', e⟩ := ih (n + 1) (alive + 1) w
          (fun x hx => hf x (List.mem_cons_of_mem _ hx)) (by omega)
        refine ⟨w', ?_⟩
        rw [e, hcount]
        push_cast
        rw [add_assoc, add_comm 1]
      · rw [if_neg hh]
        obtain ⟨hl1, hl2⟩ := length_foldl_timer_delete c'.timed w
        have hl3 : (timer_delete (c'.timed.foldl (fun w t => timer_delete w t.timer) w)
            c'.state_timer).timers.length
            ≤ (c'.timed.foldl (fun w t => timer_delete w t.timer) w).timers.length :=
          length_delete_le _ _
        have hl4 : (timer_delete (timer_delete
            (c'.timed.foldl (fun w t => timer_delete w t.timer) w)
            c'.state_timer) c'.health_timer).timers.length
            ≤ (timer_delete (c'.timed.foldl (fun w t => timer_delete w t.timer) w)
            c'.state_timer).timers.length :=
          length_delete_le _ _
        obtain ⟨w1, e1, e2, e3, _⟩ := timer_add_some
          (timer_delete (timer_delete (c'.timed.foldl (fun w t => timer_delete w t.timer) w)
            c'.state_timer) c'.health_timer) (env n).timer1 0
          handler.main_child_goal_stopped c.addr (ht n) (by omega)
        rw [e1]
        simp only
        rw [hcount]
        push_cast
        rw [show alive + ((not_stopped rest : Int) + 1) = alive + 1 + (not_stopped rest : Int)
          by ring]
        apply ih
        · exact hrest w1 _ (by rw [e3]; exact hl2) (find_child_addr w _ c' hc') hs
        · simp only [timers_store_child]; omega

theorem find_child_of_nodup (l : List nanny_child) (hnd : (l.map (fun c => c.addr)).Nodup) :
    ∀ c ∈ l, l.find? (fun x => x.addr == c.addr) = some c := by
  induction l with
  | nil => intro c hc; simp at hc
  | cons a l ih =>
    intro c hc
    simp only [List.map_cons, List.nodup_cons] at hnd
    rcases List.mem_cons.mp hc with e | hm
    · subst e
      exact List.find?_cons_of_pos _ (by simp)
    · have hne : a.addr ≠ c.addr := by
        intro e
        exact hnd.1 (e ▸ List.mem_map_of_mem _ hm)
      rw [List.find?_cons_of_neg _ (by simpa using hne)]
      exact ih hnd.2 c hm

theorem not_stopped_eq_zero (l : List nanny_child) :
    not_stopped l = 0 ↔ ∀ c ∈ l, c.state = child_state.STOPPED := by
  unfold not_stopped
  rw [List.length_eq_zero, List.filter_eq_nil_iff]
  simp

/-- On a heap with distinct non-null addresses, `nanny_timer_delete(t)` takes
out the entry at the address `t` and nothing else. -/
theorem delete_perm_filter (h : List timer) (t : Nat) (hinv : timers_inv h) :
    (nanny_timer_delete h t).Perm (h.filter (fun x => x.ptr ≠ t)) := by
  obtain ⟨_, hcase⟩ := delete_spec h t hinv.1
  rcases hcase with ⟨e, h0 | hno⟩ | ⟨x, hx, _, hp⟩
  · rw [e, List.filter_eq_self.mpr]
    intro a ha
    have := hinv.2.2.1 a ha
    simp only [ne_eq, decide_not, Bool.not_eq_eq_eq_not, Bool.not_true, decide_eq_false_iff_not]
    rw [h0]; exact this
  · rw [e, List.filter_eq_self.mpr]
    intro a ha
    simpa using hno a ha
  · have hnd : ((x :: nanny_timer_delete h t).map (fun y => y.ptr)).Nodup :=
      (hp.map _).nodup_iff.mp hinv.2.1
    simp only [List.map_cons, List.nodup_cons, List.mem_map, not_exists, not_and] at hnd
    have h1 : (h.filter (fun y => y.ptr ≠ t)).Perm
        ((x :: nanny_timer_delete h t).filter (fun y => y.ptr ≠ t)) := hp.filter _
    have h2 : (nanny_timer_delete h t).filter (fun y => y.ptr ≠ t) = nanny_timer_delete h t := by
      apply List.filter_eq_self.mpr
      intro a ha
      have := hnd.1 a ha
      simp only [ne_eq, decide_not, Bool.not_eq_eq_eq_not, Bool.not_true,
        decide_eq_false_iff_not]
      rw [← hx]; exact this
    rw [List.filter_cons_of_neg (by simpa using hx), h2] at h1
    exact h1.symm

theorem timer_add_perm (w : World) (t : Nat) (when : Int) (f : handler) (data : Nat)
    (ht : t ≠ 0) (hlen : w.timers.length + 1 < MAX_TIMERS) :
    ∃ w', timer_add w t when f data = some w' ∧
      w'.timers.Perm (⟨t, when, data, f⟩ :: w.timers) ∧
      w'.live_children = w.live_children ∧ w'.now = w.now ∧ w'.child_pid = w.child_pid ∧
      w'.trace = w.trace ++ [event.timer_add t when f data] := by
  obtain ⟨h2, e, hp⟩ := add_spec_perm w.timers t when f data ht hlen
  refine ⟨{ w with timers := h2, trace := w.trace ++ [event.timer_add t when f data] },
    ?_, hp, rfl, rfl, rfl, rfl⟩
  unfold timer_add
  rw [e]

theorem getElem?_SWAP_TIMERS (h : List timer) (a b k : Nat) (ha : a < h.length)
    (hb : b < h.length) :
    (SWAP_TIMERS h a b)[k]?
      = if k = b then h[a]? else if k = a then h[b]? else h[k]? := by
  unfold SWAP_TIMERS
  rw [List.getElem?_eq_getElem ha, List.getElem?_eq_getElem hb]
  simp only [List.getElem?_set, List.length_set]
  by_cases h1 : k = b
  · subst h1; simp [hb]
  · by_cases h2 : k = a
    · subst h2
      have : ¬ b = k := fun e => h1 e.symm
      simp [this, ha, h1]
    · have e1 : ¬ b = k := fun e => h1 e.symm
      have e2 : ¬ a = k := fun e => h2 e.symm
      simp [e1, e2, h1, h2]

theorem getElem?_moved_last (g : List timer) (n i k : Nat) (hg : g.length = n + 1)
    (hi : i ≤ n) :
    (moved_last g i)[k]? = if k < n then (if k = i then g[n]? else g[k]?) else none := by
  unfold moved_last
  have hn : n < g.length := by omega
  have e : g.length - 1 = n := by omega
  rw [e, List.getElem?_eq_getElem hn]
  simp only [List.getElem?_take]
  by_cases hk : k < n
  · rw [if_pos hk, if_pos hk, List.getElem?_set]
    by_cases hki : k = i
    · subst hki
      simp
      omega
    · have : ¬ i = k := fun e => hki e.symm
      simp [this, hki]
  · rw [if_neg hk, if_neg hk]

theorem length_moved_last (g : List timer) (n i : Nat) (hg : g.length = n + 1) :
    (moved_last g i).length = n := by
  unfold moved_last
  split <;> simp <;> omega

theorem when_at_moved_last (g : List timer) (n i k : Nat) (hg : g.length = n + 1)
    (hi : i ≤ n) (hk : k < n) :
    when_at (moved_last g i) k = if k = i then when_at g n else when_at g k := by
  unfold when_at
  rw [getElem?_moved_last g n i k hg hi, if_pos hk]
  by_cases hki : k = i
  · rw [if_pos hki, if_pos hki]
  · rw [if_neg hki, if_neg hki]

theorem float_down_stays (h : List timer) (i fuel : Nat)
    (h1 : i * 2 + 1 < h.length → when_at h i ≤ when_at h (i * 2 + 1))
    (h2 : i * 2 + 2 < h.length → when_at h i ≤ when_at h (i * 2 + 2)) :
    float_down h i fuel = h := by
  cases fuel with
  | zero => rfl
  | succ f =>
    unfold float_down
    split
    · have e1 : ¬ (i * 2 + 1 < h.length ∧ when_at h (i * 2 + 1) < when_at h i) := by
        intro c; have := h1 c.1; omega
      have e2 : ¬ (i * 2 + 2 < h.length ∧ when_at h (i * 2 + 2) < when_at h i) := by
        intro c; have := h2 c.1; omega
      have : earliest_of h i = i := by
        unfold earliest_of
        simp only
        rw [if_neg e1, if_neg e2]
      rw [if_pos this]
    · rfl

/-- One pass of the downward loop undoes one pass of the upward loop: with the
last entry written over the new timer at the parent index `j`, the earliest
child is the entry that the upward pass moved down to `i`. -/
theorem undo_step_down (h g : List timer) (i j : Nat) (hjd : (i - 1) / 2 = j)
    (hlen : g.length = h.length + 1) (hin : i < h.length) (hi0 : 0 < i)
    (hS : ∀ k, 0 < k → k ≤ h.length → k ≠ i → when_at g ((k - 1) / 2) < when_at g k)
    (hL : when_at g j < when_at g h.length) (f : Nat) :
    float_down (moved_last (SWAP_TIMERS g i j) j) j (f + 1)
      = float_down (moved_last g i) i f := by
  have hi : i < g.length := by omega
  have hj : j < g.length := by omega
  have hji : j < i := by omega
  have hlen1 : (SWAP_TIMERS g i j).length = h.length + 1 := by
    rw [length_SWAP_TIMERS]; exact hlen
  have hG := fun k => getElem?_SWAP_TIMERS g i j k hi hj
  have hW := fun k => when_at_SWAP_TIMERS g i j k hi hj
  have hM1 := fun k => getElem?_moved_last (SWAP_TIMERS g i j) h.length j k hlen1 (by omega)
  have hM := fun k => getElem?_moved_last g h.length i k hlen (by omega)
  have hl1 : (moved_last (SWAP_TIMERS g i j) j).length = h.length :=
    length_moved_last _ _ _ hlen1
  have wj : when_at (moved_last (SWAP_TIMERS g i j) j) j = when_at g h.length := by
    rw [when_at_moved_last _ h.length j j hlen1 (by omega) (by omega), if_pos rfl, hW,
      if_neg (by omega), if_neg (by omega)]
  have wi : when_at (moved_last (SWAP_TIMERS g i j) j) i = when_at g j := by
    rw [when_at_moved_last _ h.length j i hlen1 (by omega) hin, if_neg (by omega), hW,
      if_neg (by omega), if_pos rfl]
  have ws : ∀ s, s < h.length → s ≠ i → s ≠ j →
      when_at (moved_last (SWAP_TIMERS g i j) j) s = when_at g s := by
    intro s hs hsi hsj
    rw [when_at_moved_last _ h.length j s hlen1 (by omega) hs, if_neg hsj, hW,
      if_neg hsj, if_neg hsi]
  have he : earliest_of (moved_last (SWAP_TIMERS g i j) j) j = i := by
    unfold earliest_of
    simp only
    rw [hl1]
    rcases (show i = j * 2 + 1 ∨ i = j * 2 + 2 by omega) with e | e
    · have c1 : j * 2 + 1 < h.length ∧
          when_at (moved_last (SWAP_TIMERS g i j) j) (j * 2 + 1)
            < when_at (moved_last (SWAP_TIMERS g i j) j) j := by
        refine ⟨by omega, ?_⟩
        rw [← e, wi, wj]; exact hL
      rw [if_pos c1]
      have c2 : ¬ (j * 2 + 2 < h.length ∧
          when_at (moved_last (SWAP_TIMERS g i j) j) (j * 2 + 2)
            < when_at (moved_last (SWAP_TIMERS g i j) j) (j * 2 + 1)) := by
        intro c
        have c' := c.2
        rw [ws _ c.1 (by omega) (by omega), ← e, wi] at c'
        have := hS (j * 2 + 2) (by omega) (by omega) (by omega)
        rw [show (j * 2 + 2 - 1) / 2 = j by omega] at this
        omega
      rw [if_neg c2]
      exact e.symm
    · have hsa := hS (j * 2 + 1) (by omega) (by omega) (by omega)
      rw [show (j * 2 + 1 - 1) / 2 = j by omega] at hsa
      by_cases c1 : j * 2 + 1 < h.length ∧
          when_at (moved_last (SWAP_TIMERS g i j) j) (j * 2 + 1)
            < when_at (moved_last (SWAP_TIMERS g i j) j) j
      · rw [if_pos c1]
        have c2 : j * 2 + 2 < h.length ∧
            when_at (moved_last (SWAP_TIMERS g i j) j) (j * 2 + 2)
              < when_at (moved_last (SWAP_TIMERS g i j) j) (j * 2 + 1) := by
          refine ⟨by omega, ?_⟩
          rw [← e, wi, ws _ (by omega) (by omega) (by omega)]
          exact hsa
        rw [if_pos c2]
        exact e.symm
      · rw [if_neg c1]
        have c2 : j * 2 + 2 < h.length ∧
            when_at (moved_last (SWAP_TIMERS g i j) j) (j * 2 + 2)
              < when_at (moved_last (SWAP_TIMERS g i j) j) j := by
          refine ⟨by omega, ?_⟩
          rw [← e, wi, wj]; exact hL
        rw [if_pos c2]
        exact e.symm
  have hsw : SWAP_TIMERS (moved_last (SWAP_TIMERS g i j) j) i j = moved_last g i := by
    apply List.ext_getElem?
    intro k
    rw [getElem?_SWAP_TIMERS _ i j k (by omega) (by omega)]
    simp only [hM1, hM, hG]
    have n1 : ¬ i = j := by omega
    have n2 : ¬ j = i := by omega
    have n3 : ¬ h.length = j := by omega
    have n4 : ¬ h.length = i := by omega
    have n5 : j < h.length := by omega
    by_cases hkj : k = j
    · simp [hkj, n1, n2, n3, n4, n5, hin]
    · by_cases hki : k = i
      · simp [hki, n1, n2, n3, n4, n5, hin]
      · simp [hkj, hki]
  rw [float_down, if_pos (by omega), he, if_neg (by omega), hsw]

/-- One pass of the upward loop keeps `undo_inv`. -/
theorem undo_inv_step (h : List timer) (x : timer) (g : List timer) (i : Nat)
    (hI : undo_inv h x g i) (hij : i > (i - 1) / 2)
    (hlt : when_at g i < when_at g ((i - 1) / 2)) :
    undo_inv h x (SWAP_TIMERS g i ((i - 1) / 2)) ((i - 1) / 2) := by
  obtain ⟨hlen, hin, hx, hS, hS2, hL, hD⟩ := hI
  have hi : i < g.length := by omega
  have hj : (i - 1) / 2 < g.length := by omega
  have hi0 : 0 < i := by omega
  have hW := fun k => when_at_SWAP_TIMERS g i ((i - 1) / 2) k hi hj
  refine ⟨by rw [length_SWAP_TIMERS]; exact hlen, by omega, ?_, ?_, ?_, ?_, ?_⟩
  · rw [getElem?_SWAP_TIMERS g i _ _ hi hj, if_pos rfl]; exact hx
  · intro k hk0 hkn hkj
    rw [hW, hW]
    have hpk : (k - 1) / 2 < k := by omega
    by_cases hki : k = i
    · subst hki
      rw [if_pos rfl, if_neg hkj, if_pos rfl]
      exact hlt
    · rw [if_neg hkj, if_neg hki]
      have u1 := hS k hk0 hkn hki
      by_cases hpj : (k - 1) / 2 = (i - 1) / 2
      · rw [if_pos hpj]
        rw [hpj] at u1
        omega
      · rw [if_neg hpj]
        by_cases hpi : (k - 1) / 2 = i
        · rw [if_pos hpi]
          exact hS2 k hk0 hkn hpi hi0
        · rw [if_neg hpi]
          exact u1
  · intro k hk0 hkn hpj hj0
    rw [hW, hW]
    have hq1 : ¬ ((i - 1) / 2 - 1) / 2 = (i - 1) / 2 := by omega
    have hq2 : ¬ ((i - 1) / 2 - 1) / 2 = i := by omega
    rw [if_neg hq1, if_neg hq2]
    have uj := hS ((i - 1) / 2) hj0 (by omega) (by omega)
    have hkj : ¬ k = (i - 1) / 2 := by omega
    rw [if_neg hkj]
    by_cases hki : k = i
    · rw [if_pos hki]; exact uj
    · rw [if_neg hki]
      have u1 := hS k hk0 hkn hki
      rw [hpj] at u1
      omega
  · intro hjn hj0
    rw [hW, hW]
    have hq1 : ¬ ((i - 1) / 2 - 1) / 2 = (i - 1) / 2 := by omega
    have hq2 : ¬ ((i - 1) / 2 - 1) / 2 = i := by omega
    rw [if_neg hq1, if_neg hq2]
    have uj := hS ((i - 1) / 2) hj0 (by omega) (by omega)
    have hnj : ¬ h.length = (i - 1) / 2 := by omega
    rw [if_neg hnj]
    by_cases hni : h.length = i
    · rw [if_pos hni]; exact uj
    · rw [if_neg hni]
      have := hL (by omega) hi0
      omega
  · intro fuel hfuel
    have hlen1 : (SWAP_TIMERS g i ((i - 1) / 2)).length = h.length + 1 := by
      rw [length_SWAP_TIMERS]; exact hlen
    by_cases hni : i = h.length
    · -- the first pass: the new timer leaves the last index
      have hm : moved_last (SWAP_TIMERS g i ((i - 1) / 2)) ((i - 1) / 2) = moved_last g i := by
        apply List.ext_getElem?
        intro k
        rw [getElem?_moved_last _ h.length _ k hlen1 (by omega),
          getElem?_moved_last _ h.length _ k hlen hin]
        by_cases hk : k < h.length
        · rw [if_pos hk, if_pos hk, getElem?_SWAP_TIMERS g i _ _ hi hj,
            getElem?_SWAP_TIMERS g i _ _ hi hj]
          have hki : ¬ k = i := by omega
          rw [if_neg hki]
          have hnj : ¬ h.length = (i - 1) / 2 := by omega
          rw [if_neg hnj, if_pos hni.symm]
          by_cases hkj : k = (i - 1) / 2
          · rw [if_pos hkj, hkj, if_neg (by omega)]
          · rw [if_neg hkj, if_neg hkj, if_neg hki]
        · rw [if_neg hk, if_neg hk]
      have hh : moved_last g i = h := by
        have := hD 0 (by omega)
        simpa [float_down] using this
      rw [hm, hh]
      have hwh : ∀ k, k < h.length → when_at h k = when_at g k := by
        intro k hk
        have := when_at_moved_last g h.length i k hlen hin hk
        rw [hh, if_neg (by omega)] at this
        exact this
      apply float_down_stays
      · intro hc
        have := hS ((i - 1) / 2 * 2 + 1) (by omega) (by omega) (by omega)
        rw [show ((i - 1) / 2 * 2 + 1 - 1) / 2 = (i - 1) / 2 by omega] at this
        rw [hwh _ hc, hwh _ (by omega)]
        omega
      · intro hc
        have := hS ((i - 1) / 2 * 2 + 2) (by omega) (by omega) (by omega)
        rw [show ((i - 1) / 2 * 2 + 2 - 1) / 2 = (i - 1) / 2 by omega] at this
        rw [hwh _ hc, hwh _ (by omega)]
        omega
    · obtain ⟨f, rfl⟩ : ∃ f, fuel = f + 1 := ⟨fuel - 1, by omega⟩
      rw [undo_step_down h g i _ rfl hlen (by omega) hi0 hS (hL (by omega) hi0) f]
      exact hD f (by omega)

/-- The upward loop ends in a state that keeps `undo_inv`, at an index where
the entry is not earlier than its parent. -/
theorem float_up_undo (h : List timer) (x : timer) (fuel : Nat) :
    ∀ (g : List timer) (i : Nat), undo_inv h x g i → i < fuel →
      ∃ i', undo_inv h x (float_up g i fuel) i' ∧
        ¬ (i' > 0 ∧ when_at (float_up g i fuel) i'
          < when_at (float_up g i fuel) ((i' - 1) / 2)) := by
  induction fuel with
  | zero => intro g i _ hf; omega
  | succ n ih =>
    intro g i hI hf
    unfold float_up
    simp only
    split
    · rename_i hc
      exact ih _ _ (undo_inv_step h x g i hI hc.1 hc.2) (by omega)
    · rename_i hc
      refine ⟨i, hI, ?_⟩
      intro c
      exact hc ⟨by omega, c.2⟩

/-- On a heap in strict order, `nanny_timer_add` followed by
`nanny_timer_delete` of the new timer gives the array back, entry by entry. -/
theorem add_delete_strict (h : List timer) (hs : heap_strict h)
    (hnd : (h.map (fun x => x.ptr)).Nodup) (t : Nat) (ht : t ≠ 0)
    (hfresh : ∀ x ∈ h, x.ptr ≠ t) (hlen : h.length + 1 < MAX_TIMERS) (when : Int)
    (f : handler) (data : Nat) :
    ∃ h1, nanny_timer_add h t when f data = some (t, h1) ∧ nanny_timer_delete h1 t = h := by
  obtain ⟨h1, hadd, hperm⟩ := add_spec_perm h t when f data ht hlen
  refine ⟨h1, hadd, ?_⟩
  have hI0 : undo_inv h ⟨t, when, data, f⟩ (h ++ [⟨t, when, data, f⟩]) h.length := by
    refine ⟨by simp, le_refl _, by simp, ?_, ?_, ?_, ?_⟩
    · intro k hk0 hkn hk
      rw [when_at_append_left _ _ _ (by omega), when_at_append_left _ _ _ (by omega)]
      exact hs k hk0 (by omega)
    · intro k hk0 hkn hp _
      omega
    · intro c; omega
    · intro fuel _
      have : moved_last (h ++ [⟨t, when, data, f⟩]) h.length = h := by
        unfold moved_last
        simp
      rw [this]
      cases fuel with
      | zero => rfl
      | succ n => unfold float_down; rw [if_neg (by omega)]
  have hfin : ∃ i', undo_inv h ⟨t, when, data, f⟩ h1 i' ∧
      ¬ (i' > 0 ∧ when_at h1 i' < when_at h1 ((i' - 1) / 2)) := by
    unfold nanny_timer_add at hadd
    rw [if_neg ht, if_pos hlen] at hadd
    simp only [Option.some.injEq, Prod.mk.injEq, true_and] at hadd
    rw [← hadd]
    unfold nanny_timer_adjust_position
    split
    · exact float_up_undo h _ _ _ _ hI0 (by omega)
    · rename_i hc
      rw [float_down_stays _ _ _ (by intro c; simp at c; omega) (by intro c; simp at c; omega)]
      exact ⟨h.length, hI0, hc⟩
  obtain ⟨i, ⟨hl1, hin, hx, hS, _, hL, hD⟩, hstop⟩ := hfin
  have hi1 : i < h1.length := by omega
  have hxi : h1[i] = ⟨t, when, data, f⟩ := by
    rw [List.getElem?_eq_getElem hi1] at hx
    exact Option.some.inj hx
  have hnd1 : (h1.map (fun x => x.ptr)).Nodup := by
    refine (hperm.map _).nodup_iff.mpr ?_
    simp only [List.map_cons, List.nodup_cons, List.mem_map, not_exists, not_and]
    exact ⟨fun y hy => hfresh y hy, hnd⟩
  have hidx : h1.findIdx (fun y => y.ptr == t) = i := by
    refine (List.findIdx_eq hi1).mpr ⟨by rw [hxi]; simp, ?_⟩
    intro j hji
    have hj1 : j < h1.length := by omega
    by_contra c
    simp only [beq_eq_false_iff_ne, ne_eq, Decidable.not_not] at c
    have e1 : (h1.map (fun y => y.ptr))[j]? = some t := by
      rw [List.getElem?_map, List.getElem?_eq_getElem hj1]; simp [c]
    have e2 : (h1.map (fun y => y.ptr))[i]? = some t := by
      rw [List.getElem?_map, List.getElem?_eq_getElem hi1, hxi]; rfl
    have := (List.nodup_iff_getElem?_ne_getElem?.mp hnd1) j i hji (by simpa using hi1)
    exact this (e1.trans e2.symm)
  unfold nanny_timer_delete
  rw [if_neg ht]
  simp only
  rw [hidx, if_pos hi1]
  have hrem : nanny_timer_remove h1 i
      = if h1.length < 1 ∨ i > h1.length then h1
        else if i < h1.length - 1 then nanny_timer_adjust_position (moved_last h1 i) i
        else moved_last h1 i := rfl
  rw [hrem, if_neg (by omega)]
  by_cases hlast : i < h1.length - 1
  · rw [if_pos hlast]
    unfold nanny_timer_adjust_position
    have hc : ¬ (i > 0 ∧ when_at (moved_last h1 i) i
        < when_at (moved_last h1 i) ((i - 1) / 2)) := by
      intro c
      rw [when_at_moved_last h1 h.length i i hl1 hin (by omega), if_pos rfl,
        when_at_moved_last h1 h.length i _ hl1 hin (by omega), if_neg (by omega)] at c
      have := hL (by omega) c.1
      omega
    rw [if_neg hc, length_moved_last h1 h.length i hl1]
    exact hD _ (by omega)
  · rw [if_neg hlast]
    have := hD 0 (by omega)
    simpa [float_down] using this

theorem length_register_clear (s : Int) (l : List listener_slot) :
    (register_clear s l).length = l.length := by
  induction l with
  | nil => rfl
  | cons x rest ih =>
    unfold register_clear
    split
    · simp
    · simp [ih]

theorem length_register_store (h : Nat) (s : Int) (d : Nat) (l : List listener_slot) :
    (register_store h s d l).length = l.length := by
  induction l with
  | nil => rfl
  | cons x rest ih =>
    unfold register_store
    split
    · simp
    · simp [ih]

theorem slots_of_register_clear_ne (s fd : Int) (hfd : fd ≠ s) (h0 : fd ≠ 0)
    (l : List listener_slot) :
    slots_of fd (register_clear s l) = slots_of fd l := by
  induction l with
  | nil => rfl
  | cons x rest ih =>
    unfold register_clear
    split
    · rename_i hx
      unfold slots_of
      rw [List.filter_cons_of_neg (by simp [listener_clear]; exact fun e => h0 e.symm),
        List.filter_cons_of_neg (by simp [hx]; exact fun e => hfd e.symm)]
    · unfold slots_of at ih ⊢
      simp only [List.filter_cons, ih]

theorem slots_of_register_store_ne (h : Nat) (s : Int) (d : Nat) (fd : Int) (hfd : fd ≠ s)
    (h0 : fd ≠ 0) (l : List listener_slot) (hI : listener_free_inv l) :
    slots_of fd (register_store h s d l) = slots_of fd l := by
  induction l with
  | nil => rfl
  | cons x rest ih =>
    unfold register_store
    split
    · rename_i hx
      have := hI x (List.mem_cons_self _ _) hx
      unfold slots_of
      rw [List.filter_cons_of_neg (by simp; exact fun e => hfd e.symm),
        List.filter_cons_of_neg (by simp [this, listener_clear]; exact fun e => h0 e.symm)]
    · have hI2 : listener_free_inv rest := fun y hy => hI y (List.mem_cons_of_mem _ hy)
      unfold slots_of at ih ⊢
      simp only [List.filter_cons, ih hI2]

theorem slots_of_register_clear_self (s : Int) (h0 : s ≠ 0) (l : List listener_slot)
    (hU : (slots_of s l).length ≤ 1) : slots_of s (register_clear s l) = [] := by
  induction l with
  | nil => rfl
  | cons x rest ih =>
    unfold register_clear
    split
    · rename_i hx
      unfold slots_of at hU ⊢
      rw [List.filter_cons_of_pos (by simpa using hx)] at hU
      rw [List.filter_cons_of_neg (by simp [listener_clear]; exact fun e => h0 e.symm)]
      simp only [List.length_cons] at hU
      exact List.length_eq_zero.mp (by omega)
    · rename_i hx
      unfold slots_of at hU ih ⊢
      rw [List.filter_cons_of_neg (by simpa using hx)] at hU ⊢
      exact ih hU

theorem slots_of_register_store_self (h : Nat) (s : Int) (d : Nat)
    (l : List listener_slot) (hI : listener_free_inv l) (hfree : ∃ x ∈ l, x.handler = 0)
    (hno : slots_of s l = []) :
    slots_of s (register_store h s d l) = [{ socket := s, handler := h, data := d }] := by
  induction l with
  | nil => obtain ⟨x, hx, _⟩ := hfree; simp at hx
  | cons x rest ih =>
    have hxs : ¬ x.socket = s := by
      intro e
      unfold slots_of at hno
      rw [List.filter_cons_of_pos (by simpa using e)] at hno
      cases hno
    have hno2 : slots_of s rest = [] := by
      unfold slots_of at hno ⊢
      rw [List.filter_cons_of_neg (by simpa using hxs)] at hno
      exact hno
    unfold register_store
    split
    · unfold slots_of at hno2 ⊢
      rw [List.filter_cons_of_pos (by simp), hno2]
    · rename_i hx
      have hI2 : listener_free_inv rest := fun y hy => hI y (List.mem_cons_of_mem _ hy)
      have hfree2 : ∃ y ∈ rest, y.handler = 0 := by
        obtain ⟨y, hy, e⟩ := hfree
        rcases List.mem_cons.mp hy with e2 | hy
        · subst e2; exact absurd e hx
        · exact ⟨y, hy, e⟩
      have := ih hI2 hfree2 hno2
      unfold slots_of at this ⊢
      rw [List.filter_cons_of_neg (by simpa using hxs)]
      exact this

theorem register_clear_free (s : Int) (l : List listener_slot) (hreg : ∃ x ∈ l, x.socket = s) :
    ∃ x ∈ register_clear s l, x.handler = 0 := by
  induction l with
  | nil => obtain ⟨x, hx, _⟩ := hreg; simp at hx
  | cons x rest ih =>
    unfold register_clear
    split
    · exact ⟨listener_clear, List.mem_cons_self _ _, rfl⟩
    · rename_i hx
      obtain ⟨y, hy, e⟩ := hreg
      rcases List.mem_cons.mp hy with e2 | hy
      · subst e2; exact absurd e hx
      · obtain ⟨z, hz, e3⟩ := ih ⟨y, hy, e⟩
        exact ⟨z, List.mem_cons_of_mem _ hz, e3⟩

theorem free_inv_register_clear (s : Int) (l : List listener_slot) (hI : listener_free_inv l) :
    listener_free_inv (register_clear s l) := by
  induction l with
  | nil => intro x hx; simp [register_clear] at hx
  | cons x rest ih =>
    have hI2 : listener_free_inv rest := fun y hy => hI y (List.mem_cons_of_mem _ hy)
    unfold register_clear
    split
    · intro y hy e
      rcases List.mem_cons.mp hy with e2 | hy
      · exact e2
      · exact hI2 y hy e
    · intro y hy e
      rcases List.mem_cons.mp hy with e2 | hy
      · subst e2; exact hI y (List.mem_cons_self _ _) e
      · exact ih hI2 y hy e

theorem free_inv_register_store (h : Nat) (s : Int) (d : Nat) (hh : h ≠ 0)
    (l : List listener_slot) (hI : listener_free_inv l) :
    listener_free_inv (register_store h s d l) := by
  induction l with
  | nil => intro x hx; simp [register_store] at hx
  | cons x rest ih =>
    have hI2 : listener_free_inv rest := fun y hy => hI y (List.mem_cons_of_mem _ hy)
    unfold register_store
    split
    · intro y hy e
      rcases List.mem_cons.mp hy with e2 | hy
      · subst e2; exact absurd e hh
      · exact hI2 y hy e
    · intro y hy e
      rcases List.mem_cons.mp hy with e2 | hy
      · subst e2; exact hI y (List.mem_cons_self _ _) e
      · exact ih hI2 y hy e

theorem slots_of_unregister (fd s : Int) (h0 : s ≠ 0) (l : List listener_slot) :
    slots_of s (nanny_unregister_server fd l) = if s = fd then [] else slots_of s l := by
  induction l with
  | nil => simp [slots_of, nanny_unregister_server]
  | cons x rest ih =>
    unfold slots_of nanny_unregister_server at ih ⊢
    simp only [List.map_cons, List.filter_cons]
    rw [ih]
    by_cases hx : x.socket = fd
    · rw [if_pos hx]
      by_cases hs : s = fd
      · simp [hs, listener_clear]
        intro e; exact (h0 (hs.trans e.symm)).elim
      · have : ¬ x.socket = s := by rw [hx]; exact fun e => hs e.symm
        simp [hs, listener_clear, this]
        intro e; exact (h0 e.symm).elim
    · rw [if_neg hx]
      by_cases hs : s = fd
      · have : ¬ x.socket = s := by rw [hs]; exact hx
        simp [hs, this, hx]
      · simp [hs]

/-- What holds of every reachable table: 512 entries, an entry with a null
handler is cleared, and a descriptor other than 0 is in at most one entry. -/
theorem listener_reachable_inv (l : List listener_slot) (hr : listener_reachable l) :
    l.length = LISTENERS ∧ listener_free_inv l ∧
    ∀ fd, fd ≠ 0 → (slots_of fd l).length ≤ 1 := by
  induction hr with
  | init =>
    refine ⟨by simp [listener_init], ?_, ?_⟩
    · intro x hx _
      exact (List.eq_of_mem_replicate hx)
    · intro fd hfd
      have : slots_of fd listener_init = [] := by
        unfold slots_of
        apply List.filter_eq_nil_iff.mpr
        intro x hx
        rw [List.eq_of_mem_replicate hx]
        simp [listener_clear]
        exact fun e => hfd e.symm
      rw [this]; simp
  | register l h s d _ hh ih =>
    obtain ⟨hlen, hI, hU⟩ := ih
    have hI1 := free_inv_register_clear s l hI
    refine ⟨?_, free_inv_register_store h s d hh _ hI1, ?_⟩
    · unfold nanny_register_server
      rw [length_register_store, length_register_clear, hlen]
    · intro fd hfd
      unfold nanny_register_server
      by_cases hfs : fd = s
      · subst hfs
        have h1 := slots_of_register_clear_self fd hfd l (hU fd hfd)
        by_cases hfree : ∃ x ∈ register_clear fd l, x.handler = 0
        · rw [slots_of_register_store_self h fd d _ hI1 hfree h1]; simp
        · have : register_store h fd d (register_clear fd l) = register_clear fd l := by
            have hall : ∀ x ∈ register_clear fd l, ¬ x.handler = 0 :=
              fun x hx e => hfree ⟨x, hx, e⟩
            generalize register_clear fd l = m at hall
            induction m with
            | nil => rfl
            | cons a m ihm =>
              unfold register_store
              rw [if_neg (hall a (List.mem_cons_self _ _)),
                ihm (fun y hy => hall y (List.mem_cons_of_mem _ hy))]
          rw [this, h1]; simp
      · rw [slots_of_register_store_ne h s d fd hfs hfd _ hI1,
          slots_of_register_clear_ne s fd hfs hfd]
        exact hU fd hfd
  | unregister l fd _ ih =>
    obtain ⟨hlen, hI, hU⟩ := ih
    refine ⟨by simp [nanny_unregister_server, hlen], ?_, ?_⟩
    · intro x hx e
      simp only [nanny_unregister_server, List.mem_map] at hx
      obtain ⟨y, hy, e2⟩ := hx
      split at e2
      · exact e2.symm
      · subst e2; exact hI y hy e
    · intro s hs
      rw [slots_of_unregister fd s hs]
      split
      · simp
      · exact hU s hs

theorem length_ring_window (size : Nat) (B : List Nat) :
    (ring_window size B).length = size := by
  unfold ring_window
  simp only [List.length_append, List.length_replicate, List.length_drop]
  omega

/-- Appending `n` bytes, at most as many as the ring has, moves the window by
`n`. -/
theorem ring_window_append (size : Nat) (B c : List Nat)
    (h : B.length < size → B.length + c.length ≤ size) (hc : c.length ≤ size) :
    ring_window size (B ++ c) = (ring_window size B).drop c.length ++ c := by
  unfold ring_window
  by_cases hN : B.length < size
  · have h1 := h hN
    rw [show B.length - size = 0 by omega, show (B ++ c).length - size = 0 by simp; omega]
    simp only [List.drop_zero, List.length_append]
    rw [List.drop_append_of_le_length (by simp; omega), List.drop_replicate,
      List.append_assoc]
    congr 2
    omega
  · rw [show size - B.length = 0 by omega, show size - (B ++ c).length = 0 by simp; omega]
    simp only [List.replicate_zero, List.nil_append, List.length_append, List.drop_drop]
    rw [List.drop_append_of_le_length (by omega)]
    congr 2
    omega

/-- Writing `n` bytes at the position `p` of a ring that holds the window `P`
rotated by `p` gives the moved window rotated by the new position. -/
theorem rotate_store (P c : List Nat) (S p n : Nat) (hW : P.length = S) (hpn : p + n ≤ S)
    (hc : c.length = n) :
    P.drop (S - p) ++ c ++ (P.take (S - p)).drop n
      = (P.drop n ++ c).drop (S - (if p + n ≥ S then 0 else p + n))
        ++ (P.drop n ++ c).take (S - (if p + n ≥ S then 0 else p + n)) := by
  have hl : (P.drop n ++ c).length = S := by
    rw [List.length_append, List.length_drop, hW, hc]; omega
  by_cases h : p + n ≥ S
  · rw [if_pos h, Nat.sub_zero]
    have e : S - p = n := by omega
    have e1 : (P.drop n ++ c).drop S = [] := List.drop_of_length_le (by omega)
    have e2 : (P.drop n ++ c).take S = P.drop n ++ c := List.take_of_length_le (by omega)
    have e3 : (P.take n).drop n = [] := List.drop_of_length_le (by simp)
    rw [e, e1, e2, e3]
    simp
  · rw [if_neg h]
    have e1 : (P.drop n ++ c).drop (S - (p + n)) = (P.drop n).drop (S - (p + n)) ++ c :=
      List.drop_append_of_le_length (by rw [List.length_drop, hW]; omega)
    have e2 : (P.drop n ++ c).take (S - (p + n)) = (P.drop n).take (S - (p + n)) :=
      List.take_append_of_le_length (by rw [List.length_drop, hW]; omega)
    rw [e1, e2, List.drop_drop, List.drop_take]
    rw [show n + (S - (p + n)) = S - p by omega, show S - p - n = S - (p + n) by omega]

/-- One `memcpy` of the loop of `nanny_log_printf` keeps `ring_holds`. -/
theorem log_store_ring (nlog : nanny_log) (B p : List Nat) (n : Nat)
    (hI : ring_holds nlog B) (hn : n ≤ nlog.buff_size - nlog.buffp) (hp : n ≤ p.length) :
    ring_holds (log_store nlog p n) (B ++ p.take n) := by
  obtain ⟨hfb, hfd, hS, hbp, hbuff⟩ := hI
  have hlt : nlog.buffp < nlog.buff_size := by rw [hbp]; exact Nat.mod_lt _ (by omega)
  have hlc : (p.take n).length = n := by simp; omega
  have hW := length_ring_window nlog.buff_size B
  have hwin : ring_window nlog.buff_size (B ++ p.take n)
      = (ring_window nlog.buff_size B).drop n ++ p.take n := by
    have := ring_window_append nlog.buff_size B (p.take n) (by
      intro hB
      rw [Nat.mod_eq_of_lt hB] at hbp
      rw [hlc]; omega) (by rw [hlc]; omega)
    rw [hlc] at this
    exact this
  refine ⟨hfb, hfd, hS, ?_, ?_⟩
  · show (if nlog.buffp + n ≥ nlog.buff_size then 0 else nlog.buffp + n)
        = (B ++ p.take n).length % nlog.buff_size
    rw [List.length_append, hlc, Nat.add_mod, ← hbp]
    split
    · have : nlog.buffp + n = nlog.buff_size := by omega
      have e : n % nlog.buff_size = n - 0 * nlog.buff_size ∨ n = nlog.buff_size := by
        by_cases c : n = nlog.buff_size
        · exact Or.inr c
        · left; rw [Nat.mod_eq_of_lt (by omega)]; simp
      rcases e with e | e
      · rw [e]; simp only [Nat.zero_mul, Nat.sub_zero]; rw [this, Nat.mod_self]
      · have hb0 : nlog.buffp = 0 := by omega
        rw [hb0, e]; simp
    · rw [Nat.mod_eq_of_lt (show n < nlog.buff_size by omega),
        Nat.mod_eq_of_lt (show nlog.buffp + n < nlog.buff_size by omega)]
  · show nlog.buff.take nlog.buffp ++ p.take n ++ nlog.buff.drop (nlog.buffp + n)
        = (ring_window nlog.buff_size (B ++ p.take n)).drop
            (nlog.buff_size - (if nlog.buffp + n ≥ nlog.buff_size then 0 else nlog.buffp + n))
          ++ (ring_window nlog.buff_size (B ++ p.take n)).take
            (nlog.buff_size - (if nlog.buffp + n ≥ nlog.buff_size then 0 else nlog.buffp + n))
    have hX : ((ring_window nlog.buff_size B).drop (nlog.buff_size - nlog.buffp)).length
        = nlog.buffp := by
      rw [List.length_drop, hW]; omega
    have h1 : nlog.buff.take nlog.buffp
        = (ring_window nlog.buff_size B).drop (nlog.buff_size - nlog.buffp) := by
      rw [hbuff]
      exact List.take_left' hX
    have h2 : nlog.buff.drop (nlog.buffp + n)
        = ((ring_window nlog.buff_size B).take (nlog.buff_size - nlog.buffp)).drop n := by
      rw [hbuff]
      have := @List.drop_append _
        ((ring_window nlog.buff_size B).drop (nlog.buff_size - nlog.buffp))
        ((ring_window nlog.buff_size B).take (nlog.buff_size - nlog.buffp)) n
      rw [hX] at this
      exact this
    rw [h1, h2, hwin]
    exact rotate_store _ _ _ _ _ hW (by omega) hlc

/-- The loop of `nanny_log_printf` ends and leaves the ring holding the
stream with the message appended. -/
theorem log_copy_ring :
    ∀ (fuel : Nat) (p : List Nat) (nlog : nanny_log) (B : List Nat), p.length ≤ fuel →
      ring_holds nlog B → ∃ r, log_copy fuel p nlog = some r ∧ ring_holds r (B ++ p) ∧
        r.buff_size = nlog.buff_size := by
  intro fuel
  induction fuel with
  | zero =>
    intro p nlog B hlen hI
    have : p = [] := List.length_eq_zero.mp (Nat.le_zero.mp hlen)
    subst this
    exact ⟨nlog, rfl, by simpa using hI, rfl⟩
  | succ fuel ih =>
    intro p nlog B hlen hI
    cases p with
    | nil => exact ⟨nlog, rfl, by simpa using hI, rfl⟩
    | cons b bs =>
      have hlt : nlog.buffp < nlog.buff_size := by
        rw [hI.2.2.2.1]; exact Nat.mod_lt _ (by have := hI.2.2.1; omega)
      obtain ⟨n, h1, h2, h3, hn⟩ : ∃ n : Nat, 1 ≤ n ∧ n ≤ (b :: bs).length ∧
          n ≤ nlog.buff_size - nlog.buffp ∧
          (if ((b :: bs).length : Int) > (nlog.buff_size : Int) - nlog.buffp then
              (nlog.buff_size : Int) - nlog.buffp
            else ((b :: bs).length : Int)) = (n : Int) := by
        by_cases hc : ((b :: bs).length : Int) > (nlog.buff_size : Int) - nlog.buffp
        · refine ⟨nlog.buff_size - nlog.buffp, by omega, by omega, le_refl _, ?_⟩
          rw [if_pos hc]
          omega
        · refine ⟨(b :: bs).length, by simp, le_refl _, by omega, ?_⟩
          rw [if_neg hc]
      have hs := log_store_ring nlog B (b :: bs) n hI h3 h2
      obtain ⟨r, hr, hI2, hsz⟩ := ih ((b :: bs).drop n) (log_store nlog (b :: bs) n)
        (B ++ (b :: bs).take n) (by rw [List.length_drop]; omega) hs
      refine ⟨r, ?_, ?_, hsz⟩
      · rw [log_copy]
        simp only [hn]
        rw [if_neg (by omega)]
        simpa using hr
      · rw [List.append_assoc, List.take_append_drop] at hI2
        exact hI2

theorem nanny_log_rotate_no_file (sys : log_calls) (now : Int) (nlog : nanny_log)
    (hfb : nlog.filename_base = none) (hfd : nlog.file_fd < 0) :
    nanny_log_rotate sys now nlog = some nlog := by
  have hc : log_rotate_close now nlog = nlog := by
    unfold log_rotate_close
    rw [if_neg (by intro c; have := c.1; omega)]
  unfold nanny_log_rotate
  simp only [hc, hfb]

theorem update_statistics_ring (now : Int) (nlog : nanny_log) (B : List Nat)
    (hI : ring_holds nlog B) : ring_holds (nanny_log_update_statistics now nlog) B ∧
      (nanny_log_update_statistics now nlog).buff_size = nlog.buff_size := by
  unfold nanny_log_update_statistics
  split
  · exact ⟨hI, rfl⟩
  · exact ⟨hI, rfl⟩

/-- A call of `nanny_log_printf` with a message without NUL of fewer than 8192
bytes, on a buffer without a file, returns and appends the message to the
stream the ring holds. -/
theorem nanny_log_printf_ring (sys : log_calls) (now : Int) (msg : List Nat)
    (nlog : nanny_log) (B : List Nat) (hI : ring_holds nlog B) (hN : msg.length < 8192)
    (hnul : ∀ b ∈ msg, b ≠ 0) :
    ∃ r, nanny_log_printf sys now msg nlog = some r ∧ ring_holds r (B ++ msg) ∧
      r.buff_size = nlog.buff_size := by
  have hmsg : (msg.take 8191).takeWhile (fun b => b ≠ 0) = msg := by
    rw [List.take_of_length_le (by omega)]
    exact List.takeWhile_eq_self_iff.mpr (fun b hb => by simpa using hnul b hb)
  obtain ⟨r, hr, hI2, hsz⟩ := log_copy_ring msg.length msg nlog B (le_refl _) hI
  obtain ⟨hI3, hsz3⟩ := update_statistics_ring now r _ hI2
  refine ⟨nanny_log_update_statistics now r, ?_, hI3, hsz3.trans hsz⟩
  unfold nanny_log_printf
  simp only [hmsg, nanny_log_rotate_no_file sys now nlog hI.1 hI.2.1]
  rw [if_neg (by have := hI.2.1; omega), hr]

theorem log_printf_all_ring :
    ∀ (calls : List (log_calls × Int × List Nat)) (nlog : nanny_log) (B : List Nat),
      ring_holds nlog B → (∀ c ∈ calls, c.2.2.length < 8192) →
      (∀ c ∈ calls, ∀ b ∈ c.2.2, b ≠ 0) →
      ∃ r, log_printf_all calls nlog = some r ∧
        ring_holds r (B ++ (calls.map (fun c => c.2.2)).flatten) ∧
        r.buff_size = nlog.buff_size := by
  intro calls
  induction calls with
  | nil =>
    intro nlog B hI _ _
    exact ⟨nlog, rfl, by simpa using hI, rfl⟩
  | cons c rest ih =>
    intro nlog B hI hlen hnul
    obtain ⟨sys, now, msg⟩ := c
    obtain ⟨r1, e1, hI1, hs1⟩ := nanny_log_printf_ring sys now msg nlog B hI
      (hlen _ (List.mem_cons_self _ _)) (hnul _ (List.mem_cons_self _ _))
    obtain ⟨r, e, hI2, hs2⟩ := ih r1 (B ++ msg) hI1
      (fun x hx => hlen x (List.mem_cons_of_mem _ hx))
      (fun x hx => hnul x (List.mem_cons_of_mem _ hx))
    refine ⟨r, ?_, ?_, hs2.trans hs1⟩
    · simp only [log_printf_all, e1, e]
    · simpa [List.append_assoc] using hI2

/-- The dump of a ring that holds a stream without NUL is the end of the
stream, as many bytes as the ring has. -/
theorem dump_raw_of_ring (nlog : nanny_log) (B : List Nat) (hI : ring_holds nlog B)
    (hnul : ∀ b ∈ B, b ≠ 0) :
    nanny_log_http_dump_raw nlog = B.drop (B.length - nlog.buff_size) := by
  obtain ⟨_, _, hS, hbp, hbuff⟩ := hI
  have hlt : nlog.buffp < nlog.buff_size := by rw [hbp]; exact Nat.mod_lt _ (by omega)
  have hW := length_ring_window nlog.buff_size B
  have hX : ((ring_window nlog.buff_size B).drop (nlog.buff_size - nlog.buffp)).length
      = nlog.buffp := by
    rw [List.length_drop, hW]; omega
  unfold nanny_log_http_dump_raw
  rw [hbuff, List.take_left' hX, List.drop_left' hX, ← List.filter_append,
    List.take_append_drop]
  unfold ring_window
  rw [List.filter_append, List.filter_replicate]
  simp only [ne_eq, not_true_eq_false, decide_False, Bool.false_eq_true, if_false,
    List.nil_append]
  apply List.filter_eq_self.mpr
  intro b hb
  simpa using hnul b (List.mem_of_mem_drop hb)

theorem log_store_disk (nlog : nanny_log) (p : List Nat) (n : Nat) :
    log_disk (log_store nlog p n) = log_disk nlog := rfl

theorem log_copy_disk :
    ∀ (fuel : Nat) (p : List Nat) (nlog r : nanny_log), log_copy fuel p nlog = some r →
      log_disk r = log_disk nlog := by
  intro fuel
  induction fuel with
  | zero =>
    intro p nlog r h
    cases p with
    | nil => simp only [log_copy, Option.some.injEq] at h; rw [← h]
    | cons b bs => simp [log_copy] at h
  | succ fuel ih =>
    intro p nlog r h
    cases p with
    | nil => simp only [log_copy, Option.some.injEq] at h; rw [← h]
    | cons b bs =>
      rw [log_copy] at h
      repeat' split at h
      all_goals first
        | exact (ih _ _ _ h).trans (log_store_disk _ _ _)
        | cases h

theorem update_statistics_disk (now : Int) (nlog : nanny_log) :
    log_disk (nanny_log_update_statistics now nlog) = log_disk nlog ∧
    (nanny_log_update_statistics now nlog).total_bytes = nlog.total_bytes ∧
    (nanny_log_update_statistics now nlog).buff_size = nlog.buff_size ∧
    (nanny_log_update_statistics now nlog).buffp = nlog.buffp := by
  unfold nanny_log_update_statistics
  split <;> exact ⟨rfl, rfl, rfl, rfl⟩

theorem closes_append (a b : List log_event) : closes (a ++ b) = closes a + closes b := by
  unfold closes
  rw [List.filter_append, List.length_append]

theorem opens_append (a b : List log_event) : opens (a ++ b) = opens a + opens b := by
  unfold opens
  rw [List.filter_append, List.length_append]

/-- With no file open, a base name and a first `open` that succeeds,
`nanny_log_rotate` opens a file and notes the count of bytes. -/
theorem nanny_log_rotate_opens (sys : log_calls) (now : Int) (nlog : nanny_log) (base : String)
    (hfd : nlog.file_fd < 0) (hb : nlog.filename_base = some base)
    (ho : 0 ≤ sys.open1) (hdup : sys.strdup_ok = true) :
    ∃ r, nanny_log_rotate sys now nlog = some r ∧
      r.filename_base = some base ∧ r.file_fd = sys.open1 ∧ r.last_rotate = now ∧
      r.last_rotate_bytes = nlog.total_bytes ∧ r.total_bytes = nlog.total_bytes ∧
      r.buff_size = nlog.buff_size ∧ r.buffp = nlog.buffp ∧ r.buff = nlog.buff ∧
      closes r.io = closes nlog.io ∧ opens r.io = opens nlog.io + 1 := by
  have hc : log_rotate_close now nlog = nlog := by
    unfold log_rotate_close
    rw [if_neg (by intro c; have := c.1; omega)]
  unfold nanny_log_rotate
  simp only [hc, hb]
  rw [if_pos hfd]
  unfold log_open
  simp only
  rw [if_neg (by omega)]
  unfold log_opened
  simp only [hdup]
  refine ⟨_, rfl, hb, rfl, rfl, rfl, rfl, rfl, rfl, rfl, ?_, ?_⟩
  · simp only
    split
    · simp only [closes_append]
      simp [closes]
    · simp only [closes_append]
      simp [closes]
  · simp only
    split
    · simp only [opens_append]
      simp [opens, ho]
    · simp only [opens_append]
      simp [opens, ho]

/-- With a file open and neither condition of the first block true,
`nanny_log_rotate` only notes the time of the check. -/
theorem nanny_log_rotate_keeps (sys : log_calls) (now : Int) (nlog : nanny_log) (base : String)
    (hfd : 0 ≤ nlog.file_fd) (hb : nlog.filename_base = some base)
    (hhour : ¬ (nlog.last_rotate > 0 ∧ nlog.last_rotate < now - Int.tmod now 3600))
    (hsize : ¬ (nlog.total_bytes + 2 ^ 64 - nlog.last_rotate_bytes) % 2 ^ 64 > 1000000) :
    nanny_log_rotate sys now nlog = some { nlog with last_rotate_check := now } := by
  have hc : log_rotate_close now nlog = nlog := by
    unfold log_rotate_close
    rw [if_neg]
    intro c
    rcases c.2 with c2 | c2
    · exact hhour c2
    · exact hsize c2
  unfold nanny_log_rotate
  simp only [hc, hb]
  rw [if_neg (by omega)]
  simp only [hb]

/-- With a file open and more than 1000000 bytes counted since the last
rotation, `nanny_log_rotate` closes the file, opens the next one and notes the
count of bytes. -/
theorem nanny_log_rotate_size (sys : log_calls) (now : Int) (nlog : nanny_log) (base : String)
    (hfd : 0 ≤ nlog.file_fd) (hb : nlog.filename_base = some base)
    (hsize : (nlog.total_bytes + 2 ^ 64 - nlog.last_rotate_bytes) % 2 ^ 64 > 1000000)
    (ho : 0 ≤ sys.open1) (hdup : sys.strdup_ok = true) :
    ∃ r, nanny_log_rotate sys now nlog = some r ∧
      r.filename_base = some base ∧ r.file_fd = sys.open1 ∧ r.last_rotate = now ∧
      r.last_rotate_bytes = nlog.total_bytes ∧ r.total_bytes = nlog.total_bytes ∧
      r.buff_size = nlog.buff_size ∧ r.buffp = nlog.buffp ∧ r.buff = nlog.buff ∧
      closes r.io = closes nlog.io + 1 ∧ opens r.io = opens nlog.io + 1 := by
  have hc : log_rotate_close now nlog = log_close nlog := by
    unfold log_rotate_close
    rw [if_pos ⟨hfd, Or.inr hsize⟩]
  have hc2 : log_rotate_close now (log_close nlog) = log_close nlog := by
    unfold log_rotate_close
    rw [if_neg]
    intro c
    have := c.1
    simp [log_close] at this
  have hre : nanny_log_rotate sys now nlog = nanny_log_rotate sys now (log_close nlog) := by
    unfold nanny_log_rotate
    simp only [hc, hc2]
  obtain ⟨r, e, h1, h2, h3, h4, h5, h6, h7, h8, h9, h10⟩ :=
    nanny_log_rotate_opens sys now (log_close nlog) base (by simp [log_close]) hb ho hdup
  refine ⟨r, hre.trans e, h1, h2, h3, h4, h5, h6, h7, h8, ?_, ?_⟩
  · rw [h9]
    simp only [log_close, closes_append]
    simp [closes]
  · rw [h10]
    simp only [log_close, opens_append]
    simp [opens]

/-- After its rotation has left a file open, `nanny_log_printf` writes the
message to the file, counts its bytes and leaves the rotation data as they
are. -/
theorem nanny_log_printf_after_rotate (sys : log_calls) (now : Int) (msg : List Nat)
    (nlog r1 : nanny_log) (hr : nanny_log_rotate sys now nlog = some r1)
    (hfd : 0 ≤ r1.file_fd) (hp : r1.buffp < r1.buff_size)
    (htot : r1.total_bytes + msg.length < 2 ^ 64)
    (hN : msg.length < 8192) (hnul : ∀ b ∈ msg, b ≠ 0) :
    ∃ r, nanny_log_printf sys now msg nlog = some r ∧
      r.total_bytes = r1.total_bytes + msg.length ∧ r.buffp < r.buff_size ∧
      r.filename_base = r1.filename_base ∧ r.file_fd = r1.file_fd ∧
      r.last_rotate = r1.last_rotate ∧ r.last_rotate_bytes = r1.last_rotate_bytes ∧
      r.io = r1.io ++ [log_event.write r1.file_fd msg] := by
  have hmsg : (msg.take 8191).takeWhile (fun b => b ≠ 0) = msg := by
    rw [List.take_of_length_le (by omega)]
    exact List.takeWhile_eq_self_iff.mpr (fun b hb => by simpa using hnul b hb)
  obtain ⟨r, hc, ht, hs, hpr⟩ := log_copy_spec msg.length msg (log_write r1 msg) (le_refl _)
    hp (by show r1.total_bytes < 2 ^ 64; omega)
  have hd := log_copy_disk _ _ _ _ hc
  obtain ⟨hd2, ht2, hs2, hp2⟩ := update_statistics_disk now r
  have hd3 := hd2.trans hd
  simp only [log_disk, log_write, Prod.mk.injEq] at hd3
  refine ⟨nanny_log_update_statistics now r, ?_, ?_, ?_, hd3.1, hd3.2.1, hd3.2.2.1,
    hd3.2.2.2.1, hd3.2.2.2.2⟩
  · unfold nanny_log_printf
    simp only [hmsg, hr]
    rw [if_pos (by omega), hc]
  · rw [ht2, ht]
    show (r1.total_bytes + msg.length) % 2 ^ 64 = r1.total_bytes + msg.length
    exact Nat.mod_eq_of_lt htot
  · rw [hp2, hs2]; exact hpr

theorem closes_write (io : List log_event) (fd : Int) (msg : List Nat) :
    closes (io ++ [log_event.write fd msg]) = closes io ∧
    opens (io ++ [log_event.write fd msg]) = opens io := by
  rw [closes_append, opens_append]
  simp [closes, opens]

/-- A write within the hour, before more than 1000000 bytes are counted, keeps
`log_before_rotation` and leaves a file open. -/
theorem nanny_log_printf_before_rotation (hour : Int) (h0 : 0 ≤ hour)
    (h3600 : hour % 3600 = 0) (T : Nat) (nlog : nanny_log)
    (c : log_calls × Int × List Nat) (hI : log_before_rotation hour T nlog)
    (hc : write_in_hour hour c) (hT : T ≤ 1000000) :
    ∃ r, nanny_log_printf c.1 c.2.1 c.2.2 nlog = some r ∧
      log_before_rotation hour (T + c.2.2.length) r ∧ 0 ≤ r.file_fd := by
  obtain ⟨sys, now, msg⟩ := c
  obtain ⟨ho, hdup, hn1, hn2, _, hN, hnul⟩ := hc
  obtain ⟨⟨base, hb, hbl⟩, hp, htot, hcl, hcase⟩ := hI
  simp only at ho hdup hn1 hn2 hN hnul ⊢
  have hlast : now - Int.tmod now 3600 = hour := by
    rw [Int.tmod_eq_emod (by omega) (by norm_num)]
    omega
  rcases hcase with ⟨hfd, hT0, hop⟩ | ⟨hfd, hlr, hop, hlrb⟩
  · obtain ⟨r1, e, a1, a2, a3, a4, a5, a6, a7, _, a9, a10⟩ :=
      nanny_log_rotate_opens sys now nlog base hfd hb ho hdup
    obtain ⟨r, e2, b1, b2, b3, b4, b5, b6, b7⟩ := nanny_log_printf_after_rotate sys now msg
      nlog r1 e (by omega) (by omega) (by omega) hN hnul
    obtain ⟨w1, w2⟩ := closes_write r1.io r1.file_fd msg
    refine ⟨r, e2, ⟨⟨base, by rw [b3, a1], hbl⟩, b2, by omega, by rw [b7, w1, a9, hcl],
      Or.inr ⟨by omega, by omega, by rw [b7, w2, a10, hop], by omega⟩⟩, by omega⟩
  · have e := nanny_log_rotate_keeps sys now nlog base hfd hb
      (by rw [hlast]; intro c; omega) (by rw [hlrb, htot]; omega)
    obtain ⟨r, e2, b1, b2, b3, b4, b5, b6, b7⟩ := nanny_log_printf_after_rotate sys now msg
      nlog _ e hfd hp (by simp only; omega) hN hnul
    obtain ⟨w1, w2⟩ := closes_write nlog.io nlog.file_fd msg
    simp only at b1 b3 b4 b5 b6 b7
    refine ⟨r, e2, ⟨⟨base, by rw [b3, hb], hbl⟩, b2, by omega, by rw [b7, w1, hcl],
      Or.inr ⟨by omega, by omega, by rw [b7, w2, hop], by omega⟩⟩, by omega⟩

/-- Writes within the hour that count at most 1000001 bytes in all cause no
rotation by size. -/
theorem writes_before_rotation (hour : Int) (h0 : 0 ≤ hour) (h3600 : hour % 3600 = 0) :
    ∀ (calls : List (log_calls × Int × List Nat)) (T : Nat) (nlog : nanny_log),
      log_before_rotation hour T nlog → (∀ c ∈ calls, write_in_hour hour c) →
      T + bytes_written calls ≤ 1000001 →
      ∃ r, log_printf_all calls nlog = some r ∧
        log_before_rotation hour (T + bytes_written calls) r ∧
        (calls ≠ [] → 0 ≤ r.file_fd) := by
  intro calls
  induction calls with
  | nil =>
    intro T nlog hI _ _
    exact ⟨nlog, rfl, by simpa [bytes_written] using hI, fun c => absurd rfl c⟩
  | cons c rest ih =>
    intro T nlog hI hc hsum
    have hc1 := hc c (List.mem_cons_self _ _)
    have hlen : 1 ≤ c.2.2.length := by
      have := hc1.2.2.2.2.1
      exact List.length_pos.mpr this
    have hb : bytes_written (c :: rest) = c.2.2.length + bytes_written rest := by
      simp [bytes_written]
    rw [hb] at hsum
    obtain ⟨r1, e1, hI1, hfd1⟩ := nanny_log_printf_before_rotation hour h0 h3600 T nlog c hI
      hc1 (by omega)
    obtain ⟨r, e, hI2, _⟩ := ih (T + c.2.2.length) r1 hI1
      (fun x hx => hc x (List.mem_cons_of_mem _ hx)) (by omega)
    have hfd : 0 ≤ r.file_fd := by
      obtain ⟨_, _, _, _, hcase⟩ := hI2
      rcases hcase with ⟨_, hz, _⟩ | ⟨h, _⟩
      · omega
      · exact h
    refine ⟨r, ?_, ?_, fun _ => hfd⟩
    · obtain ⟨sys, now, msg⟩ := c
      simp only [log_printf_all, e1, e]
    · rw [hb, ← Nat.add_assoc]; exact hI2

theorem disk_log_empty : log_before_rotation 7200 0 disk_log :=
  ⟨⟨"/var/log/nanny_stdout.log", rfl, by decide⟩, by decide, rfl, rfl,
    Or.inl ⟨by decide, rfl, rfl⟩⟩

theorem log_call_in_hour (now : Int) (n : Nat) (h1 : 7200 ≤ now) (h2 : now < 10800)
    (hn : 1 ≤ n) (hn2 : n < 8192) : write_in_hour 7200 (log_call now n) := by
  refine ⟨?_, rfl, h1, by simpa using h2, ?_, ?_, ?_⟩
  · show (0 : Int) ≤ 3
    decide
  · simp only [log_call]
    intro c
    have := congrArg List.length c
    simp at this
    omega
  · simpa [log_call] using hn2
  · intro b hb
    simp only [log_call] at hb
    rw [List.eq_of_mem_replicate hb]
    decide

theorem million_and_one_in_hour : ∀ c ∈ million_and_one, write_in_hour 7200 c := by
  intro c hc
  simp only [million_and_one, List.mem_append, List.mem_singleton] at hc
  rcases hc with hc | hc
  · rw [List.eq_of_mem_replicate hc]
    exact log_call_in_hour 7200 1000 (by decide) (by decide) (by decide) (by decide)
  · rw [hc]
    exact log_call_in_hour 7200 1 (by decide) (by decide) (by decide) (by decide)

theorem million_and_one_bytes : bytes_written million_and_one = 1000001 := by
  unfold bytes_written million_and_one
  rw [List.map_append, List.sum_append, List.map_replicate, List.sum_replicate]
  simp only [log_call, List.length_replicate, List.map_cons, List.map_nil, List.sum_cons,
    List.sum_nil, smul_eq_mul]
  norm_num

theorem span_append (p : Char → Bool) (a b : List Char) (ha : ∀ c ∈ a, p c = true)
    (hb : ∀ c, b.head? = some c → p c = false) :
    (a ++ b).takeWhile p = a ∧ (a ++ b).dropWhile p = b := by
  induction a with
  | nil =>
    cases b with
    | nil => exact ⟨rfl, rfl⟩
    | cons c r =>
      have := hb c rfl
      simp only [List.nil_append]
      rw [List.takeWhile_cons_of_neg (by simp [this]),
        List.dropWhile_cons_of_neg (by simp [this])]
      exact ⟨rfl, rfl⟩
  | cons x a ih =>
    have hx := ha x (List.mem_cons_self _ _)
    obtain ⟨i1, i2⟩ := ih (fun c hc => ha c (List.mem_cons_of_mem _ hc))
    simp only [List.cons_append]
    rw [List.takeWhile_cons_of_pos hx, List.dropWhile_cons_of_pos hx, i1, i2]
    exact ⟨rfl, rfl⟩

theorem udp_query_loop_nil (g : query_vars) (destlen fuel : Nat) (out outsep : List Char) :
    udp_query_loop g destlen fuel [] out outsep = (1, out) := by
  cases fuel <;> rfl

/-- One pass of the loop of `udp_query` over a token that is followed by
nothing or by a blank. -/
theorem udp_query_loop_token (g : query_vars) (destlen fuel : Nat) (ws : List Char)
    (t : query_token) (rest out outsep : List Char) (hws : ∀ c ∈ ws, blank c)
    (ht : token_wf t) (hrest : ∀ c, rest.head? = some c → blank c) :
    udp_query_loop g destlen (fuel + 1) (ws ++ token_text t ++ rest) out outsep
      = match token_answer g t with
        | none => (0, out)
        | some myval =>
          if out.length + outsep.length + t.key.length + 1 + myval.length ≥ destlen then
            (0, out)
          else udp_query_loop g destlen fuel rest (out ++ outsep ++ t.key ++ ['='] ++ myval)
            [' '] := by
  obtain ⟨hk, hkc, htest⟩ := ht
  have hkey : ∀ c ∈ t.key,
      (fun x => decide (¬ (x = ' ' ∨ x = '\t' ∨ x = '=' ∨ x = '<' ∨ x = '>'))) c = true := by
    intro c hc
    simpa using hkc c hc
  have hblank : ∀ c, blank c →
      (fun x => decide (¬ (x = ' ' ∨ x = '\t' ∨ x = '=' ∨ x = '<' ∨ x = '>'))) c = false := by
    intro c hc
    rcases hc with e | e <;> simp [e]
  obtain ⟨k0, kr, hk0⟩ : ∃ k0 kr, t.key = k0 :: kr := by
    cases h : t.key with
    | nil => exact absurd h hk
    | cons a b => exact ⟨a, b, rfl⟩
  have hk0n : ¬ blank k0 := by
    have := hkc k0 (by rw [hk0]; exact List.mem_cons_self _ _)
    intro c
    apply this
    rcases c with e | e
    · exact Or.inl e
    · exact Or.inr (Or.inl e)
  -- the text after the blanks starts with the key
  have hhead : ∀ c, (token_text t ++ rest).head? = some c → ¬ blank c := by
    intro c hc
    have : (token_text t ++ rest).head? = some k0 := by
      unfold token_text
      cases t.test with
      | none => simp [hk0]
      | some ov => simp [hk0]
    rw [this] at hc
    cases hc
    exact hk0n
  have hdrop := dropWhile_blanks ws (token_text t ++ rest) hws hhead
  obtain ⟨c0, r0, hp⟩ : ∃ c0 r0, ws ++ token_text t ++ rest = c0 :: r0 := by
    cases h : ws ++ token_text t ++ rest with
    | nil =>
      have := congrArg List.length h
      simp [token_text] at this
      cases ht2 : t.test with
      | none => simp [ht2, hk0] at this
      | some ov => simp [ht2, hk0] at this
    | cons a b => exact ⟨a, b, rfl⟩
  rw [hp, udp_query_loop]
  simp only
  rw [← hp, List.append_assoc, hdrop]
  cases htt : t.test with
  | none =>
    have htext : token_text t = t.key := by unfold token_text; rw [htt]
    have hans : token_answer g t = nanny_variable g t.key := by unfold token_answer; rw [htt]
    obtain ⟨s1, s2⟩ := span_append _ t.key rest hkey (fun c hc => hblank c (hrest c hc))
    rw [htext, s1, s2, if_neg hk, hans]
    cases rest with
    | nil =>
      simp only
      cases nanny_variable g t.key with
      | none => rfl
      | some myval =>
        simp only
        split
        · rfl
        · rw [udp_query_loop_nil]
    | cons c r =>
      have hc := hrest c rfl
      have hnop : ¬ (c = '=' ∨ c = '<' ∨ c = '>') := by
        rcases hc with e | e <;> rw [e] <;> decide
      simp only
      rw [if_neg hnop]
  | some ov =>
    obtain ⟨op, v⟩ := ov
    obtain ⟨hop, hv⟩ := htest op v htt
    have htext : token_text t = t.key ++ op :: v := by unfold token_text; rw [htt]
    have hans : token_answer g t = udp_query_match g t.key op v := by
      unfold token_answer; rw [htt]
    have hopk : (fun x => decide (¬ (x = ' ' ∨ x = '\t' ∨ x = '=' ∨ x = '<' ∨ x = '>'))) op
        = false := by
      rcases hop with e | e | e <;> simp [e]
    obtain ⟨s1, s2⟩ := span_append _ t.key (op :: (v ++ rest)) hkey
      (fun c hc => by simp only [List.head?_cons, Option.some.injEq] at hc; rw [← hc]; exact hopk)
    have hvb : ∀ c ∈ v, (fun x => decide (¬ (x = ' ' ∨ x = '\t'))) c = true := by
      intro c hc
      simpa using hv c hc
    obtain ⟨s3, s4⟩ := span_append (fun x => decide (¬ (x = ' ' ∨ x = '\t'))) v rest hvb
      (fun c hc => by
        have := hrest c hc
        rcases this with e | e <;> simp [e])
    rw [htext, List.append_assoc, List.cons_append, s1, s2, if_neg hk, hans]
    simp only
    rw [if_pos hop, s3, s4]

theorem udp_query_loop_blanks (g : query_vars) (destlen fuel : Nat)
    (trail out outsep : List Char) (ht : ∀ c ∈ trail, blank c) :
    udp_query_loop g destlen fuel trail out outsep = (1, out) := by
  cases fuel with
  | zero => rfl
  | succ f =>
    cases trail with
    | nil => rfl
    | cons c r =>
      have hd := dropWhile_blanks (c :: r) [] ht (fun c hc => by simp at hc)
      rw [List.append_nil] at hd
      rw [udp_query_loop]
      simp only
      rw [hd]
      simp

theorem head_query_text_blank (rest : List (List Char × query_token)) (trail : List Char)
    (hws : ∀ e ∈ rest, (∀ c ∈ e.1, blank c) ∧ token_wf e.2) (hne : ∀ e ∈ rest, e.1 ≠ [])
    (ht : ∀ c ∈ trail, blank c) :
    ∀ c, (query_text rest ++ trail).head? = some c → blank c := by
  intro c hc
  cases rest with
  | nil =>
    simp only [query_text, List.nil_append] at hc
    exact ht c (List.mem_of_mem_head? hc)
  | cons e r =>
    obtain ⟨ws, t⟩ := e
    have h1 := hne (ws, t) (List.mem_cons_self _ _)
    have h2 := (hws (ws, t) (List.mem_cons_self _ _)).1
    simp only at h1 h2
    cases ws with
    | nil => exact absurd rfl h1
    | cons a b =>
      simp only [query_text, List.cons_append, List.head?_cons, Option.some.injEq] at hc
      rw [← hc]
      exact h2 a (List.mem_cons_self _ _)

theorem length_query_text_cons (ws : List Char) (t : query_token)
    (rest : List (List Char × query_token)) (trail : List Char) (ht : token_wf t) :
    (query_text rest ++ trail).length + 1 ≤ (query_text ((ws, t) :: rest) ++ trail).length := by
  have : 1 ≤ (token_text t).length := by
    obtain ⟨hk, _, _⟩ := ht
    have := List.length_pos.mpr hk
    unfold token_text
    cases t.test with
    | none => simpa using this
    | some ov => simp only [List.length_append]; omega
  simp only [query_text, List.length_append] at this ⊢
  omega

/-- The loop of `udp_query` over a request all of whose tokens get a value
and whose reply fits: it returns 1 with one item per token. -/
theorem udp_query_loop_success (g : query_vars) (destlen : Nat) :
    ∀ (toks : List (List Char × query_token)) (fuel : Nat) (out outsep trail : List Char),
      (∀ e ∈ toks, (∀ c ∈ e.1, blank c) ∧ token_wf e.2) → (∀ e ∈ toks.tail, e.1 ≠ []) →
      (∀ c ∈ trail, blank c) →
      (∀ e ∈ toks, ∃ m, token_answer g e.2 = some m ∧ nanny_variable g e.2.key = some m) →
      (out ++ rendered g outsep (toks.map Prod.snd)).length < destlen →
      (query_text toks ++ trail).length ≤ fuel →
      udp_query_loop g destlen fuel (query_text toks ++ trail) out outsep
        = (1, out ++ rendered g outsep (toks.map Prod.snd)) := by
  intro toks
  induction toks with
  | nil =>
    intro fuel out outsep trail _ _ ht _ _ _
    simp only [query_text, List.nil_append, List.map_nil, rendered, List.append_nil]
    exact udp_query_loop_blanks g destlen fuel trail out outsep ht
  | cons e rest ih =>
    intro fuel out outsep trail hws hne ht hans hlen hfuel
    obtain ⟨ws, t⟩ := e
    obtain ⟨hw1, hw2⟩ := hws (ws, t) (List.mem_cons_self _ _)
    obtain ⟨m, hm1, hm2⟩ := hans (ws, t) (List.mem_cons_self _ _)
    simp only at hw1 hw2 hm1 hm2
    simp only [List.tail_cons] at hne
    have hws2 : ∀ e ∈ rest, (∀ c ∈ e.1, blank c) ∧ token_wf e.2 :=
      fun x hx => hws x (List.mem_cons_of_mem _ hx)
    have hl := length_query_text_cons ws t rest trail hw2
    obtain ⟨f, rfl⟩ : ∃ f, fuel = f + 1 := ⟨fuel - 1, by omega⟩
    have hitem : reply_item g t = t.key ++ '=' :: m := by
      unfold reply_item; rw [hm2]; rfl
    have hr : rendered g outsep (((ws, t) :: rest).map Prod.snd)
        = outsep ++ (t.key ++ '=' :: m) ++ rendered g [' '] (rest.map Prod.snd) := by
      simp only [List.map_cons, rendered, hitem]
    rw [hr] at hlen ⊢
    have hp : query_text ((ws, t) :: rest) ++ trail
        = ws ++ token_text t ++ (query_text rest ++ trail) := by
      simp only [query_text, List.append_assoc]
    rw [hp, udp_query_loop_token g destlen f ws t _ out outsep hw1 hw2
      (head_query_text_blank rest trail hws2 hne ht), hm1]
    simp only
    rw [if_neg (by simp only [List.length_append, List.length_cons] at hlen; omega)]
    rw [ih f _ [' '] trail hws2 (fun x hx => hne x (List.mem_of_mem_tail hx)) ht
      (fun x hx => hans x (List.mem_cons_of_mem _ hx))
      (by simp only [List.length_append, List.length_cons, List.length_nil] at hlen ⊢; omega)
      (by omega)]
    simp only [List.append_assoc, List.cons_append, List.nil_append]

/-- The loop of `udp_query` over a request one of whose tokens gets no value:
it returns 0. -/
theorem udp_query_loop_failure (g : query_vars) (destlen : Nat) :
    ∀ (toks : List (List Char × query_token)) (fuel : Nat) (out outsep trail : List Char),
      (∀ e ∈ toks, (∀ c ∈ e.1, blank c) ∧ token_wf e.2) → (∀ e ∈ toks.tail, e.1 ≠ []) →
      (∀ c ∈ trail, blank c) → (∃ e ∈ toks, token_answer g e.2 = none) →
      (query_text toks ++ trail).length ≤ fuel →
      (udp_query_loop g destlen fuel (query_text toks ++ trail) out outsep).1 = 0 := by
  intro toks
  induction toks with
  | nil =>
    intro fuel out outsep trail _ _ _ hex _
    obtain ⟨e, he, _⟩ := hex
    simp at he
  | cons e rest ih =>
    intro fuel out outsep trail hws hne ht hex hfuel
    obtain ⟨ws, t⟩ := e
    obtain ⟨hw1, hw2⟩ := hws (ws, t) (List.mem_cons_self _ _)
    simp only at hw1 hw2
    simp only [List.tail_cons] at hne
    have hws2 : ∀ e ∈ rest, (∀ c ∈ e.1, blank c) ∧ token_wf e.2 :=
      fun x hx => hws x (List.mem_cons_of_mem _ hx)
    have hl := length_query_text_cons ws t rest trail hw2
    obtain ⟨f, rfl⟩ : ∃ f, fuel = f + 1 := ⟨fuel - 1, by omega⟩
    have hp : query_text ((ws, t) :: rest) ++ trail
        = ws ++ token_text t ++ (query_text rest ++ trail) := by
      simp only [query_text, List.append_assoc]
    rw [hp, udp_query_loop_token g destlen f ws t _ out outsep hw1 hw2
      (head_query_text_blank rest trail hws2 hne ht)]
    cases hans : token_answer g t with
    | none => rfl
    | some m =>
      simp only
      split
      · rfl
      · apply ih f _ [' '] trail hws2 (fun x hx => hne x (List.mem_of_mem_tail hx)) ht ?_
          (by omega)
        obtain ⟨x, hx, hxn⟩ := hex
        rcases List.mem_cons.mp hx with e1 | hx
        · subst e1
          simp only at hxn
          rw [hxn] at hans
          cases hans
        · exact ⟨x, hx, hxn⟩

/-- The value `udp_query_match` returns for one of the three operators is the
value of the key when the assertion holds and null otherwise. -/
theorem udp_query_match_spec (g : query_vars) (key : List Char) (op : Char) (v : List Char)
    (hop : op = '=' ∨ op = '<' ∨ op = '>') :
    (assertion_holds g key op v → udp_query_match g key op v = nanny_variable g key) ∧
    (¬ assertion_holds g key op v → udp_query_match g key op v = none) := by
  have n1 : ¬ ('<' : Char) = '=' := by decide
  have n2 : ¬ ('>' : Char) = '=' := by decide
  have n3 : ¬ ('<' : Char) = '>' := by decide
  have n4 : ¬ ('>' : Char) = '<' := by decide
  have n5 : ¬ ('=' : Char) = '<' := by decide
  have n6 : ¬ ('=' : Char) = '>' := by decide
  have hcmp : ∀ (a b : Int),
      ((if a < b then (-1 : Int) else if a > b then 1 else 0) = 0 ↔ a = b) ∧
      ((if a < b then (-1 : Int) else if a > b then 1 else 0) < 0 ↔ a < b) ∧
      ((if a < b then (-1 : Int) else if a > b then 1 else 0) > 0 ↔ a > b) := by
    intro a b
    by_cases h1 : a < b
    · rw [if_pos h1]
      refine ⟨⟨fun c => by omega, fun c => by omega⟩, ⟨fun _ => h1, fun _ => by omega⟩,
        ⟨fun c => by omega, fun c => by omega⟩⟩
    · rw [if_neg h1]
      by_cases h2 : a > b
      · rw [if_pos h2]
        refine ⟨⟨fun c => by omega, fun c => by omega⟩, ⟨fun c => by omega, fun c => by omega⟩,
          ⟨fun _ => h2, fun _ => by omega⟩⟩
      · rw [if_neg h2]
        refine ⟨⟨fun _ => by omega, fun _ => rfl⟩, ⟨fun c => by omega, fun c => by omega⟩,
          ⟨fun c => by omega, fun c => by omega⟩⟩
  unfold udp_query_match assertion_holds nanny_variable_compare
  cases hint : nanny_variable_int g key with
  | some iv =>
    have hv : nanny_variable g key = some (print_decimal iv) := by
      unfold nanny_variable; rw [hint]
    obtain ⟨c1, c2, c3⟩ := hcmp (strtoll v) iv
    rw [hv]
    simp only
    rcases hop with e | e | e <;> subst e <;>
      simp only [n1, n2, n3, n4, n5, n6, if_true, if_false, false_and, true_and, or_false,
        false_or, c1, c2, c3] <;>
      constructor <;> intro h <;> simp [h]
  | none =>
    cases hv : nanny_variable g key with
    | none => simp
    | some s =>
      simp only
      rcases hop with e | e | e <;> subst e <;>
        simp only [n1, n2, n3, n4, n5, n6, if_true, if_false, false_and, true_and, or_false,
          false_or] <;>
        constructor <;> intro h <;> simp [h]

/-- A token that passes gets the value of its key; one that does not gets
none. -/
theorem token_answer_spec (g : query_vars) (t : query_token) (ht : token_wf t) :
    (token_passes g t →
      ∃ m, token_answer g t = some m ∧ nanny_variable g t.key = some m) ∧
    (¬ token_passes g t → token_answer g t = none) := by
  obtain ⟨_, _, htest⟩ := ht
  unfold token_passes token_answer
  cases htt : t.test with
  | none =>
    constructor
    · intro h
      cases hv : nanny_variable g t.key with
      | none => exact absurd hv h.1
      | some m => exact ⟨m, rfl, rfl⟩
    · intro h
      simp only
      by_contra hc
      apply h
      refine ⟨hc, ?_⟩
      intro op v e
      cases e
  | some ov =>
    obtain ⟨op, v⟩ := ov
    obtain ⟨hop, _⟩ := htest op v htt
    obtain ⟨s1, s2⟩ := udp_query_match_spec g t.key op v hop
    constructor
    · intro h
      have ha := h.2 op v rfl
      cases hv : nanny_variable g t.key with
      | none => exact absurd hv h.1
      | some m => exact ⟨m, by simp only; rw [s1 ha, hv], rfl⟩
    · intro h
      simp only
      by_cases ha : assertion_holds g t.key op v
      · have hn : nanny_variable g t.key = none := by
          by_contra hc
          apply h
          refine ⟨hc, ?_⟩
          intro op2 v2 e
          cases e
          exact ha
        rw [s1 ha, hn]
      · exact s2 ha

theorem rendered_eq_reply (g : query_vars) (toks : List query_token) :
    rendered g [] toks = query_reply g toks := by
  have key : ∀ (ts : List query_token) (t : query_token) (sep : List Char),
      rendered g sep (t :: ts) = sep ++ [' '].intercalate ((t :: ts).map (reply_item g)) := by
    intro ts
    induction ts with
    | nil =>
      intro t sep
      simp [rendered, List.intercalate]
    | cons a ts ih =>
      intro t sep
      rw [rendered, ih a [' ']]
      simp [List.intercalate]
  cases toks with
  | nil => simp [rendered, query_reply, List.intercalate]
  | cons t ts =>
    rw [key ts t []]
    rfl

/-- The function `udp_query` on a request of tokens that all pass and whose
reply fits. -/
theorem udp_query_success (g : query_vars) (toks : List (List Char × query_token))
    (trail : List Char) (hwf : query_wf toks) (htrail : ∀ c ∈ trail, blank c)
    (hpass : ∀ e ∈ toks, token_passes g e.2)
    (hfit : (query_reply g (toks.map Prod.snd)).length < 2048) :
    udp_query g (query_text toks ++ trail) 2048 = (1, query_reply g (toks.map Prod.snd)) := by
  unfold udp_query
  rw [udp_query_loop_success g 2048 toks _ [] [] trail hwf.1 hwf.2 htrail
    (fun e he => (token_answer_spec g e.2 (hwf.1 e he).2).1 (hpass e he))
    (by rw [List.nil_append, rendered_eq_reply]; exact hfit) (by omega)]
  rw [List.nil_append, rendered_eq_reply]

/-- The function `udp_query` on a request with a token that does not pass. -/
theorem udp_query_failure (g : query_vars) (toks : List (List Char × query_token))
    (trail : List Char) (hwf : query_wf toks) (htrail : ∀ c ∈ trail, blank c)
    (hfail : ∃ e ∈ toks, ¬ token_passes g e.2) :
    (udp_query g (query_text toks ++ trail) 2048).1 = 0 := by
  unfold udp_query
  apply udp_query_loop_failure g 2048 toks _ [] [] trail hwf.1 hwf.2 htrail ?_ (by omega)
  obtain ⟨e, he, hn⟩ := hfail
  exact ⟨e, he, (token_answer_spec g e.2 (hwf.1 e he).2).2 hn⟩

theorem port_pid_query_wf : query_wf port_pid_query := by
  refine ⟨?_, ?_⟩
  · intro e he
    simp only [port_pid_query, List.mem_cons, List.mem_singleton, List.not_mem_nil,
      or_false] at he
    rcases he with e1 | e1 <;> subst e1
    · refine ⟨by simp, by decide, by decide, ?_⟩
      intro op v h
      cases h
    · refine ⟨by simp [blank], by decide, by decide, ?_⟩
      intro op v h
      cases h
      exact ⟨by decide, by decide⟩
  · intro e he
    simp only [port_pid_query, List.tail_cons, List.mem_singleton] at he
    subst he
    simp

theorem serving_port (g : query_vars) :
    nanny_variable (serving g) "HTTP_PORT".toList = some "51717".toList := by
  simp [nanny_variable, nanny_variable_int, serving, print_decimal]
  decide

theorem serving_pid (g : query_vars) :
    nanny_variable (serving g) "PID".toList = some "4242".toList := by
  simp [nanny_variable, nanny_variable_int, serving, print_decimal]
  decide

theorem port_pid_query_passes (g : query_vars) :
    ∀ e ∈ port_pid_query, token_passes (serving g) e.2 := by
  intro e he
  simp only [port_pid_query, List.mem_cons, List.mem_singleton, List.not_mem_nil,
    or_false] at he
  rcases he with e1 | e1 <;> subst e1
  · refine ⟨by simp only; rw [serving_port]; simp, ?_⟩
    intro op v h
    cases h
  · refine ⟨by simp only; rw [serving_pid]; simp, ?_⟩
    intro op v h
    cases h
    have hi : nanny_variable_int (serving g) "PID".toList = some 4242 := rfl
    unfold assertion_holds
    rw [hi]
    exact Or.inr (Or.inl ⟨rfl, by decide⟩)

theorem port_pid_reply (g : query_vars) :
    query_reply (serving g) (port_pid_query.map Prod.snd) = "HTTP_PORT=51717 PID=4242".toList := by
  simp only [query_reply, port_pid_query, List.map_cons, List.map_nil, reply_item,
    serving_port, serving_pid]
  decide

theorem port_pid_query_fails : ∃ e ∈ port_pid_query, ¬ token_passes idle_vars e.2 := by
  refine ⟨([' '], ⟨"PID".toList, some ('>', "0".toList)⟩), by simp [port_pid_query], ?_⟩
  intro h
  exact h.1 (by decide)

theorem long_value_known :
    nanny_variable long_value_vars "CLASSPATH".toList = some (List.replicate 2100 'x') := by
  have hi : nanny_variable_int long_value_vars "CLASSPATH".toList = none := by decide
  have he : getenv long_value_vars "CLASSPATH".toList = some (List.replicate 2100 'x') := rfl
  have hne : List.replicate 2100 'x' ≠ [] := by
    intro c
    have := congrArg List.length c
    rw [List.length_replicate, List.length_nil] at this
    omega
  unfold nanny_variable
  rw [hi]
  simp only [he]
  rw [if_pos hne]
  rfl

theorem long_value_query : udp_query long_value_vars "CLASSPATH".toList 2048 = (0, []) := by
  have ht : token_wf ⟨"CLASSPATH".toList, none⟩ := by
    refine ⟨by decide, by decide, ?_⟩
    intro op v h
    cases h
  have h := udp_query_loop_token long_value_vars 2048 9 [] ⟨"CLASSPATH".toList, none⟩ [] [] []
    (by simp) ht (by simp)
  have ha : token_answer long_value_vars ⟨"CLASSPATH".toList, none⟩
      = some (List.replicate 2100 'x') := long_value_known
  have h2 : ([] : List Char).length + ([] : List Char).length
      + ("CLASSPATH".toList).length + 1 + (List.replicate 2100 'x').length ≥ 2048 := by
    rw [List.length_replicate]
    decide
  rw [ha] at h
  dsimp only at h
  split at h
  · exact h
  · rename_i hneg
    exact absurd h2 hneg

theorem select_limit_clear (limit : Int) (n : Nat) :
    select_limit limit (List.replicate n listener_clear) = limit := by
  induction n with
  | zero => rfl
  | succ n ih => rw [List.replicate_succ]; unfold select_limit; simpa [listener_clear] using ih

theorem register_clear_replicate (s : Int) (hs : s ≠ 0) (n : Nat) :
    register_clear s (List.replicate n listener_clear) = List.replicate n listener_clear := by
  induction n with
  | zero => rfl
  | succ n ih =>
    rw [List.replicate_succ]
    unfold register_clear
    rw [if_neg (by simpa [listener_clear] using hs.symm), ih]

theorem listener_3_4_eq :
    listener_3_4 = ⟨3, 7, 70⟩ :: ⟨4, 8, 80⟩ :: List.replicate 510 listener_clear := by
  unfold listener_3_4 nanny_register_server listener_init LISTENERS
  rw [register_clear_replicate 3 (by decide)]
  rw [show (512 : Nat) = 510 + 1 + 1 from rfl, List.replicate_succ, List.replicate_succ]
  have e1 : register_store 7 3 70 (listener_clear :: listener_clear :: List.replicate 510 listener_clear)
      = ⟨3, 7, 70⟩ :: listener_clear :: List.replicate 510 listener_clear := by
    unfold register_store; rw [if_pos (by rfl)]
  rw [e1]
  have e2 : register_clear 4 (⟨3, 7, 70⟩ :: listener_clear :: List.replicate 510 listener_clear)
      = ⟨3, 7, 70⟩ :: listener_clear :: List.replicate 510 listener_clear := by
    unfold register_clear
    rw [if_neg (by decide)]
    rw [← List.replicate_succ, register_clear_replicate 4 (by decide)]
  rw [e2]
  unfold register_store
  rw [if_neg (by decide)]
  unfold register_store
  rw [if_pos (by rfl)]

theorem select_limit_cons (limit : Int) (x : listener_slot) (rest : List listener_slot) :
    select_limit limit (x :: rest) =
      if x.socket > 0 then
        select_limit (if x.socket > limit then x.socket + 1 else limit) rest
      else select_limit limit rest := by
  rw [select_limit]

theorem select_limit_3_4 : select_limit 0 listener_3_4 = 4 := by
  rw [listener_3_4_eq, select_limit_cons, select_limit_cons, select_limit_clear]
  decide
theorem select_readfds_3_4 : select_readfds listener_3_4 = [3, 4] := by
  rw [listener_3_4_eq]
  unfold select_readfds
  have h : (List.replicate 510 listener_clear).filter (fun x => decide (x.socket > 0)) = [] := by
    rw [List.filter_eq_nil_iff]
    intro a ha
    rw [List.eq_of_mem_replicate ha]
    decide
  rw [List.filter_cons_of_pos (by decide), List.filter_cons_of_pos (by decide), h]
  rfl

theorem update_statistics_frame (now : Int) (nlog : nanny_log) :
    (nanny_log_update_statistics now nlog).total_bytes = nlog.total_bytes ∧
    (nanny_log_update_statistics now nlog).buff_size = nlog.buff_size ∧
    (nanny_log_update_statistics now nlog).buffp = nlog.buffp := by
  unfold nanny_log_update_statistics
  split <;> exact ⟨rfl, rfl, rfl⟩

theorem log_write_frame (l : nanny_log) (msg : List Nat) :
    (if l.file_fd ≥ 0 then log_write l msg else l).total_bytes = l.total_bytes ∧
    (if l.file_fd ≥ 0 then log_write l msg else l).buff_size = l.buff_size ∧
    (if l.file_fd ≥ 0 then log_write l msg else l).buffp = l.buffp := by
  split <;> exact ⟨rfl, rfl, rfl⟩

/-- The write position of a buffer lies inside its ring of `size` bytes, and
the byte counter is below `2 ^ 64`. -/
theorem nanny_log_printf_inside (sys : log_calls) (now : Int) (formatted : List Nat)
    (size : Nat) (l r : nanny_log)
    (hI : l.buff_size = size ∧ l.buffp < l.buff_size ∧ l.total_bytes < 2 ^ 64)
    (h : nanny_log_printf sys now formatted l = some r) :
    r.buff_size = size ∧ r.buffp < r.buff_size ∧ r.total_bytes < 2 ^ 64 := by
  obtain ⟨hs, hp, ht⟩ := hI
  unfold nanny_log_printf at h
  simp only at h
  split at h
  · cases h
  · rename_i l1 e1
    obtain ⟨t1, s1, p1, _⟩ := nanny_log_rotate_frame sys now l l1 e1
    obtain ⟨t2, s2, p2⟩ := log_write_frame l1 ((formatted.take 8191).takeWhile (fun b => b ≠ 0))
    obtain ⟨c, hc, ct, cs, cp⟩ := log_copy_spec _ ((formatted.take 8191).takeWhile (fun b => b ≠ 0))
      (if l1.file_fd ≥ 0 then log_write l1 ((formatted.take 8191).takeWhile (fun b => b ≠ 0))
        else l1) (le_refl _)
      (by rw [p2, s2, p1, s1]; exact hp) (by rw [t2, t1]; exact ht)
    rw [hc] at h
    simp only [Option.some.injEq] at h
    subst h
    obtain ⟨t3, s3, p3⟩ := update_statistics_frame now c
    refine ⟨by rw [s3, cs, s2, s1, hs], by rw [p3, s3]; exact cp, ?_⟩
    rw [t3, ct]
    exact Nat.mod_lt _ (by norm_num)

theorem update_statistics_buffp (now : Int) (nlog : nanny_log) :
    (nanny_log_update_statistics now nlog).buffp = nlog.buffp :=
  (update_statistics_frame now nlog).2.2

theorem update_statistics_buff_size (now : Int) (nlog : nanny_log) :
    (nanny_log_update_statistics now nlog).buff_size = nlog.buff_size :=
  (update_statistics_frame now nlog).2.1

theorem update_statistics_total_bytes (now : Int) (nlog : nanny_log) :
    (nanny_log_update_statistics now nlog).total_bytes = nlog.total_bytes :=
  (update_statistics_frame now nlog).1

theorem log_input_store_inside (now : Int) (got : List Nat) (nlog : nanny_log)
    (hsize : 1 ≤ nlog.buff_size) :
    (log_input_store now got nlog).buff_size = nlog.buff_size ∧
    (log_input_store now got nlog).buffp < nlog.buff_size ∧
    (log_input_store now got nlog).total_bytes < 2 ^ 64 := by
  unfold log_input_store
  simp only [update_statistics_buffp, update_statistics_buff_size,
    update_statistics_total_bytes]
  by_cases hf : nlog.file_fd ≥ 0
  · simp only [if_pos hf, log_write]
    refine ⟨trivial, ?_, Nat.mod_lt _ (by norm_num)⟩
    split <;> omega
  · simp only [if_neg hf]
    refine ⟨trivial, ?_, Nat.mod_lt _ (by norm_num)⟩
    split <;> omega

theorem nanny_log_input_server_inside (sys : log_calls) (now : Int) (rd : read_result)
    (message : List Nat) (size : Nat) (hsize : 1 ≤ size) (l r : nanny_log)
    (hI : l.buff_size = size ∧ l.buffp < l.buff_size ∧ l.total_bytes < 2 ^ 64)
    (h : nanny_log_input_server sys now rd message l = some (some r)) :
    r.buff_size = size ∧ r.buffp < r.buff_size ∧ r.total_bytes < 2 ^ 64 := by
  obtain ⟨hs, hp, ht⟩ := hI
  unfold nanny_log_input_server at h
  cases rd with
  | failed errno =>
    simp only at h
    split at h
    · cases h; exact ⟨hs, hp, ht⟩
    · split at h
      · cases h; exact ⟨hs, hp, ht⟩
      · split at h
        · cases h
        · rename_i r1 e1
          cases h
          refine nanny_log_printf_inside sys now message size _ _ ?_ e1
          exact ⟨hs, hp, ht⟩
  | waiting bytes =>
    simp only at h
    split at h
    · unfold nanny_log_release at h
      simp only at h
      split at h
      · cases h
      · cases h; exact ⟨hs, hp, ht⟩
    · split at h
      · cases h
      · rename_i l1 e1
        obtain ⟨t1, s1, p1, _⟩ := nanny_log_rotate_frame sys now _ l1 e1
        simp only at t1 s1 p1
        cases h
        obtain ⟨a, b, c⟩ := log_input_store_inside now (bytes.take (l.buff_size - l.buffp)) l1
          (by omega)
        exact ⟨by rw [a, s1, hs], by rw [a]; exact b, c⟩

/-- Every state of a buffer with a ring of `size >= 1` bytes keeps the size,
has its write position inside the ring and its byte counter below
`2 ^ 64`. -/
theorem log_reachable_inv (size : Nat) (hsize : 1 ≤ size) (l : nanny_log)
    (h : log_reachable size l) :
    l.buff_size = size ∧ l.buffp < l.buff_size ∧ l.total_bytes < 2 ^ 64 := by
  induction h with
  | alloc l e =>
    unfold nanny_log_alloc at e
    simp only [if_true, Bool.true_eq_false, if_false, Option.some.injEq] at e
    subst e
    exact ⟨rfl, hsize, by norm_num⟩
  | set_filename formatted ok l r _ e ih =>
    unfold nanny_log_set_filename at e
    split at e
    · cases e; exact ih
    · split at e
      · cases e
      · cases e; exact ih
  | retain l _ ih => exact ih
  | printf sys now formatted l r _ e ih => exact nanny_log_printf_inside sys now formatted size l r ih e
  | input sys now rd message l r _ e ih =>
    exact nanny_log_input_server_inside sys now rd message size hsize l r ih e
/-- One pass of the loop of `nanny_log_printf` on a ring whose write position
is inside: it copies `k >= 1` bytes of the rest of the message and leaves the
write position inside the ring. -/
theorem log_copy_pass (s : nanny_log) (b : Nat) (bs : List Nat)
    (hp : s.buffp < s.buff_size) :
    ∃ k, 1 ≤ k ∧ k ≤ (b :: bs).length ∧
      (log_store s (b :: bs) k).buff_size = s.buff_size ∧
      (log_store s (b :: bs) k).buffp < s.buff_size ∧
      ∀ fuel, log_copy (fuel + 1) (b :: bs) s
        = log_copy fuel ((b :: bs).drop k) (log_store s (b :: bs) k) := by
  obtain ⟨n, h1, h2, _, hn⟩ : ∃ n : Nat, 1 ≤ n ∧ n ≤ (b :: bs).length ∧
      n ≤ s.buff_size - s.buffp ∧
      (if ((b :: bs).length : Int) > (s.buff_size : Int) - s.buffp then
          (s.buff_size : Int) - s.buffp
        else ((b :: bs).length : Int)) = (n : Int) := by
    by_cases hc : ((b :: bs).length : Int) > (s.buff_size : Int) - s.buffp
    · refine ⟨s.buff_size - s.buffp, by omega, by omega, le_refl _, ?_⟩
      rw [if_pos hc]
      omega
    · refine ⟨(b :: bs).length, by simp, le_refl _, by omega, ?_⟩
      rw [if_neg hc]
  obtain ⟨_, s2, s3⟩ := log_store_frame s (b :: bs) n hp
  refine ⟨n, h1, h2, s2, s3, ?_⟩
  intro fuel
  rw [log_copy]
  simp only [hn]
  rw [if_neg (by omega)]
  simp

/-- The result of the loop of `nanny_log_printf` does not depend on the bound
of the passes once that is the length of the message. -/
theorem log_copy_fuel :
    ∀ (fuel fuel2 : Nat) (p : List Nat) (nlog : nanny_log), p.length ≤ fuel →
      p.length ≤ fuel2 → nlog.buffp < nlog.buff_size →
      log_copy fuel p nlog = log_copy fuel2 p nlog := by
  intro fuel
  induction fuel with
  | zero =>
    intro fuel2 p nlog hlen _ _
    have : p = [] := List.length_eq_zero.mp (Nat.le_zero.mp hlen)
    subst this
    simp [log_copy]
  | succ fuel ih =>
    intro fuel2 p nlog hlen hlen2 hp
    cases p with
    | nil => simp [log_copy]
    | cons b bs =>
      obtain ⟨k, k1, k2, ks, kp, kstep⟩ := log_copy_pass nlog b bs hp
      simp only [List.length_cons] at hlen hlen2 k2
      have hd : ((b :: bs).drop k).length ≤ bs.length := by
        rw [List.length_drop]; simp only [List.length_cons]; omega
      cases fuel2 with
      | zero => omega
      | succ fuel2 =>
        rw [kstep fuel, kstep fuel2]
        exact ih fuel2 _ _ (by omega) (by omega) (by rw [ks]; exact kp)

theorem small_log_read_eq :
    nanny_log_input_server ⟨-1, -1, 0, true⟩ 100 (read_result.waiting [1, 2, 3, 4, 5]) []
      small_log = some (some small_log_filled) := by
  decide

theorem char_eq_of_toNat (a b : Char) (h : a.toNat = b.toNat) : a = b := by
  rw [← Char.ofNat_toNat a, ← Char.ofNat_toNat b, h]

theorem strcmp_neg (a b : List Char) (hb : ∀ c ∈ b, c.toNat ≠ 0) :
    strcmp a b < 0 ↔ lex_lt a b = true := by
  induction a generalizing b with
  | nil =>
    cases b with
    | nil => simp [strcmp, lex_lt]
    | cons y ys =>
      have := hb y (List.mem_cons_self _ _)
      simp only [strcmp, lex_lt, iff_true]
      omega
  | cons x xs ih =>
    cases b with
    | nil =>
      simp only [strcmp, lex_lt, Bool.false_eq_true, iff_false]
      omega
    | cons y ys =>
      simp only [strcmp, lex_lt, Bool.or_eq_true, Bool.and_eq_true, decide_eq_true_eq]
      by_cases hxy : x = y
      · subst hxy
        rw [if_pos rfl, ih ys (fun c hc => hb c (List.mem_cons_of_mem _ hc))]
        simp
      · rw [if_neg hxy]
        constructor
        · intro h; left; omega
        · intro h
          rcases h with h | ⟨h, _⟩
          · omega
          · exact absurd h hxy

theorem strcmp_pos (a b : List Char) (ha : ∀ c ∈ a, c.toNat ≠ 0) :
    strcmp a b > 0 ↔ lex_lt b a = true := by
  induction a generalizing b with
  | nil =>
    cases b with
    | nil => simp [strcmp, lex_lt]
    | cons y ys =>
      simp only [strcmp, lex_lt, Bool.false_eq_true, iff_false]
      omega
  | cons x xs ih =>
    have hx := ha x (List.mem_cons_self _ _)
    cases b with
    | nil =>
      simp only [strcmp, lex_lt, iff_true]
      omega
    | cons y ys =>
      simp only [strcmp, lex_lt, Bool.or_eq_true, Bool.and_eq_true, decide_eq_true_eq]
      by_cases hxy : x = y
      · subst hxy
        rw [if_pos rfl, ih ys (fun c hc => ha c (List.mem_cons_of_mem _ hc))]
        simp
      · rw [if_neg hxy]
        constructor
        · intro h; left; omega
        · intro h
          rcases h with h | ⟨h, _⟩
          · omega
          · exact absurd h.symm hxy

theorem strcmp_zero (a b : List Char) (ha : ∀ c ∈ a, c.toNat ≠ 0)
    (hb : ∀ c ∈ b, c.toNat ≠ 0) : strcmp a b = 0 ↔ a = b := by
  induction a generalizing b with
  | nil =>
    cases b with
    | nil => simp [strcmp]
    | cons y ys =>
      have := hb y (List.mem_cons_self _ _)
      simp only [strcmp]
      constructor
      · intro h; omega
      · intro h; cases h
  | cons x xs ih =>
    have hx := ha x (List.mem_cons_self _ _)
    cases b with
    | nil =>
      simp only [strcmp]
      constructor
      · intro h; omega
      · intro h; cases h
    | cons y ys =>
      simp only [strcmp]
      by_cases hxy : x = y
      · subst hxy
        rw [if_pos rfl, ih ys (fun c hc => ha c (List.mem_cons_of_mem _ hc))
          (fun c hc => hb c (List.mem_cons_of_mem _ hc))]
        simp
      · rw [if_neg hxy]
        constructor
        · intro h
          exact absurd (char_eq_of_toNat x y (by omega)) hxy
        · intro h
          exact absurd (List.cons.inj h).1 hxy

theorem digit_not_space (c : Char) (h : c ≥ '0' ∧ c ≤ '9') : isspace c = false := by
  have hc := digit_toNat c h
  unfold isspace
  have ne : ∀ d : Char, d.toNat < 48 → c ≠ d := by
    intro d hd e
    subst e
    omega
  simp [ne ' ' (by decide), ne '\t' (by decide), ne '\n' (by decide),
    ne (Char.ofNat 11) (by decide), ne (Char.ofNat 12) (by decide), ne '\r' (by decide)]

/-- The value `strtoll` gives for a decimal number: the number, or the
largest `long long` when that is smaller. -/
theorem strtoll_digits (q : List Char) (hq : digits q) :
    strtoll q = if decimal q > 2 ^ 63 - 1 then 2 ^ 63 - 1 else decimal q := by
  obtain ⟨hne, hd⟩ := hq
  cases q with
  | nil => exact absurd rfl hne
  | cons c rest =>
    have hc := hd c (List.mem_cons_self _ _)
    have hcn := digit_toNat c hc
    have h1 : (c :: rest).dropWhile isspace = c :: rest := by
      rw [List.dropWhile_cons_of_neg (by rw [digit_not_space c hc]; decide)]
    have h2 : ¬ (c = '-') := by intro e; subst e; revert hcn; decide
    have h3 : ¬ (c = '+') := by intro e; subst e; revert hcn; decide
    have h4 : (c :: rest).takeWhile (fun c => decide (c ≥ '0' ∧ c ≤ '9')) = c :: rest := by
      rw [List.takeWhile_eq_self_iff]
      intro x hx
      simpa using hd x hx
    have h0 := decimal_nonneg (c :: rest) hd
    unfold strtoll
    simp only [h1, List.head?_cons, Option.some.injEq, h2, h3, or_self, if_false, h4,
      decide_False, Bool.false_eq_true]
    split
    · rfl
    · rw [if_neg (by omega)]
/-- The seven integer variables of `nanny_variable_int`, four of them only
while their value is positive. -/
theorem nanny_variable_int_keys (g : query_vars) :
    nanny_variable_int g "CHILD_PID".toList
      = (if g.child_pid > 0 then some g.child_pid else none) ∧
    nanny_variable_int g "GID".toList = some g.gid ∧
    nanny_variable_int g "HTTP_PORT".toList
      = (if g.http_port > 0 then some g.http_port else none) ∧
    nanny_variable_int g "NANNY_PID".toList
      = (if g.nanny_pid > 0 then some g.nanny_pid else none) ∧
    nanny_variable_int g "PID".toList = (if g.child_pid > 0 then some g.child_pid else none) ∧
    nanny_variable_int g "TIME".toList = some g.now ∧
    nanny_variable_int g "UID".toList = some g.uid := by
  refine ⟨?_, ?_, ?_, ?_, ?_, ?_, ?_⟩ <;>
    simp [nanny_variable_int, List.find?, List.dropWhile] <;> split <;> simp_all <;>
    rw [if_neg (by omega)]

theorem udp_query_match_int (g : query_vars) (key q : List Char) (op : Char) (v : Int)
    (hv : nanny_variable_int g key = some v) :
    udp_query_match g key op q =
      if op = '=' then (if strtoll q = v then some (print_decimal v) else none)
      else if op = '>' then (if strtoll q < v then some (print_decimal v) else none)
      else if op = '<' then (if strtoll q > v then some (print_decimal v) else none)
      else none := by
  unfold udp_query_match nanny_variable_compare nanny_variable
  simp only [hv]
  by_cases h1 : strtoll q < v
  · simp only [if_pos h1]
    rw [if_neg (by omega : ¬ strtoll q = v), if_neg (by omega : ¬ strtoll q > v)]
    simp
  · simp only [if_neg h1]
    by_cases h2 : strtoll q > v
    · simp only [if_pos h2]
      rw [if_neg (by omega : ¬ strtoll q = v)]
      simp
    · simp only [if_neg h2]
      rw [if_pos (by omega : strtoll q = v)]
      simp

theorem udp_query_match_string (g : query_vars) (key q s : List Char) (op : Char)
    (hi : nanny_variable_int g key = none) (hs : nanny_variable g key = some s) :
    udp_query_match g key op q =
      if op = '=' then (if strcmp q s = 0 then some s else none)
      else if op = '>' then (if strcmp q s < 0 then some s else none)
      else if op = '<' then (if strcmp q s > 0 then some s else none)
      else none := by
  unfold udp_query_match nanny_variable_compare
  simp only [hs, hi]

theorem map_store_not_mem (l : List nanny_child) (c' : nanny_child)
    (h : c'.addr ∉ l.map (fun c => c.addr)) :
    l.map (fun x => if x.addr = c'.addr then c' else x) = l := by
  induction l with
  | nil => rfl
  | cons a l ih =>
    simp only [List.map_cons, List.mem_cons, not_or] at h ⊢
    rw [if_neg (fun e => h.1 e.symm), ih h.2]

theorem store_child_at (w : World) (done rest : List nanny_child) (c c' : nanny_child)
    (hl : w.live_children = done ++ c :: rest)
    (hnd : (w.live_children.map (fun c => c.addr)).Nodup) (ha : c'.addr = c.addr) :
    (store_child w c').live_children = done ++ c' :: rest := by
  unfold store_child
  simp only
  rw [hl] at hnd ⊢
  simp only [List.map_append, List.map_cons] at hnd ⊢
  have h1 := List.nodup_append.mp hnd
  have h2 := List.nodup_cons.mp h1.2.1
  rw [map_store_not_mem done c' (by
      rw [ha]; intro hm; exact h1.2.2 hm (List.mem_cons_self _ _)),
    map_store_not_mem rest c' (by rw [ha]; exact h2.1), if_pos ha.symm]

theorem find_child_at (w : World) (done rest : List nanny_child) (c : nanny_child)
    (hl : w.live_children = done ++ c :: rest)
    (hnd : (w.live_children.map (fun c => c.addr)).Nodup) :
    find_child w c.addr = some c := by
  unfold find_child
  exact find_child_of_nodup _ hnd c (by rw [hl]; simp)

theorem store_child_timers (w : World) (c : nanny_child) :
    (store_child w c).timers = w.timers := rfl

/-- The records the loop of `nanny_stop_all_children` leaves, when the
records of the live list have distinct addresses. -/
theorem stop_all_loop_leaves (env : Nat → syscalls) :
    ∀ (cs done : List nanny_child) (n : Nat) (alive a : Int) (w w' : World),
      w.live_children = done ++ cs →
      (w.live_children.map (fun c => c.addr)).Nodup →
      stop_all_loop env (cs.map (fun c => c.addr)) n alive w = some (a, w') →
      w'.live_children = done ++ stop_records env n cs := by
  intro cs
  induction cs with
  | nil =>
    intro done n alive a w w' hl _ h
    simp only [List.map_nil, stop_all_loop, Option.some.injEq, Prod.mk.injEq] at h
    rw [← h.2, hl, stop_records]
  | cons c rest ih =>
    intro done n alive a w w' hl hnd h
    have hc := find_child_at w done rest c hl hnd
    simp only [List.map_cons] at h
    unfold stop_all_loop at h
    rw [hc] at h
    simp only at h
    have key : ∀ (w2 : World) (c2 : nanny_child) (alive2 : Int),
        w2.live_children = w.live_children → c2.addr = c.addr →
        c2 = stop_record (env n).timer1 c →
        stop_all_loop env (rest.map (fun c => c.addr)) (n + 1) alive2 (store_child w2 c2)
          = some (a, w') →
        w'.live_children = done ++ stop_records env n (c :: rest) := by
      intro w2 c2 alive2 h2 ha hrec hloop
      have hl2 : w2.live_children = done ++ c :: rest := by rw [h2, hl]
      have hnd2 : (w2.live_children.map (fun c => c.addr)).Nodup := by rw [h2]; exact hnd
      have hs := store_child_at w2 done rest c c2 hl2 hnd2 ha
      have hnd3 : ((store_child w2 c2).live_children.map (fun c => c.addr)).Nodup := by
        rw [hs]
        rw [hl] at hnd
        simpa [ha] using hnd
      have := ih (done ++ [c2]) (n + 1) alive2 a (store_child w2 c2) w'
        (by rw [hs]; simp) hnd3 hloop
      rw [this, stop_records, hrec]
      simp
    by_cases hst : c.state = child_state.STOPPED
    · rw [if_pos hst] at h
      refine key w _ alive rfl ?_ ?_ h
      · rfl
      · unfold stop_record; rw [if_pos hst]
    · rw [if_neg hst] at h
      by_cases hh : c.state_handler = handler.main_child_goal_stopped
      · rw [if_pos hh] at h
        have e : store_child w c = w := by
          have := store_child_at w done rest c c hl hnd rfl
          rw [← hl] at this
          unfold store_child at this ⊢
          simp only at this
          rw [this]
        rw [← e] at h
        exact key w c (alive + 1) rfl rfl (by unfold stop_record; rw [if_neg hst, if_pos hh]) h
      · rw [if_neg hh] at h
        split at h
        · cases h
        · rename_i w1 e1
          have hl1 : w1.live_children = w.live_children := by
            unfold timer_add at e1
            split at e1
            · cases e1
              simp only [timer_delete]
              exact (length_foldl_timer_delete c.timed w).2
            · cases e1
          refine key w1 _ (alive + 1) hl1 ?_ ?_ h
          · rfl
          · unfold stop_record; rw [if_neg hst, if_neg hh]
theorem store_child_same (w : World) (done rest : List nanny_child) (c : nanny_child)
    (hl : w.live_children = done ++ c :: rest)
    (hnd : (w.live_children.map (fun c => c.addr)).Nodup) : store_child w c = w := by
  have := store_child_at w done rest c c hl hnd rfl
  rw [← hl] at this
  unfold store_child at this ⊢
  simp only at this
  rw [this]

/-- The loop of `nanny_stop_all_children` over records that all have the
handler `main_child_goal_stopped` changes nothing and counts those that are
not in state `STOPPED`. -/
theorem stop_all_loop_again (env : Nat → syscalls) :
    ∀ (cs done : List nanny_child) (n : Nat) (alive : Int) (w : World),
      w.live_children = done ++ cs →
      (w.live_children.map (fun c => c.addr)).Nodup →
      (∀ c ∈ cs, c.state_handler = handler.main_child_goal_stopped) →
      stop_all_loop env (cs.map (fun c => c.addr)) n alive w
        = some (alive + (not_stopped cs : Nat), w) := by
  intro cs
  induction cs with
  | nil =>
    intro done n alive w _ _ _
    simp [stop_all_loop, not_stopped]
  | cons c rest ih =>
    intro done n alive w hl hnd hall
    have hc := find_child_at w done rest c hl hnd
    have hh := hall c (List.mem_cons_self _ _)
    have hrec : { c with state_handler := handler.main_child_goal_stopped } = c := by
      cases c
      simp only at hh
      subst hh
      rfl
    have hnext := fun a => ih (done ++ [c]) (n + 1) a w (by rw [hl]; simp) hnd
      (fun x hx => hall x (List.mem_cons_of_mem _ hx))
    simp only [List.map_cons]
    unfold stop_all_loop
    rw [hc]
    simp only
    by_cases hst : c.state = child_state.STOPPED
    · rw [if_pos hst, hrec, store_child_same w done rest c hl hnd, hnext alive]
      have : not_stopped (c :: rest) = not_stopped rest := by
        unfold not_stopped
        rw [List.filter_cons_of_neg (by simpa using hst)]
      rw [this]
    · rw [if_neg hst, if_pos hh, hnext (alive + 1)]
      have : not_stopped (c :: rest) = not_stopped rest + 1 := by
        unfold not_stopped
        rw [List.filter_cons_of_pos (by simpa using hst)]
        rfl
      rw [this]
      push_cast
      rw [add_assoc, add_comm 1]

theorem stop_record_spec (t : Nat) (c : nanny_child) :
    (stop_record t c).addr = c.addr ∧ (stop_record t c).state = c.state ∧
    (stop_record t c).state_handler = handler.main_child_goal_stopped := by
  unfold stop_record
  split
  · exact ⟨rfl, rfl, rfl⟩
  · split
    · rename_i h; exact ⟨rfl, rfl, h⟩
    · exact ⟨rfl, rfl, rfl⟩

theorem stop_records_spec (env : Nat → syscalls) (cs : List nanny_child) (n : Nat) :
    (stop_records env n cs).map (fun c => c.addr) = cs.map (fun c => c.addr) ∧
    not_stopped (stop_records env n cs) = not_stopped cs ∧
    ∀ c ∈ stop_records env n cs, c.state_handler = handler.main_child_goal_stopped := by
  induction cs generalizing n with
  | nil => simp [stop_records]
  | cons c rest ih =>
    obtain ⟨h1, h2, h3⟩ := ih (n + 1)
    obtain ⟨a, b, d⟩ := stop_record_spec (env n).timer1 c
    refine ⟨?_, ?_, ?_⟩
    · simp only [stop_records, List.map_cons, h1, a]
    · unfold not_stopped at h2 ⊢
      simp only [stop_records, List.filter_cons, b]
      split
      · simp only [List.length_cons, h2]
      · exact h2
    · intro x hx
      simp only [stop_records, List.mem_cons] at hx
      rcases hx with e | hx
      · rw [e]; exact d
      · exact h3 x hx

theorem mem_timer_delete (h : List timer) (t : Nat) (hinv : timers_inv h) (x : timer) :
    x ∈ nanny_timer_delete h t ↔ x ∈ h ∧ x.ptr ≠ t := by
  rw [(delete_perm_filter h t hinv).mem_iff, List.mem_filter]
  simp

theorem foldl_timer_delete_mem (l : List timed_t) (w : World) (hinv : timers_inv w.timers) :
    timers_inv (l.foldl (fun w t => timer_delete w t.timer) w).timers ∧
    ∀ x ∈ (l.foldl (fun w t => timer_delete w t.timer) w).timers,
      x ∈ w.timers ∧ ∀ t ∈ l, x.ptr ≠ t.timer := by
  induction l generalizing w with
  | nil => exact ⟨hinv, fun x hx => ⟨hx, by simp⟩⟩
  | cons a l ih =>
    simp only [List.foldl_cons]
    obtain ⟨h1, h2⟩ := ih (timer_delete w a.timer) (timers_inv_delete _ _ hinv)
    refine ⟨h1, ?_⟩
    intro x hx
    obtain ⟨m, hm⟩ := h2 x hx
    have := (mem_timer_delete w.timers a.timer hinv x).mp m
    refine ⟨this.1, ?_⟩
    intro t ht
    rcases List.mem_cons.mp ht with e | ht
    · rw [e]; exact this.2
    · exact hm t ht

theorem timer_add_mem (w w' : World) (t : Nat) (when : Int) (f : handler) (data : Nat)
    (hinv : timers_inv w.timers) (hfresh : ∀ x ∈ w.timers, x.ptr ≠ t)
    (h : timer_add w t when f data = some w') :
    timers_inv w'.timers ∧ w'.live_children = w.live_children ∧
    ∀ x ∈ w'.timers, x = ⟨t, when, data, f⟩ ∨ x ∈ w.timers := by
  unfold timer_add at h
  split at h
  · rename_i r e
    cases h
    have ht : t ≠ 0 := by
      intro c; unfold nanny_timer_add at e; rw [if_pos c] at e; cases e
    have hlen : w.timers.length + 1 < MAX_TIMERS := by
      by_contra c; unfold nanny_timer_add at e; rw [if_neg ht, if_neg c] at e; cases e
    obtain ⟨h2, e2, hp⟩ := add_spec_perm w.timers t when f data ht hlen
    rw [e2] at e
    cases e
    refine ⟨timers_inv_add w.timers h2 t when f data hinv hfresh e2, rfl, ?_⟩
    intro x hx
    exact List.mem_cons.mp (hp.subset hx)
  · cases h

/-- The timers the loop of `nanny_stop_all_children` leaves in the heap, when
the addresses `malloc` gives are distinct and not in the heap: a timer of
before that is not the timer of a periodic task of a record the loop has
switched, or a new timer for `main_child_goal_stopped` at time 0. -/
theorem stop_all_loop_timers (env : Nat → syscalls)
    (hinj : ∀ i j, (env i).timer1 = (env j).timer1 → i = j) :
    ∀ (cs done : List nanny_child) (n : Nat) (alive a : Int) (w w' : World),
      w.live_children = done ++ cs →
      (w.live_children.map (fun c => c.addr)).Nodup →
      timers_inv w.timers →
      (∀ i, n ≤ i → ∀ x ∈ w.timers, x.ptr ≠ (env i).timer1) →
      stop_all_loop env (cs.map (fun c => c.addr)) n alive w = some (a, w') →
      ∀ x ∈ w'.timers,
        (x ∈ w.timers ∧ ∀ c ∈ cs, switched c → ∀ t ∈ c.timed, x.ptr ≠ t.timer)
          ∨ (x.when = 0 ∧ x.f = handler.main_child_goal_stopped) := by
  intro cs
  induction cs with
  | nil =>
    intro done n alive a w w' _ _ _ _ h x hx
    simp only [List.map_nil, stop_all_loop, Option.some.injEq, Prod.mk.injEq] at h
    rw [← h.2] at hx
    exact Or.inl ⟨hx, by simp⟩
  | cons c rest ih =>
    intro done n alive a w w' hl hnd hinv hfresh h x hx
    have hc := find_child_at w done rest c hl hnd
    simp only [List.map_cons] at h
    unfold stop_all_loop at h
    rw [hc] at h
    simp only at h
    have key : ∀ (w2 : World) (c2 : nanny_child) (alive2 : Int),
        w2.live_children = w.live_children → c2.addr = c.addr → timers_inv w2.timers →
        (∀ i, n + 1 ≤ i → ∀ y ∈ w2.timers, y.ptr ≠ (env i).timer1) →
        stop_all_loop env (rest.map (fun c => c.addr)) (n + 1) alive2 (store_child w2 c2)
          = some (a, w') →
        (x ∈ w2.timers ∧ ∀ c ∈ rest, switched c → ∀ t ∈ c.timed, x.ptr ≠ t.timer)
          ∨ (x.when = 0 ∧ x.f = handler.main_child_goal_stopped) := by
      intro w2 c2 alive2 h2 ha i2 f2 hloop
      have hs := store_child_at w2 done rest c c2 (by rw [h2, hl]) (by rw [h2]; exact hnd) ha
      exact ih (done ++ [c2]) (n + 1) alive2 a (store_child w2 c2) w' (by rw [hs]; simp)
        (by rw [hs]; rw [hl] at hnd; simpa [ha] using hnd) i2 f2 hloop x hx
    by_cases hst : c.state = child_state.STOPPED
    · rw [if_pos hst] at h
      rcases key w _ alive rfl (by rfl) hinv (fun i hi => hfresh i (by omega)) h
        with ⟨m, hm⟩ | r
      · left
        refine ⟨m, ?_⟩
        intro c' hc' hsw
        rcases List.mem_cons.mp hc' with e | hc'
        · rw [e] at hsw; exact absurd hst hsw.1
        · exact hm c' hc' hsw
      · exact Or.inr r
    · rw [if_neg hst] at h
      by_cases hh : c.state_handler = handler.main_child_goal_stopped
      · rw [if_pos hh] at h
        rw [← store_child_same w done rest c hl hnd] at h
        rcases key w c (alive + 1) rfl rfl hinv (fun i hi => hfresh i (by omega)) h
          with ⟨m, hm⟩ | r
        · left
          refine ⟨m, ?_⟩
          intro c' hc' hsw
          rcases List.mem_cons.mp hc' with e | hc'
          · rw [e] at hsw; exact absurd hh hsw.2
          · exact hm c' hc' hsw
        · exact Or.inr r
      · rw [if_neg hh] at h
        split at h
        · cases h
        · rename_i w1 e1
          obtain ⟨i1, m1⟩ := foldl_timer_delete_mem c.timed w hinv
          have i2 := timers_inv_delete _ c.state_timer i1
          have i3 := timers_inv_delete _ c.health_timer i2
          have sub : ∀ y ∈ (timer_delete (timer_delete
              (c.timed.foldl (fun w t => timer_delete w t.timer) w) c.state_timer)
              c.health_timer).timers, y ∈ w.timers ∧ ∀ t ∈ c.timed, y.ptr ≠ t.timer := by
            intro y hy
            have y1 := ((mem_timer_delete _ c.health_timer i2 y).mp hy).1
            have y2 := ((mem_timer_delete _ c.state_timer i1 y).mp y1).1
            exact m1 y y2
          obtain ⟨i4, l4, m4⟩ := timer_add_mem _ w1 (env n).timer1 0
            handler.main_child_goal_stopped c.addr i3
            (fun y hy => hfresh n (le_refl _) y (sub y hy).1) e1
          have hl1 : w1.live_children = w.live_children := by
            rw [l4]
            simp only [timer_delete]
            exact (length_foldl_timer_delete c.timed w).2
          have f4 : ∀ i, n + 1 ≤ i → ∀ y ∈ w1.timers, y.ptr ≠ (env i).timer1 := by
            intro i hi y hy
            rcases m4 y hy with e | hy
            · rw [e]
              intro c2
              have := hinj n i c2
              omega
            · exact hfresh i (by omega) y (sub y hy).1
          rcases key w1 _ (alive + 1) hl1 (by rfl) i4 f4 h with ⟨m, hm⟩ | r
          · rcases m4 x m with e | hxw
            · right; rw [e]; exact ⟨rfl, rfl⟩
            · left
              refine ⟨(sub x hxw).1, ?_⟩
              intro c' hc' hsw
              rcases List.mem_cons.mp hc' with e | hc'
              · rw [e]; exact (sub x hxw).2
              · exact hm c' hc' hsw
          · exact Or.inr r

theorem stop_records_mem (env : Nat → syscalls) (cs : List nanny_child) (n : Nat) :
    ∀ c ∈ cs, ∃ i, stop_record (env i).timer1 c ∈ stop_records env n cs := by
  induction cs generalizing n with
  | nil => intro c hc; simp at hc
  | cons a rest ih =>
    intro c hc
    rcases List.mem_cons.mp hc with e | hc
    · exact ⟨n, by rw [e]; simp [stop_records]⟩
    · obtain ⟨i, hi⟩ := ih (n + 1) c hc
      exact ⟨i, by simp only [stop_records]; exact List.mem_cons_of_mem _ hi⟩

theorem stop_record_timed (t : Nat) (c : nanny_child) :
    (switched c → (stop_record t c).timed = []) ∧
    (¬ switched c → (stop_record t c).timed = c.timed) := by
  unfold stop_record switched
  constructor
  · intro h
    rw [if_neg h.1, if_neg h.2]
  · intro h
    split
    · rfl
    · split
      · rfl
      · rename_i h1 h2
        exact absurd ⟨h1, h2⟩ h
set_option maxRecDepth 20000 in
theorem periodic_running_world_timers_inv : timers_inv periodic_running_world.timers := by
  refine ⟨?_, by decide, by decide, by decide⟩
  intro k hk0 hk
  have hlen : periodic_running_world.timers.length = 3 := by decide
  have : k = 1 ∨ k = 2 := by omega
  rcases this with e | e <;> subst e <;> decide

/-! ## The claims -/

theorem t1_dispatch_untouched : heap_untouched t1_dispatch :=
  fun _ _ _ _ w => ⟨w, rfl, rfl⟩

theorem timer_test_adds_reachable : ∀ (l : List (Nat × Int)) (h h' : List timer),
    timers_reachable h → timer_test_adds l h = some h' → timers_reachable h' := by
  intro l
  induction l with
  | nil =>
    intro h h' hr e
    simp only [timer_test_adds, Option.some.injEq] at e
    subst e; exact hr
  | cons a rest ih =>
    intro h h' hr e
    obtain ⟨t, when⟩ := a
    simp only [timer_test_adds] at e
    split at e
    · rename_i hfresh
      split at e
      · rename_i r h1 hadd
        have hrt : r = t := by
          unfold nanny_timer_add at hadd
          split at hadd
          · cases hadd
          · split at hadd
            · simp only [Option.some.injEq, Prod.mk.injEq] at hadd
              exact hadd.1.symm
            · cases hadd
        subst hrt
        refine ih h1 h' (timers_reachable.add h h1 r when _ _ hr ?_ hadd) e
        intro x hx
        have := List.all_eq_true.mp hfresh x hx
        simpa using this
      · cases e
    · cases e

theorem timer_test_heap_reachable : timers_reachable timer_test_heap := by
  apply timer_test_adds_reachable timer_test_schedule [] _ timers_reachable.empty
  decide

/-- C1: for every heap built by `nanny_timer_add` / `nanny_timer_delete` (and
pops) and callbacks that leave the heap alone, one call of `nanny_timer_next`
at second `now.tv_sec` returns, has invoked exactly the pending timers with
`when <= now.tv_sec`, each once and none with a later `when`, and leaves
exactly the timers with `when > now.tv_sec` pending. -/
theorem nanny_timer_next_fires_exactly_due
    (dispatch : syscalls → handler → Nat → Int → World → Option World)
    (hd : heap_untouched dispatch) (w : World) (hr : timers_reachable w.timers)
    (env : List syscalls) (henv : w.timers.length ≤ env.length) (now : timeval)
    (absolute : Bool) :
    ∃ r, nanny_timer_next dispatch env now true absolute w = some r ∧
      (r.calls.map Prod.fst).Perm (w.timers.filter (fun t => t.when ≤ now.tv_sec)) ∧
      (r.calls.map (fun c => c.1.ptr)).Nodup ∧
      (∀ c ∈ r.calls, c.1.when ≤ now.tv_sec) ∧
      r.world.timers.Perm (w.timers.filter (fun t => now.tv_sec < t.when)) := by
  obtain ⟨r, h1, h2, h3, h4, h5⟩ :=
    next_fires_due dispatch hd w (timers_reachable_inv _ hr) env henv now absolute
  exact ⟨r, h1, h2, h3, fun c hc => (h4 c hc).1, h5⟩

/-- C1, at the heap of the timer test, one call at second 1003. -/
theorem nanny_timer_next_fires_exactly_due_witness :
    timers_reachable (world_of_timers timer_test_heap).timers ∧
    ∃ r, nanny_timer_next t1_dispatch (List.replicate 12 no_syscalls) ⟨1003, 250000⟩ true false
        (world_of_timers timer_test_heap) = some r ∧
      (r.calls.map Prod.fst).Perm
        ((world_of_timers timer_test_heap).timers.filter (fun t => t.when ≤ 1003)) ∧
      (r.calls.map (fun c => c.1.ptr)).Nodup ∧
      (∀ c ∈ r.calls, c.1.when ≤ 1003) ∧
      r.world.timers.Perm
        ((world_of_timers timer_test_heap).timers.filter (fun t => 1003 < t.when)) :=
  ⟨timer_test_heap_reachable,
   nanny_timer_next_fires_exactly_due t1_dispatch t1_dispatch_untouched
     (world_of_timers timer_test_heap) timer_test_heap_reachable
     (List.replicate 12 no_syscalls) (by decide) ⟨1003, 250000⟩ false⟩

/-- C2: for every heap the timer functions build (timers inserted in any
order) and callbacks that leave the heap alone, the callbacks run by
`nanny_timer_next` are invoked in non-decreasing order of their scheduled
`when`, within one call and across any number of successive calls. -/
theorem callbacks_in_when_order
    (dispatch : syscalls → handler → Nat → Int → World → Option World)
    (hd : heap_untouched dispatch) (w : World) (hr : timers_reachable w.timers)
    (rounds : List (timeval × List syscalls))
    (henv : ∀ x ∈ rounds, w.timers.length ≤ x.2.length) :
    ∃ w' calls, timer_next_rounds dispatch rounds w = some (w', calls) ∧
      (calls.map (fun c => c.1.when)).Pairwise (fun a b => a ≤ b) := by
  obtain ⟨w', calls, h1, h2, _⟩ :=
    timer_next_rounds_spec dispatch hd rounds w (timers_reachable_inv _ hr).1 henv
  exact ⟨w', calls, h1, h2⟩

/-- C2, at the heap of the timer test, with one call in each of the seconds
1000 to 1010. -/
theorem callbacks_in_when_order_witness :
    timers_reachable (world_of_timers timer_test_heap).timers ∧
    ∃ w' calls, timer_next_rounds t1_dispatch
        ((List.range 11).map
          (fun k => ((⟨1000 + (k : Int), 500000⟩ : timeval), List.replicate 12 no_syscalls)))
        (world_of_timers timer_test_heap) = some (w', calls) ∧
      (calls.map (fun c => c.1.when)).Pairwise (fun a b => a ≤ b) :=
  ⟨timer_test_heap_reachable,
   callbacks_in_when_order t1_dispatch t1_dispatch_untouched (world_of_timers timer_test_heap)
     timer_test_heap_reachable _ (by decide)⟩

/-- C3: for every heap the timer functions build that has room for one more
timer (`nanny_timer_count + 1 < MAX_TIMERS`, the assertion of
`nanny_timer_add`), `h = nanny_timer_add(when, f, data)` followed by
`nanny_timer_delete(h)` leaves the same count and the same collection of
pending timers: the deleted timer is gone, so it never fires, and a later
`nanny_timer_next` fires exactly the due timers of the heap before the add,
each once. -/
theorem add_then_delete_restores (w : World) (hr : timers_reachable w.timers) (t : Nat)
    (ht : t ≠ 0) (hfresh : ∀ x ∈ w.timers, x.ptr ≠ t)
    (hlen : w.timers.length + 1 < MAX_TIMERS) (when : Int) (f : handler) (data : Nat) :
    ∃ h1, nanny_timer_add w.timers t when f data = some (t, h1) ∧
      (nanny_timer_delete h1 t).length = w.timers.length ∧
      (nanny_timer_delete h1 t).Perm w.timers ∧
      (∀ x ∈ nanny_timer_delete h1 t, x.ptr ≠ t) ∧
      timers_reachable (nanny_timer_delete h1 t) ∧
      ∀ (dispatch : syscalls → handler → Nat → Int → World → Option World)
        (env : List syscalls) (now : timeval),
        heap_untouched dispatch → w.timers.length ≤ env.length →
        ∃ r, nanny_timer_next dispatch env now true false
            { w with timers := nanny_timer_delete h1 t } = some r ∧
          (r.calls.map Prod.fst).Perm (w.timers.filter (fun x => x.when ≤ now.tv_sec)) ∧
          (r.calls.map (fun c => c.1.ptr)).Nodup ∧
          (∀ c ∈ r.calls, c.1.ptr ≠ t) := by
  have hinv := timers_reachable_inv _ hr
  obtain ⟨h1, hadd, hh1, hp1⟩ := add_spec w.timers t when f data ht hlen hinv.1
  have hinv1 := timers_inv_add _ _ t when f data hinv hfresh hadd
  have hr1 : timers_reachable h1 := timers_reachable.add _ _ t when f data hr hfresh hadd
  have hr2 : timers_reachable (nanny_timer_delete h1 t) := timers_reachable.delete _ t hr1
  have hperm : (nanny_timer_delete h1 t).Perm w.timers := by
    obtain ⟨_, hcase⟩ := delete_spec h1 t hh1
    have hnew : (⟨t, when, data, f⟩ : timer) ∈ h1 := hp1.symm.subset (List.mem_cons_self _ _)
    rcases hcase with ⟨_, h0 | hno⟩ | ⟨x, hx, _, hpx⟩
    · exact absurd h0 ht
    · exact absurd rfl (hno _ hnew)
    · have hxm : x ∈ (⟨t, when, data, f⟩ : timer) :: w.timers :=
        hp1.subset (hpx.symm.subset (List.mem_cons_self _ _))
      rcases List.mem_cons.mp hxm with e | hxw
      · subst e
        exact (List.Perm.cons_inv (hpx.symm.trans hp1))
      · exact absurd hx (hfresh x hxw)
  refine ⟨h1, hadd, hperm.length_eq, hperm, ?_, hr2, ?_⟩
  · intro x hx
    exact hfresh x (hperm.subset hx)
  · intro dispatch env now hd henv
    obtain ⟨r, e1, e2, e3, _, _⟩ := next_fires_due dispatch hd
      { w with timers := nanny_timer_delete h1 t } (timers_reachable_inv _ hr2) env
      (by simp only; rw [hperm.length_eq]; exact henv) now false
    refine ⟨r, e1, ?_, e3, ?_⟩
    · exact e2.trans (hperm.filter _)
    · intro c hc
      have hm : c.1 ∈ (w.timers.filter (fun x => x.when ≤ now.tv_sec)) :=
        (e2.trans (hperm.filter _)).subset (List.mem_map_of_mem _ hc)
      exact hfresh c.1 (List.mem_of_mem_filter hm)

/-- C3, at the heap of the timer test: the test adds a thirteenth timer for
second 1004 and deletes it at once. -/
theorem add_then_delete_restores_witness :
    timers_reachable (world_of_timers timer_test_heap).timers ∧
    (13 : Nat) ≠ 0 ∧
    (∀ x ∈ (world_of_timers timer_test_heap).timers, x.ptr ≠ 13) ∧
    (world_of_timers timer_test_heap).timers.length + 1 < MAX_TIMERS ∧
    ∃ h1, nanny_timer_add (world_of_timers timer_test_heap).timers 13 1004 (handler.other 0) 0
        = some (13, h1) ∧
      (nanny_timer_delete h1 13).length = (world_of_timers timer_test_heap).timers.length ∧
      (nanny_timer_delete h1 13).Perm (world_of_timers timer_test_heap).timers ∧
      (∀ x ∈ nanny_timer_delete h1 13, x.ptr ≠ 13) ∧
      timers_reachable (nanny_timer_delete h1 13) ∧
      ∀ (dispatch : syscalls → handler → Nat → Int → World → Option World)
        (env : List syscalls) (now : timeval),
        heap_untouched dispatch →
        (world_of_timers timer_test_heap).timers.length ≤ env.length →
        ∃ r, nanny_timer_next dispatch env now true false
            { world_of_timers timer_test_heap with timers := nanny_timer_delete h1 13 }
              = some r ∧
          (r.calls.map Prod.fst).Perm
            ((world_of_timers timer_test_heap).timers.filter
              (fun x => x.when ≤ now.tv_sec)) ∧
          (r.calls.map (fun c => c.1.ptr)).Nodup ∧
          (∀ c ∈ r.calls, c.1.ptr ≠ 13) :=
  ⟨timer_test_heap_reachable, by decide, by decide, by decide,
   add_then_delete_restores (world_of_timers timer_test_heap) timer_test_heap_reachable 13
     (by decide) (by decide) (by decide) 1004 (handler.other 0) 0⟩

theorem timer_arg_heap_reachable : timers_reachable timer_arg_heap := by
  apply timer_test_adds_reachable timer_arg_schedule [] _ timers_reachable.empty
  decide

/-- C4: when callbacks leave the heap alone, `nanny_timer_next` calls the
function of every due timer, and the time it passes is the timer's scheduled
`when` if that is not 0, also when it lies in the past, and the current second
`now.tv_sec` if the timer was added with `when == 0`. -/
theorem callback_time_argument
    (dispatch : syscalls → handler → Nat → Int → World → Option World)
    (hd : heap_untouched dispatch) (w : World) (hr : timers_reachable w.timers)
    (env : List syscalls) (henv : w.timers.length ≤ env.length) (now : timeval)
    (absolute : Bool) :
    ∃ r, nanny_timer_next dispatch env now true absolute w = some r ∧
      (r.calls.map Prod.fst).Perm (w.timers.filter (fun t => t.when ≤ now.tv_sec)) ∧
      ∀ c ∈ r.calls, (c.1.when ≠ 0 → c.2 = c.1.when) ∧ (c.1.when = 0 → c.2 = now.tv_sec) := by
  obtain ⟨r, h1, h2, _, h4, _⟩ :=
    next_fires_due dispatch hd w (timers_reachable_inv _ hr) env henv now absolute
  refine ⟨r, h1, h2, ?_⟩
  intro c hc
  have := (h4 c hc).2
  constructor
  · intro hne; rw [this, if_neg hne]
  · intro he; rw [this, if_pos he]

/-- C4, at a heap with a timer of `when == 0`, a timer of the past and a
timer of the future, called at second 1000. -/
theorem callback_time_argument_witness :
    timers_reachable (world_of_timers timer_arg_heap).timers ∧
    ∃ r, nanny_timer_next t1_dispatch (List.replicate 3 no_syscalls) ⟨1000, 0⟩ true false
        (world_of_timers timer_arg_heap) = some r ∧
      (r.calls.map Prod.fst).Perm
        ((world_of_timers timer_arg_heap).timers.filter (fun t => t.when ≤ 1000)) ∧
      ∀ c ∈ r.calls, (c.1.when ≠ 0 → c.2 = c.1.when) ∧ (c.1.when = 0 → c.2 = 1000) :=
  ⟨timer_arg_heap_reachable,
   callback_time_argument t1_dispatch t1_dispatch_untouched (world_of_timers timer_arg_heap)
     timer_arg_heap_reachable (List.replicate 3 no_syscalls) (by decide) ⟨1000, 0⟩ false⟩

/-- C5 fails on the code: at 1000.5 s, with timers for seconds 0, 990 and
1005 pending, the first two fire and the third, 4.5 s away, remains; the
interval stored is 1 s + 500000 us, more than 1 second, because only `tv_sec`
is clipped to 1. -/
theorem interval_above_one_second :
    (nanny_timer_next t1_dispatch (List.replicate 3 no_syscalls) ⟨1000, 500000⟩ true false
        (world_of_timers timer_arg_heap)).map
      (fun r => (r.world.timers.map (fun t => t.when), r.interval))
      = some ([1005], some ⟨1, 500000⟩) ∧
    ¬ ((⟨1, 500000⟩ : timeval).tv_sec * 1000000 + (⟨1, 500000⟩ : timeval).tv_usec
        ≤ 1000000) := by
  decide

/-- C5 as amended: when callbacks leave the heap alone and a timer remains
pending after servicing, the interval `nanny_timer_next` stores has `tv_sec`
in `0 .. 1` and `tv_usec` in `0 .. 999999`, and is at least 1 microsecond and
less than 2 seconds, for every current time and every pending expiry. -/
theorem interval_bounds
    (dispatch : syscalls → handler → Nat → Int → World → Option World)
    (hd : heap_untouched dispatch) (w : World) (hr : timers_reachable w.timers)
    (env : List syscalls) (henv : w.timers.length ≤ env.length) (now : timeval)
    (absolute : Bool) (hrem : ∃ t ∈ w.timers, now.tv_sec < t.when) :
    ∃ r tv, nanny_timer_next dispatch env now true absolute w = some r ∧
      r.world.timers ≠ [] ∧ r.interval = some tv ∧
      0 ≤ tv.tv_sec ∧ tv.tv_sec ≤ 1 ∧ 0 ≤ tv.tv_usec ∧ tv.tv_usec ≤ 999999 ∧
      1 ≤ tv.tv_sec * 1000000 + tv.tv_usec ∧
      tv.tv_sec * 1000000 + tv.tv_usec < 2000000 := by
  obtain ⟨r, h1, _, hp, hc, _, _, _, hcons⟩ :=
    nanny_timer_next_spec dispatch hd now env w absolute (timers_reachable_inv _ hr).1 henv
  obtain ⟨t, htm, htl⟩ := hrem
  have hmem : t ∈ r.world.timers := by
    rcases List.mem_append.mp (hp.symm.subset htm) with hm | hm
    · obtain ⟨c, hcm, e⟩ := List.mem_map.mp hm
      subst e
      have := (hc c hcm).1
      omega
    · exact hm
  cases hw : r.world.timers with
  | nil => rw [hw] at hmem; simp at hmem
  | cons top tl =>
    obtain ⟨e1, _, _⟩ := hcons top tl hw
    refine ⟨r, ⟨1, (-now.tv_usec) % 1000000⟩, h1, ?_, e1, ?_⟩
    · rw [hw]; simp
    · simp only
      omega

/-- C5 as amended, at the heap with timers for seconds 0, 990 and 1005,
called at 1000.5 s. -/
theorem interval_bounds_witness :
    timers_reachable (world_of_timers timer_arg_heap).timers ∧
    (∃ t ∈ (world_of_timers timer_arg_heap).timers,
      (⟨1000, 500000⟩ : timeval).tv_sec < t.when) ∧
    ∃ r tv, nanny_timer_next t1_dispatch (List.replicate 3 no_syscalls) ⟨1000, 500000⟩ true
        false (world_of_timers timer_arg_heap) = some r ∧
      r.world.timers ≠ [] ∧ r.interval = some tv ∧
      0 ≤ tv.tv_sec ∧ tv.tv_sec ≤ 1 ∧ 0 ≤ tv.tv_usec ∧ tv.tv_usec ≤ 999999 ∧
      1 ≤ tv.tv_sec * 1000000 + tv.tv_usec ∧
      tv.tv_sec * 1000000 + tv.tv_usec < 2000000 :=
  ⟨timer_arg_heap_reachable, ⟨⟨1, 1005, 0, handler.other 0⟩, by decide, by decide⟩,
   interval_bounds t1_dispatch t1_dispatch_untouched (world_of_timers timer_arg_heap)
     timer_arg_heap_reachable (List.replicate 3 no_syscalls) (by decide) ⟨1000, 500000⟩ false
     ⟨⟨1, 1005, 0, handler.other 0⟩, by decide, by decide⟩⟩

/-- C6 fails on the code: in the timer test at second 1010 all twelve timers
fire, none remains, and the interval stored has `tv_sec == 1`, not 3600, so
that `assert(tv.tv_sec == 3600)` of the test does not hold; the hour is in the
value returned and in `absolute` only. -/
theorem empty_heap_interval_not_3600 :
    (nanny_timer_next t1_dispatch (List.replicate 12 no_syscalls) ⟨1010, 500000⟩ true true
        (world_of_timers timer_test_heap)).map
      (fun r => (r.world.timers, r.calls.length, r.interval, r.absolute, r.ret))
      = some ([], 12, some ⟨1, 0⟩, some ⟨4610, 500000⟩, 4610) ∧
    (⟨1, 0⟩ : timeval).tv_sec ≠ 3600 := by
  decide

/-- What the branch for the empty heap computes: when callbacks leave the heap
alone and every pending timer is due, so that none remains after servicing,
`nanny_timer_next` returns `now.tv_sec + 3600` and stores that second with
`now.tv_usec` in `absolute`, while the interval it stores is 1 s and 0 us,
where the timer test expects 3600 s. -/
theorem empty_heap_sentinel
    (dispatch : syscalls → handler → Nat → Int → World → Option World)
    (hd : heap_untouched dispatch) (w : World) (hr : timers_reachable w.timers)
    (env : List syscalls) (henv : w.timers.length ≤ env.length) (now : timeval)
    (absolute : Bool) (hdue : ∀ t ∈ w.timers, t.when ≤ now.tv_sec) :
    ∃ r, nanny_timer_next dispatch env now true absolute w = some r ∧
      r.world.timers = [] ∧
      r.ret = now.tv_sec + 3600 ∧
      r.absolute = (if absolute then some ⟨now.tv_sec + 3600, now.tv_usec⟩ else none) ∧
      r.interval = some ⟨1, 0⟩ := by
  obtain ⟨r, h1, _, hp, _, hx, _, hnil, _⟩ :=
    nanny_timer_next_spec dispatch hd now env w absolute (timers_reachable_inv _ hr).1 henv
  have hempty : r.world.timers = [] := by
    cases hw : r.world.timers with
    | nil => rfl
    | cons top tl =>
      have hm : top ∈ r.world.timers := by rw [hw]; exact List.mem_cons_self _ _
      have h2 := hx top hm
      have h3 := hdue top (hp.subset (List.mem_append_right _ hm))
      omega
  obtain ⟨e1, e2, e3⟩ := hnil hempty
  exact ⟨r, h1, hempty, e2, e3, e1⟩

/-- The branch for the empty heap at the heap of the timer test at second
1010. -/
theorem empty_heap_sentinel_witness :
    timers_reachable (world_of_timers timer_test_heap).timers ∧
    (∀ t ∈ (world_of_timers timer_test_heap).timers, t.when ≤ 1010) ∧
    ∃ r, nanny_timer_next t1_dispatch (List.replicate 12 no_syscalls) ⟨1010, 500000⟩ true true
        (world_of_timers timer_test_heap) = some r ∧
      r.world.timers = [] ∧
      r.ret = 1010 + 3600 ∧
      r.absolute = (if true then some ⟨1010 + 3600, 500000⟩ else none) ∧
      r.interval = some ⟨1, 0⟩ :=
  ⟨timer_test_heap_reachable, by decide,
   empty_heap_sentinel t1_dispatch t1_dispatch_untouched (world_of_timers timer_test_heap)
     timer_test_heap_reachable (List.replicate 12 no_syscalls) (by decide) ⟨1010, 500000⟩ true
     (by decide)⟩

/-- C7 fails on the code: in the state `probe_start` the heap holds the timers
at addresses 12 and 11.  In the call of `nanny_timer_next` at second 1060 the
health timer (address 12) runs `main_child_health_check`, which adds the timer
at address 21 with `when == 0` for `health_check_goal`; that timer is fired in
the same call, as its second callback. -/
theorem callback_timer_fired_in_same_call :
    probe_start.timers.map (fun t => t.ptr) = [12, 11] ∧
    (nanny_timer_next nanny_dispatch [scenario_syscalls 2, scenario_syscalls 3]
        ⟨1060, 0⟩ true false probe_start).map (fun r => r.calls)
      = some [(⟨12, 1060, 1000, handler.main_child_health_check⟩, 1060),
              (⟨21, 0, 1002, handler.health_check_goal⟩, 1060)] := by
  decide

/-- C7 as amended: when callbacks delete no timer, a timer that is pending
with `when <= now` when the first callback of a call of `nanny_timer_next`
returns, in particular one which that callback has added, is fired during the
same call, if the call returns; and the call returns only when no timer with
`when <= now` is pending. -/
theorem timer_added_by_callback_fires_in_same_call
    (dispatch : syscalls → handler → Nat → Int → World → Option World)
    (hg : heap_grows dispatch) (now : timeval) (interval absolute : Bool) (sys : syscalls)
    (env : List syscalls) (w : World) (hh : heap_ok w.timers) (top : timer)
    (tl : List timer) (hw : w.timers = top :: tl) (hdue : top.when ≤ now.tv_sec)
    (w2 : World)
    (hcb : dispatch sys top.f top.data (if top.when = 0 then now.tv_sec else top.when)
      { w with now := now.tv_sec, timers := nanny_timer_remove w.timers 0 } = some w2)
    (t : timer) (ht : t ∈ w2.timers) (htdue : t.when ≤ now.tv_sec) (r : next_result)
    (hret : nanny_timer_next dispatch (sys :: env) now interval absolute w = some r) :
    t ∈ r.calls.map Prod.fst ∧ ∀ x ∈ r.world.timers, now.tv_sec < x.when := by
  unfold nanny_timer_next at hret
  simp only at hret
  split at hret
  · cases hret
  · rename_i w' calls hs
    have hall := service_timers_fires_all dispatch hg now.tv_sec (sys :: env)
      { w with now := now.tv_sec } w' calls hh hs
    have hrw : r.world = w' ∧ r.calls = calls := by
      split at hret
      · cases hret; exact ⟨rfl, rfl⟩
      · split at hret
        · cases hret; exact ⟨rfl, rfl⟩
        · cases hret
    rw [hrw.1, hrw.2]
    refine ⟨?_, hall.2.2⟩
    simp only [service_timers, hw] at hs
    rw [if_pos (by omega)] at hs
    simp only [← hw] at hs
    rw [hcb] at hs
    simp only at hs
    split at hs
    · cases hs
    · rename_i w3 calls3 hrec
      simp only [Option.some.injEq, Prod.mk.injEq] at hs
      obtain ⟨_, e2⟩ := hs
      subst e2
      have hh2 : heap_ok w2.timers := by
        have := (hg _ _ _ _ _ _ hcb).1
        apply this
        simp only [hw]
        exact remove_heap _ 0 (by simp) (hw ▸ hh)
      have := (service_timers_fires_all dispatch hg now.tv_sec env w2 w3 calls3 hh2 hrec).1
        t ht htdue
      simp only [List.map_cons, List.mem_cons]
      exact Or.inr this

theorem probe_start_heap_ok : heap_ok probe_start.timers := by
  intro k hk0 hk
  have hlen : probe_start.timers.length = 2 := by decide
  have : k = 1 := by omega
  subst this
  decide

/-- C7 as amended, at the health check of second 1060: the timer at address
21, which `main_child_health_check` adds with `when == 0`, is among the timers
the call fires. -/
theorem timer_added_by_callback_fires_in_same_call_witness :
    heap_grows nanny_dispatch ∧ heap_ok probe_start.timers ∧
    probe_start.timers = ⟨12, 1060, 1000, handler.main_child_health_check⟩
      :: [⟨11, 1300, 1000, handler.main_child_goal_running⟩] ∧
    (1060 : Int) ≤ (⟨1060, 0⟩ : timeval).tv_sec ∧
    (⟨21, 0, 1002, handler.health_check_goal⟩ : timer) ∈ probe_after_callback.timers ∧
    (0 : Int) ≤ (⟨1060, 0⟩ : timeval).tv_sec ∧
    (⟨21, 0, 1002, handler.health_check_goal⟩ : timer) ∈ probe_result.calls.map Prod.fst ∧
    ∀ x ∈ probe_result.world.timers, (⟨1060, 0⟩ : timeval).tv_sec < x.when :=
  ⟨nanny_dispatch_grows, probe_start_heap_ok, by decide, by decide, by decide, by decide,
   timer_added_by_callback_fires_in_same_call nanny_dispatch nanny_dispatch_grows ⟨1060, 0⟩
     true false (scenario_syscalls 2) [scenario_syscalls 3] probe_start probe_start_heap_ok
     ⟨12, 1060, 1000, handler.main_child_health_check⟩
     [⟨11, 1300, 1000, handler.main_child_goal_running⟩] (by decide) (by decide)
     probe_after_callback (by decide) ⟨21, 0, 1002, handler.health_check_goal⟩ (by decide)
     (by decide) probe_result (by decide)⟩

/-- C8 fails on the code: the record that `nanny_child_new` leaves, the first
state of every main child, has `restart_delay == 0`, below the range
`1 .. 3600` (`child_alloc` zeroes the record and nothing sets the field before
the first exit). -/
theorem new_child_restart_delay_zero :
    (nanny_child_new (scenario_syscalls 0) "/bin/sleep 100000" empty_world).bind
      (fun r => (find_child r.2 r.1).map (fun c => c.restart_delay)) = some 0 ∧
    ¬ ((1 : Int) ≤ 0 ∧ (0 : Int) ≤ 3600) := by
  decide

/-- C8 as amended: in every state reachable from the empty state by
`nanny_child_new` and any sequence of steps, every record has `restart_delay`
in `0 .. 3600`; `main_child_ended` leaves the record it is called on with
`restart_delay` in `1 .. 3600`; and each of the five steps of a main child (the
three goal handlers, `main_child_ended`, `health_check_ended`) keeps the
`restart_delay` of all main child records (`main == NULL`) in `1 .. 3600` once
they are there. -/
theorem restart_delay_range (w : World) (hr : supervisor_reachable w) :
    (∀ c ∈ w.live_children, 0 ≤ c.restart_delay ∧ c.restart_delay ≤ 3600) ∧
    (∀ sys p stat w' c', main_child_ended sys p stat w = some w' →
      find_child w' p = some c' → 1 ≤ c'.restart_delay ∧ c'.restart_delay ≤ 3600) ∧
    (∀ w', child_step w w' →
      (∀ c ∈ w.live_children, c.main = 0 → 1 ≤ c.restart_delay ∧ c.restart_delay ≤ 3600) →
      ∀ c ∈ w'.live_children, c.main = 0 → 1 ≤ c.restart_delay ∧ c.restart_delay ≤ 3600) := by
  refine ⟨reachable_delays w hr, ?_, ?_⟩
  · intro sys p stat w' c' h hc'
    cases hc : find_child w p with
    | none =>
      unfold main_child_ended at h
      rw [hc] at h
      cases h
    | some c =>
      have := (main_child_ended_restart_delay sys p stat w w' c c' hc h hc').1
      rw [this]
      split <;> split <;> omega
  · intro w' hs hall
    refine child_step_delays (fun m d => m = 0 → 1 ≤ d ∧ d ≤ 3600) (fun _ _ => by omega) ?_
      w w' hs hall
    intro _ x hx hm
    have := hx hm
    split <;> split <;> omega

theorem new_child_world_reachable : supervisor_reachable new_child_world :=
  supervisor_reachable.other empty_world new_child_world supervisor_reachable.start
    (other_step.child_new (scenario_syscalls 0) "/bin/sleep 100000" 1000 empty_world
      new_child_world (by decide))

theorem first_exit_world_reachable : supervisor_reachable first_exit_world :=
  supervisor_reachable.child new_child_world first_exit_world new_child_world_reachable
    (child_step.child_ended (scenario_syscalls 1) 1000 (wait_status.exited 1) new_child_world
      first_exit_world (by decide))

/-- C8 as amended, at the state after the first exit of a new child, where
`restart_delay` is 1. -/
theorem restart_delay_range_witness :
    supervisor_reachable first_exit_world ∧
    (∀ c ∈ first_exit_world.live_children, 0 ≤ c.restart_delay ∧ c.restart_delay ≤ 3600) ∧
    (∀ sys p stat w' c', main_child_ended sys p stat first_exit_world = some w' →
      find_child w' p = some c' → 1 ≤ c'.restart_delay ∧ c'.restart_delay ≤ 3600) ∧
    (∀ w', child_step first_exit_world w' →
      (∀ c ∈ first_exit_world.live_children,
        c.main = 0 → 1 ≤ c.restart_delay ∧ c.restart_delay ≤ 3600) →
      ∀ c ∈ w'.live_children, c.main = 0 → 1 ≤ c.restart_delay ∧ c.restart_delay ≤ 3600) :=
  ⟨first_exit_world_reachable, restart_delay_range first_exit_world first_exit_world_reachable⟩

/-- The crash loop through the passes of the main loop, for the child of
`crash_loop_start` from second 1000: the child is started at the offsets 0, 1,
3, 7, 15, 31 and 63 s, and `restart_delay` after the k-th exit is
`2 ^ (k - 1)` for k = 1 .. 6. -/
theorem crash_loop_passes :
    ∃ starts, crash_loop_start.bind (fun r => crash_loop r.1 7 0 1000 r.2) = some starts ∧
      starts.map (fun s => s.1 - 1000) = [0, 1, 3, 7, 15, 31, 63] ∧
      (starts.map (fun s => s.2)).take 6 = [1, 2, 4, 8, 16, 32] := by
  exact ⟨[(1000, 1), (1001, 2), (1003, 4), (1007, 8), (1015, 16), (1031, 32), (1063, 64)],
    by decide, by decide, by decide⟩

/-- On the scenario of `crash_loop_start`, the rounds of `crash_rounds` show
the same starts and delays as the passes of the main loop in `crash_loop`. -/
theorem crash_rounds_as_main_loop :
    (crash_rounds 1000 crash_rounds_syscalls 1000 crash_world).map
        (fun obs => obs.map (fun o => (o.start, o.delay)))
      = crash_loop_start.bind (fun r => crash_loop r.1 7 0 1000 r.2) := by
  have h1 : (crash_rounds 1000 crash_rounds_syscalls 1000 crash_world).map
      (fun obs => obs.map (fun o => (o.start, o.delay)))
      = some [(1000, 1), (1001, 2), (1003, 4), (1007, 8), (1015, 16), (1031, 32),
          (1063, 64)] := by decide
  have h2 : crash_loop_start.bind (fun r => crash_loop r.1 7 0 1000 r.2)
      = some [(1000, 1), (1001, 2), (1003, 4), (1007, 8), (1015, 16), (1031, 32),
          (1063, 64)] := by decide
  rw [h1, h2]

/-- C9: a restartable record in state `NEW` with `restart_delay == 0`, as
`child_alloc` makes it, goes through up to twelve rounds of the crash loop
that begins in any second `s` (start by `main_child_goal_running`, exit at
once handled by `main_child_ended`, restart timer set by
`main_child_goal_running`), when `malloc` and `fork` succeed and the heap has
room.  After the k-th exit `restart_delay` is `2 ^ (k - 1)`, the timer of the
next start is set `2 ^ (k - 1)` seconds after the k-th start, and the k-th
start is at `s + 2 ^ (k - 1) - 1`.  With seven rounds the starts are at the
offsets 0, 1, 3, 7, 15, 31, 63 and the first six delays are 1, 2, 4, 8, 16,
32. -/
theorem crash_loop_backoff (p : Nat)
    (rounds : List (syscalls × syscalls × wait_status × syscalls)) (s : Int) (w : World)
    (c : nanny_child) (hc : find_child w p = some c) (hnew : c.state = child_state.NEW)
    (h0 : c.restart_delay = 0) (hr : c.restartable ≠ 0) (hn : rounds.length ≤ 12)
    (hsys : ∀ r ∈ rounds, r.1.timer1 ≠ 0 ∧ r.1.timer2 ≠ 0 ∧ 0 < r.1.fork ∧
      r.2.1.timer1 ≠ 0 ∧ r.2.2.2.timer1 ≠ 0)
    (hcap : w.timers.length + 4 * rounds.length < MAX_TIMERS) :
    ∃ obs, crash_rounds p rounds s w = some obs ∧ obs.length = rounds.length ∧
      (∀ k, 1 ≤ k → k ≤ rounds.length →
        ∃ o, obs[k - 1]? = some o ∧ o.delay = 2 ^ (k - 1) ∧
          o.restart = o.start + 2 ^ (k - 1) ∧ o.start = s + 2 ^ (k - 1) - 1) ∧
      (rounds.length = 7 →
        obs.map (fun o => o.start - s) = [0, 1, 3, 7, 15, 31, 63] ∧
        (obs.map (fun o => o.delay)).take 6 = [1, 2, 4, 8, 16, 32] ∧
        (obs.map (fun o => o.restart - o.start)).take 6 = [1, 2, 4, 8, 16, 32]) := by
  obtain ⟨obs, eo, hlo, ho⟩ := crash_rounds_from p rounds s w c 0 hc (Or.inl hnew) hr
    (Or.inl ⟨rfl, h0⟩) (by omega) hsys hcap
  simp only [Nat.zero_add, pow_zero] at ho
  refine ⟨obs, eo, hlo, ?_, ?_⟩
  · intro k h1 hk
    obtain ⟨k, rfl⟩ : ∃ i, k = i + 1 := ⟨k - 1, by omega⟩
    refine ⟨_, ho k (by omega), rfl, ?_, rfl⟩
    simp only [Nat.add_sub_cancel]
    ring
  · intro h7
    have hobs : obs = [⟨s + 2 ^ 0 - 1, 2 ^ 0, s + 2 ^ (0 + 1) - 1⟩,
        ⟨s + 2 ^ 1 - 1, 2 ^ 1, s + 2 ^ (1 + 1) - 1⟩,
        ⟨s + 2 ^ 2 - 1, 2 ^ 2, s + 2 ^ (2 + 1) - 1⟩,
        ⟨s + 2 ^ 3 - 1, 2 ^ 3, s + 2 ^ (3 + 1) - 1⟩,
        ⟨s + 2 ^ 4 - 1, 2 ^ 4, s + 2 ^ (4 + 1) - 1⟩,
        ⟨s + 2 ^ 5 - 1, 2 ^ 5, s + 2 ^ (5 + 1) - 1⟩,
        ⟨s + 2 ^ 6 - 1, 2 ^ 6, s + 2 ^ (6 + 1) - 1⟩] := by
      apply List.ext_getElem?
      intro n
      by_cases hn7 : n < 7
      · rw [ho n (by omega)]
        interval_cases n <;> rfl
      · rw [List.getElem?_eq_none (by omega), List.getElem?_eq_none (by simp; omega)]
    subst hobs
    refine ⟨?_, ?_, ?_⟩
    · simp only [List.map_cons, List.map_nil]
      norm_num
      omega
    · simp only [List.map_cons, List.map_nil, List.take]
      norm_num
    · simp only [List.map_cons, List.map_nil, List.take]
      norm_num
      omega

/-- C9 at the record of `crash_loop_start`, for seven rounds from second
1000. -/
theorem crash_loop_backoff_witness :
    ∃ obs, crash_rounds 1000 crash_rounds_syscalls 1000 crash_world = some obs ∧
      obs.length = crash_rounds_syscalls.length ∧
      (∀ k, 1 ≤ k → k ≤ crash_rounds_syscalls.length →
        ∃ o, obs[k - 1]? = some o ∧ o.delay = 2 ^ (k - 1) ∧
          o.restart = o.start + 2 ^ (k - 1) ∧ o.start = 1000 + 2 ^ (k - 1) - 1) ∧
      (crash_rounds_syscalls.length = 7 →
        obs.map (fun o => o.start - 1000) = [0, 1, 3, 7, 15, 31, 63] ∧
        (obs.map (fun o => o.delay)).take 6 = [1, 2, 4, 8, 16, 32] ∧
        (obs.map (fun o => o.restart - o.start)).take 6 = [1, 2, 4, 8, 16, 32]) :=
  crash_loop_backoff 1000 crash_rounds_syscalls 1000 crash_world
    ((find_child crash_world 1000).get (by decide)) (by decide) (by decide) (by decide)
    (by decide) (by decide) (by decide) (by decide)

/-- C10 fails on the code: in the crash loop that starts from
`nanny_child_new`, the `restart_delay` after the twelfth exit in a row is
2048, not 3600; it is 3600 after the thirteenth. -/
theorem twelve_exits_restart_delay_2048 :
    (crash_loop_start.bind (fun r => crash_loop r.1 13 0 1000 r.2)).map
      (fun starts => starts.map (fun s => s.2))
      = some [1, 2, 4, 8, 16, 32, 64, 128, 256, 512, 1024, 2048, 3600] ∧
    (2048 : Int) ≠ 3600 := by
  decide

/-- C10 as amended: for a record with `restart_delay == 0`, as `child_alloc`
makes it, `k >= 1` consecutive calls of `main_child_ended` with no promotion
in between return and leave `restart_delay == min (2 ^ (k - 1)) 3600`: 2048
after 12 calls and the clamp 3600 from the 13th call on. -/
theorem consecutive_exits_restart_delay (p : Nat) (calls : List (syscalls × wait_status))
    (w : World) (c : nanny_child) (hc : find_child w p = some c)
    (h0 : c.restart_delay = 0) (hk : 1 ≤ calls.length)
    (hsys : ∀ e ∈ calls, e.1.timer1 ≠ 0)
    (hcap : w.timers.length + calls.length < MAX_TIMERS) :
    ∃ w' c', main_child_ended_calls p calls w = some w' ∧ find_child w' p = some c' ∧
      c'.restart_delay = min (2 ^ (calls.length - 1)) 3600 ∧
      (calls.length = 12 → c'.restart_delay = 2048) ∧
      (13 ≤ calls.length → c'.restart_delay = 3600) := by
  cases calls with
  | nil => simp at hk
  | cons a rest =>
    obtain ⟨sys, stat⟩ := a
    simp only [List.length_cons] at hcap
    obtain ⟨w1, c1, e1, hc1, hd1, hl1⟩ := main_child_ended_some sys p stat w c hc
      (hsys _ (List.mem_cons_self _ _)) (by omega)
    have hd2 : c1.restart_delay = min (2 ^ 0) 3600 := by
      rw [hd1, h0]; decide
    obtain ⟨w', c', e', hc', hd'⟩ := main_child_ended_calls_from p rest w1 c1 0 hc1 hd2
      (fun e he => hsys e (List.mem_cons_of_mem _ he)) (by omega)
    have hd3 : c'.restart_delay = min (2 ^ (((sys, stat) :: rest).length - 1)) 3600 := by
      rw [hd']
      simp
    refine ⟨w', c', ?_, hc', ?_, ?_, ?_⟩
    · simp only [main_child_ended_calls, e1, e']
    · simpa using hd3
    · intro hlen
      rw [hd', Nat.zero_add]
      simp only [List.length_cons] at hlen
      have : rest.length = 11 := by omega
      rw [this]
      decide
    · intro hlen
      rw [hd', Nat.zero_add]
      simp only [List.length_cons] at hlen
      have h12 : 12 ≤ rest.length := by omega
      have : (2 : Int) ^ 12 ≤ 2 ^ rest.length := pow_le_pow_right₀ (by norm_num) h12
      have h4096 : (2 : Int) ^ 12 = 4096 := by norm_num
      rw [min_eq_right (by omega)]

/-- C10 as amended, at thirteen exits of the child `nanny_child_new` leaves. -/
theorem consecutive_exits_restart_delay_witness :
    (∃ c, find_child new_child_world 1000 = some c ∧ c.restart_delay = 0) ∧
    1 ≤ ((List.range 13).map
      (fun n => (scenario_syscalls (n + 1), wait_status.exited 1))).length ∧
    (∀ e ∈ (List.range 13).map (fun n => (scenario_syscalls (n + 1), wait_status.exited 1)),
      e.1.timer1 ≠ 0) ∧
    new_child_world.timers.length
      + ((List.range 13).map
          (fun n => (scenario_syscalls (n + 1), wait_status.exited 1))).length < MAX_TIMERS ∧
    ∃ w' c', main_child_ended_calls 1000
        ((List.range 13).map (fun n => (scenario_syscalls (n + 1), wait_status.exited 1)))
        new_child_world = some w' ∧
      find_child w' 1000 = some c' ∧
      c'.restart_delay = min (2 ^ (((List.range 13).map
        (fun n => (scenario_syscalls (n + 1), wait_status.exited 1))).length - 1)) 3600 ∧
      (((List.range 13).map
        (fun n => (scenario_syscalls (n + 1), wait_status.exited 1))).length = 12 →
        c'.restart_delay = 2048) ∧
      (13 ≤ ((List.range 13).map
        (fun n => (scenario_syscalls (n + 1), wait_status.exited 1))).length →
        c'.restart_delay = 3600) :=
  ⟨⟨(find_child new_child_world 1000).get (by decide), by decide, by decide⟩, by decide,
   by decide, by decide,
   consecutive_exits_restart_delay 1000
     ((List.range 13).map (fun n => (scenario_syscalls (n + 1), wait_status.exited 1)))
     new_child_world ((find_child new_child_world 1000).get (by decide)) (by decide)
     (by decide) (by decide) (by decide) (by decide)⟩

/-- C12: in a reachable state, when `main_child_goal_stopped` returns and has
not armed a state timer (the field `state_timer` of the record is null, or
the timer heap is as before), the record is in state `STOPPED` and has
`pid == 0`. -/
theorem goal_stopped_without_timer (w : World) (hr : supervisor_reachable w) (sys : syscalls)
    (p : Nat) (now : Int) (w' : World) (c' : nanny_child)
    (h : main_child_goal_stopped sys p now w = some w') (hc' : find_child w' p = some c')
    (hno : c'.state_timer = 0 ∨ w'.timers = w.timers) :
    c'.state = child_state.STOPPED ∧ c'.pid = 0 := by
  have hw := reachable_stopped_pid w hr
  unfold main_child_goal_stopped at h
  split at h
  · cases h
  · rename_i child hfind
    have hc := hw child (find_child_mem _ _ _ hfind)
    have haddr := find_child_addr _ _ _ hfind
    simp only at h
    repeat' split at h
    all_goals cases h
    all_goals
      obtain rfl : c' = _ := find_child_store_eq w _ p child _ c' hfind hc'
        (by first
          | rfl
          | (rw [children_timer_add _ _ _ _ _ _ ‹_›]
             first
               | rfl
               | exact children_run _ _ _ _ _ _ ‹_›))
        haddr
    all_goals first
      | exact ⟨rfl, rfl⟩
      | exact ⟨rfl, by simp only [stopped_pid] at hc; tauto⟩
      | (exfalso
         obtain ⟨hl, hne⟩ := timer_add_length _ _ _ _ _ _ ‹_›
         rcases hno with hno | hno
         · exact hne hno
         · have e := congrArg List.length hno
           simp only [timers_store_child, timers_emit] at e hl
           first
             | omega
             | (have hr2 := timers_run _ _ _ _ _ _ ‹run _ _ _ _ = some _›
                rw [hr2] at hl
                omega))

theorem new_child_started_reachable : supervisor_reachable new_child_started :=
  supervisor_reachable.child new_child_world new_child_started new_child_world_reachable
    (child_step.goal_running (scenario_syscalls 1) 1000 1000 new_child_world new_child_started
      (by decide))

/-- C12 at the child started with pid 501 whose process is gone at second
2000: `main_child_goal_stopped` returns without a timer and leaves `STOPPED`
and `pid == 0`. -/
theorem goal_stopped_without_timer_witness :
    supervisor_reachable new_child_started ∧
    main_child_goal_stopped (scenario_syscalls 2) 1000 2000 new_child_started
      = some stale_stop ∧
    ((find_child stale_stop 1000).get (by decide)).state_timer = 0 ∧
    ((find_child stale_stop 1000).get (by decide)).state = child_state.STOPPED ∧
    ((find_child stale_stop 1000).get (by decide)).pid = 0 :=
  ⟨new_child_started_reachable, by decide, by decide,
    goal_stopped_without_timer new_child_started new_child_started_reachable
      (scenario_syscalls 2) 1000 2000 stale_stop ((find_child stale_stop 1000).get (by decide))
      (by decide) (by simp) (Or.inl (by decide))⟩

/-- C11 fails on the code: `nanny -s "/bin/sleep 100000"` starts its child with
pid 511 (`pid == 511`, `running == 1`); at the shutdown the process is gone
and `main_child_goal_stopped` sets `state = STOPPED` and `pid = 0`, and the
record stays at `pid == 0` with `running == 1`, while `main_child_ended`
clears both fields (`exit_reported`).  The branch that gives up after
`STOPPING3` leaves the same. -/
theorem stopped_record_keeps_running :
    (started none none).map (fun w => w.live_children.map (fun c => (c.pid, c.running)))
      = some [(511, 1)] ∧
    vanished_shutdown.map
        (fun r => (r.1.live_children.map (fun c => (c.pid, c.running, c.state)),
          r.2.map (fun x => x.1)))
      = some ([(0, 1, child_state.STOPPED)], [1, 0]) ∧
    (stubborn_shutdown none none [2000, 2300, 2315, 2316]).map
        (fun r => r.1.live_children.map (fun c => (c.pid, c.running, c.state)))
      = some [(0, 1, child_state.STOPPED)] ∧
    exit_reported.map (fun w => w.live_children.map (fun c => (c.pid, c.running, c.state)))
      = some [(0, 0, child_state.STOPPED)] := by
  refine ⟨by decide, by decide, by decide, by decide⟩

/-- C13 fails on the code for the child of
`nanny -s "/bin/sleep 100000" -S /bin/true`: its record has a null `envp`
(`nanny_child_new` leaves it so and `main` never sets it), and the first call
of `main_child_goal_stopped` for the running child reads `child->envp[0]`, so
the pass of the shutdown loop at second 2000 does not return.  With an
environment set, and without a stop command, the passes show the steps of the
claim: the stop command at t, `SIGTERM` at t + 300, `SIGKILL` at t + 315,
`UNSTOPPABLE` at t + 330; and `SIGTERM` at t, `SIGKILL` at t + 300,
`UNSTOPPABLE` at t + 315. -/
theorem stop_command_null_envp :
    (started (some "/bin/true") none).map
        (fun w => w.live_children.map (fun c => (c.pid, c.stop_cmd, c.envp.isNone)))
      = some [(511, some "/bin/true", true)] ∧
    ((started (some "/bin/true") none).bind
        (nanny_stop_all_children (fun i => scenario_syscalls (28 + i)))).isSome = true ∧
    (started (some "/bin/true") none).bind
        (main_child_goal_stopped (alive_syscalls 21) 1000 2000) = none ∧
    stubborn_shutdown (some "/bin/true") none [2000] = none ∧
    (stubborn_shutdown (some "/bin/true") (some [])
        [2000, 2001, 2299, 2300, 2314, 2315, 2329, 2330, 2331]).map
        (fun r => r.2.map (fun x => (x.2.1, outward x.2.2)))
      = some [(2000, [event.run (some "/bin/true") 521]), (2001, []), (2299, []),
          (2300, [event.kill 511 SIGTERM]), (2314, []), (2315, [event.kill 511 SIGKILL]),
          (2329, []),
          (2330, [event.udp_announce "UNSTOPPABLE" 511, event.kill 511 SIGKILL]),
          (2331, [])] ∧
    (stubborn_shutdown none none [2000, 2001, 2299, 2300, 2314, 2315, 2316]).map
        (fun r => r.2.map (fun x => (x.2.1, outward x.2.2)))
      = some [(2000, [event.kill 511 SIGTERM]), (2001, []), (2299, []),
          (2300, [event.kill 511 SIGKILL]), (2314, []),
          (2315, [event.udp_announce "UNSTOPPABLE" 511, event.kill 511 SIGKILL]),
          (2316, [])] := by
  refine ⟨by decide, by decide, by decide, by decide, by decide, by decide⟩

/-- C14 fails on the code: for the child of `nanny -s "/bin/sleep 100000"`
that exits with status 1, `main_child_ended` leaves a timer for
`main_child_goal_running` in the heap and a null `state_timer`; so does
`main_child_goal_running` for the restart at second 1002; and a call of
`nanny_stop_all_children` then adds the timer for `main_child_goal_stopped`
without removing that one: two timers of goal handlers are pending for the
record, of which `state_timer` is one. -/
theorem state_timer_not_recorded :
    exit_reported.map
        (fun w => (w.live_children.map (fun c => c.state_timer), pending_state_timers w 1000))
      = some ([0], [⟨251, 0, 1000, handler.main_child_goal_running⟩]) ∧
    restart_scheduled.map
        (fun w => (w.live_children.map (fun c => c.state_timer), pending_state_timers w 1000))
      = some ([0], [⟨211, 1002, 1000, handler.main_child_goal_running⟩]) ∧
    restart_then_stop.map
        (fun w => (w.live_children.map (fun c => c.state_timer), pending_state_timers w 1000))
      = some ([301], [⟨301, 0, 1000, handler.main_child_goal_stopped⟩,
          ⟨211, 1002, 1000, handler.main_child_goal_running⟩]) := by
  refine ⟨by decide, by decide, by decide⟩

/-- C15 fails on the code: in `nanny -s "/bin/sleep 100000" -h false`, after
two failed probes the consecutive counters are 0 successes and 2 failures,
and after a third probe that passes they are 1 and 0: the sum goes from 2 to
1, not to 3. -/
theorem passing_probe_resets_failures :
    child_view (health_scenario "false" [1, 1] [])
      = some (child_state.STARTING, handler.main_child_goal_running, 0, 2, 0, 0) ∧
    child_view (health_scenario "false" [1, 1, 0] [])
      = some (child_state.STARTING, handler.main_child_goal_running, 1, 0, 0, 0) ∧
    (1 : Int) + 0 ≠ (0 + 2) + 1 := by
  refine ⟨by decide, by decide, by decide⟩

/-- C15 as amended: a probe handled by `health_check_ended` adds 1 to the
consecutive counter of its outcome and sets the other consecutive counter to
0, so that the sum grows by exactly 1 exactly when the other counter was 0;
the branch of `main_child_health_check` for a child without a health command
adds 1 to `health_successes_consecutive` and leaves
`health_failures_consecutive`.  In both, the sum of the two total counters
grows by exactly 1. -/
theorem consecutive_counters_after_probe (sys : syscalls) (p : Nat) (stat : wait_status)
    (w : World) (check child : nanny_child) (hcheck : find_child w p = some check)
    (hmain : find_child w check.main = some child) (hne : check.main ≠ p)
    (ht : sys.timer1 ≠ 0) (hlen : w.timers.length + 1 < MAX_TIMERS)
    (sys2 : syscalls) (p2 : Nat) (now : Int) (w2 : World) (child2 : nanny_child)
    (hc2 : find_child w2 p2 = some child2) (hcmd : child2.health_cmd = none)
    (ht2 : sys2.timer1 ≠ 0) (hlen2 : w2.timers.length + 1 < MAX_TIMERS) :
    (∃ w' c', health_check_ended sys p stat w = some w' ∧ find_child w' check.main = some c' ∧
      (stat = wait_status.exited 0 →
        c'.health_successes_consecutive = child.health_successes_consecutive + 1 ∧
        c'.health_failures_consecutive = 0) ∧
      (stat ≠ wait_status.exited 0 →
        c'.health_failures_consecutive = child.health_failures_consecutive + 1 ∧
        c'.health_successes_consecutive = 0) ∧
      (c'.health_successes_consecutive + c'.health_failures_consecutive
          = child.health_successes_consecutive + child.health_failures_consecutive + 1
        ↔ (if stat = wait_status.exited 0 then child.health_failures_consecutive
            else child.health_successes_consecutive) = 0) ∧
      c'.health_successes_total + c'.health_failures_total
        = child.health_successes_total + child.health_failures_total + 1) ∧
    (∃ w' c', main_child_health_check sys2 p2 now w2 = some w' ∧
      find_child w' p2 = some c' ∧
      c'.health_successes_consecutive = child2.health_successes_consecutive + 1 ∧
      c'.health_failures_consecutive = child2.health_failures_consecutive ∧
      c'.health_successes_total + c'.health_failures_total
        = child2.health_successes_total + child2.health_failures_total + 1) := by
  constructor
  · obtain ⟨w', h, hpass, hrestart, hfail⟩ :=
      health_check_ended_spec sys p stat w check child hcheck hmain hne ht hlen
    by_cases hs : stat = wait_status.exited 0
    · refine ⟨w', _, h, (hpass hs).1, fun _ => ⟨rfl, rfl⟩, fun hn => absurd hs hn, ?_, ?_⟩
      · simp only [hs, if_true]
        constructor <;> intro e <;> omega
      · simp only
        omega
    · by_cases h4 : child.health_failures_consecutive + 1 > 4
      · refine ⟨w', _, h, (hrestart hs h4).1, fun hn => absurd hn hs, fun _ => ⟨rfl, rfl⟩,
          ?_, ?_⟩
        · simp only [hs, if_false]
          constructor <;> intro e <;> omega
        · simp only
          omega
      · refine ⟨w', _, h, (hfail hs h4).1, fun hn => absurd hn hs, fun _ => ⟨rfl, rfl⟩, ?_, ?_⟩
        · simp only [hs, if_false]
          constructor <;> intro e <;> omega
        · simp only
          omega
  · obtain ⟨w', h, hc'⟩ :=
      main_child_health_check_no_command sys2 p2 now w2 child2 hc2 hcmd ht2 hlen2
    refine ⟨w', _, h, hc', rfl, rfl, ?_⟩
    simp only
    omega

/-- C15 as amended, at the failing probe of `probe_world`, whose check record
at address 1021 belongs to the child at address 1000 with the counters 0 and
0, and at the health timer of `new_child_started`, a child without a health
command. -/
theorem consecutive_counters_after_probe_witness :
    find_child probe_world 1021 = some ((find_child probe_world 1021).get (by decide)) ∧
    ((find_child probe_world 1021).get (by decide)).main = 1000 ∧
    ((find_child new_child_started 1000).get (by decide)).health_cmd = none ∧
    (∃ w' c', health_check_ended (scenario_syscalls 25) 1021 (wait_status.exited 1) probe_world
        = some w' ∧
      find_child w' 1000 = some c' ∧
      (wait_status.exited 1 ≠ wait_status.exited 0 →
        c'.health_failures_consecutive
          = ((find_child probe_world 1000).get (by decide)).health_failures_consecutive + 1 ∧
        c'.health_successes_consecutive = 0)) ∧
    (∃ w' c', main_child_health_check (scenario_syscalls 2) 1000 1060 new_child_started
        = some w' ∧
      find_child w' 1000 = some c' ∧
      c'.health_successes_consecutive
        = ((find_child new_child_started 1000).get (by decide)).health_successes_consecutive
          + 1 ∧
      c'.health_failures_consecutive
        = ((find_child new_child_started 1000).get (by decide)).health_failures_consecutive) :=
  ⟨by simp, by decide, by decide,
    (consecutive_counters_after_probe (scenario_syscalls 25) 1021 (wait_status.exited 1)
      probe_world ((find_child probe_world 1021).get (by decide))
      ((find_child probe_world 1000).get (by decide)) (by simp) (by decide) (by decide)
      (by decide) (by decide) (scenario_syscalls 2) 1000 1060 new_child_started
      ((find_child new_child_started 1000).get (by decide)) (by simp) (by decide) (by decide)
      (by decide)).1.imp
      (fun _ h => h.imp (fun _ h2 => ⟨h2.1, h2.2.1, h2.2.2.2.1⟩)),
    (consecutive_counters_after_probe (scenario_syscalls 25) 1021 (wait_status.exited 1)
      probe_world ((find_child probe_world 1021).get (by decide))
      ((find_child probe_world 1000).get (by decide)) (by simp) (by decide) (by decide)
      (by decide) (by decide) (scenario_syscalls 2) 1000 1060 new_child_started
      ((find_child new_child_started 1000).get (by decide)) (by simp) (by decide) (by decide)
      (by decide)).2.imp
      (fun _ h => h.imp (fun _ h2 => ⟨h2.1, h2.2.1, h2.2.2.1, h2.2.2.2.1⟩))⟩

/-- C16: when the check record and the record it supervises exist, `malloc`
succeeds and the heap has room, `health_check_ended` returns, and
`health_failures_consecutive` is 0 after a probe with exit status 0 and one
more than before after any other probe.  After a failed probe that takes it
above 4 the state handler is `main_child_goal_restart` and a timer for it
with `when == 0`, kept in `state_timer`, is the one timer added; otherwise
the state handler and `state_timer` are as before and no timer is added.
From `health_failures_consecutive == 0` (the probes of
`nanny -s "/bin/sleep 100000" -h false`) the handler is unchanged after the
first four failed probes and installed by the fifth. -/
theorem health_check_ended_installs_restart (sys : syscalls) (p : Nat) (stat : wait_status)
    (w : World) (check child : nanny_child) (hcheck : find_child w p = some check)
    (hmain : find_child w check.main = some child) (hne : check.main ≠ p)
    (ht : sys.timer1 ≠ 0) (hlen : w.timers.length + 1 < MAX_TIMERS) :
    (∃ w' c', health_check_ended sys p stat w = some w' ∧ find_child w' check.main = some c' ∧
      c'.health_failures_consecutive
        = (if stat = wait_status.exited 0 then 0 else child.health_failures_consecutive + 1) ∧
      (stat ≠ wait_status.exited 0 ∧ c'.health_failures_consecutive > 4 →
        c'.state_handler = handler.main_child_goal_restart ∧ c'.state_timer = sys.timer1 ∧
        w'.trace = w.trace ++
          [event.timer_add sys.timer1 0 handler.main_child_goal_restart check.main] ∧
        (⟨sys.timer1, 0, check.main, handler.main_child_goal_restart⟩ : timer) ∈ w'.timers) ∧
      (¬ (stat ≠ wait_status.exited 0 ∧ c'.health_failures_consecutive > 4) →
        c'.state_handler = child.state_handler ∧ c'.state_timer = child.state_timer ∧
        w'.trace = w.trace)) ∧
    [[1], [1, 1], [1, 1, 1], [1, 1, 1, 1], [1, 1, 1, 1, 1]].map
        (fun s => (child_view (health_scenario "false" s [])).map (fun v => (v.2.1, v.2.2.2.1)))
      = [some (handler.main_child_goal_running, 1), some (handler.main_child_goal_running, 2),
          some (handler.main_child_goal_running, 3), some (handler.main_child_goal_running, 4),
          some (handler.main_child_goal_restart, 5)] := by
  refine ⟨?_, by decide⟩
  obtain ⟨w', h, hpass, hrestart, hfail⟩ :=
    health_check_ended_spec sys p stat w check child hcheck hmain hne ht hlen
  by_cases hs : stat = wait_status.exited 0
  · refine ⟨w', _, h, (hpass hs).1, by simp only [hs, if_true], fun hn => absurd hs hn.1,
      fun _ => ⟨rfl, rfl, (hpass hs).2⟩⟩
  · by_cases h4 : child.health_failures_consecutive + 1 > 4
    · refine ⟨w', _, h, (hrestart hs h4).1, by simp only [hs, if_false],
        fun _ => ⟨rfl, rfl, (hrestart hs h4).2⟩, fun hn => absurd ⟨hs, h4⟩ hn⟩
    · refine ⟨w', _, h, (hfail hs h4).1, by simp only [hs, if_false],
        fun hn => absurd hn.2 h4, fun _ => ⟨rfl, rfl, (hfail hs h4).2⟩⟩

/-- C16 at the first failing probe of `probe_world`. -/
theorem health_check_ended_installs_restart_witness :
    find_child probe_world 1021 = some ((find_child probe_world 1021).get (by decide)) ∧
    ((find_child probe_world 1021).get (by decide)).main = 1000 ∧
    ∃ w' c', health_check_ended (scenario_syscalls 25) 1021 (wait_status.exited 1) probe_world
        = some w' ∧
      find_child w' 1000 = some c' ∧
      c'.health_failures_consecutive
        = (if wait_status.exited 1 = wait_status.exited 0 then 0
            else ((find_child probe_world 1000).get (by decide)).health_failures_consecutive
              + 1) :=
  ⟨by simp, by decide,
    (health_check_ended_installs_restart (scenario_syscalls 25) 1021 (wait_status.exited 1)
      probe_world ((find_child probe_world 1021).get (by decide))
      ((find_child probe_world 1000).get (by decide)) (by simp) (by decide) (by decide)
      (by decide) (by decide)).1.imp
      (fun _ h => h.imp (fun _ h2 => ⟨h2.1, h2.2.1, h2.2.2.1⟩))⟩

/-- C17 fails on the code: in `nanny -s "/bin/sleep 100000" -h true`, the
child being started at second 1000 and the probes launched at seconds 1060,
1120, 1180, 1240 and 1300 all exiting with status 0 one second later, the
re-check of the pass at second 1300 finds four successes and leaves the state
`STARTING`, and so is the record still at second 1359, with
`restart_delay == 0`. -/
theorem probation_not_over_at_300 :
    child_view (health_scenario "true" [0, 0, 0, 0] [pass_at 10 1300 []])
      = some (child_state.STARTING, handler.main_child_goal_running, 4, 0, 0, 0) ∧
    child_view (health_scenario "true" [0, 0, 0, 0, 0] [pass_at 12 1359 []])
      = some (child_state.STARTING, handler.main_child_goal_running, 5, 0, 0, 0) := by
  refine ⟨by decide, by decide⟩

/-- C17 as amended: in that scenario the re-check of second 1300 sets the
state timer for second 1360, and the pass at second 1360 finds five successes:
the child is in state `RUNNING` with `failures == 0` and `restart_delay == 1`
from then on (the pass at second 1400 included). -/
theorem probation_over_at_360 :
    (health_scenario "true" [0, 0, 0, 0] [pass_at 10 1300 []]).map
        (fun r => (pending_state_timers r.1 1000).map (fun t => t.when)) = some [1360] ∧
    child_view (health_scenario "true" [0, 0, 0, 0, 0] [pass_at 12 1360 []])
      = some (child_state.RUNNING, handler.main_child_goal_running, 5, 0, 0, 1) ∧
    child_view (health_scenario "true" [0, 0, 0, 0, 0] [pass_at 12 1360 [], pass_at 13 1400 []])
      = some (child_state.RUNNING, handler.main_child_goal_running, 5, 0, 0, 1) := by
  refine ⟨by decide, by decide, by decide⟩

/-- C18: for a spec `n1 u1 ... nk uk`, one or more blanks and a command that
is not empty, whose seconds fit into `time_t`, `parse_interval` returns the
sum of `ni * mult(ui)` and leaves the cursor on the first character of the
command; the record `nanny_child_add_periodic` builds has that interval and
that command; and when the sum is at least 1, `malloc` succeeds and the heap
has room, `nanny_child_add_periodic` returns 0 with that record at the head
of the list of the child.  The spec `8h bin/reset $PID` gives 28800 and
`bin/reset $PID`. -/
theorem periodic_spec_parsed (terms : List (List Char × Char)) (ws cmd : List Char)
    (hne : terms ≠ []) (hv : ∀ t ∈ terms, digits t.1 ∧ unit_char t.2) (hws : ws ≠ [])
    (hb : ∀ c ∈ ws, blank c) (hcne : cmd ≠ [])
    (hcmd : ∀ c, cmd.head? = some c → ¬ blank c) (hfit : spec_seconds terms < 2 ^ 63) :
    parse_interval (spec_text terms ++ (ws ++ cmd)) = some (spec_seconds terms, cmd) ∧
    (∀ (sys : periodic_calls) (child : nanny_child), sys.t ≠ 0 → sys.strdup_ok = true →
      (child.envp ≠ none → sys.calloc_ok = true) →
      ∃ t, periodic_task sys child (String.mk (spec_text terms ++ (ws ++ cmd))) = some (some t) ∧
        t.interval = spec_seconds terms ∧ t.cmd = String.mk cmd) ∧
    (∀ (sys : periodic_calls) (p : Nat) (w : World) (child : nanny_child),
      find_child w p = some child → sys.t ≠ 0 → sys.strdup_ok = true →
      (child.envp ≠ none → sys.calloc_ok = true) → sys.timer ≠ 0 →
      w.timers.length + 1 < MAX_TIMERS → 1 ≤ spec_seconds terms →
      ∃ w' t, nanny_child_add_periodic sys p (String.mk (spec_text terms ++ (ws ++ cmd))) w
          = some (0, w') ∧
        find_child w' p = some { child with timed := t :: child.timed } ∧
        t.interval = spec_seconds terms ∧ t.cmd = String.mk cmd ∧ t.timer = sys.timer) ∧
    parse_interval "8h bin/reset $PID".data = some (28800, "bin/reset $PID".data) := by
  have hp : parse_interval (spec_text terms ++ (ws ++ cmd)) = some (spec_seconds terms, cmd) := by
    rw [parse_interval_terms terms ws cmd hne hv hws hb hcmd,
      terms_interval_value terms 0 hv (le_refl _) (by omega), Int.zero_add]
  have h0 := spec_seconds_nonneg terms hv
  have htask : ∀ (sys : periodic_calls) (child : nanny_child), sys.t ≠ 0 →
      sys.strdup_ok = true → (child.envp ≠ none → sys.calloc_ok = true) →
      ∃ t, periodic_task sys child (String.mk (spec_text terms ++ (ws ++ cmd))) = some (some t) ∧
        t.interval = spec_seconds terms ∧ t.cmd = String.mk cmd ∧ t.addr = sys.t := by
    intro sys child ht hs hcal
    unfold periodic_task
    rw [if_neg ht]
    simp only [hp, if_neg (not_lt.mpr h0), if_neg hcne, hs]
    cases he : child.envp with
    | none => exact ⟨_, rfl, rfl, rfl, rfl⟩
    | some e =>
      have := hcal (by rw [he]; exact Option.some_ne_none _)
      simp only [this]
      exact ⟨_, rfl, rfl, rfl, rfl⟩
  refine ⟨hp, ?_, ?_, by decide⟩
  · intro sys child ht hs hcal
    obtain ⟨t, e, h1, h2, _⟩ := htask sys child ht hs hcal
    exact ⟨t, e, h1, h2⟩
  · intro sys p w child hc ht hs hcal htim hlen h1
    obtain ⟨t, e, hi, hcm, ha⟩ := htask sys child ht hs hcal
    obtain ⟨w1, e1, _, hc1, _⟩ := timer_add_some w sys.timer
      (sys.time + Int.tmod sys.random t.interval) handler.timed_event t.addr htim hlen
    have haddr := find_child_addr _ _ _ hc
    unfold nanny_child_add_periodic
    rw [hc]
    simp only [e]
    rw [if_neg (by rw [hi]; omega)]
    simp only [e1]
    exact ⟨_, _, rfl, find_child_store _ _ _ child _ hc hc1 haddr, hi, hcm, rfl⟩

/-- C18 at the spec `8h bin/reset $PID`. -/
theorem periodic_spec_parsed_witness :
    spec_seconds [(['8'], 'h')] = 28800 ∧
    parse_interval (spec_text [(['8'], 'h')] ++ ([' '] ++ "bin/reset $PID".data))
      = some (spec_seconds [(['8'], 'h')], "bin/reset $PID".data) :=
  ⟨by decide,
    (periodic_spec_parsed [(['8'], 'h')] [' '] "bin/reset $PID".data (by decide)
      (by unfold digits unit_char; decide) (by decide) (by unfold blank; decide) (by decide)
      (by unfold blank; decide) (by decide)).1⟩

/-- C19: for a spec of one of the four kinds that are not a periodic task
(no digit at the start, a number without a unit `d`, `h`, `m` or `s`, no
blank after the last unit, nothing after the blanks), given to an existing
child, `nanny_child_add_periodic` returns 1 and leaves the state, with the
list of the child and the timer heap, as it was. -/
theorem invalid_spec_rejected (sys : periodic_calls) (p : Nat) (task : String) (w : World)
    (child : nanny_child) (hc : find_child w p = some child) (ht : sys.t ≠ 0)
    (h : invalid_spec task.data) :
    nanny_child_add_periodic sys p task w = some (1, w) := by
  obtain ⟨r, hr, hbad⟩ := parse_interval_invalid task.data h
  unfold nanny_child_add_periodic
  rw [hc]
  have e : periodic_task sys child task = some none := by
    unfold periodic_task
    rw [if_neg ht]
    simp only [hr]
    rcases hbad with h1 | h1
    · rw [if_pos h1]
    · by_cases h2 : r.1 < 0
      · rw [if_pos h2]
      · rw [if_neg h2, if_pos h1]
  simp only [e]

theorem invalid_spec_number_without_unit : invalid_spec "8x cmd".data :=
  Or.inr (Or.inl ⟨[], ['8'], "x cmd".data, by simp, by unfold digits; decide, by
    intro c hc
    have e : c = 'x' := by
      have h2 : "x cmd".data.head? = some 'x' := by decide
      rw [h2] at hc
      exact (Option.some.inj hc).symm
    subst e
    unfold unit_char
    decide, by decide⟩)

set_option maxRecDepth 8000 in
/-- C19 at the spec `8x cmd` for the child of `new_child_world`, and the
value returned for one spec of each of the four kinds. -/
theorem invalid_spec_rejected_witness :
    invalid_spec "8x cmd".data ∧
    nanny_child_add_periodic ⟨7, true, true, 0, 5, 1000, 9⟩ 1000 "8x cmd" new_child_world
      = some (1, new_child_world) ∧
    ["bin/reset", "8x cmd", "8h", "8hcmd", "8h  "].map
        (fun task => nanny_child_add_periodic ⟨7, true, true, 0, 5, 1000, 9⟩ 1000 task
          new_child_world)
      = List.replicate 5 (some (1, new_child_world)) :=
  ⟨invalid_spec_number_without_unit,
    invalid_spec_rejected ⟨7, true, true, 0, 5, 1000, 9⟩ 1000 "8x cmd" new_child_world
      ((find_child new_child_world 1000).get (by decide)) (by simp) (by decide)
      invalid_spec_number_without_unit,
    by decide⟩

/-- C20: for a log buffer whose ring has at least one byte and whose write
position lies inside the ring, and a message of `N < 8192` bytes none of
which is NUL, `nanny_log_printf` returns (its rotation not leaving by `exit`:
`strdup` succeeds and the base name has fewer than 990 characters) and
`total_bytes`, a counter modulo `2 ^ 64`, has grown by exactly `N`, whether
the message fits before the end of the ring or wraps around; the ring keeps
its size and the write position stays inside. -/
theorem printf_counts_bytes (sys : log_calls) (now : Int) (msg : List Nat) (nlog : nanny_log)
    (hring : 1 ≤ nlog.buff_size) (hp : nlog.buffp < nlog.buff_size)
    (hN : msg.length < 8192) (hnul : ∀ b ∈ msg, b ≠ 0) (hdup : sys.strdup_ok = true)
    (hbase : ∀ b, nlog.filename_base = some b → b.length < 990)
    (htot : nlog.total_bytes < 2 ^ 64) :
    ∃ r, nanny_log_printf sys now msg nlog = some r ∧
      r.total_bytes = (nlog.total_bytes + msg.length) % 2 ^ 64 ∧
      (nlog.total_bytes + msg.length < 2 ^ 64 →
        r.total_bytes = nlog.total_bytes + msg.length) ∧
      1 ≤ r.buff_size ∧ r.buff_size = nlog.buff_size ∧ r.buffp < r.buff_size := by
  obtain ⟨l1, e1⟩ := nanny_log_rotate_some sys now nlog hdup hbase
  obtain ⟨t1, s1, p1, _⟩ := nanny_log_rotate_frame sys now nlog l1 e1
  have hmsg : (msg.take 8191).takeWhile (fun b => b ≠ 0) = msg := by
    rw [List.take_of_length_le (by omega)]
    exact List.takeWhile_eq_self_iff.mpr (fun b hb => by simpa using hnul b hb)
  have hw : ∀ l : nanny_log, (if l.file_fd ≥ 0 then log_write l msg else l).total_bytes
        = l.total_bytes ∧
      (if l.file_fd ≥ 0 then log_write l msg else l).buff_size = l.buff_size ∧
      (if l.file_fd ≥ 0 then log_write l msg else l).buffp = l.buffp := by
    intro l
    split <;> exact ⟨rfl, rfl, rfl⟩
  obtain ⟨t2, s2, p2⟩ := hw l1
  obtain ⟨r, hr, ht, hs, hpr⟩ := log_copy_spec msg.length msg
    (if l1.file_fd ≥ 0 then log_write l1 msg else l1) (le_refl _)
    (by rw [p2, s2, p1, s1]; exact hp) (by rw [t2, t1]; exact htot)
  have hu : ∀ l : nanny_log, (nanny_log_update_statistics now l).total_bytes = l.total_bytes ∧
      (nanny_log_update_statistics now l).buff_size = l.buff_size ∧
      (nanny_log_update_statistics now l).buffp = l.buffp := by
    intro l
    unfold nanny_log_update_statistics
    split <;> exact ⟨rfl, rfl, rfl⟩
  obtain ⟨t3, s3, p3⟩ := hu r
  have htotal : (nanny_log_update_statistics now r).total_bytes
      = (nlog.total_bytes + msg.length) % 2 ^ 64 := by
    rw [t3, ht, t2, t1]
  have hsize : (nanny_log_update_statistics now r).buff_size = nlog.buff_size := by
    rw [s3, hs, s2, s1]
  refine ⟨nanny_log_update_statistics now r, ?_, htotal, ?_, ?_, hsize, ?_⟩
  · unfold nanny_log_printf
    simp only [hmsg, e1, hr]
  · intro hlt
    rw [htotal, Nat.mod_eq_of_lt hlt]
  · rw [hsize]; exact hring
  · rw [p3, s3]; exact hpr

/-- C20 at a message of 6 bytes written to a ring of 4 bytes, which wraps
around. -/
theorem printf_counts_bytes_witness :
    small_log.buff_size = 4 ∧
    ∃ r, nanny_log_printf ⟨-1, -1, 0, true⟩ 100 [1, 2, 3, 4, 5, 6] small_log = some r ∧
      r.total_bytes = (small_log.total_bytes + [1, 2, 3, 4, 5, 6].length) % 2 ^ 64 ∧
      (small_log.total_bytes + [1, 2, 3, 4, 5, 6].length < 2 ^ 64 →
        r.total_bytes = small_log.total_bytes + [1, 2, 3, 4, 5, 6].length) ∧
      1 ≤ r.buff_size ∧ r.buff_size = small_log.buff_size ∧ r.buffp < r.buff_size :=
  ⟨by decide,
    printf_counts_bytes ⟨-1, -1, 0, true⟩ 100 [1, 2, 3, 4, 5, 6] small_log (by decide)
      (by decide) (by decide) (by decide) (by decide) (by decide) (by decide)⟩

/-- C23: when the records of the live list have distinct addresses, `malloc`
succeeds and the timer heap has room for one timer per record,
`nanny_stop_all_children` returns, and the value it returns is the number of
records of the live list that are not in state `STOPPED` at the time of the
call; so it returns 0 exactly when every record is `STOPPED`, which is when
the loop `while (nanny_stop_all_children())` of `main` ends. -/
theorem stop_all_returns_number_not_stopped (env : Nat → syscalls) (w : World)
    (hnd : (w.live_children.map (fun c => c.addr)).Nodup)
    (ht : ∀ n, (env n).timer1 ≠ 0)
    (hroom : w.timers.length + w.live_children.length < MAX_TIMERS) :
    ∃ (alive : Int) (w' : World), nanny_stop_all_children env w = some (alive, w') ∧
      alive = (not_stopped w.live_children : Nat) ∧
      (alive = 0 ↔ ∀ c ∈ w.live_children, c.state = child_state.STOPPED) := by
  obtain ⟨w', e⟩ := stop_all_loop_count env ht w.live_children 0 0 w
    (fun c hc => ⟨c, find_child_of_nodup _ hnd c hc, rfl⟩) hroom
  refine ⟨_, w', e, by simp, ?_⟩
  rw [← not_stopped_eq_zero]
  simp

/-- C23, at the supervisor of the health check scenario while a probe is
running: two records, neither `STOPPED`, so the value is 2. -/
theorem stop_all_returns_number_not_stopped_witness :
    (probe_after_callback.live_children.map (fun c => c.addr)).Nodup ∧
    (∀ n, ((fun i => scenario_syscalls (7 + i)) n).timer1 ≠ 0) ∧
    probe_after_callback.timers.length + probe_after_callback.live_children.length
      < MAX_TIMERS ∧
    ∃ (alive : Int) (w' : World),
      nanny_stop_all_children (fun i => scenario_syscalls (7 + i)) probe_after_callback
        = some (alive, w') ∧
      alive = (not_stopped probe_after_callback.live_children : Nat) ∧
      (alive = 0 ↔ ∀ c ∈ probe_after_callback.live_children, c.state = child_state.STOPPED) :=
  ⟨by decide, fun n => by simp [scenario_syscalls], by decide,
   stop_all_returns_number_not_stopped (fun i => scenario_syscalls (7 + i))
     probe_after_callback (by decide) (fun n => by simp [scenario_syscalls]) (by decide)⟩

/-- C24: with one child on the live list and that child in state `STOPPED`
(so all children are stopped), `nanny_stop_all_children` returns 0, which is
false in C, where the comment in `nanny.h` announces true. -/
theorem stop_all_returns_false_when_all_stopped :
    first_exit_world.live_children.length = 1 ∧
    (∀ c ∈ first_exit_world.live_children, c.state = child_state.STOPPED) ∧
    (nanny_stop_all_children (fun i => scenario_syscalls (7 + i)) first_exit_world).map
      Prod.fst = some 0 := by
  decide

/-- C28: every array the timer functions make from the empty one by
`nanny_timer_add` (within capacity), `nanny_timer_delete` and the removal of
the first entry in `nanny_timer_next` is a binary min-heap: no entry at an
index `i > 0` below the count is earlier than the entry at `(i - 1) / 2`, and
the entry at index 0 is the earliest of all. -/
theorem timers_array_is_min_heap (h : List timer) (hr : timers_reachable h) :
    (∀ i, 0 < i → i < h.length → when_at h ((i - 1) / 2) ≤ when_at h i) ∧
    (∀ i, i < h.length → when_at h 0 ≤ when_at h i) ∧
    (∀ x ∈ h, when_at h 0 ≤ x.when) := by
  have hh := (timers_reachable_inv h hr).1
  refine ⟨hh, heap_root_le h hh, ?_⟩
  intro x hx
  obtain ⟨k, hk, e⟩ := List.getElem_of_mem hx
  have := heap_root_le h hh k hk
  rw [when_at_of_lt _ _ hk, e] at this
  exact this

/-- C28, at the heap of the timer test after its twelve additions. -/
theorem timers_array_is_min_heap_witness :
    timers_reachable timer_test_heap ∧
    (∀ i, 0 < i → i < timer_test_heap.length →
      when_at timer_test_heap ((i - 1) / 2) ≤ when_at timer_test_heap i) ∧
    (∀ i, i < timer_test_heap.length → when_at timer_test_heap 0 ≤ when_at timer_test_heap i) ∧
    (∀ x ∈ timer_test_heap, when_at timer_test_heap 0 ≤ x.when) :=
  ⟨timer_test_heap_reachable, timers_array_is_min_heap timer_test_heap timer_test_heap_reachable⟩

/-- C30: for every record `c` on the live list and every wait status, in a
state where the timer heap is as the timer functions leave it and has room for
one timer, `malloc` succeeds and the two `int` fields do not overflow
(`failures < INT_MAX`, `restart_delay` within `-2^30 .. 2^30 - 1`),
`main_child_ended` returns and the record it leaves is `c` with `pid = 0`,
`running = 0`, `state = STOPPED`, `last_stop = nanny_globals.now`, `failures`
one more, `restart_delay` equal to `2 * restart_delay` clamped to `1 .. 3600`,
`ended`, `state_timer` and `health_timer` null and every other field
(`start_count`, the health counters, the commands, ...) as before; the other
records are as before; the heap holds exactly the timers it held, without those
at the addresses `state_timer` and `health_timer`, and one new timer with
`when == 0` for the current `state_handler` of the child, which is the last
timer added. -/
theorem main_child_ended_frame (sys : syscalls) (p : Nat) (stat : wait_status) (w : World)
    (c : nanny_child) (hc : find_child w p = some c) (ht : sys.timer1 ≠ 0)
    (hinv : timers_inv w.timers) (hlen : w.timers.length + 1 < MAX_TIMERS)
    (_hf : c.failures < 2147483647)
    (hd : -1073741824 ≤ c.restart_delay ∧ c.restart_delay ≤ 1073741823) :
    ∃ w' c', main_child_ended sys p stat w = some w' ∧ find_child w' p = some c' ∧
      c' = { c with
        pid := 0, running := 0, state := child_state.STOPPED, last_stop := w.now,
        failures := c.failures + 1,
        restart_delay := max 1 (min (2 * c.restart_delay) 3600),
        ended := ended_handler.null, state_timer := 0, health_timer := 0 } ∧
      (∀ q, q ≠ p → find_child w' q = find_child w q) ∧
      w'.timers.Perm ((⟨sys.timer1, 0, p, c.state_handler⟩ : timer) ::
        w.timers.filter (fun t => t.ptr ≠ c.state_timer ∧ t.ptr ≠ c.health_timer)) ∧
      (w'.trace.filter (fun e => e matches event.timer_add _ _ _ _)).getLast?
        = some (event.timer_add sys.timer1 0 c.state_handler p) ∧
      w'.now = w.now := by
  have haddr := find_child_addr _ _ _ hc
  have hi1 : timers_inv (nanny_timer_delete w.timers c.state_timer) :=
    timers_inv_delete _ _ hinv
  have hp1 := delete_perm_filter _ c.state_timer hinv
  have hp2 := delete_perm_filter _ c.health_timer hi1
  have hl2 : (timer_delete (timer_delete (if c.id = 0 then set_child_pid w 0 else w)
      c.state_timer) c.health_timer).timers.length ≤ w.timers.length := by
    simp only [timer_delete]
    refine le_trans (length_delete_le _ _) (le_trans (length_delete_le _ _) ?_)
    simp
  obtain ⟨w1, e1, hq1, hc1, hn1, _, htr⟩ := timer_add_perm
    (timer_delete (timer_delete (if c.id = 0 then set_child_pid w 0 else w)
      c.state_timer) c.health_timer) sys.timer1 0 c.state_handler p ht (by omega)
  simp only [timer_delete, children_ite_set_child_pid, now_ite_set_child_pid,
    timers_ite_set_child_pid] at hc1 hn1 hq1
  have hperm : w1.timers.Perm ((⟨sys.timer1, 0, p, c.state_handler⟩ : timer) ::
      w.timers.filter (fun t => t.ptr ≠ c.state_timer ∧ t.ptr ≠ c.health_timer)) := by
    refine hq1.trans (List.Perm.cons _ (hp2.trans ?_))
    refine ((hp1.filter _).trans ?_)
    rw [List.filter_filter]
    apply List.Perm.of_eq
    apply List.filter_congr
    intro x _
    simp [Bool.and_comm]
  have hrd : (if (if c.restart_delay * 2 < 1 then 1 else c.restart_delay * 2) > 3600 then 3600
      else (if c.restart_delay * 2 < 1 then 1 else c.restart_delay * 2))
      = max 1 (min (2 * c.restart_delay) 3600) := by
    split_ifs <;> omega
  have hframe : ∀ (w2 : World) (c2 : nanny_child), w2.live_children = w.live_children →
      c2.addr = p → ∀ q, q ≠ p → find_child (store_child w2 c2) q = find_child w q := by
    intro w2 c2 hch ha q hq
    rw [find_child_store_ne _ _ _ (by rw [ha]; exact hq)]
    unfold find_child; rw [hch]
  unfold main_child_ended
  rw [hc]
  simp only
  rw [e1, hrd]
  cases stat
  all_goals
    refine ⟨_, _, rfl, find_child_store w w1 p c _ hc hc1 haddr, ?_,
      hframe w1 _ hc1 haddr, hperm, ?_, ?_⟩
    · simp only [now_ite_set_child_pid]
    · simp only [store_child, emit, htr, List.filter_append]
      simp
    · simp only [store_child, emit]; rw [hn1]

theorem started_world_timers_inv : timers_inv started_world.timers := by
  refine ⟨?_, by decide, by decide, by decide⟩
  intro k hk0 hk
  have hlen : started_world.timers.length = 2 := by decide
  have : k = 1 := by omega
  subst this
  decide

/-- C30, at the child of `nanny -s "/bin/sleep 100000"` started at second 1000
and reported ended with status 1: the state timer at 111 and the health timer
at 112 leave the heap, the timer at 31 is the new one. -/
theorem main_child_ended_frame_witness :
    find_child started_world 1000
      = some ((find_child started_world 1000).get (by decide)) ∧
    (scenario_syscalls 3).timer1 ≠ 0 ∧
    timers_inv started_world.timers ∧
    started_world.timers.length + 1 < MAX_TIMERS ∧
    ((find_child started_world 1000).get (by decide)).failures < 2147483647 ∧
    (-1073741824 ≤ ((find_child started_world 1000).get (by decide)).restart_delay ∧
      ((find_child started_world 1000).get (by decide)).restart_delay ≤ 1073741823) ∧
    ∃ w' c', main_child_ended (scenario_syscalls 3) 1000 (wait_status.exited 1)
        started_world = some w' ∧ find_child w' 1000 = some c' ∧
      c' = { (find_child started_world 1000).get (by decide) with
        pid := 0, running := 0, state := child_state.STOPPED,
        last_stop := started_world.now,
        failures := ((find_child started_world 1000).get (by decide)).failures + 1,
        restart_delay := max 1 (min
          (2 * ((find_child started_world 1000).get (by decide)).restart_delay) 3600),
        ended := ended_handler.null, state_timer := 0, health_timer := 0 } ∧
      (∀ q, q ≠ 1000 → find_child w' q = find_child started_world q) ∧
      w'.timers.Perm ((⟨(scenario_syscalls 3).timer1, 0, 1000,
          ((find_child started_world 1000).get (by decide)).state_handler⟩ : timer) ::
        started_world.timers.filter (fun t =>
          t.ptr ≠ ((find_child started_world 1000).get (by decide)).state_timer ∧
          t.ptr ≠ ((find_child started_world 1000).get (by decide)).health_timer)) ∧
      (w'.trace.filter (fun e => e matches event.timer_add _ _ _ _)).getLast?
        = some (event.timer_add (scenario_syscalls 3).timer1 0
          ((find_child started_world 1000).get (by decide)).state_handler 1000) ∧
      w'.now = started_world.now :=
  ⟨by decide, by decide, started_world_timers_inv, by decide, by decide, by decide,
   main_child_ended_frame (scenario_syscalls 3) 1000 (wait_status.exited 1) started_world
     ((find_child started_world 1000).get (by decide)) (by decide) (by decide)
     started_world_timers_inv (by decide) (by decide) (by decide)⟩

theorem tie_heap_reachable : timers_reachable tie_heap := by
  apply timer_test_adds_reachable tie_schedule [] _ timers_reachable.empty
  decide

/-- C29 fails on the code: on the heap of three timers for second 5 at the
addresses 1, 2, 3 (in this order in the array), adding a timer for second 3
and deleting it at once leaves the array in the order 2, 1, 3. -/
theorem add_then_delete_reorders_equal_timers :
    timers_reachable tie_heap ∧
    tie_heap.map (fun x => (x.ptr, x.when)) = [(1, 5), (2, 5), (3, 5)] ∧
    (nanny_timer_add tie_heap 4 3 (handler.other 0) 0).map
      (fun r => (nanny_timer_delete r.2 r.1).map (fun x => (x.ptr, x.when)))
      = some [(2, 5), (1, 5), (3, 5)] :=
  ⟨tie_heap_reachable, by decide, by decide⟩

/-- C29 as amended: for every heap the timer functions build that has room
for one more timer, `nanny_timer_add` followed immediately by
`nanny_timer_delete` of the returned handle leaves the same timers in the
array, and when no pending timer has the same `when` as the timer at its
parent index `(k - 1) / 2` (so in particular when all `when` are distinct) the
array is the same index for index. -/
theorem add_then_delete_same_array (h : List timer) (hr : timers_reachable h) (t : Nat)
    (ht : t ≠ 0) (hfresh : ∀ x ∈ h, x.ptr ≠ t) (hlen : h.length + 1 < MAX_TIMERS)
    (when : Int) (f : handler) (data : Nat) :
    ∃ h1, nanny_timer_add h t when f data = some (t, h1) ∧
      (nanny_timer_delete h1 t).Perm h ∧
      ((∀ k, 0 < k → k < h.length → when_at h ((k - 1) / 2) ≠ when_at h k) →
        nanny_timer_delete h1 t = h) := by
  have hinv := timers_reachable_inv h hr
  obtain ⟨h1, hadd, hp⟩ := add_spec_perm h t when f data ht hlen
  refine ⟨h1, hadd, ?_, ?_⟩
  · have hinv1 := timers_inv_add h h1 t when f data hinv hfresh hadd
    refine (delete_perm_filter h1 t hinv1).trans ((hp.filter _).trans ?_)
    rw [List.filter_cons_of_neg (by simp)]
    apply List.Perm.of_eq
    apply List.filter_eq_self.mpr
    intro a ha
    simpa using hfresh a ha
  · intro hs
    have hstrict : heap_strict h := by
      intro k hk0 hk
      have h1 := hinv.1 k hk0 hk
      have h2 := hs k hk0 hk
      omega
    obtain ⟨h2, hadd2, hdel⟩ :=
      add_delete_strict h hstrict hinv.2.1 t ht hfresh hlen when f data
    rw [hadd] at hadd2
    simp only [Option.some.injEq, Prod.mk.injEq, true_and] at hadd2
    rw [hadd2]
    exact hdel

/-- C29 as amended, at the heap of the timer test, whose twelve timers are for
twelve different seconds: the thirteenth timer, for second 1004, is added and
deleted. -/
theorem add_then_delete_same_array_witness :
    timers_reachable timer_test_heap ∧ (13 : Nat) ≠ 0 ∧
    (∀ x ∈ timer_test_heap, x.ptr ≠ 13) ∧ timer_test_heap.length + 1 < MAX_TIMERS ∧
    (∀ k, 0 < k → k < timer_test_heap.length →
      when_at timer_test_heap ((k - 1) / 2) ≠ when_at timer_test_heap k) ∧
    ∃ h1, nanny_timer_add timer_test_heap 13 1004 (handler.other 0) 0 = some (13, h1) ∧
      (nanny_timer_delete h1 13).Perm timer_test_heap ∧
      nanny_timer_delete h1 13 = timer_test_heap :=
  have hties : ∀ k, 0 < k → k < timer_test_heap.length →
      when_at timer_test_heap ((k - 1) / 2) ≠ when_at timer_test_heap k := by
    intro k hk0 hk
    have hlen : timer_test_heap.length = 12 := by decide
    rw [hlen] at hk
    interval_cases k <;> decide
  ⟨timer_test_heap_reachable, by decide, by decide, by decide, hties,
   (add_then_delete_same_array timer_test_heap timer_test_heap_reachable 13 (by decide)
     (by decide) (by decide) 1004 (handler.other 0) 0).imp
     (fun _ r => ⟨r.1, r.2.1, r.2.2 hties⟩)⟩

/-- C27: in every table that calls of `nanny_register_server` (with a handler
that is not null) and `nanny_unregister_server` make from the array at program
start, each descriptor other than 0 is in at most one entry; and if the
descriptor `s`, not 0, is in the table, `nanny_register_server(h2, s, d2)`
leaves exactly one entry that carries `s`, which holds `h2` and `d2`, and
leaves the entries of every other descriptor as they were. -/
theorem register_replaces_registration (l : List listener_slot) (hr : listener_reachable l)
    (s : Int) (hs : s ≠ 0) (hreg : ∃ x ∈ l, x.socket = s) (h2 d2 : Nat) (hh : h2 ≠ 0) :
    slots_of s (nanny_register_server h2 s d2 l)
      = [{ socket := s, handler := h2, data := d2 }] ∧
    (∀ fd, fd ≠ s → fd ≠ 0 →
      slots_of fd (nanny_register_server h2 s d2 l) = slots_of fd l) ∧
    (nanny_register_server h2 s d2 l).length = l.length ∧
    (∀ fd, fd ≠ 0 → (slots_of fd l).length ≤ 1) ∧
    (∀ fd, fd ≠ 0 → (slots_of fd (nanny_register_server h2 s d2 l)).length ≤ 1) := by
  obtain ⟨_, hI, hU⟩ := listener_reachable_inv l hr
  have hI1 := free_inv_register_clear s l hI
  refine ⟨?_, ?_, ?_, hU, ?_⟩
  · unfold nanny_register_server
    exact slots_of_register_store_self h2 s d2 _ hI1 (register_clear_free s l hreg)
      (slots_of_register_clear_self s hs l (hU s hs))
  · intro fd hfd h0
    unfold nanny_register_server
    rw [slots_of_register_store_ne h2 s d2 fd hfd h0 _ hI1,
      slots_of_register_clear_ne s fd hfd h0]
  · unfold nanny_register_server
    rw [length_register_store, length_register_clear]
  · exact (listener_reachable_inv _ (listener_reachable.register l h2 s d2 hr hh)).2.2

/-- C27, at the table that holds descriptor 6 in its second entry and has its
first entry free: registering 6 again moves it to the first entry. -/
theorem register_replaces_registration_witness :
    listener_reachable listener_example ∧ (6 : Int) ≠ 0 ∧
    (∃ x ∈ listener_example, x.socket = 6) ∧ (9 : Nat) ≠ 0 ∧
    slots_of 6 (nanny_register_server 9 6 90 listener_example)
      = [{ socket := 6, handler := 9, data := 90 }] ∧
    (∀ fd, fd ≠ 6 → fd ≠ 0 →
      slots_of fd (nanny_register_server 9 6 90 listener_example)
        = slots_of fd listener_example) ∧
    (nanny_register_server 9 6 90 listener_example).length = listener_example.length ∧
    (∀ fd, fd ≠ 0 → (slots_of fd listener_example).length ≤ 1) ∧
    (∀ fd, fd ≠ 0 →
      (slots_of fd (nanny_register_server 9 6 90 listener_example)).length ≤ 1) :=
  have hr : listener_reachable listener_example :=
    listener_reachable.unregister _ 5
      (listener_reachable.register _ 8 6 80
        (listener_reachable.register _ 7 5 70 listener_reachable.init (by decide))
        (by decide))
  ⟨hr, by decide, ⟨⟨6, 8, 80⟩, by decide, rfl⟩, by decide,
   register_replaces_registration listener_example hr 6 (by decide)
     ⟨⟨6, 8, 80⟩, by decide, rfl⟩ 9 90 (by decide)⟩

/-- C26 fails on the code: for the URI `/nosuchpage` the dispatcher selects
`default_http_page`, and the page written starts with the status line
`HTTP/1.0 200 OK`, not with the `HTTP/1.0 404 NOT FOUND` of `body404`. -/
theorem unknown_uri_answered_200 :
    (http_dispatcher { uri := "/nosuchpage".toList, body_processor := none }).body_processor
      = some body_handler.default_http_page ∧
    (http_connection_page http_dispatcher "host" "time" [] [] "/nosuchpage".toList).head?
      = some "HTTP/1.0 200 OK\x0d\x0a" ∧
    (body404 { uri := "/nosuchpage".toList, body_processor := none }).head?
      = some "HTTP/1.0 404 NOT FOUND\x0d\x0a" := by
  decide

/-- C26 as amended: for every request URI other than `/environment` and those
beginning with `/status`, the dispatcher selects `default_http_page`, and the
page `http_connection` writes is that of `default_http_page`: status line
`HTTP/1.0 200 OK` and an HTML page with the host, the time and links to
`/status/` and `/environment`.  The dispatcher sets a body processor for every
URI, so with it `http_connection` never writes the page of `body404`. -/
theorem unknown_uri_gets_default_page (uri : List Char) (hostname isotime : String)
    (environ_page status_page : List String)
    (h1 : uri ≠ "/environment".toList) (h2 : uri.take 7 ≠ "/status".toList) :
    (http_dispatcher { uri := uri, body_processor := none }).body_processor
      = some body_handler.default_http_page ∧
    http_connection_page http_dispatcher hostname isotime environ_page status_page uri
      = default_http_page hostname isotime ∧
    (http_connection_page http_dispatcher hostname isotime environ_page status_page uri).head?
      = some "HTTP/1.0 200 OK\x0d\x0a" ∧
    ∀ (uri2 : List Char) (bp : Option body_handler),
      (http_dispatcher { uri := uri2, body_processor := bp }).body_processor ≠ none := by
  have e : http_dispatcher { uri := uri, body_processor := none }
      = { uri := uri, body_processor := some body_handler.default_http_page } := by
    unfold http_dispatcher
    rw [if_neg h1, if_neg h2]
  refine ⟨by rw [e], ?_, ?_, ?_⟩
  · unfold http_connection_page
    simp only [e]
  · unfold http_connection_page
    simp only [e]
    rfl
  · intro uri2 bp
    unfold http_dispatcher
    split
    · simp
    · split <;> simp

/-- C26 as amended, for the URI `/`. -/
theorem unknown_uri_gets_default_page_witness :
    "/".toList ≠ "/environment".toList ∧ ("/".toList).take 7 ≠ "/status".toList ∧
    (http_dispatcher { uri := "/".toList, body_processor := none }).body_processor
      = some body_handler.default_http_page ∧
    http_connection_page http_dispatcher "host" "time" [] [] "/".toList
      = default_http_page "host" "time" ∧
    (http_connection_page http_dispatcher "host" "time" [] [] "/".toList).head?
      = some "HTTP/1.0 200 OK\x0d\x0a" ∧
    ∀ (uri2 : List Char) (bp : Option body_handler),
      (http_dispatcher { uri := uri2, body_processor := bp }).body_processor ≠ none :=
  ⟨by decide, by decide,
   unknown_uri_gets_default_page "/".toList "host" "time" [] [] (by decide) (by decide)⟩

/-- C21: for a buffer that `nanny_log_alloc` has just made with a ring of
`S >= 1` bytes, and any successive calls of `nanny_log_printf` whose messages
have no NUL and fewer than 8192 bytes each (what `vsnprintf` keeps), every
call returns, and `nanny_log_http_dump_raw` then emits the last `min(N, S)`
bytes of the concatenation `B` of the messages, `N` being its length: the
bytes `B[max(0, N - S) : N]` in order. -/
theorem dump_raw_is_end_of_stream (S : Nat) (hS : 1 ≤ S)
    (calls : List (log_calls × Int × List Nat))
    (hlen : ∀ c ∈ calls, c.2.2.length < 8192) (hnul : ∀ c ∈ calls, ∀ b ∈ c.2.2, b ≠ 0) :
    ∃ nlog0 r, nanny_log_alloc true true S = some nlog0 ∧
      log_printf_all calls nlog0 = some r ∧
      nanny_log_http_dump_raw r
        = ((calls.map (fun c => c.2.2)).flatten).drop
          (((calls.map (fun c => c.2.2)).flatten).length - S) ∧
      (nanny_log_http_dump_raw r).length
        = min ((calls.map (fun c => c.2.2)).flatten).length S := by
  have h0 : ring_holds
      { refcnt := 1, filename_base := none, filename := none, file_fd := -1, last_rotate := 0,
        last_rotate_bytes := 0, last_rotate_check := 0, total_bytes := 0, read_count := 0,
        error_count := 0, bytes_per_second := 0, bps_last_update_time := 0,
        bps_last_update_bytes := 0, buff := List.replicate S 0,
        buff_size := S, buffp := 0, io := [] } [] := by
    refine ⟨rfl, ?_, hS, by simp, ?_⟩
    · show (-1 : Int) < 0
      decide
    · simp [ring_window]
  obtain ⟨r, e, hI, hsz⟩ := log_printf_all_ring calls _ [] h0 hlen hnul
  simp only [List.nil_append] at hI hsz
  have hB : ∀ b ∈ (calls.map (fun c => c.2.2)).flatten, b ≠ 0 := by
    intro b hb
    obtain ⟨l, hl, hbl⟩ := List.mem_flatten.mp hb
    obtain ⟨c, hc, rfl⟩ := List.mem_map.mp hl
    exact hnul c hc b hbl
  have hd := dump_raw_of_ring r _ hI hB
  rw [hsz] at hd
  refine ⟨_, r, by simp [nanny_log_alloc], e, hd, ?_⟩
  rw [hd, List.length_drop]
  omega

/-- C21, at a ring of 4 bytes and the messages `1 2 3` and `4 5 6`: the dump
is `3 4 5 6`. -/
theorem dump_raw_is_end_of_stream_witness :
    (1 : Nat) ≤ 4 ∧ (∀ c ∈ two_messages, c.2.2.length < 8192) ∧
    (∀ c ∈ two_messages, ∀ b ∈ c.2.2, b ≠ 0) ∧
    ∃ nlog0 r, nanny_log_alloc true true 4 = some nlog0 ∧
      log_printf_all two_messages nlog0 = some r ∧
      nanny_log_http_dump_raw r
        = ((two_messages.map (fun c => c.2.2)).flatten).drop
          (((two_messages.map (fun c => c.2.2)).flatten).length - 4) ∧
      (nanny_log_http_dump_raw r).length
        = min ((two_messages.map (fun c => c.2.2)).flatten).length 4 :=
  ⟨by decide, by decide, by decide,
   dump_raw_is_end_of_stream 4 (by decide) two_messages (by decide) (by decide)⟩

/-- C22 fails on the code: on a log with the base name
`/var/log/nanny_stdout.log` that starts empty, after a thousand messages of
1000 bytes and one message of 1 byte (1000001 bytes, every `open` succeeding,
all in second 7200) `last_rotate_bytes` is 0 and no file has been closed: the
file opened at the first write is still the current one. -/
theorem no_rotation_after_1000001_bytes :
    bytes_written million_and_one = 1000001 ∧
    (log_printf_all million_and_one disk_log).map
      (fun r => (r.total_bytes, r.last_rotate_bytes, closes r.io, opens r.io))
      = some (1000001, 0, 0, 1) := by
  refine ⟨million_and_one_bytes, ?_⟩
  obtain ⟨r, e, ⟨_, _, ht, hc, hcase⟩, hfd⟩ := writes_before_rotation 7200 (by decide)
    (by decide) million_and_one 0 disk_log disk_log_empty million_and_one_in_hour
    (by rw [million_and_one_bytes])
  rw [million_and_one_bytes] at ht hcase
  rcases hcase with ⟨_, hz, _⟩ | ⟨_, _, hop, hlrb⟩
  · omega
  · rw [e]
    simp only [Option.map_some', Option.some.injEq, Prod.mk.injEq]
    exact ⟨by omega, hlrb, hc, hop⟩

/-- C22 as amended: for a log with a base name that starts empty (no file
open, no byte counted, no call on files yet), and writes by `nanny_log_printf`
within one hour, every `open` succeeding, each of 1 to 8191 bytes without NUL,
that count exactly 1000001 bytes in all: every call returns; after them
`total_bytes == 1000001`, `last_rotate_bytes == 0`, one file has been opened
(at the first write) and none closed, so no rotation by size has taken place
yet.  The rotation by size takes place at the next write: that call closes the
file, opens the next one and sets `last_rotate_bytes == 1000001`. -/
theorem size_rotation_at_next_write (hour : Int) (h0 : 0 ≤ hour) (h3600 : hour % 3600 = 0)
    (nlog : nanny_log) (base : String) (hb : nlog.filename_base = some base)
    (hbl : base.length < 990) (hfd : nlog.file_fd < 0) (htot : nlog.total_bytes = 0)
    (hio : nlog.io = []) (hp : nlog.buffp < nlog.buff_size)
    (calls : List (log_calls × Int × List Nat)) (hcalls : ∀ c ∈ calls, write_in_hour hour c)
    (hsum : bytes_written calls = 1000001)
    (next : log_calls × Int × List Nat) (hnext : write_in_hour hour next) :
    ∃ r, log_printf_all calls nlog = some r ∧
      r.total_bytes = 1000001 ∧ r.last_rotate_bytes = 0 ∧ closes r.io = 0 ∧ opens r.io = 1 ∧
      ∃ r2, nanny_log_printf next.1 next.2.1 next.2.2 r = some r2 ∧
        r2.total_bytes = 1000001 + next.2.2.length ∧ r2.last_rotate_bytes = 1000001 ∧
        closes r2.io = 1 ∧ opens r2.io = 2 := by
  have hI : log_before_rotation hour 0 nlog :=
    ⟨⟨base, hb, hbl⟩, hp, htot, by rw [hio]; rfl, Or.inl ⟨hfd, rfl, by rw [hio]; rfl⟩⟩
  obtain ⟨r, e, ⟨⟨base2, hb2, _⟩, hp2, ht, hc, hcase⟩, _⟩ := writes_before_rotation hour h0
    h3600 calls 0 nlog hI hcalls (by rw [hsum])
  rw [hsum] at ht hcase
  simp only [Nat.zero_add] at ht hcase
  rcases hcase with ⟨_, hz, _⟩ | ⟨hfd2, _, hop, hlrb⟩
  · omega
  · obtain ⟨sys, now, msg⟩ := next
    obtain ⟨ho, hdup, _, _, _, hN, hnul⟩ := hnext
    simp only at ho hdup hN hnul ⊢
    obtain ⟨r1, e1, a1, a2, a3, a4, a5, a6, a7, _, a9, a10⟩ :=
      nanny_log_rotate_size sys now r base2 hfd2 hb2 (by rw [ht, hlrb]; norm_num) ho hdup
    obtain ⟨r2, e2, b1, b2, b3, b4, b5, b6, b7⟩ := nanny_log_printf_after_rotate sys now msg
      r r1 e1 (by omega) (by omega) (by omega) hN hnul
    obtain ⟨w1, w2⟩ := closes_write r1.io r1.file_fd msg
    refine ⟨r, e, ht, hlrb, hc, hop, r2, e2, by omega, by omega, ?_, ?_⟩
    · rw [b7, w1, a9, hc]
    · rw [b7, w2, a10, hop]

/-- C22 as amended, at the log with the base name `/var/log/nanny_stdout.log`
and a thousand messages of 1000 bytes followed by one of 1 byte, all in second
7200; the next write is a message of 10 bytes in second 7201. -/
theorem size_rotation_at_next_write_witness :
    (0 : Int) ≤ 7200 ∧ (7200 : Int) % 3600 = 0 ∧
    disk_log.filename_base = some "/var/log/nanny_stdout.log" ∧
    "/var/log/nanny_stdout.log".length < 990 ∧ disk_log.file_fd < 0 ∧
    disk_log.total_bytes = 0 ∧ disk_log.io = [] ∧ disk_log.buffp < disk_log.buff_size ∧
    (∀ c ∈ million_and_one, write_in_hour 7200 c) ∧
    bytes_written million_and_one = 1000001 ∧ write_in_hour 7200 (log_call 7201 10) ∧
    ∃ r, log_printf_all million_and_one disk_log = some r ∧
      r.total_bytes = 1000001 ∧ r.last_rotate_bytes = 0 ∧ closes r.io = 0 ∧ opens r.io = 1 ∧
      ∃ r2, nanny_log_printf (log_call 7201 10).1 (log_call 7201 10).2.1
          (log_call 7201 10).2.2 r = some r2 ∧
        r2.total_bytes = 1000001 + (log_call 7201 10).2.2.length ∧
        r2.last_rotate_bytes = 1000001 ∧ closes r2.io = 1 ∧ opens r2.io = 2 :=
  ⟨by decide, by decide, rfl, by decide, by decide, rfl, rfl, by decide,
   million_and_one_in_hour, million_and_one_bytes,
   log_call_in_hour 7201 10 (by decide) (by decide) (by decide) (by decide),
   size_rotation_at_next_write 7200 (by decide) (by decide) disk_log
     "/var/log/nanny_stdout.log" rfl (by decide) (by decide) rfl rfl (by decide)
     million_and_one million_and_one_in_hour million_and_one_bytes (log_call 7201 10)
     (log_call_in_hour 7201 10 (by decide) (by decide) (by decide) (by decide))⟩

/-- C25 fails on the code: with a variable `CLASSPATH` of 2100 bytes in the
environment, the request `CLASSPATH` has a known key and no assertion, and
`udp_query` returns 0 and no reply is sent, because the reply does not fit in
the 2048 bytes of `outbuff`. -/
theorem known_key_without_reply :
    nanny_variable long_value_vars "CLASSPATH".toList = some (List.replicate 2100 'x') ∧
    udp_query long_value_vars "CLASSPATH".toList 2048 = (0, []) ∧
    udp_query_response long_value_vars "?CLASSPATH".toList = none :=
  ⟨long_value_known, long_value_query, by
    show udp_query_response long_value_vars ('?' :: "CLASSPATH".toList) = none
    unfold udp_query_response
    simp only [long_value_query]
    simp⟩

/-- C25 as amended: with `http_port == 51717` and `child_pid == 4242`,
`udp_query` on `HTTP_PORT PID>0` returns 1 with the reply
`HTTP_PORT=51717 PID=4242`.  In general, for a request of tokens separated by
spaces and tabs, each a key that is not empty with or without an assertion
`=`, `<` or `>`: when every key is known, every assertion holds and the reply
is shorter than the 2048 bytes of `outbuff`, `udp_query` returns 1 and the
reply sent is one `KEY=VALUE` per token, in the order of the request, with
single spaces between them; when some key has no value or some assertion does
not hold, `udp_query` returns 0 and no reply is sent. -/
theorem udp_query_replies (g1 : query_vars)
    (g : query_vars) (toks : List (List Char × query_token)) (trail : List Char)
    (hwf : query_wf toks) (htrail : ∀ c ∈ trail, blank c)
    (hpass : ∀ e ∈ toks, token_passes g e.2)
    (hfit : (query_reply g (toks.map Prod.snd)).length < 2048)
    (g2 : query_vars) (toks2 : List (List Char × query_token)) (trail2 : List Char)
    (hwf2 : query_wf toks2) (htrail2 : ∀ c ∈ trail2, blank c)
    (hfail : ∃ e ∈ toks2, ¬ token_passes g2 e.2) :
    udp_query (serving g1) "HTTP_PORT PID>0".toList 2048
      = (1, "HTTP_PORT=51717 PID=4242".toList) ∧
    udp_query g (query_text toks ++ trail) 2048 = (1, query_reply g (toks.map Prod.snd)) ∧
    udp_query_response g ('?' :: (query_text toks ++ trail))
      = some (query_reply g (toks.map Prod.snd)) ∧
    (udp_query g2 (query_text toks2 ++ trail2) 2048).1 = 0 ∧
    udp_query_response g2 ('?' :: (query_text toks2 ++ trail2)) = none := by
  have h1 := udp_query_success (serving g1) port_pid_query [] port_pid_query_wf
    (by simp) (port_pid_query_passes g1) (by rw [port_pid_reply]; decide)
  rw [port_pid_reply] at h1
  have h2 := udp_query_success g toks trail hwf htrail hpass hfit
  have h3 := udp_query_failure g2 toks2 trail2 hwf2 htrail2 hfail
  refine ⟨h1, h2, ?_, h3, ?_⟩
  · unfold udp_query_response
    simp only [h2]
    simp
  · unfold udp_query_response
    simp only [h3]
    simp

/-- C25 as amended, at the request `HTTP_PORT PID>0`: with the child 4242
running the reply is `HTTP_PORT=51717 PID=4242`; with no child running and no
`PID` in the environment no reply is sent. -/
theorem udp_query_replies_witness :
    query_wf port_pid_query ∧ (∀ c ∈ ([] : List Char), blank c) ∧
    (∀ e ∈ port_pid_query, token_passes (serving idle_vars) e.2) ∧
    (query_reply (serving idle_vars) (port_pid_query.map Prod.snd)).length < 2048 ∧
    (∃ e ∈ port_pid_query, ¬ token_passes idle_vars e.2) ∧
    udp_query (serving idle_vars) "HTTP_PORT PID>0".toList 2048
      = (1, "HTTP_PORT=51717 PID=4242".toList) ∧
    udp_query (serving idle_vars) (query_text port_pid_query ++ []) 2048
      = (1, query_reply (serving idle_vars) (port_pid_query.map Prod.snd)) ∧
    udp_query_response (serving idle_vars) ('?' :: (query_text port_pid_query ++ []))
      = some (query_reply (serving idle_vars) (port_pid_query.map Prod.snd)) ∧
    (udp_query idle_vars (query_text port_pid_query ++ []) 2048).1 = 0 ∧
    udp_query_response idle_vars ('?' :: (query_text port_pid_query ++ [])) = none :=
  ⟨port_pid_query_wf, by simp, port_pid_query_passes idle_vars,
   by rw [port_pid_reply]; decide, port_pid_query_fails,
   udp_query_replies idle_vars (serving idle_vars) port_pid_query [] port_pid_query_wf
     (by simp) (port_pid_query_passes idle_vars) (by rw [port_pid_reply]; decide)
     idle_vars port_pid_query [] port_pid_query_wf (by simp) port_pid_query_fails⟩

/-- Claim C36, at the table with descriptors 3 and 4 in that order of entries:
both are put into `readfds`, the first argument `nanny_select` passes to
`select` is 4, not 5 or more, and descriptor 4 is not among those `select`
examines. -/
theorem select_limit_misses_descriptor_4 :
    listener_reachable listener_3_4
      ∧ select_readfds listener_3_4 = [3, 4]
      ∧ select_limit 0 listener_3_4 = 4
      ∧ select_examined listener_3_4 = [3] := by
  refine ⟨?_, select_readfds_3_4, select_limit_3_4, ?_⟩
  · exact listener_reachable.register _ 8 4 80
      (listener_reachable.register _ 7 3 70 listener_reachable.init (by decide)) (by decide)
  · unfold select_examined
    rw [select_readfds_3_4, select_limit_3_4]
    decide

/-- Claim C32: a log buffer made by `nanny_log_alloc(size)` with `size >= 1`
whose ring `malloc` has given keeps, after the allocation and after every
call of `nanny_log_printf` and of `nanny_log_input_server` that returns
without freeing it, its ring of `size` bytes and a write position inside it:
`buff <= buffp < buff_end`, the position being the offset `buffp - buff`. -/
theorem write_position_inside_ring (size : Nat) (hsize : 1 ≤ size) (l : nanny_log)
    (h : log_reachable size l) :
    l.buff_size = size ∧ 0 ≤ l.buffp ∧ l.buffp < l.buff_size := by
  obtain ⟨a, b, _⟩ := log_reachable_inv size hsize l h
  exact ⟨a, Nat.zero_le _, b⟩

/-- Claim C32 at the ring of 4 bytes after a read that fills it: the write
position is back at offset 0. -/
theorem write_position_inside_ring_witness :
    small_log_filled.buffp = 0 ∧
    small_log_filled.buff = [1, 2, 3, 4] ∧
    (small_log_filled.buff_size = 4 ∧ 0 ≤ small_log_filled.buffp
      ∧ small_log_filled.buffp < small_log_filled.buff_size) :=
  ⟨by decide, by decide,
    write_position_inside_ring 4 (by decide) small_log_filled
      (log_reachable.input ⟨-1, -1, 0, true⟩ 100 (read_result.waiting [1, 2, 3, 4, 5]) []
        small_log small_log_filled (log_reachable.alloc small_log (by decide))
        small_log_read_eq)⟩

/-- Claim C40: for a log buffer with a ring of `size >= 1` bytes, in any state
the calls on it leave, and any bytes the format produces, the loop of
`nanny_log_printf` ends once the rotation has returned: within as many passes
as the message has bytes (and with the same result for every larger bound) it
has counted the whole message, and `nanny_log_printf` returns.  Every pass on
a write position inside the ring copies `k >= 1` bytes of what is left of the
message and leaves the position inside the ring. -/
theorem printf_loop_terminates (size : Nat) (hsize : 1 ≤ size) (l : nanny_log)
    (h : log_reachable size l) (sys : log_calls) (now : Int) (formatted : List Nat)
    (l1 : nanny_log) (hrot : nanny_log_rotate sys now l = some l1) :
    (∃ c, (∀ fuel, ((formatted.take 8191).takeWhile (fun b => b ≠ 0)).length ≤ fuel →
          log_copy fuel ((formatted.take 8191).takeWhile (fun b => b ≠ 0))
            (if l1.file_fd ≥ 0 then
              log_write l1 ((formatted.take 8191).takeWhile (fun b => b ≠ 0)) else l1)
            = some c) ∧
        c.total_bytes = (l.total_bytes
          + ((formatted.take 8191).takeWhile (fun b => b ≠ 0)).length) % 2 ^ 64 ∧
        nanny_log_printf sys now formatted l = some (nanny_log_update_statistics now c)) ∧
    (∀ (s : nanny_log) (b : Nat) (bs : List Nat), s.buff_size = size → s.buffp < size →
      ∃ k, 1 ≤ k ∧ k ≤ (b :: bs).length ∧
        (log_store s (b :: bs) k).buff_size = size ∧
        (log_store s (b :: bs) k).buffp < size ∧
        ∀ fuel, log_copy (fuel + 1) (b :: bs) s
          = log_copy fuel ((b :: bs).drop k) (log_store s (b :: bs) k)) := by
  obtain ⟨hs, hp, ht⟩ := log_reachable_inv size hsize l h
  obtain ⟨t1, s1, p1, _⟩ := nanny_log_rotate_frame sys now l l1 hrot
  obtain ⟨t2, s2, p2⟩ := log_write_frame l1 ((formatted.take 8191).takeWhile (fun b => b ≠ 0))
  have hp2 : (if l1.file_fd ≥ 0 then
      log_write l1 ((formatted.take 8191).takeWhile (fun b => b ≠ 0)) else l1).buffp
      < (if l1.file_fd ≥ 0 then
      log_write l1 ((formatted.take 8191).takeWhile (fun b => b ≠ 0)) else l1).buff_size := by
    rw [p2, s2, p1, s1]; exact hp
  obtain ⟨c, hc, ct, _, _⟩ := log_copy_spec _ ((formatted.take 8191).takeWhile (fun b => b ≠ 0))
    (if l1.file_fd ≥ 0 then log_write l1 ((formatted.take 8191).takeWhile (fun b => b ≠ 0))
      else l1) (le_refl _) hp2 (by rw [t2, t1]; exact ht)
  refine ⟨⟨c, ?_, ?_, ?_⟩, ?_⟩
  · intro fuel hf
    rw [log_copy_fuel fuel _ _ _ hf (le_refl _) hp2]
    exact hc
  · rw [ct, t2, t1]
  · unfold nanny_log_printf
    simp only [hrot, hc]
  · intro s b bs hss hsp
    obtain ⟨k, k1, k2, ks, kp, kstep⟩ := log_copy_pass s b bs (by rw [hss]; exact hsp)
    exact ⟨k, k1, k2, by rw [ks, hss], by rw [← hss]; exact kp, kstep⟩

/-- Claim C40 at the ring of 4 bytes and a message of 6 bytes, which takes
two passes. -/
theorem printf_loop_terminates_witness :
    nanny_log_rotate ⟨-1, -1, 0, true⟩ 100 small_log = some small_log ∧
    ((∃ c, (∀ fuel, (([1, 2, 3, 4, 5, 6].take 8191).takeWhile (fun b => b ≠ 0)).length ≤ fuel →
          log_copy fuel (([1, 2, 3, 4, 5, 6].take 8191).takeWhile (fun b => b ≠ 0))
            (if small_log.file_fd ≥ 0 then
              log_write small_log (([1, 2, 3, 4, 5, 6].take 8191).takeWhile (fun b => b ≠ 0))
              else small_log)
            = some c) ∧
        c.total_bytes = (small_log.total_bytes
          + (([1, 2, 3, 4, 5, 6].take 8191).takeWhile (fun b => b ≠ 0)).length) % 2 ^ 64 ∧
        nanny_log_printf ⟨-1, -1, 0, true⟩ 100 [1, 2, 3, 4, 5, 6] small_log
          = some (nanny_log_update_statistics 100 c)) ∧
    (∀ (s : nanny_log) (b : Nat) (bs : List Nat), s.buff_size = 4 → s.buffp < 4 →
      ∃ k, 1 ≤ k ∧ k ≤ (b :: bs).length ∧
        (log_store s (b :: bs) k).buff_size = 4 ∧
        (log_store s (b :: bs) k).buffp < 4 ∧
        ∀ fuel, log_copy (fuel + 1) (b :: bs) s
          = log_copy fuel ((b :: bs).drop k) (log_store s (b :: bs) k))) :=
  ⟨by decide,
    printf_loop_terminates 4 (by decide) small_log (log_reachable.alloc small_log (by decide))
      ⟨-1, -1, 0, true⟩ 100 [1, 2, 3, 4, 5, 6] small_log (by decide)⟩

/-- Claim C31 fails on the code for a record without a process in state
`RESTARTING` or `NEW`: `main_child_goal_restart` tests `state == STOPPED`
only, so it calls `main_child_goal_stopped`, which sets the state `STOPPED`
and schedules nothing.  In `nanny -s "/bin/sleep 100000" -h false` whose child
exits while the fifth failing probe is under way, the record is `RESTARTING`
with `pid == 0` when the failure of the probe installs
`main_child_goal_restart`; after the passes at seconds 1301, 1302 and 1303
the record is `STOPPED` with no timer pending, so the child is never started
again.  The record in state `NEW` of `new_child_world` is left `STOPPED` as
well. -/
theorem restart_of_restarting_child_stops :
    (exit_during_probe []).bind (fun r => child_timers r.1 1000)
      = some (0, child_state.RESTARTING, handler.main_child_goal_running, [1302], []) ∧
    ((exit_during_probe []).bind
        (fun r => main_child_goal_restart (scenario_syscalls 12) 1000 1301 r.1)).bind
        (fun w => child_timers w 1000)
      = some (0, child_state.STOPPED, handler.main_child_goal_running, [1302], []) ∧
    (exit_during_probe [pass_at 12 1301 [(602, wait_status.exited 1)]]).bind
        (fun r => child_timers r.1 1000)
      = some (0, child_state.STOPPED, handler.main_child_goal_restart, [1302], []) ∧
    (exit_during_probe [pass_at 12 1301 [(602, wait_status.exited 1)], pass_at 13 1302 [],
        pass_at 14 1303 []]).bind (fun r => child_timers r.1 1000)
      = some (0, child_state.STOPPED, handler.main_child_goal_restart, [], []) ∧
    (exit_during_probe [pass_at 12 1301 [(602, wait_status.exited 1)], pass_at 13 1302 [],
        pass_at 14 1303 []]).map (fun r => r.1.timers.length) = some 0 ∧
    (find_child new_child_world 1000).map (fun c => (c.pid, c.state))
      = some (0, child_state.NEW) ∧
    (main_child_goal_restart (scenario_syscalls 1) 1000 1000 new_child_world).bind
        (fun w => (find_child w 1000).map (fun c => (c.pid, c.state, c.state_handler)))
      = some (0, child_state.STOPPED, handler.main_child_goal_running) := by
  refine ⟨by decide, by decide, by decide, by decide, by decide, by decide, by decide⟩

/-- Claim C35 fails on the code when `main_child_goal_restart` stops a child
that is alive: `main_child_goal_stopped` leaves the health timer in the heap.
In `nanny -s "/bin/sleep 100000" -h false` the fifth failure, reported at
second 1301, sends `SIGTERM` and leaves the record in `STOPPING2` with the
health timer pending for second 1360; the pass at second 1360 forks the probe
with pid 622 for the record in `STOPPING2` and sets the timer for second 1420;
the failure of that probe, reported at second 1361, makes the next step of
the stop at once, `SIGKILL` at second 1361 instead of 1601. -/
theorem health_check_fires_while_stopping :
    (forced_restart []).bind (fun r => child_timers r.1 1000)
      = some (511, child_state.STOPPING2, handler.main_child_goal_restart, [1601], [1360]) ∧
    last_pass (forced_restart []) = some (1301, [event.kill 511 SIGTERM]) ∧
    (forced_restart [alive_pass 12 1360]).bind (fun r => child_timers r.1 1000)
      = some (511, child_state.STOPPING2, handler.main_child_goal_restart, [1601], [1420]) ∧
    last_pass (forced_restart [alive_pass 12 1360])
      = some (1360, [event.run (some "false") 622]) ∧
    (forced_restart [alive_pass 12 1360,
        alive_reap 13 1361 [(622, wait_status.exited 1)]]).bind (fun r => child_timers r.1 1000)
      = some (511, child_state.STOPPING3, handler.main_child_goal_restart, [1376], [1420]) ∧
    last_pass (forced_restart [alive_pass 12 1360,
        alive_reap 13 1361 [(622, wait_status.exited 1)]])
      = some (1361, [event.kill 511 SIGKILL]) := by
  refine ⟨by decide, by decide, by decide, by decide, by decide, by decide⟩

/-- Claim C37 fails on the code: the record of the child of
`nanny -s "/bin/sleep 100000" -S /bin/true`, made by `nanny_child_new` and
never given an environment, runs with pid 511 and has a null `envp`; the
first call of `main_child_goal_stopped` for it reads `child->envp[0]` and
does not return.  With the empty environment set, the same call forks the
stop command with `PID=511` appended and leaves the record in `STOPPING1`
with its timer 300 seconds later. -/
theorem first_stop_step_reads_null_envp :
    (find_child (stop_cmd_world none) 1000).map
        (fun c => (c.pid, c.state, c.stop_cmd, c.envp))
      = some (511, child_state.STARTING, some "/bin/true", none) ∧
    main_child_goal_stopped (alive_syscalls 21) 1000 1500 (stop_cmd_world none) = none ∧
    (main_child_goal_stopped (alive_syscalls 21) 1000 1500 (stop_cmd_world (some []))).bind
        (fun w => (find_child w 1000).map (fun c => (c.state, c.state_timer, c.envp)))
      = some (child_state.STOPPING1, 211, some ["PID=511"]) ∧
    (main_child_goal_stopped (alive_syscalls 21) 1000 1500 (stop_cmd_world (some []))).bind
        (fun w => w.trace.getLast?)
      = some (event.timer_add 211 1800 handler.main_child_goal_running 1000) := by
  refine ⟨by decide, by decide, by decide, by decide⟩

/-- Claim C38 fails on the code: `nanny_child_add_periodic` rejects an
interval below 0 only.  For the spec `0s cmd` the parse gives the interval 0
and the command `cmd`, the record passes every check of the function, and the
remainder `random() % t->interval` is a division by zero, so the call does
not return; the same call with `1s cmd` returns 0. -/
theorem zero_interval_is_accepted :
    parse_interval "0s cmd".data = some (0, "cmd".data) ∧
    (find_child new_child_world 1000).map
        (fun c => (periodic_task periodic_example_calls c "0s cmd").map
          (fun r => r.map (fun t => (t.interval, t.cmd))))
      = some (some (some (0, "cmd"))) ∧
    nanny_child_add_periodic periodic_example_calls 1000 "0s cmd" new_child_world = none ∧
    (nanny_child_add_periodic periodic_example_calls 1000 "1s cmd" new_child_world).map
        (fun r => r.1) = some 0 := by
  refine ⟨by decide, by decide, by decide, by decide⟩

/-- Claim C34: for a key that `nanny_variable_int` knows, with value `v`, and
a decimal number `q` (a number that fits `long long`, or a value `v` below
the largest `long long`), `udp_query_match` accepts `=` exactly when
`v == q`, `>` exactly when `v > q` and `<` exactly when `v < q`, as integers,
and what it returns is `v` in decimal.  The integer variables are `CHILD_PID`,
`HTTP_PORT`, `NANNY_PID` and `PID` while their value is positive, and `GID`,
`TIME` and `UID`.  For a key that is known without being an integer
variable, with value `s`, the three operators accept exactly when `s` equals
`q`, comes after `q` and comes before `q` in the lexicographic order of the
bytes, which is what `strcmp` decides. -/
theorem udp_query_match_compares (g : query_vars) (key q : List Char) :
    (∀ v, nanny_variable_int g key = some v → digits q →
      (decimal q < 2 ^ 63 ∨ v < 2 ^ 63 - 1) →
      ((udp_query_match g key '=' q).isSome = true ↔ v = decimal q) ∧
      ((udp_query_match g key '>' q).isSome = true ↔ v > decimal q) ∧
      ((udp_query_match g key '<' q).isSome = true ↔ v < decimal q) ∧
      (∀ op r, udp_query_match g key op q = some r → r = print_decimal v)) ∧
    (∀ s, nanny_variable_int g key = none → nanny_variable g key = some s →
      (∀ c ∈ s, c.toNat ≠ 0) → (∀ c ∈ q, c.toNat ≠ 0) →
      ((udp_query_match g key '=' q).isSome = true ↔ s = q) ∧
      ((udp_query_match g key '>' q).isSome = true ↔ lex_lt q s = true) ∧
      ((udp_query_match g key '<' q).isSome = true ↔ lex_lt s q = true) ∧
      (∀ op r, udp_query_match g key op q = some r → r = s)) ∧
    (nanny_variable_int g "CHILD_PID".toList
        = (if g.child_pid > 0 then some g.child_pid else none) ∧
      nanny_variable_int g "GID".toList = some g.gid ∧
      nanny_variable_int g "HTTP_PORT".toList
        = (if g.http_port > 0 then some g.http_port else none) ∧
      nanny_variable_int g "NANNY_PID".toList
        = (if g.nanny_pid > 0 then some g.nanny_pid else none) ∧
      nanny_variable_int g "PID".toList
        = (if g.child_pid > 0 then some g.child_pid else none) ∧
      nanny_variable_int g "TIME".toList = some g.now ∧
      nanny_variable_int g "UID".toList = some g.uid) := by
  have n2 : ¬ ('>' : Char) = '=' := by decide
  have n3 : ¬ ('<' : Char) = '>' := by decide
  have n5 : ¬ ('<' : Char) = '=' := by decide
  refine ⟨?_, ?_, nanny_variable_int_keys g⟩
  · intro v hv hq hfit
    have h0 := decimal_nonneg q hq.2
    have hst := strtoll_digits q hq
    have e := fun op => udp_query_match_int g key q op v hv
    refine ⟨?_, ?_, ?_, ?_⟩
    · rw [e '=', if_pos rfl]
      by_cases hc : strtoll q = v
      · rw [if_pos hc]
        simp only [Option.isSome_some, true_iff]
        split at hst <;> omega
      · rw [if_neg hc]
        simp only [Option.isSome_none, Bool.false_eq_true, false_iff]
        split at hst <;> omega
    · rw [e '>', if_neg n2, if_pos rfl]
      by_cases hc : strtoll q < v
      · rw [if_pos hc]
        simp only [Option.isSome_some, true_iff]
        split at hst <;> omega
      · rw [if_neg hc]
        simp only [Option.isSome_none, Bool.false_eq_true, false_iff]
        split at hst <;> omega
    · rw [e '<', if_neg n5, if_neg n3, if_pos rfl]
      by_cases hc : strtoll q > v
      · rw [if_pos hc]
        simp only [Option.isSome_some, true_iff]
        split at hst <;> omega
      · rw [if_neg hc]
        simp only [Option.isSome_none, Bool.false_eq_true, false_iff]
        split at hst <;> omega
    · intro op r hr
      rw [e op] at hr
      repeat' split at hr
      all_goals first | cases hr; rfl | cases hr
  · intro s hi hs hsn hqn
    have e := fun op => udp_query_match_string g key q s op hi hs
    refine ⟨?_, ?_, ?_, ?_⟩
    · rw [e '=', if_pos rfl]
      by_cases hc : strcmp q s = 0
      · rw [if_pos hc]
        simp only [Option.isSome_some, true_iff]
        exact ((strcmp_zero q s hqn hsn).mp hc).symm
      · rw [if_neg hc]
        simp only [Option.isSome_none, Bool.false_eq_true, false_iff]
        intro h
        exact hc ((strcmp_zero q s hqn hsn).mpr h.symm)
    · rw [e '>', if_neg n2, if_pos rfl, ← strcmp_neg q s hsn]
      by_cases hc : strcmp q s < 0
      · rw [if_pos hc]; simpa using hc
      · rw [if_neg hc]; simpa using hc
    · rw [e '<', if_neg n5, if_neg n3, if_pos rfl, ← strcmp_pos q s hqn]
      by_cases hc : strcmp q s > 0
      · rw [if_pos hc]; simpa using hc
      · rw [if_neg hc]; simpa using hc
    · intro op r hr
      rw [e op] at hr
      repeat' split at hr
      all_goals first | cases hr; rfl | cases hr

/-- Claim C34 at the supervisor whose child has the pid 4242: `PID>9` is
accepted although `4242` comes before `9` as a string, and `HOSTNAME>abc` is
accepted for the host name `host`, which comes after `abc`. -/
theorem udp_query_match_compares_witness :
    nanny_variable_int serving_example "PID".toList = some 4242 ∧
    decimal "9".toList = 9 ∧
    lex_lt "4242".toList "9".toList = true ∧
    nanny_variable serving_example "HOSTNAME".toList = some "host".toList ∧
    (((udp_query_match serving_example "PID".toList '=' "9".toList).isSome = true
        ↔ (4242 : Int) = decimal "9".toList) ∧
      ((udp_query_match serving_example "PID".toList '>' "9".toList).isSome = true
        ↔ (4242 : Int) > decimal "9".toList) ∧
      ((udp_query_match serving_example "PID".toList '<' "9".toList).isSome = true
        ↔ (4242 : Int) < decimal "9".toList) ∧
      (∀ op r, udp_query_match serving_example "PID".toList op "9".toList = some r →
        r = print_decimal 4242)) ∧
    (((udp_query_match serving_example "HOSTNAME".toList '=' "abc".toList).isSome = true
        ↔ "host".toList = "abc".toList) ∧
      ((udp_query_match serving_example "HOSTNAME".toList '>' "abc".toList).isSome = true
        ↔ lex_lt "abc".toList "host".toList = true) ∧
      ((udp_query_match serving_example "HOSTNAME".toList '<' "abc".toList).isSome = true
        ↔ lex_lt "host".toList "abc".toList = true) ∧
      (∀ op r, udp_query_match serving_example "HOSTNAME".toList op "abc".toList = some r →
        r = "host".toList)) :=
  ⟨by decide, by decide, by decide, by decide,
    (udp_query_match_compares serving_example "PID".toList "9".toList).1 4242 (by decide)
      ⟨by decide, by decide⟩ (Or.inl (by decide)),
    (udp_query_match_compares serving_example "HOSTNAME".toList "abc".toList).2.1
      "host".toList (by decide) (by decide) (by decide) (by decide)⟩

/-- Claim C39: when the records of the live list have distinct addresses,
`malloc` succeeds and the timer heap has room for one timer per record, a call
of `nanny_stop_all_children` returns, and a second call right after it,
whatever `malloc` would give it, returns the same count and leaves the state
of the first call as it is: the same records, the same timer heap and no
further call of `nanny_timer_add`. -/
theorem stop_all_twice (env env2 : Nat → syscalls) (w : World)
    (hnd : (w.live_children.map (fun c => c.addr)).Nodup)
    (ht : ∀ n, (env n).timer1 ≠ 0)
    (hroom : w.timers.length + w.live_children.length < MAX_TIMERS) :
    ∃ (alive : Int) (w1 : World), nanny_stop_all_children env w = some (alive, w1) ∧
      nanny_stop_all_children env2 w1 = some (alive, w1) := by
  obtain ⟨w1, e⟩ := stop_all_loop_count env ht w.live_children 0 0 w
    (fun c hc => ⟨c, find_child_of_nodup _ hnd c hc, rfl⟩) hroom
  have hl := stop_all_loop_leaves env w.live_children [] 0 0 _ w w1 rfl hnd e
  simp only [List.nil_append] at hl
  obtain ⟨h1, h2, h3⟩ := stop_records_spec env w.live_children 0
  refine ⟨_, w1, e, ?_⟩
  unfold nanny_stop_all_children
  have := stop_all_loop_again env2 w1.live_children [] 0 0 w1 rfl
    (by rw [hl, h1]; exact hnd) (by rw [hl]; exact h3)
  rw [this, hl, h2]

/-- Claim C39 at the supervisor of the health check scenario while a probe
is running: two records, both switched by the first call. -/
theorem stop_all_twice_witness :
    (probe_after_callback.live_children.map (fun c => c.addr)).Nodup ∧
    (∀ n, ((fun i => scenario_syscalls (7 + i)) n).timer1 ≠ 0) ∧
    probe_after_callback.timers.length + probe_after_callback.live_children.length
      < MAX_TIMERS ∧
    ∃ (alive : Int) (w1 : World),
      nanny_stop_all_children (fun i => scenario_syscalls (7 + i)) probe_after_callback
        = some (alive, w1) ∧
      nanny_stop_all_children (fun _ => scenario_syscalls 0) w1 = some (alive, w1) :=
  ⟨by decide, fun n => by simp [scenario_syscalls], by decide,
   stop_all_twice (fun i => scenario_syscalls (7 + i)) (fun _ => scenario_syscalls 0)
     probe_after_callback (by decide) (fun n => by simp [scenario_syscalls]) (by decide)⟩

set_option maxRecDepth 20000 in
/-- Claim C33 fails on the code for a record that is in state `STOPPED` when
`nanny_stop_all_children` is called: the loop gives it the handler and goes
on to the next record.  The child with the periodic task `60s cmd` that has
exited and is not restartable, and the restartable child of
`nanny -s "/bin/sleep 100000" -h false -t "1h cmd"` that is left `STOPPED`,
keep the task in their list and its timer, at address 3001, in the heap. -/
theorem stopped_child_keeps_periodic_task :
    teardown_view periodic_stopped_world
      = ([(child_state.STOPPED, handler.main_child_goal_running, [3001])],
          [(3001, handler.timed_event, 3000)]) ∧
    (nanny_stop_all_children (fun i => scenario_syscalls (500 + i))
        periodic_stopped_world).map (fun r => r.1) = some 0 ∧
    (nanny_stop_all_children (fun i => scenario_syscalls (500 + i))
        periodic_stopped_world).map (fun r => teardown_view r.2)
      = some ([(child_state.STOPPED, handler.main_child_goal_stopped, [3001])],
          [(3001, handler.timed_event, 3000)]) ∧
    teardown_view periodic_stuck_world
      = ([(child_state.STOPPED, handler.main_child_goal_restart, [3001])],
          [(3001, handler.timed_event, 3000)]) ∧
    (nanny_stop_all_children (fun i => scenario_syscalls (500 + i))
        periodic_stuck_world).map (fun r => r.1) = some 0 ∧
    (nanny_stop_all_children (fun i => scenario_syscalls (500 + i))
        periodic_stuck_world).map (fun r => teardown_view r.2)
      = some ([(child_state.STOPPED, handler.main_child_goal_stopped, [3001])],
          [(3001, handler.timed_event, 3000)]) := by
  refine ⟨by decide, by decide, by decide, by decide, by decide, by decide⟩

/-- Claim C33 as amended: when the records of the live list have distinct
addresses, the heap is one the timer functions make and has room, and
`malloc` gives addresses that are distinct and not in the heap,
`nanny_stop_all_children` returns; every record that was not in state
`STOPPED` and did not have the handler `main_child_goal_stopped` yet then has
an empty list of periodic tasks, every other record has the list it had; and
every timer in the heap is a timer of before that is not the timer of a
periodic task of a record of the first kind, or a new timer for
`main_child_goal_stopped` at time 0. -/
theorem stop_all_tears_down_switched (env : Nat → syscalls) (w : World)
    (hnd : (w.live_children.map (fun c => c.addr)).Nodup)
    (hinv : timers_inv w.timers)
    (ht : ∀ n, (env n).timer1 ≠ 0)
    (hfresh : ∀ n, ∀ x ∈ w.timers, x.ptr ≠ (env n).timer1)
    (hinj : ∀ i j, (env i).timer1 = (env j).timer1 → i = j)
    (hroom : w.timers.length + w.live_children.length < MAX_TIMERS) :
    ∃ (alive : Int) (w' : World), nanny_stop_all_children env w = some (alive, w') ∧
      w'.live_children.map (fun c => c.addr) = w.live_children.map (fun c => c.addr) ∧
      (∀ c ∈ w.live_children, ∃ c', find_child w' c.addr = some c' ∧
        (switched c → c'.timed = []) ∧ (¬ switched c → c'.timed = c.timed)) ∧
      (∀ x ∈ w'.timers,
        (x ∈ w.timers ∧
          ∀ c ∈ w.live_children, switched c → ∀ t ∈ c.timed, x.ptr ≠ t.timer)
        ∨ (x.when = 0 ∧ x.f = handler.main_child_goal_stopped)) := by
  obtain ⟨w1, e⟩ := stop_all_loop_count env ht w.live_children 0 0 w
    (fun c hc => ⟨c, find_child_of_nodup _ hnd c hc, rfl⟩) hroom
  have hl := stop_all_loop_leaves env w.live_children [] 0 0 _ w w1 rfl hnd e
  simp only [List.nil_append] at hl
  obtain ⟨h1, _, _⟩ := stop_records_spec env w.live_children 0
  have hnd1 : (w1.live_children.map (fun c => c.addr)).Nodup := by rw [hl, h1]; exact hnd
  refine ⟨_, w1, e, by rw [hl, h1], ?_, ?_⟩
  · intro c hc
    obtain ⟨i, hi⟩ := stop_records_mem env w.live_children 0 c hc
    have hf := find_child_of_nodup w1.live_children hnd1 (stop_record (env i).timer1 c)
      (by rw [hl]; exact hi)
    rw [(stop_record_spec (env i).timer1 c).1] at hf
    exact ⟨_, hf, stop_record_timed (env i).timer1 c⟩
  · exact stop_all_loop_timers env hinj w.live_children [] 0 0 _ w w1 rfl hnd hinv
      (fun i _ => hfresh i) e

set_option maxRecDepth 20000 in
/-- Claim C33 as amended, at the running child with the periodic task
`60s cmd`: the task and its timer at address 3001 are gone after the call. -/
theorem stop_all_tears_down_switched_witness :
    teardown_view periodic_running_world
      = ([(child_state.STARTING, handler.main_child_goal_running, [3001])],
          [(3001, handler.timed_event, 3000), (111, handler.main_child_goal_running, 1000),
           (112, handler.main_child_health_check, 1000)]) ∧
    ∃ (alive : Int) (w' : World),
      nanny_stop_all_children (fun i => scenario_syscalls (500 + i)) periodic_running_world
        = some (alive, w') ∧
      w'.live_children.map (fun c => c.addr)
        = periodic_running_world.live_children.map (fun c => c.addr) ∧
      (∀ c ∈ periodic_running_world.live_children, ∃ c', find_child w' c.addr = some c' ∧
        (switched c → c'.timed = []) ∧ (¬ switched c → c'.timed = c.timed)) ∧
      (∀ x ∈ w'.timers,
        (x ∈ periodic_running_world.timers ∧
          ∀ c ∈ periodic_running_world.live_children, switched c →
            ∀ t ∈ c.timed, x.ptr ≠ t.timer)
        ∨ (x.when = 0 ∧ x.f = handler.main_child_goal_stopped)) :=
  ⟨by decide,
    stop_all_tears_down_switched (fun i => scenario_syscalls (500 + i)) periodic_running_world
      (by decide) periodic_running_world_timers_inv (fun n => by simp [scenario_syscalls])
      (fun n x hx => by
        have : x.ptr < 5000 :=
          (by decide : ∀ y ∈ periodic_running_world.timers, y.ptr < 5000) x hx
        simp only [scenario_syscalls]
        omega)
      (fun i j h => by
        simp only [scenario_syscalls] at h
        omega)
      (by decide)⟩

end Nanny
